import Mathlib

/-!
# JSONSki (rsonpath benchmark copy): a shallow embedding of the query engine

The development follows the C++ sources:

* `QueryAutomaton.h`   : the DFA tables, the runtime stack, `getNextState`, ...
* `JSONPathParser.cpp` : `updateQueryAutomaton`, the path compiler
* `QueryProcessor.cpp` : the structural index (`build_bitmap_basic`,
  `build_bitmap_*`, `get_bitmap_*`), the interval engine (`get_interval`,
  `next_interval`, `get_position`, ...), the fast-forward primitives and the
  two recursive procedures `object` and `array`, and `runQuery`.

Conventions of the embedding.

* `unsigned long` / `uint64_t` values are natural numbers below `2^64`; every
  operation that can leave that range is reduced modulo `2^64` explicitly.
* `int` and `long` values are integers (no wrap-around is modelled; signed
  overflow is undefined in the source).
* A byte is a natural number (its character code).  The record is the list of
  the `rec_length` bytes handed to `runQuery`.
* Undefined behaviour of the source is an error value of `Except Err`:
  reading outside the text buffer, leaving a value-returning function without
  `return`, `__builtin_ctzll(0)` / `__builtin_clzll(0)`, and reading a local
  variable that was never assigned.
* Loops that the source does not bound are given a fuel argument; running out
  of fuel is the error `Err.outOfFuel`.  A computation that is
  `Err.outOfFuel` for every fuel does not terminate in the source.
* Storage that the source leaves uninitialised (the DFA tables, the stack
  arrays) is taken to be zero-filled, as the data model of the specification
  says ("unused fields zeroed").
-/

namespace JsonSki

/-! ## Results of partial computations -/

/-- The ways in which an evaluation can leave the defined behaviour of the source. -/
inductive Err where
  | outOfFuel
  | outOfBounds
  | noReturn
  | undefinedBuiltin
  | uninitialised
  deriving DecidableEq, Repr

instance instDecidableEqExcept {α : Type} [DecidableEq α] : DecidableEq (Except Err α) :=
  fun a b =>
    match a, b with
    | .ok x, .ok y =>
      if h : x = y then isTrue (congrArg Except.ok h)
      else isFalse (fun h2 => h (Except.ok.inj h2))
    | .error x, .error y =>
      if h : x = y then isTrue (congrArg Except.error h)
      else isFalse (fun h2 => h (Except.error.inj h2))
    | .ok _, .error _ => isFalse (fun h => Except.noConfusion h)
    | .error _, .ok _ => isFalse (fun h => Except.noConfusion h)

/-! ## QueryAutomaton.h -/

def MAX_STATES : Nat := 50
def MAX_STACK_DEPTH : Nat := 50
def MAX_TRANS_STRING : Nat := 10

def UNMATCHED_STATE : Int := 0
def START_STATE : Int := 1

def OBJECT : Int := 101
def ARRAY : Int := 102
def PRIMITIVE : Int := 103
def KEY : Int := 104
def ANY : Int := 105
def OUTPUT_CANDIDATE : Int := 106
def GENERAL_OUTPUT : Int := 107
def NONE : Int := 108
def INVALID : Int := -1

def INT_MAX : Int := 2147483647

/-- One transition (`struct TransStrInfo`).  `key` holds the bytes of the
character array up to its terminating NUL. -/
structure TransStrInfo where
  key : List Nat
  key_len : Int
  exp_type_in_obj : Int
  exp_type_in_arr : Int
  next_state : Int
  deriving DecidableEq, Repr

/-- A transition as the constructor of `QueryAutomaton` leaves it when the object is built
in zero-filled storage: the two expected types have the default member initialiser `NONE`;
`key`, `key_len` and `next_state` have no initialiser in the header and are taken to be 0
here.  `TransStrInfo.construct` is the constructor over storage that holds other values. -/
def TransStrInfo.init : TransStrInfo :=
  { key := [], key_len := 0, exp_type_in_obj := NONE, exp_type_in_arr := NONE, next_state := 0 }

/-- One state of the table (`struct StateTransEle`). -/
structure StateTransEle where
  t_str_info : List TransStrInfo
  num_trans_str : Int
  matched_state : Bool
  start_idx : Int
  end_idx : Int
  has_index_constraint : Bool
  deriving DecidableEq, Repr

def StateTransEle.init : StateTransEle :=
  { t_str_info := List.replicate MAX_TRANS_STRING TransStrInfo.init,
    num_trans_str := 1,
    matched_state := false,
    start_idx := 0,
    end_idx := 0,
    has_index_constraint := false }

structure IndexInfo where
  start_idx : Int
  end_idx : Int
  deriving DecidableEq, Repr

/-- The table of states (`struct DFA`). -/
structure DFA where
  trans_ele : List StateTransEle
  deriving DecidableEq, Repr

def DFA.init : DFA := { trans_ele := List.replicate MAX_STATES StateTransEle.init }

/-- The runtime stack (`struct Stack`). -/
structure Stack where
  stack : List Int
  arr_counter_stack : List Int
  num_stack_ele : Int
  deriving DecidableEq, Repr

def Stack.init : Stack :=
  { stack := List.replicate MAX_STACK_DEPTH 0,
    arr_counter_stack := List.replicate MAX_STACK_DEPTH 0,
    num_stack_ele := 0 }

/-- The member variables of `class QueryAutomaton`. -/
structure QueryAutomaton where
  mCurState : Int
  mDfa : DFA
  mArrCounter : Int
  mStack : Stack
  deriving DecidableEq, Repr

namespace QueryAutomaton

/-- Entry `idx` of the state table, `mDfa.trans_ele[idx]`. -/
def ele (qa : QueryAutomaton) (idx : Int) : StateTransEle :=
  if 0 ≤ idx then qa.mDfa.trans_ele.getD idx.toNat StateTransEle.init else StateTransEle.init

/-- Transition `i` of a state, `t_str_info[i]`. -/
def tr (e : StateTransEle) (i : Int) : TransStrInfo :=
  if 0 ≤ i then e.t_str_info.getD i.toNat TransStrInfo.init else TransStrInfo.init

/-- Write entry `idx` of the state table. -/
def setEle (qa : QueryAutomaton) (idx : Int) (e : StateTransEle) : QueryAutomaton :=
  if 0 ≤ idx then { qa with mDfa := { trans_ele := qa.mDfa.trans_ele.set idx.toNat e } } else qa

def reset (qa : QueryAutomaton) : QueryAutomaton :=
  { qa with mStack := { qa.mStack with num_stack_ele := 0 }, mCurState := 1, mArrCounter := -1 }

/-- The constructor `QueryAutomaton()` over zero-filled storage: the members without an
initialiser (`key`, `key_len`, `next_state`, `matched_state`, the index bounds and the stack
arrays) hold 0.  `QueryAutomaton.construct` is the constructor over any storage. -/
def new : QueryAutomaton :=
  reset { mCurState := 0, mDfa := DFA.init, mArrCounter := -1, mStack := Stack.init }

/-- The bytes `strcpy` copies (up to the terminating NUL), which is also what `strlen` counts. -/
def cstr (s : List Nat) : List Nat := s.takeWhile (fun c => c != 0)

/-- Transcription of `updateStateTransInfo`; `exp_key = none` is the `NULL` pointer. -/
def updateStateTransInfo (qa : QueryAutomaton) (cur_state : Int) (is_final_state : Bool)
    (exp_type_in_obj exp_type_in_arr : Int) (exp_key : Option (List Nat)) (next_state : Int) :
    QueryAutomaton :=
  let cur_idx := cur_state - 1
  let e := qa.ele cur_idx
  let t0 := tr e 0
  let t1 : TransStrInfo :=
    match exp_key with
    | some k => { t0 with key := cstr k, key_len := (cstr k).length }
    | none => t0
  let t2 : TransStrInfo :=
    if exp_type_in_obj ≠ NONE then { t1 with exp_type_in_obj := exp_type_in_obj } else t1
  let t3 : TransStrInfo :=
    if exp_type_in_arr ≠ NONE then { t2 with exp_type_in_arr := exp_type_in_arr } else t2
  let t4 : TransStrInfo := { t3 with next_state := next_state }
  qa.setEle cur_idx { e with t_str_info := e.t_str_info.set 0 t4, matched_state := is_final_state }

def addIndexConstraints (qa : QueryAutomaton) (state start_idx end_idx : Int) : QueryAutomaton :=
  if state ≠ UNMATCHED_STATE then
    let e := qa.ele (state - 1)
    qa.setEle (state - 1)
      { e with has_index_constraint := true, start_idx := start_idx, end_idx := end_idx }
  else qa

def hasIndexConstraints (qa : QueryAutomaton) : Bool :=
  if qa.mCurState = UNMATCHED_STATE then false
  else (qa.ele (qa.mCurState - 1)).has_index_constraint

def addArrayCounter (qa : QueryAutomaton) : QueryAutomaton :=
  { qa with mArrCounter := qa.mArrCounter + 1 }

def checkArrayCounter (qa : QueryAutomaton) : Bool :=
  if qa.mCurState = UNMATCHED_STATE then false
  else
    let start_idx := (qa.ele (qa.mCurState - 1)).start_idx
    let end_idx := (qa.ele (qa.mCurState - 1)).end_idx
    if qa.mArrCounter ≥ start_idx ∧ qa.mArrCounter < end_idx then true else false

/-- Transcription of `typeExpectedInObj`: `return false` is the integer 0. -/
def typeExpectedInObj (qa : QueryAutomaton) : Int :=
  if qa.mCurState = UNMATCHED_STATE then 0
  else (tr (qa.ele (qa.mCurState - 1)) 0).exp_type_in_obj

/-- Transcription of `typeExpectedInArr`: `return false` is the integer 0. -/
def typeExpectedInArr (qa : QueryAutomaton) : Int :=
  if qa.mCurState = UNMATCHED_STATE then 0
  else (tr (qa.ele (qa.mCurState - 1)) 0).exp_type_in_arr

/-- Transcription of `getIndexInfo`; for the unmatched state the source leaves `end_idx`
unset, here it is 0. -/
def getIndexInfo (qa : QueryAutomaton) (state : Int) : IndexInfo :=
  if state = UNMATCHED_STATE then { start_idx := -1, end_idx := 0 }
  else { start_idx := (qa.ele (state - 1)).start_idx, end_idx := (qa.ele (state - 1)).end_idx }

/-- The test `memcmp(a, b, n) == 0`. -/
def memcmpEq (a b : List Nat) (n : Int) : Bool :=
  a.take n.toNat == b.take n.toNat

/-- The `while (i < num_trans_str)` loop of `getNextState`, started at `i`;
`fuel` bounds the number of iterations left. -/
def getNextStateLoop (e : StateTransEle) (key : List Nat) (key_len : Int) :
    Nat → Int → Int
  | 0, _ => UNMATCHED_STATE
  | fuel + 1, i =>
    if i < e.num_trans_str then
      if (tr e i).key_len = key_len ∧ memcmpEq (tr e i).key key key_len = true then
        (tr e i).next_state
      else getNextStateLoop e key key_len fuel (i + 1)
    else UNMATCHED_STATE

/-- Transcription of `getNextState(key, key_len)`; `key` is the byte sequence the
pointer designates. -/
def getNextState (qa : QueryAutomaton) (key : List Nat) (key_len : Int) : Int :=
  if qa.mCurState = UNMATCHED_STATE then UNMATCHED_STATE
  else
    let e := qa.ele (qa.mCurState - 1)
    getNextStateLoop e key key_len e.num_trans_str.toNat 0

/-- The loop of `getNextStateNoKey`. -/
def getNextStateNoKeyLoop (e : StateTransEle) : Nat → Int → Int
  | 0, _ => UNMATCHED_STATE
  | fuel + 1, i =>
    if i < e.num_trans_str then
      if (tr e i).key_len = 0 then (tr e i).next_state
      else getNextStateNoKeyLoop e fuel (i + 1)
    else UNMATCHED_STATE

def getNextStateNoKey (qa : QueryAutomaton) : Int :=
  if qa.mCurState = UNMATCHED_STATE then UNMATCHED_STATE
  else
    let e := qa.ele (qa.mCurState - 1)
    getNextStateNoKeyLoop e e.num_trans_str.toNat 0

def setCurState (qa : QueryAutomaton) (cur_state : Int) : QueryAutomaton :=
  { qa with mCurState := cur_state }

def getType (qa : QueryAutomaton) (state : Int) : Int :=
  if state ≠ UNMATCHED_STATE ∧ (qa.ele (state - 1)).matched_state = true then OUTPUT_CANDIDATE
  else GENERAL_OUTPUT

def isAccept (qa : QueryAutomaton) (state : Int) : Bool :=
  if state ≠ UNMATCHED_STATE ∧ (qa.ele (state - 1)).matched_state = true then true else false

/-- Transcription of `pushStack`; on a full stack the source only prints a message. -/
def pushStack (qa : QueryAutomaton) (next_state : Int) : QueryAutomaton :=
  if qa.mStack.num_stack_ele < MAX_STACK_DEPTH then
    { qa with
      mStack :=
        { stack := qa.mStack.stack.set qa.mStack.num_stack_ele.toNat qa.mCurState,
          arr_counter_stack :=
            qa.mStack.arr_counter_stack.set qa.mStack.num_stack_ele.toNat qa.mArrCounter,
          num_stack_ele := qa.mStack.num_stack_ele + 1 },
      mCurState := next_state,
      mArrCounter := -1 }
  else qa

/-- Transcription of `popStack`: the new automaton and the returned `int`. -/
def popStack (qa : QueryAutomaton) : QueryAutomaton × Int :=
  if qa.mStack.num_stack_ele > 0 then
    let n := qa.mStack.num_stack_ele - 1
    let s := qa.mStack.stack.getD n.toNat 0
    ({ qa with
        mStack := { qa.mStack with num_stack_ele := n },
        mCurState := s,
        mArrCounter := qa.mStack.arr_counter_stack.getD n.toNat 0 }, s)
  else (qa, INVALID)

def getStackSize (qa : QueryAutomaton) : Int := qa.mStack.num_stack_ele

end QueryAutomaton

/-! ## JSONPathParser.cpp -/

/-- Character codes used by the parser and the engine. -/
def chDollar : Nat := 36
def chDot : Nat := 46
def chColon : Nat := 58
def chComma : Nat := 44
def chQuote : Nat := 34
def chBackslash : Nat := 92
def chLBrace : Nat := 123
def chRBrace : Nat := 125
def chLBracket : Nat := 91
def chRBracket : Nat := 93
def chSpace : Nat := 32
def chLF : Nat := 10
def chCR : Nat := 13
def chZero : Nat := 48
def chNine : Nat := 57

namespace JSONPathParser

/-- The character `query[i]`. -/
def qat (query : List Nat) (i : Nat) : Nat := query.getD i 0

/-- The value `atoi` gives on a buffer that holds decimal digits only. -/
def atoi (buf : List Nat) : Int :=
  Int.ofNat (buf.foldl (fun acc c => acc * 10 + (c - chZero)) 0)

/-- The key loop of lexer state 1:
`while (ch != '.' && ch != '[') { buffer[key_end++] = ch; if (i + 1 == length) break; ch = query[++i]; }`.
Returns the buffer, `i` and `ch` after the loop. -/
def keyLoop (query : List Nat) : Nat → Nat → Nat → List Nat → List Nat × Nat × Nat
  | 0, i, ch, buf => (buf, i, ch)
  | fuel + 1, i, ch, buf =>
    if ch ≠ chDot ∧ ch ≠ chLBracket then
      if i + 1 = query.length then (buf ++ [ch], i, ch)
      else keyLoop query fuel (i + 1) (qat query (i + 1)) (buf ++ [ch])
    else (buf, i, ch)

/-- The local variables of lexer state 2 (`buf` is `buffer[0 .. index_end)`). -/
structure IdxScan where
  start_idx : Int
  end_idx : Int
  buf : List Nat
  has_colon : Bool
  i : Nat
  ch : Nat
  deriving DecidableEq, Repr

/-- The index loop of lexer state 2: `while (ch != ']') { ... }`. -/
def idxLoop (query : List Nat) : Nat → IdxScan → IdxScan
  | 0, s => s
  | fuel + 1, s =>
    if s.ch ≠ chRBracket then
      let s1 : IdxScan :=
        if s.ch = chColon then
          { s with start_idx := atoi s.buf, end_idx := INT_MAX, buf := [], has_colon := true }
        else if chZero ≤ s.ch ∧ s.ch ≤ chNine then { s with buf := s.buf ++ [s.ch] }
        else s
      if s1.i + 1 = query.length then s1
      else idxLoop query fuel { s1 with i := s1.i + 1, ch := qat query (s1.i + 1) }
    else s

/-- The `for (int i = 0; i < length; ++i)` loop of `updateQueryAutomaton`, entered at
index `i` with the given `lexer_state` and `query_state`. -/
def parseLoop (query : List Nat) :
    Nat → Nat → Int → Int → QueryAutomaton → QueryAutomaton
  | 0, _, _, _, qa => qa
  | fuel + 1, i, lexer_state, query_state, qa =>
    if i < query.length then
      let ch := qat query i
      if lexer_state = 0 then
        if ch = chDot then parseLoop query fuel (i + 1) 1 query_state qa
        else if ch = chLBracket then
          parseLoop query fuel (i + 1) 2 (query_state + 1)
            (qa.updateStateTransInfo query_state false NONE ARRAY none (query_state + 1))
        else parseLoop query fuel (i + 1) 0 query_state qa
      else if lexer_state = 1 then
        match keyLoop query (query.length + 1) i ch [] with
        | (buffer, i1, ch1) =>
          if i1 + 1 < query.length then
            if ch1 = chLBracket then
              let qa1 := qa.updateStateTransInfo query_state false ARRAY NONE (some buffer)
                (query_state + 1)
              let qa2 := qa1.updateStateTransInfo (query_state + 1) false NONE NONE none
                (query_state + 2)
              parseLoop query fuel (i1 + 1) 2 (query_state + 2) qa2
            else if ch1 = chDot then
              parseLoop query fuel (i1 + 1) 1 (query_state + 1)
                (qa.updateStateTransInfo query_state false OBJECT NONE (some buffer)
                  (query_state + 1))
            else parseLoop query fuel (i1 + 1) 1 query_state qa
          else
            let qa1 := qa.updateStateTransInfo query_state false PRIMITIVE NONE (some buffer)
              (query_state + 1)
            let qa2 := qa1.updateStateTransInfo (query_state + 1) true NONE NONE none
              (query_state + 1)
            parseLoop query fuel (i1 + 1) 1 query_state qa2
      else if lexer_state = 2 then
        let s := idxLoop query (query.length + 1)
          { start_idx := 0, end_idx := -1, buf := [], has_colon := false, i := i, ch := ch }
        let s1 : IdxScan :=
          if s.has_colon = false ∧ s.buf.length > 0 then
            { s with start_idx := atoi s.buf, end_idx := atoi s.buf + 1 }
          else if s.buf.length > 0 then { s with end_idx := atoi s.buf }
          else s
        let qa1 :=
          if s1.end_idx > -1 then qa.addIndexConstraints query_state s1.start_idx s1.end_idx
          else qa
        if s1.i + 1 < query.length then
          let ch2 := qat query (s1.i + 1)
          if ch2 = chDot then
            parseLoop query fuel (s1.i + 2) 1 query_state
              (qa1.updateStateTransInfo query_state false NONE OBJECT none (query_state + 1))
          else if ch2 = chLBracket then
            parseLoop query fuel (s1.i + 2) 2 (query_state + 1)
              (qa1.updateStateTransInfo query_state false NONE ARRAY none (query_state + 1))
          else parseLoop query fuel (s1.i + 2) 2 query_state qa1
        else
          parseLoop query fuel (s1.i + 1) 2 query_state
            (qa1.updateStateTransInfo query_state true NONE PRIMITIVE none query_state)
      else parseLoop query fuel (i + 1) lexer_state query_state qa
    else qa

/-- Transcription of `JSONPathParser::updateQueryAutomaton(query, qa)`.  Every iteration
of the `for` loop advances `i`, so `query.length` iterations suffice. -/
def updateQueryAutomaton (query : List Nat) (qa : QueryAutomaton) : QueryAutomaton :=
  parseLoop query (query.length + 1) 0 0 START_STATE qa

end JSONPathParser

/-! ## Records.h -/

/-- The fields of `struct Record` the engine reads: the text buffer, the offset of the
record in it and the record length. -/
structure Record where
  text : List Nat
  rec_start_pos : Int
  rec_length : Int
  deriving DecidableEq, Repr

/-- A record that is a buffer of its own (`rec_start_pos = 0`, `rec_length` the buffer size). -/
def Record.ofBytes (buf : List Nat) : Record :=
  { text := buf, rec_start_pos := 0, rec_length := buf.length }

/-! ## QueryProcessor.h / QueryProcessor.cpp : 64-bit words -/

def SUCCESS : Int := 1001
def ARRAY_END : Int := 1002
def OBJECT_END : Int := 1003
def RANGE_END : Int := 1004
def PARTIAL_SKIP : Int := 1005

/-- The modulus of `unsigned long` arithmetic. -/
def W64 : Nat := 18446744073709551616

/-- Bitwise complement of a 64-bit word, `~a`. -/
def not64 (a : Nat) : Nat := (W64 - 1) ^^^ a
/-- Left shift of a 64-bit word, `a << n`. -/
def shl64 (a n : Nat) : Nat := (a <<< n) % W64
/-- Addition of 64-bit words, `a + b`. -/
def add64 (a b : Nat) : Nat := (a + b) % W64
/-- Subtraction of 64-bit words, `a - b`. -/
def sub64 (a b : Nat) : Nat := (a + W64 - b) % W64
/-- Negation of a 64-bit word, `-a`. -/
def neg64 (a : Nat) : Nat := (W64 - a) % W64

/-- Value of `__builtin_popcountl` on a word of `n` bits. -/
def popcountAux : Nat → Nat → Nat
  | 0, _ => 0
  | n + 1, x => x % 2 + popcountAux n (x / 2)

def popcountl (x : Nat) : Int := Int.ofNat (popcountAux 64 x)

/-- Number of trailing zero bits among the low `n` bits. -/
def ctzAux : Nat → Nat → Nat
  | 0, _ => 0
  | n + 1, x => if x % 2 = 1 then 0 else 1 + ctzAux n (x / 2)

/-- Value of `__builtin_ctzll`, undefined on 0. -/
def ctzll (x : Nat) : Except Err Int :=
  if x % W64 = 0 then .error .undefinedBuiltin else .ok (Int.ofNat (ctzAux 64 x))

/-- Value of `__builtin_clzll`, undefined on 0. -/
def clzll (x : Nat) : Except Err Int :=
  if x % W64 = 0 then .error .undefinedBuiltin else .ok (63 - Int.ofNat (Nat.log2 (x % W64)))

/-- Value of `(unsigned)_mm256_movemask_epi8(_mm256_cmpeq_epi8(v, _mm256_set1_epi8(c)))`:
bit `i` is set iff byte `i` of the lane equals `c`. -/
def cmpeqMask : List Nat → Nat → Nat
  | [], _ => 0
  | b :: v, c => (if b = c then 1 else 0) + 2 * cmpeqMask v c

/-- Low 64 bits of the carry-less product `_mm_clmulepi64_si128(a, b, 0)` of two 64-bit
words: the XOR of the shifted copies `b << i` over the set bits `i` of `a`. -/
def clmulAux (a b : Nat) : Nat → Nat
  | 0 => 0
  | n + 1 => (if a.testBit n then b <<< n else 0) ^^^ clmulAux a b n

def clmul64 (a b : Nat) : Nat := clmulAux a b 64 % W64

/-! ## The structural index -/

/-- The member variables of `QueryProcessor` used by the index builder and the
fast-forward primitives.  `mText` and `mBase` stand for the pointer `mRecord`
(`rec->text + rec->rec_start_pos`); the unused members (`cb_mask`, `colon_mask`, ...,
`cur_word`, `cur_pos`, `mKey`, which is written and never read) are left out. -/
structure Index where
  mText : List Nat
  mBase : Int
  mRecordLength : Int
  mNumTmpWords : Int
  mNumWords : Int
  v_text0 : List Nat
  v_text : List Nat
  quote_bits : Nat
  str_mask : Nat
  prev_iter_ends_odd_backslash : Nat
  prev_iter_inside_quote : Nat
  even_bits : Nat
  odd_bits : Nat
  start_id : Int
  top_word : Int
  deriving DecidableEq, Repr

/-- The cache of structural bitmaps of the current word (`struct bitmap`). -/
structure bitmap where
  colonbit : Nat
  commabit : Nat
  lbracebit : Nat
  rbracebit : Nat
  lbracketbit : Nat
  rbracketbit : Nat
  has_colon : Bool
  has_comma : Bool
  has_lbrace : Bool
  has_rbrace : Bool
  has_lbracket : Bool
  has_rbracket : Bool
  deriving DecidableEq, Repr

/-- A default-initialised `bitmap bm;`. -/
def bitmap.init : bitmap :=
  { colonbit := 0, commabit := 0, lbracebit := 0, rbracebit := 0, lbracketbit := 0,
    rbracketbit := 0, has_colon := false, has_comma := false, has_lbrace := false,
    has_rbrace := false, has_lbracket := false, has_rbracket := false }

structure IntervalInfo where
  intervalbit : Nat
  is_complete : Bool
  deriving DecidableEq, Repr

structure JumpInfo where
  status : Int
  num_comma : Int
  deriving DecidableEq, Repr

namespace Index

/-- The byte `mRecord[p]`; undefined outside the text buffer. -/
def rd (s : Index) (p : Int) : Except Err Nat :=
  if 0 ≤ s.mBase + p ∧ s.mBase + p < s.mText.length then
    .ok (s.mText.getD (s.mBase + p).toNat 0)
  else .error .outOfBounds

/-- The 32 bytes `_mm256_loadu_si256(mRecord + i)`. -/
def load32 (s : Index) (i : Int) : Except Err (List Nat) :=
  if 0 ≤ s.mBase + i ∧ s.mBase + i + 32 ≤ s.mText.length then
    .ok ((s.mText.drop (s.mBase + i).toNat).take 32)
  else .error .outOfBounds

/-- The bytes `mRecord[p .. p + n)`, as `memcmp` and `memcpy` read them. -/
def slice (s : Index) (p n : Int) : Except Err (List Nat) :=
  if 0 ≤ n ∧ 0 ≤ s.mBase + p ∧ s.mBase + p + n ≤ s.mText.length then
    .ok ((s.mText.drop (s.mBase + p).toNat).take n.toNat)
  else .error .outOfBounds

/-- The index part of `QueryProcessor::init()` together with `setRecordText`. -/
def init (rec : Record) : Index :=
  { mText := rec.text,
    mBase := rec.rec_start_pos,
    mRecordLength := rec.rec_length,
    mNumTmpWords := rec.rec_length / 32,
    mNumWords := rec.rec_length / 64,
    v_text0 := [],
    v_text := [],
    quote_bits := 0,
    str_mask := 0,
    prev_iter_ends_odd_backslash := 0,
    prev_iter_inside_quote := 0,
    even_bits := 0x5555555555555555,
    odd_bits := not64 0x5555555555555555,
    start_id := 0,
    top_word := -1 }

/-- Transcription of `build_bitmap_basic`: quote and backslash bitmaps of the word
starting at 32-byte block `start_id`, the bitmap of unescaped quotes and the string mask. -/
def build_bitmap_basic (s : Index) : Except Err Index := do
  let top_word := s.start_id / 2
  let v_text0 ← s.load32 (s.start_id * 32)
  let quotebit0 := cmpeqMask v_text0 chQuote
  let escapebit0 := cmpeqMask v_text0 chBackslash
  let start_id := s.start_id + 1
  let v_text ← s.load32 (start_id * 32)
  let quotebit := shl64 (cmpeqMask v_text chQuote) 32 ||| quotebit0
  let escapebit := shl64 (cmpeqMask v_text chBackslash) 32 ||| escapebit0
  let bs_bits := escapebit
  let start_edges := bs_bits &&& not64 (shl64 bs_bits 1)
  let even_start_mask := s.even_bits ^^^ s.prev_iter_ends_odd_backslash
  let even_starts := start_edges &&& even_start_mask
  let odd_starts := start_edges &&& not64 even_start_mask
  let even_carries := add64 bs_bits even_starts
  let iter_ends_odd_backslash : Bool := decide (W64 ≤ bs_bits + odd_starts)
  let odd_carries := add64 bs_bits odd_starts ||| s.prev_iter_ends_odd_backslash
  let even_carry_ends := even_carries &&& not64 bs_bits
  let odd_carry_ends := odd_carries &&& not64 bs_bits
  let even_start_odd_end := even_carry_ends &&& s.odd_bits
  let odd_start_even_end := odd_carry_ends &&& s.even_bits
  let odd_ends := even_start_odd_end ||| odd_start_even_end
  let quote_bits := quotebit &&& not64 odd_ends
  let str_mask := clmul64 quote_bits (W64 - 1) ^^^ s.prev_iter_inside_quote
  pure { s with
    top_word := top_word,
    start_id := start_id,
    v_text0 := v_text0,
    v_text := v_text,
    quote_bits := quote_bits,
    str_mask := str_mask,
    prev_iter_ends_odd_backslash := if iter_ends_odd_backslash then 1 else 0,
    prev_iter_inside_quote := if str_mask.testBit 63 then W64 - 1 else 0 }

/-- The bitmap `((hi << 32) | lo) & ~str_mask` of the bytes of the current word equal to `c`. -/
def classBits (s : Index) (c : Nat) : Nat :=
  (shl64 (cmpeqMask s.v_text c) 32 ||| cmpeqMask s.v_text0 c) &&& not64 s.str_mask

def build_bitmap_colon (s : Index) (bm : bitmap) : bitmap :=
  { bm with colonbit := s.classBits chColon }

def get_bitmap_colon (s : Index) (bm : bitmap) : bitmap :=
  if bm.has_colon = false then { s.build_bitmap_colon bm with has_colon := true } else bm

def build_bitmap_comma (s : Index) (bm : bitmap) : bitmap :=
  { bm with commabit := s.classBits chComma }

def get_bitmap_comma (s : Index) (bm : bitmap) : bitmap :=
  if bm.has_comma = false then { s.build_bitmap_comma bm with has_comma := true } else bm

def build_bitmap_lbrace (s : Index) (bm : bitmap) : bitmap :=
  { bm with lbracebit := s.classBits chLBrace }

def get_bitmap_lbrace (s : Index) (bm : bitmap) : bitmap :=
  if bm.has_lbrace = false then { s.build_bitmap_lbrace bm with has_lbrace := true } else bm

def build_bitmap_rbrace (s : Index) (bm : bitmap) : bitmap :=
  { bm with rbracebit := s.classBits chRBrace }

def get_bitmap_rbrace (s : Index) (bm : bitmap) : bitmap :=
  if bm.has_rbrace = false then { s.build_bitmap_rbrace bm with has_rbrace := true } else bm

def build_bitmap_lbracket (s : Index) (bm : bitmap) : bitmap :=
  { bm with lbracketbit := s.classBits chLBracket }

def get_bitmap_lbracket (s : Index) (bm : bitmap) : bitmap :=
  if bm.has_lbracket = false then { s.build_bitmap_lbracket bm with has_lbracket := true }
  else bm

def build_bitmap_rbracket (s : Index) (bm : bitmap) : bitmap :=
  { bm with rbracketbit := s.classBits chRBracket }

def get_bitmap_rbracket (s : Index) (bm : bitmap) : bitmap :=
  if bm.has_rbracket = false then { s.build_bitmap_rbracket bm with has_rbracket := true }
  else bm

end Index

/-- Transcription of `resetBitmap`: only the six flags are cleared. -/
def resetBitmap (bm : bitmap) : bitmap :=
  { bm with has_colon := false, has_comma := false, has_lbrace := false, has_rbrace := false,
            has_lbracket := false, has_rbracket := false }

/-! ## The interval engine -/

/-- Transcription of `get_interval(pos, bitmap)`: the interval and the updated `bitmap`. -/
def get_interval (pos : Int) (bitmap : Nat) : IntervalInfo × Nat :=
  let relative_pos := pos % 64
  let w_start := shl64 1 relative_pos.toNat
  let mask_start := w_start ^^^ sub64 w_start 1
  let bitmap := bitmap &&& not64 mask_start
  if bitmap ≠ 0 then
    let w_end := bitmap &&& neg64 bitmap
    let w_interval := sub64 w_end w_start ||| w_end
    ({ intervalbit := w_interval &&& not64 mask_start, is_complete := true }, bitmap)
  else
    let w_end := shl64 1 63
    let w_interval := sub64 w_end w_start ||| w_end
    ({ intervalbit := w_interval &&& not64 mask_start, is_complete := false }, bitmap)

/-- Transcription of `get_interval_new_word(bitmap)` (the bitmap is not changed). -/
def get_interval_new_word (bitmap : Nat) : IntervalInfo :=
  let w_start := 1
  if bitmap ≠ 0 then
    let w_end := bitmap &&& neg64 bitmap
    { intervalbit := sub64 w_end w_start ||| w_end, is_complete := true }
  else
    let w_end := shl64 1 63
    { intervalbit := sub64 w_end w_start ||| w_end, is_complete := false }

/-- Transcription of `next_interval(bitmap)`: the interval and the updated `bitmap`. -/
def next_interval (bitmap : Nat) : IntervalInfo × Nat :=
  let w_start := bitmap &&& neg64 bitmap
  let bitmap := bitmap &&& sub64 bitmap 1
  if bitmap ≠ 0 then
    let w_end := bitmap &&& neg64 bitmap
    ({ intervalbit := sub64 w_end w_start ||| w_end, is_complete := true }, bitmap)
  else
    let w_end := shl64 1 63
    ({ intervalbit := sub64 w_end w_start ||| w_end, is_complete := false }, bitmap)

/-- The loop `while (number > 1) { bitmap = bitmap & (bitmap - 1); --number; }`. -/
def clearLowest : Nat → Nat → Nat
  | 0, bitmap => bitmap
  | n + 1, bitmap => clearLowest n (bitmap &&& sub64 bitmap 1)

/-- Transcription of `get_position(bitmap, number)`. -/
def get_position (s : Index) (bitmap : Nat) (number : Int) : Except Err Int := do
  let b := clearLowest (number - 1).toNat bitmap
  let tz ← ctzll b
  pure (s.top_word * 64 + tz)

/-- Transcription of `count(interval, bitmap)`. -/
def count (interval bitmap : Nat) : Int := popcountl (bitmap &&& interval)

/-- Transcription of `object_end(interval, bitmap)`. -/
def object_end (s : Index) (interval bitmap : Nat) : Except Err Int := do
  let lz ← clzll (bitmap &&& interval)
  pure (s.top_word * 64 + 64 - lz)

/-- Transcription of `interval_end(interval)`. -/
def interval_end (s : Index) (interval : Nat) : Except Err Int := do
  let lz ← clzll interval
  pure (s.top_word * 64 + 63 - lz)

/-! ## Fast-forward primitives -/

/-- What a fast-forward primitive works on: the index builder (members of `this`), and the
two reference parameters `pos` and `bm`. -/
structure FF where
  s : Index
  pos : Int
  bm : bitmap
  deriving DecidableEq, Repr

/-- The step `if (word_id > top_word) { resetBitmap(bm); start_id = word_id * 2;
build_bitmap_basic(); }` at the head of every word loop. -/
def enterWord (c : FF) (word_id : Int) : Except Err FF :=
  if word_id > c.s.top_word then do
    let s1 ← ({ c.s with start_id := word_id * 2 } : Index).build_bitmap_basic
    pure { c with s := s1, bm := resetBitmap c.bm }
  else pure c

/-- The loops of `goOverObj`: one unit of fuel per test of `word_id < mNumWords`.  When the
test fails the enclosing `while (true)` repeats it with nothing changed. -/
def goOverObjLoop : Nat → FF → Int → Int → Bool → Bool → Except Err FF
  | 0, _, _, _, _, _ => .error .outOfFuel
  | fuel + 1, c, num_open, word_id, first_interval, new_word =>
    if word_id < c.s.mNumWords then do
      let c1 ← enterWord c word_id
      let bm1 := c1.s.get_bitmap_lbrace c1.bm
      let (interval, lb) :=
        if first_interval = false then
          if new_word = true then (get_interval_new_word bm1.lbracebit, bm1.lbracebit)
          else get_interval c1.pos bm1.lbracebit
        else next_interval bm1.lbracebit
      let bm2 := c1.s.get_bitmap_rbrace { bm1 with lbracebit := lb }
      let bitmap_rbrace := bm2.rbracebit &&& interval.intervalbit
      let num_close := popcountl bitmap_rbrace
      if num_close < num_open then
        if interval.is_complete = true then
          goOverObjLoop fuel { c1 with bm := bm2 } (num_open - num_close + 1) word_id true new_word
        else
          goOverObjLoop fuel { c1 with bm := bm2 } (num_open - num_close) (word_id + 1) false true
      else do
        let p ← get_position c1.s bitmap_rbrace num_open
        pure { c1 with bm := bm2, pos := p }
    else goOverObjLoop fuel c num_open word_id first_interval new_word

/-- Transcription of `goOverObj(pos, bm)`. -/
def goOverObj (fuel : Nat) (c : FF) : Except Err FF :=
  goOverObjLoop fuel c 1 (c.pos / 64) false false

/-- The loops of `goOverAry`. -/
def goOverAryLoop : Nat → FF → Int → Int → Bool → Bool → Except Err FF
  | 0, _, _, _, _, _ => .error .outOfFuel
  | fuel + 1, c, num_open, word_id, first_interval, new_word =>
    if word_id < c.s.mNumWords then do
      let c1 ← enterWord c word_id
      let bm1 := c1.s.get_bitmap_lbracket c1.bm
      let (interval, lb) :=
        if first_interval = false then
          if new_word = true then (get_interval_new_word bm1.lbracketbit, bm1.lbracketbit)
          else get_interval c1.pos bm1.lbracketbit
        else next_interval bm1.lbracketbit
      let bm2 := c1.s.get_bitmap_rbracket { bm1 with lbracketbit := lb }
      let bitmap_rbracket := bm2.rbracketbit &&& interval.intervalbit
      let num_close := popcountl bitmap_rbracket
      if num_close < num_open then
        if interval.is_complete = true then
          goOverAryLoop fuel { c1 with bm := bm2 } (num_open - num_close + 1) word_id true new_word
        else
          goOverAryLoop fuel { c1 with bm := bm2 } (num_open - num_close) (word_id + 1) false true
      else do
        let p ← get_position c1.s bitmap_rbracket num_open
        pure { c1 with bm := bm2, pos := p }
    else goOverAryLoop fuel c num_open word_id first_interval new_word

/-- Transcription of `goOverAry(pos, bm)`. -/
def goOverAry (fuel : Nat) (c : FF) : Except Err FF :=
  goOverAryLoop fuel c 1 (c.pos / 64) false false

/-- The loops of `goToObjEnd`. -/
def goToObjEndLoop : Nat → FF → Int → Int → Bool → Bool → Except Err FF
  | 0, _, _, _, _, _ => .error .outOfFuel
  | fuel + 1, c, num_open, word_id, first_interval, new_word =>
    if word_id < c.s.mNumWords then do
      let c1 ← enterWord c word_id
      let bm1 := c1.s.get_bitmap_lbrace c1.bm
      let (interval, lb) :=
        if first_interval = false then
          if new_word = true then (get_interval_new_word bm1.lbracebit, bm1.lbracebit)
          else get_interval c1.pos bm1.lbracebit
        else next_interval bm1.lbracebit
      let bm2 := c1.s.get_bitmap_rbrace { bm1 with lbracebit := lb }
      let bitmap_rbrace := bm2.rbracebit &&& interval.intervalbit
      let num_close := popcountl bitmap_rbrace
      if num_close < num_open then
        if interval.is_complete = true then
          goToObjEndLoop fuel { c1 with bm := bm2 } (num_open - num_close + 1) word_id true
            new_word
        else
          goToObjEndLoop fuel { c1 with bm := bm2 } (num_open - num_close) (word_id + 1) false
            true
      else do
        let p ← get_position c1.s bitmap_rbrace num_open
        pure { c1 with bm := bm2, pos := p }
    else goToObjEndLoop fuel c num_open word_id first_interval new_word

/-- Transcription of `goToObjEnd(pos, bm)`. -/
def goToObjEnd (fuel : Nat) (c : FF) : Except Err FF :=
  goToObjEndLoop fuel c 1 (c.pos / 64) false false

/-- The loops of `goToAryEnd`. -/
def goToAryEndLoop : Nat → FF → Int → Int → Bool → Bool → Except Err FF
  | 0, _, _, _, _, _ => .error .outOfFuel
  | fuel + 1, c, num_open, word_id, first_interval, new_word =>
    if word_id < c.s.mNumWords then do
      let c1 ← enterWord c word_id
      let bm1 := c1.s.get_bitmap_lbracket c1.bm
      let (interval, lb) :=
        if first_interval = false then
          if new_word = true then (get_interval_new_word bm1.lbracketbit, bm1.lbracketbit)
          else get_interval c1.pos bm1.lbracketbit
        else next_interval bm1.lbracketbit
      let bm2 := c1.s.get_bitmap_rbracket { bm1 with lbracketbit := lb }
      let bitmap_rbracket := bm2.rbracketbit &&& interval.intervalbit
      let num_close := popcountl bitmap_rbracket
      if num_close < num_open then
        if interval.is_complete = true then
          goToAryEndLoop fuel { c1 with bm := bm2 } (num_open - num_close + 1) word_id true
            new_word
        else
          goToAryEndLoop fuel { c1 with bm := bm2 } (num_open - num_close) (word_id + 1) false
            true
      else do
        let p ← get_position c1.s bitmap_rbracket num_open
        pure { c1 with bm := bm2, pos := p }
    else goToAryEndLoop fuel c num_open word_id first_interval new_word

/-- Transcription of `goToAryEnd(pos, bm)`. -/
def goToAryEnd (fuel : Nat) (c : FF) : Except Err FF :=
  goToAryEndLoop fuel c 1 (c.pos / 64) false false

/-- The loop of `goOverPriAttr`; leaving the loop through its condition returns from the
(`void`) function with `pos` unchanged. -/
def goOverPriAttrLoop : Nat → FF → Int → Bool → Bool → Except Err FF
  | 0, _, _, _, _ => .error .outOfFuel
  | fuel + 1, c, word_id, first_interval, new_word =>
    if word_id < c.s.mNumWords then do
      let c1 ← enterWord c word_id
      let bm1 := c1.s.get_bitmap_comma c1.bm
      let (interval, cb) :=
        if first_interval = false then
          if new_word = true then (get_interval_new_word bm1.commabit, bm1.commabit)
          else get_interval c1.pos bm1.commabit
        else next_interval bm1.commabit
      let bm2 := c1.s.get_bitmap_rbrace { bm1 with commabit := cb }
      let bitmap_rbrace := bm2.rbracebit &&& interval.intervalbit
      if bitmap_rbrace ≠ 0 then do
        let p ← get_position c1.s bitmap_rbrace 1
        pure { c1 with bm := bm2, pos := p - 1 }
      else if interval.is_complete = true then do
        let p ← interval_end c1.s interval.intervalbit
        pure { c1 with bm := bm2, pos := p - 1 }
      else goOverPriAttrLoop fuel { c1 with bm := bm2 } (word_id + 1) false true
    else pure c

/-- Transcription of `goOverPriAttr(pos, bm)`. -/
def goOverPriAttr (fuel : Nat) (c : FF) : Except Err FF :=
  goOverPriAttrLoop fuel c (c.pos / 64) false false

/-- The loop of `goOverPriElem`; the function has no `return` after the loop. -/
def goOverPriElemLoop : Nat → FF → Int → Bool → Bool → Except Err (Int × FF)
  | 0, _, _, _, _ => .error .outOfFuel
  | fuel + 1, c, word_id, first_interval, new_word =>
    if word_id < c.s.mNumWords then do
      let c1 ← enterWord c word_id
      let bm1 := c1.s.get_bitmap_comma c1.bm
      let (interval, cb) :=
        if first_interval = false then
          if new_word = true then (get_interval_new_word bm1.commabit, bm1.commabit)
          else get_interval c1.pos bm1.commabit
        else next_interval bm1.commabit
      let bm2 := c1.s.get_bitmap_rbracket { bm1 with commabit := cb }
      let bitmap_rbracket := bm2.rbracketbit &&& interval.intervalbit
      if bitmap_rbracket ≠ 0 then do
        let p ← get_position c1.s bitmap_rbracket 1
        pure (ARRAY_END, { c1 with bm := bm2, pos := p })
      else if interval.is_complete = true then do
        let p ← interval_end c1.s interval.intervalbit
        pure (SUCCESS, { c1 with bm := bm2, pos := p - 1 })
      else goOverPriElemLoop fuel { c1 with bm := bm2 } (word_id + 1) false true
    else .error .noReturn

/-- Transcription of `goOverPriElem(pos, bm)`. -/
def goOverPriElem (fuel : Nat) (c : FF) : Except Err (Int × FF) :=
  goOverPriElemLoop fuel c (c.pos / 64) false false

/-- The loop of `goOverPriElems`. -/
def goOverPriElemsLoop : Nat → FF → Int → Bool → Except Err (Int × FF)
  | 0, _, _, _ => .error .outOfFuel
  | fuel + 1, c, word_id, new_word =>
    if word_id < c.s.mNumWords then do
      let c1 ← enterWord c word_id
      let bm1 := c1.s.get_bitmap_lbracket (c1.s.get_bitmap_lbrace c1.bm)
      let bitmap_bracket := bm1.lbracebit ||| bm1.lbracketbit
      let interval :=
        if new_word = true then get_interval_new_word bitmap_bracket
        else (get_interval c1.pos bitmap_bracket).1
      let bm2 := c1.s.get_bitmap_rbracket bm1
      let bitmap_rbracket := bm2.rbracketbit &&& interval.intervalbit
      if bitmap_rbracket ≠ 0 then do
        let p ← get_position c1.s bitmap_rbracket 1
        pure (ARRAY_END, { c1 with bm := bm2, pos := p })
      else if interval.is_complete = true then do
        let p ← interval_end c1.s interval.intervalbit
        pure (SUCCESS, { c1 with bm := bm2, pos := p })
      else goOverPriElemsLoop fuel { c1 with bm := bm2 } (word_id + 1) true
    else .error .noReturn

/-- Transcription of `goOverPriElems(pos, bm)`. -/
def goOverPriElems (fuel : Nat) (c : FF) : Except Err (Int × FF) :=
  goOverPriElemsLoop fuel c (c.pos / 64) false

/-- The loop of `goOverPriAttrs`. -/
def goOverPriAttrsLoop : Nat → FF → Int → Bool → Except Err (Int × FF)
  | 0, _, _, _ => .error .outOfFuel
  | fuel + 1, c, word_id, new_word =>
    if word_id < c.s.mNumWords then do
      let c1 ← enterWord c word_id
      let bm1 := c1.s.get_bitmap_lbracket (c1.s.get_bitmap_lbrace c1.bm)
      let bitmap_bracket := bm1.lbracebit ||| bm1.lbracketbit
      let interval :=
        if new_word = true then get_interval_new_word bitmap_bracket
        else (get_interval c1.pos bitmap_bracket).1
      let bm2 := c1.s.get_bitmap_rbrace bm1
      let bitmap_rbrace := bm2.rbracebit &&& interval.intervalbit
      if bitmap_rbrace ≠ 0 then do
        let p ← get_position c1.s bitmap_rbrace 1
        pure (OBJECT_END, { c1 with bm := bm2, pos := p })
      else if interval.is_complete = true then do
        let p ← interval_end c1.s interval.intervalbit
        pure (SUCCESS, { c1 with bm := bm2, pos := p })
      else goOverPriAttrsLoop fuel { c1 with bm := bm2 } (word_id + 1) true
    else .error .noReturn

/-- Transcription of `goOverPriAttrs(pos, bm)`. -/
def goOverPriAttrs (fuel : Nat) (c : FF) : Except Err (Int × FF) :=
  goOverPriAttrsLoop fuel c (c.pos / 64) false

/-! ### Character-level scans -/

/-- The loop `while (mRecord[pos] == ' ') ++pos;`. -/
def skipSpace : Nat → Index → Int → Except Err Int
  | 0, _, _ => .error .outOfFuel
  | fuel + 1, s, pos => do
    let ch ← s.rd pos
    if ch = chSpace then skipSpace fuel s (pos + 1) else pure pos

/-- The loop `while (mRecord[pos] == ' ' || mRecord[pos] == '\n' || mRecord[pos] == '\r') ++pos;`. -/
def skipBlank : Nat → Index → Int → Except Err Int
  | 0, _, _ => .error .outOfFuel
  | fuel + 1, s, pos => do
    let ch ← s.rd pos
    if ch = chSpace ∨ ch = chLF ∨ ch = chCR then skipBlank fuel s (pos + 1) else pure pos

/-- The loop `while (mRecord[pos] == ' ' || mRecord[pos] == '\n') ++pos;`. -/
def skipSpaceLF : Nat → Index → Int → Except Err Int
  | 0, _, _ => .error .outOfFuel
  | fuel + 1, s, pos => do
    let ch ← s.rd pos
    if ch = chSpace ∨ ch = chLF then skipSpaceLF fuel s (pos + 1) else pure pos

/-- The loop `while (mRecord[st] != target) ++st;`. -/
def scanFwd (target : Nat) : Nat → Index → Int → Except Err Int
  | 0, _, _ => .error .outOfFuel
  | fuel + 1, s, st => do
    let ch ← s.rd st
    if ch ≠ target then scanFwd target fuel s (st + 1) else pure st

/-- The loop `while (mRecord[st] != target) --st;`. -/
def scanBack (target : Nat) : Nat → Index → Int → Except Err Int
  | 0, _, _ => .error .outOfFuel
  | fuel + 1, s, st => do
    let ch ← s.rd st
    if ch ≠ target then scanBack target fuel s (st - 1) else pure st

/-- Transcription of `hasMoreElements(pos)`: the result and the new `pos`. -/
def hasMoreElements (fuel : Nat) (s : Index) (pos : Int) : Except Err (Bool × Int) := do
  let p1 ← skipBlank fuel s pos
  let p2 ← skipBlank fuel s (p1 + 1)
  let ch ← s.rd p2
  if ch = chRBracket then pure (false, p2)
  else do
    let p3 := if ch = chComma then p2 + 1 else p2
    let p4 ← skipBlank fuel s p3
    pure (true, p4)

/-- Transcription of `getElementType(pos)`: the type and the new `pos`. -/
def getElementType (fuel : Nat) (s : Index) (pos : Int) : Except Err (Int × Int) := do
  let p1 ← skipSpace fuel s pos
  let ch ← s.rd p1
  if ch = chLBrace then pure (OBJECT, p1)
  else if ch = chLBracket then pure (ARRAY, p1)
  else pure (PRIMITIVE, p1)

/-- Transcription of `hasMoreAttributes(pos)`: the result and the new `pos`. -/
def hasMoreAttributes (fuel : Nat) (s : Index) (pos : Int) : Except Err (Bool × Int) := do
  let p1 ← skipSpace fuel s pos
  let p2 ← skipSpace fuel s (p1 + 1)
  let ch ← s.rd p2
  if ch = chRBrace then pure (false, p2)
  else do
    let p3 := if ch = chComma then p2 + 1 else p2
    let p4 ← skipSpaceLF fuel s p3
    pure (true, p4)

/-- Transcription of `getAttributeType(pos)`: the type and the new `pos`. -/
def getAttributeType (fuel : Nat) (s : Index) (pos : Int) : Except Err (Int × Int) := do
  let p1 ← skipSpace fuel s pos
  let ch ← s.rd p1
  if ch = chLBrace then pure (OBJECT, p1)
  else if ch = chLBracket then pure (ARRAY, p1)
  else pure (PRIMITIVE, p1)

/-! ### Seeking a typed child -/

/-- The `do { ... } while (hasMoreElements(pos))` loop of `goToObjElem`. -/
def goToObjElem : Nat → FF → Except Err (Int × FF)
  | 0, _ => .error .outOfFuel
  | fuel + 1, c => do
    let ch ← c.s.rd c.pos
    let (result, c1) ←
      if ch ≠ chLBrace ∨ ch ≠ chLBracket then goOverPriElems fuel c else pure (SUCCESS, c)
    if (ch ≠ chLBrace ∨ ch ≠ chLBracket) ∧ result = ARRAY_END then pure (result, c1)
    else do
      let (element_type, p) ← getElementType fuel c1.s c1.pos
      if element_type = OBJECT then pure (SUCCESS, { c1 with pos := p })
      else do
        let c2 ← goOverAry fuel { c1 with pos := p }
        let (more, p2) ← hasMoreElements fuel c2.s c2.pos
        if more then goToObjElem fuel { c2 with pos := p2 }
        else pure (OBJECT_END, { c2 with pos := p2 })

/-- The `do { ... } while (hasMoreElements(pos))` loop of `goToAryElem`. -/
def goToAryElem : Nat → FF → Except Err (Int × FF)
  | 0, _ => .error .outOfFuel
  | fuel + 1, c => do
    let ch ← c.s.rd c.pos
    let (result, c1) ←
      if ch ≠ chLBrace ∨ ch ≠ chLBracket then goOverPriElems fuel c else pure (SUCCESS, c)
    if (ch ≠ chLBrace ∨ ch ≠ chLBracket) ∧ result = ARRAY_END then pure (result, c1)
    else do
      let (element_type, p) ← getElementType fuel c1.s c1.pos
      if element_type = ARRAY then pure (SUCCESS, { c1 with pos := p })
      else do
        let c2 ← goOverObj fuel { c1 with pos := p }
        let (more, p2) ← hasMoreElements fuel c2.s c2.pos
        if more then goToAryElem fuel { c2 with pos := p2 }
        else pure (OBJECT_END, { c2 with pos := p2 })

/-- The `do { ... } while (hasMoreAttributes(pos))` loop of `goToObjAttr`. -/
def goToObjAttr : Nat → FF → Except Err (Int × FF)
  | 0, _ => .error .outOfFuel
  | fuel + 1, c => do
    let (result, c1) ← goOverPriAttrs fuel c
    if result = OBJECT_END then pure (result, c1)
    else do
      let (attribute_type, p) ← getAttributeType fuel c1.s c1.pos
      if attribute_type = OBJECT then pure (SUCCESS, { c1 with pos := p })
      else do
        let c2 ← goOverAry fuel { c1 with pos := p }
        let (more, p2) ← hasMoreAttributes fuel c2.s c2.pos
        if more then goToObjAttr fuel { c2 with pos := p2 }
        else pure (OBJECT_END, { c2 with pos := p2 })

/-- The `do { ... } while (hasMoreAttributes(pos))` loop of `goToAryAttr`. -/
def goToAryAttr : Nat → FF → Except Err (Int × FF)
  | 0, _ => .error .outOfFuel
  | fuel + 1, c => do
    let (result, c1) ← goOverPriAttrs fuel c
    if result = OBJECT_END then pure (result, c1)
    else do
      let (attribute_type, p) ← getAttributeType fuel c1.s c1.pos
      if attribute_type = ARRAY then pure (SUCCESS, { c1 with pos := p })
      else do
        let c2 ← goOverObj fuel { c1 with pos := p }
        let (more, p2) ← hasMoreAttributes fuel c2.s c2.pos
        if more then goToAryAttr fuel { c2 with pos := p2 }
        else pure (OBJECT_END, { c2 with pos := p2 })

/-- The loops of `goToPrimAttr`; as in `goOverObj` the outer loop is `while (true)`. -/
def goToPrimAttrLoop : Nat → FF → Int → Bool → Bool → Except Err (Int × FF)
  | 0, _, _, _, _ => .error .outOfFuel
  | fuel + 1, c, word_id, first_interval, new_word =>
    if word_id < c.s.mNumWords then do
      let c1 ← enterWord c word_id
      let bm1 := c1.s.get_bitmap_colon c1.bm
      let (interval, cb, new_word1) :=
        if first_interval = false then
          if new_word = true then (get_interval_new_word bm1.colonbit, bm1.colonbit, false)
          else ((get_interval c1.pos bm1.colonbit).1, (get_interval c1.pos bm1.colonbit).2,
                new_word)
        else ((next_interval bm1.colonbit).1, (next_interval bm1.colonbit).2, new_word)
      let bm2 := c1.s.get_bitmap_rbrace { bm1 with colonbit := cb }
      let bitmap_rbrace := bm2.rbracebit &&& interval.intervalbit
      if bitmap_rbrace > 0 then do
        let p ← get_position c1.s bitmap_rbrace 1
        pure (OBJECT_END, { c1 with bm := bm2, pos := p })
      else if interval.is_complete = true then do
        let e ← interval_end c1.s interval.intervalbit
        let (type, p) ← getAttributeType fuel c1.s (e + 1)
        if type = OBJECT then do
          let c2 ← goOverObj fuel { c1 with bm := bm2, pos := p }
          goToPrimAttrLoop fuel c2 (c2.pos / 64) false new_word1
        else if type = ARRAY then do
          let c2 ← goOverAry fuel { c1 with bm := bm2, pos := p }
          goToPrimAttrLoop fuel c2 (c2.pos / 64) false new_word1
        else pure (SUCCESS, { c1 with bm := bm2, pos := p })
      else goToPrimAttrLoop fuel { c1 with bm := bm2 } (word_id + 1) false true
    else goToPrimAttrLoop fuel c word_id first_interval new_word

/-- Transcription of `goToPrimAttr(pos, bm)`. -/
def goToPrimAttr (fuel : Nat) (c : FF) : Except Err (Int × FF) :=
  goToPrimAttrLoop fuel c (c.pos / 64) false false

/-! ### Skipping elements within a range -/

/-- The loop of `goOverPrimElemsInRange`, with its locals `word_id`, `new_word`,
`num_comma` and the by-value parameter `num_elements`. -/
def goOverPrimElemsInRangeLoop :
    Nat → FF → Int → Bool → Int → Int → Except Err (JumpInfo × FF)
  | 0, _, _, _, _, _ => .error .outOfFuel
  | fuel + 1, c, word_id, new_word, num_comma, num_elements =>
    if word_id < c.s.mNumWords then do
      let c1 ← enterWord c word_id
      let bm1 := c1.s.get_bitmap_lbracket (c1.s.get_bitmap_lbrace c1.bm)
      let bitmap_bracket := bm1.lbracebit ||| bm1.lbracketbit
      let interval :=
        if new_word = true then get_interval_new_word bitmap_bracket
        else (get_interval c1.pos bitmap_bracket).1
      let bm2 := c1.s.build_bitmap_rbracket bm1
      let bitmap_rbracket := bm2.rbracketbit &&& interval.intervalbit
      let bm3 := c1.s.get_bitmap_comma bm2
      let bitmap_comma0 := bm3.commabit &&& interval.intervalbit
      let bitmap_comma :=
        if bitmap_rbracket ≠ 0 then
          bitmap_comma0 &&& (bitmap_rbracket ^^^ sub64 bitmap_rbracket 1)
        else bitmap_comma0
      let num_comma1 := num_comma + popcountl bitmap_comma
      if num_comma1 ≥ num_elements then do
        let _ ← ctzll bitmap_comma
        let p ← get_position c1.s bitmap_comma num_elements
        pure ({ status := SUCCESS, num_comma := 0 }, { c1 with bm := bm3, pos := p })
      else if bitmap_rbracket ≠ 0 then do
        let p ← get_position c1.s bitmap_rbracket 1
        pure ({ status := ARRAY_END, num_comma := 0 }, { c1 with bm := bm3, pos := p })
      else if interval.is_complete = true then do
        let p ← interval_end c1.s interval.intervalbit
        pure ({ status := PARTIAL_SKIP, num_comma := num_comma1 }, { c1 with bm := bm3, pos := p })
      else
        goOverPrimElemsInRangeLoop fuel { c1 with bm := bm3 } (word_id + 1) true num_comma1
          (num_elements - num_comma1)
    else .error .noReturn

/-- Transcription of `goOverPrimElemsInRange(pos, num_elements, bm)`. -/
def goOverPrimElemsInRange (fuel : Nat) (c : FF) (num_elements : Int) :
    Except Err (JumpInfo × FF) :=
  goOverPrimElemsInRangeLoop fuel c (c.pos / 64) false 0 num_elements

/-- The `while (num_elements > 0)` loop of `goOverElem`. -/
def goOverElem : Nat → FF → Int → Except Err (Int × FF)
  | 0, _, _ => .error .outOfFuel
  | fuel + 1, c, num_elements =>
    if num_elements > 0 then do
      let (more, p1) ← hasMoreElements fuel c.s c.pos
      if more = false then pure (ARRAY_END, { c with pos := p1 })
      else do
        let (element_type, p2) ← getElementType fuel c.s p1
        if element_type = PRIMITIVE then do
          let (res, c1) ← goOverPrimElemsInRange fuel { c with pos := p2 } num_elements
          if res.status = ARRAY_END ∨ res.status = SUCCESS then pure (res.status, c1)
          else if res.status = PARTIAL_SKIP then
            goOverElem fuel c1 (num_elements - res.num_comma + 1 - 1)
          else goOverElem fuel c1 (num_elements - 1)
        else if element_type = OBJECT then do
          let c1 ← goOverObj fuel { c with pos := p2 }
          goOverElem fuel c1 (num_elements - 1)
        else if element_type = ARRAY then do
          let c1 ← goOverAry fuel { c with pos := p2 }
          goOverElem fuel c1 (num_elements - 1)
        else goOverElem fuel { c with pos := p2 } (num_elements - 1)
    else pure (SUCCESS, c)

/-- The `do { ... } while (num_elements > 0)` loop of `goToObjElemInRange`; the reference
parameter `num_elements` is returned with the status. -/
def goToObjElemInRange : Nat → FF → Int → Except Err (Int × Int × FF)
  | 0, _, _ => .error .outOfFuel
  | fuel + 1, c, num_elements => do
    let (element_type, p) ← getElementType fuel c.s c.pos
    let step (c1 : FF) (n : Int) : Except Err (Int × Int × FF) := do
      let (more, p1) ← hasMoreElements fuel c1.s c1.pos
      if more = false then pure (ARRAY_END, n - 1, { c1 with pos := p1 })
      else if n - 1 > 0 then goToObjElemInRange fuel { c1 with pos := p1 } (n - 1)
      else pure (RANGE_END, n - 1, { c1 with pos := p1 })
    if element_type = PRIMITIVE then do
      let (res, c1) ← goOverPrimElemsInRange fuel { c with pos := p } num_elements
      if res.status = ARRAY_END then pure (res.status, num_elements, c1)
      else if res.status = SUCCESS then pure (RANGE_END, num_elements, c1)
      else if res.status = PARTIAL_SKIP then step c1 (num_elements - res.num_comma + 1)
      else step c1 num_elements
    else if element_type = OBJECT then pure (SUCCESS, num_elements, { c with pos := p })
    else if element_type = ARRAY then do
      let c1 ← goOverAry fuel { c with pos := p }
      step c1 num_elements
    else step { c with pos := p } num_elements

/-- The `do { ... } while (num_elements > 0)` loop of `goToAryElemInRange`. -/
def goToAryElemInRange : Nat → FF → Int → Except Err (Int × Int × FF)
  | 0, _, _ => .error .outOfFuel
  | fuel + 1, c, num_elements => do
    let (element_type, p) ← getElementType fuel c.s c.pos
    let step (c1 : FF) (n : Int) : Except Err (Int × Int × FF) := do
      let (more, p1) ← hasMoreElements fuel c1.s c1.pos
      if more = false then pure (ARRAY_END, n - 1, { c1 with pos := p1 })
      else if n - 1 > 0 then goToAryElemInRange fuel { c1 with pos := p1 } (n - 1)
      else pure (RANGE_END, n - 1, { c1 with pos := p1 })
    if element_type = PRIMITIVE then do
      let (res, c1) ← goOverPrimElemsInRange fuel { c with pos := p } num_elements
      if res.status = ARRAY_END then pure (res.status, num_elements, c1)
      else if res.status = SUCCESS then pure (RANGE_END, num_elements, c1)
      else if res.status = PARTIAL_SKIP then step c1 (num_elements - res.num_comma + 1)
      else step c1 num_elements
    else if element_type = OBJECT then do
      let c1 ← goOverObj fuel { c with pos := p }
      step c1 num_elements
    else if element_type = ARRAY then pure (SUCCESS, num_elements, { c with pos := p })
    else step { c with pos := p } num_elements

/-- The `do { ... } while (num_elements > 0)` loop of `goToPrimElemInRange`. -/
def goToPrimElemInRange : Nat → FF → Int → Except Err (Int × Int × FF)
  | 0, _, _ => .error .outOfFuel
  | fuel + 1, c, num_elements => do
    let (element_type, p) ← getElementType fuel c.s c.pos
    let step (c1 : FF) (n : Int) : Except Err (Int × Int × FF) := do
      let (more, p1) ← hasMoreElements fuel c1.s c1.pos
      if more = false then pure (ARRAY_END, n - 1, { c1 with pos := p1 })
      else if n - 1 > 0 then goToPrimElemInRange fuel { c1 with pos := p1 } (n - 1)
      else pure (RANGE_END, n - 1, { c1 with pos := p1 })
    if element_type = PRIMITIVE then pure (SUCCESS, num_elements, { c with pos := p })
    else if element_type = OBJECT then do
      let c1 ← goOverObj fuel { c with pos := p }
      step c1 num_elements
    else if element_type = ARRAY then do
      let c1 ← goOverAry fuel { c with pos := p }
      step c1 num_elements
    else step { c with pos := p } num_elements

/-- The `do { ... } while (hasMoreElements(pos))` loop of `goToPrimElem`. -/
def goToPrimElem : Nat → FF → Except Err (Int × FF)
  | 0, _ => .error .outOfFuel
  | fuel + 1, c => do
    let (element_type, p) ← getElementType fuel c.s c.pos
    if element_type = PRIMITIVE then pure (SUCCESS, { c with pos := p })
    else do
      let c1 ←
        if element_type = OBJECT then goOverObj fuel { c with pos := p }
        else if element_type = ARRAY then goOverAry fuel { c with pos := p }
        else pure { c with pos := p }
      let (more, p1) ← hasMoreElements fuel c1.s c1.pos
      if more then goToPrimElem fuel { c1 with pos := p1 }
      else pure (ARRAY_END, { c1 with pos := p1 })

/-! ## The query engine: `object`, `array`, `runQuery` -/

/-- The state the two recursive procedures work on: the fast-forward state, the
automaton `qa` and the match counter `mNumMatches`. -/
structure Run where
  c : FF
  qa : QueryAutomaton
  mNumMatches : Int
  deriving DecidableEq, Repr

/-- The key lookup of `object` for an expected `PRIMITIVE` attribute: the key is read
forwards from `pos`; gives `next_state`, and `pos` just after the colon. -/
def keyForward (fuel : Nat) (s : Index) (qa : QueryAutomaton) (pos : Int) :
    Except Err (Int × Int) := do
  let st ← scanFwd chQuote fuel s pos
  let ed ← scanFwd chQuote fuel s (st + 1)
  let key_len := ed - st - 1
  let key ← s.slice (st + 1) key_len
  let next_state := qa.getNextState key key_len
  let ed2 ← scanFwd chColon fuel s ed
  pure (next_state, ed2 + 1)

/-- The key lookup of `object` for an expected `OBJECT` or `ARRAY` attribute: the key is
recovered backwards from `pos`; gives `next_state`. -/
def keyBackward (fuel : Nat) (s : Index) (qa : QueryAutomaton) (pos : Int) :
    Except Err Int := do
  let st1 ← scanBack chColon fuel s pos
  let st ← scanBack chQuote fuel s st1
  let ed ← scanBack chQuote fuel s (st - 1)
  let key_len := st - ed - 1
  let key ← s.slice (ed + 1) key_len
  pure (qa.getNextState key key_len)

/-- The `switch (element_type)` that skips a value: `goOverObj`, `goOverAry` or
`goOverPriAttr`. -/
def skipValue (fuel : Nat) (c : FF) (element_type : Int) : Except Err FF :=
  if element_type = OBJECT then goOverObj fuel c
  else if element_type = ARRAY then goOverAry fuel c
  else if element_type = PRIMITIVE then goOverPriAttr fuel c
  else pure c

mutual

/-- The `while (hasMoreAttributes(pos))` loop of `object`; every way out of the loop
(`return`, `break`, the loop condition) ends the function. -/
def objectLoop : Nat → Run → Int → Except Err Run
  | 0, _, _ => .error .outOfFuel
  | fuel + 1, r, attribute_type => do
    let (more, p0) ← hasMoreAttributes fuel r.c.s r.c.pos
    let c0 : FF := { r.c with pos := p0 }
    if more = false then pure { r with c := c0 }
    else do
      -- switch (attribute_type)
      let (result, next_state0, element_type, c1) ←
        (if attribute_type = OBJECT then do
          let (res, c') ← goToObjAttr fuel c0
          pure (res, (0 : Int), attribute_type, c')
        else if attribute_type = ARRAY then do
          let (res, c') ← goToAryAttr fuel c0
          pure (res, (0 : Int), attribute_type, c')
        else if attribute_type = PRIMITIVE then do
          let (ns, p1) ← keyForward fuel c0.s r.qa c0.pos
          let (et, p2) ← getElementType fuel c0.s p1
          pure ((0 : Int), ns, et, { c0 with pos := p2 })
        else pure ((0 : Int), (0 : Int), attribute_type, c0) :
          Except Err (Int × Int × Int × FF))
      if result = OBJECT_END then pure { r with c := c1 }
      else do
        let next_state ←
          (if attribute_type ≠ PRIMITIVE then keyBackward fuel c1.s r.qa c1.pos
           else pure next_state0 : Except Err Int)
        if next_state = UNMATCHED_STATE then do
          let c2 ← skipValue fuel c1 element_type
          objectLoop fuel { r with c := c2 } attribute_type
        else if r.qa.isAccept next_state = true then do
          let c2 ← skipValue fuel c1 element_type
          let c3 : FF := if element_type = PRIMITIVE then { c2 with pos := c2.pos + 1 } else c2
          let ch ← c3.s.rd c3.pos
          if ch ≠ chRBrace then
            if r.qa.getStackSize = 0 then
              pure { r with c := c3, mNumMatches := r.mNumMatches + 1 }
            else do
              let c4 ← goToObjEnd fuel c3
              pure { r with c := c4, mNumMatches := r.mNumMatches + 1 }
          else pure { r with c := c3, mNumMatches := r.mNumMatches + 1 }
        else do
          let r1 : Run := { r with c := c1, qa := r.qa.pushStack next_state }
          let r2 ←
            (if attribute_type = OBJECT then object fuel r1
             else if attribute_type = ARRAY then array fuel r1
             else pure r1 : Except Err Run)
          let r3 : Run := { r2 with qa := r2.qa.popStack.1 }
          if r3.qa.getStackSize = 0 then pure r3
          else do
            let c4 ← goToObjEnd fuel r3.c
            pure { r3 with c := c4 }

/-- Transcription of `object(pos, bm)`. -/
def object : Nat → Run → Except Err Run
  | 0, _ => .error .outOfFuel
  | fuel + 1, r => objectLoop fuel r r.qa.typeExpectedInObj

/-- The loop `while (hasMoreElements(pos) && num_elements > 0)` of `array` (the branch
with index constraints).  The flag of the result says whether the function has returned
from inside the loop (`true`) or the loop was left (`false`). -/
def arrayRangeLoop : Nat → Run → Int → Int → Except Err (Bool × Run)
  | 0, _, _, _ => .error .outOfFuel
  | fuel + 1, r, element_type, num_elements => do
    let (more, p0) ← hasMoreElements fuel r.c.s r.c.pos
    let c0 : FF := { r.c with pos := p0 }
    if more = true ∧ num_elements > 0 then
      if r.qa.isAccept r.qa.mCurState = true then do
        let (value_type, p1) ←
          (if element_type = PRIMITIVE then getElementType fuel c0.s c0.pos
           else pure (element_type, c0.pos) : Except Err (Int × Int))
        let c1 : FF := { c0 with pos := p1 }
        let (break_while, c2) ←
          (if value_type = OBJECT then do
            let c' ← goOverObj fuel c1
            pure (false, c')
          else if value_type = ARRAY then do
            let c' ← goOverAry fuel c1
            pure (false, c')
          else if value_type = PRIMITIVE then do
            let (result, c') ← goOverPriElem fuel c1
            pure (decide (result = ARRAY_END), c')
          else pure (false, c1) : Except Err (Bool × FF))
        if break_while = true then do
          let ch ← c2.s.rd c2.pos
          if ch ≠ chRBracket then do
            let c3 ← goToAryEnd fuel c2
            pure (false, { r with c := c3, mNumMatches := r.mNumMatches + 1 })
          else pure (false, { r with c := c2, mNumMatches := r.mNumMatches + 1 })
        else
          arrayRangeLoop fuel { r with c := c2, mNumMatches := r.mNumMatches + 1 } element_type
            (num_elements - 1)
      else if r.qa.mCurState > 0 then do
        let (result, num_elements1, c1) ←
          (if element_type = OBJECT then goToObjElemInRange fuel c0 num_elements
           else if element_type = ARRAY then goToAryElemInRange fuel c0 num_elements
           else .error .uninitialised : Except Err (Int × Int × FF))
        if result = SUCCESS then do
          let r1 ←
            (if element_type = OBJECT then object fuel { r with c := c1 }
             else if element_type = ARRAY then array fuel { r with c := c1 }
             else pure { r with c := c1 } : Except Err Run)
          arrayRangeLoop fuel r1 element_type (num_elements1 - 1)
        else if result = ARRAY_END then
          pure (true, { r with c := c1, qa := r.qa.popStack.1 })
        else if result = RANGE_END then do
          let ch ← c1.s.rd c1.pos
          if ch ≠ chRBracket then
            if r.qa.getStackSize = 1 then pure (true, { r with c := c1 })
            else do
              let c2 ← goToAryEnd fuel c1
              pure (false, { r with c := c2 })
          else pure (false, { r with c := c1 })
        else arrayRangeLoop fuel { r with c := c1 } element_type num_elements1
      else arrayRangeLoop fuel { r with c := c0 } element_type num_elements
    else pure (false, { r with c := c0 })

/-- The loop `while (hasMoreElements(pos))` of `array` (the branch without index
constraints), with the same flag as `arrayRangeLoop`. -/
def arrayAllLoop : Nat → Run → Int → Except Err (Bool × Run)
  | 0, _, _ => .error .outOfFuel
  | fuel + 1, r, element_type => do
    let (more, p0) ← hasMoreElements fuel r.c.s r.c.pos
    let c0 : FF := { r.c with pos := p0 }
    if more = true then
      if r.qa.isAccept r.qa.mCurState = true then do
        let (value_type, p1) ←
          (if element_type = PRIMITIVE then getElementType fuel c0.s c0.pos
           else pure (element_type, c0.pos) : Except Err (Int × Int))
        let c1 : FF := { c0 with pos := p1 }
        let (break_while, c2) ←
          (if value_type = OBJECT then do
            let c' ← goOverObj fuel c1
            pure (false, c')
          else if value_type = ARRAY then do
            let c' ← goOverAry fuel c1
            pure (false, c')
          else if value_type = PRIMITIVE then do
            let (result, c') ← goOverPriElem fuel c1
            pure (decide (result = ARRAY_END), c')
          else pure (false, c1) : Except Err (Bool × FF))
        if break_while = true then
          pure (false, { r with c := c2, mNumMatches := r.mNumMatches + 1 })
        else arrayAllLoop fuel { r with c := c2, mNumMatches := r.mNumMatches + 1 } element_type
      else if r.qa.mCurState > 0 then do
        let (t, p1) ← getElementType fuel c0.s c0.pos
        let c1 : FF := { c0 with pos := p1 }
        let (ended, c2) ←
          (if t ≠ element_type then do
            let (result, c') ←
              (if element_type = OBJECT then goToObjElem fuel c1
               else if element_type = ARRAY then goToAryElem fuel c1
               else .error .uninitialised : Except Err (Int × FF))
            pure (decide (result = ARRAY_END), c')
          else pure (false, c1) : Except Err (Bool × FF))
        if ended = true then pure (true, { r with c := c2, qa := r.qa.popStack.1 })
        else do
          let r1 ←
            (if element_type = OBJECT then object fuel { r with c := c2 }
             else if element_type = ARRAY then array fuel { r with c := c2 }
             else pure { r with c := c2 } : Except Err Run)
          arrayAllLoop fuel r1 element_type
      else arrayAllLoop fuel { r with c := c0 } element_type
    else pure (false, { r with c := c0 })

/-- Transcription of `array(pos, bm)`. -/
def array : Nat → Run → Except Err Run
  | 0, _ => .error .outOfFuel
  | fuel + 1, r0 => do
    let next_state := r0.qa.getNextStateNoKey
    let r : Run := { r0 with qa := r0.qa.pushStack next_state }
    let element_type := r.qa.typeExpectedInArr
    if r.qa.hasIndexConstraints = true then do
      let idx_info := r.qa.getIndexInfo r.qa.mCurState
      let start_idx := idx_info.start_idx
      let end_idx := idx_info.end_idx
      let num_elements := end_idx - start_idx
      let (result, c1) ←
        (if start_idx > 0 then goOverElem fuel r.c start_idx
         else pure (SUCCESS, r.c) : Except Err (Int × FF))
      if start_idx > 0 ∧ result = ARRAY_END then
        pure { r with c := c1, qa := r.qa.popStack.1 }
      else do
        let (returned, r1) ← arrayRangeLoop fuel { r with c := c1 } element_type num_elements
        if returned = true then pure r1
        else do
          let ch ← r1.c.s.rd r1.c.pos
          if ch ≠ chRBracket then
            if r1.qa.getStackSize = 1 then pure r1
            else do
              let c2 ← goToAryEnd fuel r1.c
              pure { r1 with c := c2, qa := r1.qa.popStack.1 }
          else pure { r1 with qa := r1.qa.popStack.1 }
    else do
      let (returned, r1) ← arrayAllLoop fuel r element_type
      if returned = true then pure r1
      else pure { r1 with qa := r1.qa.popStack.1 }

end

/-- The members of `class QueryProcessor` that live across calls of `runQuery`. -/
structure QueryProcessor where
  s : Index
  qa : QueryAutomaton
  mNumMatches : Int
  deriving DecidableEq, Repr

/-- The constructor `QueryProcessor(query)`: the automaton is compiled from the path, the
match counter is zero, and `init()` runs before any record is set. -/
def QueryProcessor.new (query : List Nat) : QueryProcessor :=
  { s := Index.init { text := [], rec_start_pos := 0, rec_length := 0 },
    qa := JSONPathParser.updateQueryAutomaton query QueryAutomaton.new,
    mNumMatches := 0 }

/-- Transcription of `getNextNonEmptyCharacter(pos)`: the character and the new `pos`. -/
def getNextNonEmptyCharacter (fuel : Nat) (s : Index) (pos : Int) : Except Err (Nat × Int) := do
  let _ ← s.rd pos
  let p ← skipSpace fuel s pos
  let ch ← s.rd p
  pure (ch, p)

/-- Transcription of `runQuery(rec)`: the processor after the call and the returned count. -/
def runQuery (fuel : Nat) (qp : QueryProcessor) (rec : Record) :
    Except Err (QueryProcessor × Int) := do
  let s := Index.init rec
  let (ch, cur_pos) ← getNextNonEmptyCharacter fuel s 0
  let r : Run := { c := { s := s, pos := cur_pos, bm := bitmap.init }, qa := qp.qa,
                   mNumMatches := qp.mNumMatches }
  let r1 ←
    (if ch = chLBrace ∧ qp.qa.typeExpectedInObj ≠ NONE then object fuel r
     else if ch = chLBracket ∧ qp.qa.typeExpectedInArr ≠ NONE then array fuel r
     else pure r : Except Err Run)
  pure ({ s := r1.c.s, qa := r1.qa, mNumMatches := r1.mNumMatches }, r1.mNumMatches)

/-- The count `runQuery` returns on a freshly constructed `QueryProcessor(query)`, as
`runJsonSki(query, record)` of the entry point computes it. -/
def runJsonSki (fuel : Nat) (query : List Nat) (rec : Record) : Except Err Int := do
  let (_, n) ← runQuery fuel (QueryProcessor.new query) rec
  pure n

/-- All six class bitmaps of the current word, built one after the other. -/
def Index.buildAll (s : Index) (bm : bitmap) : bitmap :=
  s.build_bitmap_rbracket (s.build_bitmap_lbracket (s.build_bitmap_rbrace
    (s.build_bitmap_lbrace (s.build_bitmap_comma (s.build_bitmap_colon bm)))))

/-- The six class bitmaps of a cache, in the order colon, comma, left brace, right brace,
left bracket, right bracket. -/
def bitmap.classes (bm : bitmap) : List Nat :=
  [bm.colonbit, bm.commabit, bm.lbracebit, bm.rbracebit, bm.lbracketbit, bm.rbracketbit]

/-! ## Scanning the windows of a record in order -/

/-- The index builder after `build_bitmap_basic` has been run on the words `0, 1, ..., w`
of the record in this order (each time with `start_id = 2 * word`, as the word loops do). -/
def scanWindows (rec : Record) : Nat → Except Err Index
  | 0 => ({ Index.init rec with start_id := 0 } : Index).build_bitmap_basic
  | w + 1 => do
    let s ← scanWindows rec w
    ({ s with start_id := ((w : Int) + 1) * 2 } : Index).build_bitmap_basic

/-- A record followed by `n` filler bytes. -/
def padded (rec : List Nat) (filler n : Nat) : List Nat := rec ++ List.replicate n filler

/-! ## Reference definitions (from the words of the specification) -/

/-- State of the reference scalar tokenizer: inside a string literal, and whether the
next byte is escaped. -/
structure TokState where
  inString : Bool
  escaped : Bool
  deriving DecidableEq, Repr

/-- One byte of the reference tokenizer.  A backslash that is not itself escaped escapes
the next byte (so a quote is escaped iff it follows a maximal run of backslashes of odd
length); an unescaped quote opens or closes a string literal. -/
def tokStep (st : TokState) (b : Nat) : TokState :=
  if st.escaped = true then { st with escaped := false }
  else if b = chBackslash then { st with escaped := true }
  else if b = chQuote then { st with inString := !st.inString }
  else st

/-- The tokenizer state before byte `p`: the bytes `0 .. p-1` have been read. -/
def tokAt (text : List Nat) (p : Nat) : TokState :=
  (text.take p).foldl tokStep { inString := false, escaped := false }

/-- Byte `p` lies inside a string literal: a string is open before it and it is not the
quote that closes the string (the quotes themselves are not inside). -/
def insideString (text : List Nat) (p : Nat) : Prop :=
  (tokAt text p).inString = true ∧ (tokAt text (p + 1)).inString = true

instance (text : List Nat) (p : Nat) : Decidable (insideString text p) := by
  unfold insideString; exact inferInstance

mutual
/-- A JSON value; a primitive carries the bytes of its rendering. -/
inductive JVal where
  | prim (raw : List Nat)
  | arr (es : JElems)
  | obj (ms : JMembers)
/-- The elements of an array. -/
inductive JElems where
  | nil
  | cons (v : JVal) (rest : JElems)
/-- The members of an object. -/
inductive JMembers where
  | nil
  | cons (key : List Nat) (v : JVal) (rest : JMembers)
end

def JElems.toList : JElems → List JVal
  | .nil => []
  | .cons v rest => v :: rest.toList

def JMembers.toList : JMembers → List (List Nat × JVal)
  | .nil => []
  | .cons k v rest => (k, v) :: rest.toList

mutual
/-- The compact rendering of a JSON value. -/
def JVal.render : JVal → List Nat
  | .prim raw => raw
  | .arr es => [chLBracket] ++ es.render ++ [chRBracket]
  | .obj ms => [chLBrace] ++ ms.render ++ [chRBrace]
def JElems.render : JElems → List Nat
  | .nil => []
  | .cons v .nil => v.render
  | .cons v rest => v.render ++ [chComma] ++ rest.render
def JMembers.render : JMembers → List Nat
  | .nil => []
  | .cons k v .nil => [chQuote] ++ k ++ [chQuote, chColon] ++ v.render
  | .cons k v rest => [chQuote] ++ k ++ [chQuote, chColon] ++ v.render ++ [chComma] ++ rest.render
end

/-- A segment of a path of the supported subset: `.key`, `[n]`, `[a:b]`, `[a:]`. -/
inductive Seg where
  | key (k : List Nat)
  | index (n : Nat)
  | slice (a b : Nat)
  | slFrom (a : Nat)
  deriving DecidableEq, Repr

/-- Reference JSONPath semantics: the number of nodes the path selects in the value. -/
def refCount : List Seg → JVal → Nat
  | [], _ => 1
  | .key k :: rest, .obj ms =>
    ((ms.toList.filter (fun m => m.1 = k)).map (fun m => refCount rest m.2)).sum
  | .index n :: rest, .arr es => (((es.toList.drop n).take 1).map (fun v => refCount rest v)).sum
  | .slice a b :: rest, .arr es =>
    (((es.toList.drop a).take (b - a)).map (fun v => refCount rest v)).sum
  | .slFrom a :: rest, .arr es => ((es.toList.drop a).map (fun v => refCount rest v)).sum
  | _ :: _, _ => 0

/-- Decimal digits of a number. -/
def decimal (n : Nat) : List Nat := (Nat.toDigits 10 n).map Char.toNat

def Seg.render : Seg → List Nat
  | .key k => [chDot] ++ k
  | .index n => [chLBracket] ++ decimal n ++ [chRBracket]
  | .slice a b => [chLBracket] ++ decimal a ++ [chColon] ++ decimal b ++ [chRBracket]
  | .slFrom a => [chLBracket] ++ decimal a ++ [chColon, chRBracket]

/-- The path string: `$` followed by the segments. -/
def renderPath (p : List Seg) : List Nat :=
  chDollar :: p.foldr (fun sg acc => sg.render ++ acc) []

/-! ## Auxiliary definitions used in the proofs -/

/-- Every result of the computation satisfies `P`. -/
def Post {α : Type} (P : α → Prop) (x : Except Err α) : Prop := ∀ a, x = .ok a → P a

/-- The match counter never decreases in `object` and `array` (with `fuel` units of fuel). -/
def CountMono (fuel : Nat) : Prop :=
  (∀ r ty, Post (fun r' : Run => r.mNumMatches ≤ r'.mNumMatches) (objectLoop fuel r ty)) ∧
  (∀ r, Post (fun r' : Run => r.mNumMatches ≤ r'.mNumMatches) (object fuel r)) ∧
  (∀ r et n, Post (fun p : Bool × Run => r.mNumMatches ≤ p.2.mNumMatches)
    (arrayRangeLoop fuel r et n)) ∧
  (∀ r et, Post (fun p : Bool × Run => r.mNumMatches ≤ p.2.mNumMatches)
    (arrayAllLoop fuel r et)) ∧
  (∀ r, Post (fun r' : Run => r.mNumMatches ≤ r'.mNumMatches) (array fuel r))

/-- Two calls of `runQuery` on the same processor with the same record: the two returned
counts. -/
def runTwice (fuel : Nat) (query : List Nat) (rec : Record) : Except Err (Int × Int) := do
  let (qp1, n1) ← runQuery fuel (QueryProcessor.new query) rec
  let (_, n2) ← runQuery fuel qp1 rec
  pure (n1, n2)

/-- The first pass of `goOverObj` through its loop finds fewer closing braces than open
ones in an incomplete interval, and the next word is past the end of the record. -/
def goOverObjStarved (c : FF) : Prop :=
  c.pos / 64 < c.s.mNumWords ∧
  match enterWord c (c.pos / 64) with
  | .error _ => False
  | .ok c1 =>
    popcountl ((c1.s.get_bitmap_rbrace
        { c1.s.get_bitmap_lbrace c1.bm with
          lbracebit := (get_interval c1.pos (c1.s.get_bitmap_lbrace c1.bm).lbracebit).2 }).rbracebit
      &&& (get_interval c1.pos (c1.s.get_bitmap_lbrace c1.bm).lbracebit).1.intervalbit) < 1 ∧
    (get_interval c1.pos (c1.s.get_bitmap_lbrace c1.bm).lbracebit).1.is_complete = false ∧
    ¬ (c.pos / 64 + 1 < c1.s.mNumWords)

instance (c : FF) : Decidable (goOverObjStarved c) := by
  unfold goOverObjStarved
  cases enterWord c (c.pos / 64) <;> exact inferInstance

/-- Carry into bit `k` of the sum `a + b`. -/
def carryAt (a b k : Nat) : Bool := decide (2 ^ k ≤ a % 2 ^ k + b % 2 ^ k)

/-- Whether byte `k` of a word is escaped, from the backslash bitmap `B` of the word and the
carry `prev` of the previous word: byte 0 is escaped iff `prev = 1`, and byte `k + 1` is
escaped iff byte `k` is a backslash that is not itself escaped. -/
def escAt (B prev : Nat) : Nat → Bool
  | 0 => decide (prev = 1)
  | k + 1 => B.testBit k && !escAt B prev k

/-- Parity of the bits `0 .. k-1` of `q`. -/
def prefixXor (q : Nat) : Nat → Bool
  | 0 => false
  | k + 1 => xor (prefixXor q k) (q.testBit k)

/-- The word `odd_ends` of `build_bitmap_basic` as a function of the backslash bitmap `B`,
the carry-in `prev` and the two parity masks. -/
def oddEnds (E O B prev : Nat) : Nat :=
  (add64 B (B &&& not64 (shl64 B 1) &&& (E ^^^ prev)) &&& not64 B &&& O) |||
  ((add64 B (B &&& not64 (shl64 B 1) &&& not64 (E ^^^ prev)) ||| prev) &&& not64 B &&& E)

/-- The flag `iter_ends_odd_backslash` of `build_bitmap_basic`. -/
def oddOverflow (E B prev : Nat) : Bool :=
  decide (W64 ≤ B + (B &&& not64 (shl64 B 1) &&& not64 (E ^^^ prev)))

/-- The bitmap `(hi << 32) | lo` of the bytes of the two lanes equal to `c`. -/
def rawBits (v0 v : List Nat) (c : Nat) : Nat :=
  shl64 (cmpeqMask v c) 32 ||| cmpeqMask v0 c

/-- The array `[1,{"a":1,"b":2}]`. -/
def arrayWithObject : JVal :=
  .arr (.cons (.prim [49]) (.cons
    (.obj (.cons [97] (.prim [49]) (.cons [98] (.prim [50]) .nil))) .nil))

/-- The bytes of a string literal. -/
def bytes (s : String) : List Nat := s.toList.map Char.toNat

/-- The record `[\x7b` followed by 62 filler bytes `d`: the object is never closed. -/
def unclosedObject : Record := Record.ofBytes (padded (bytes "[\x7b") 100 62)

/-- The buffer the record loader hands to `runQuery`: the record followed by
`64 - size % 64` filler bytes. -/
def loaded (rec : List Nat) (filler : Nat) : Record :=
  Record.ofBytes (padded rec filler (64 - rec.length % 64))


/-! ## Auxiliary definitions for the comparison of two paddings -/

/-- A byte that no comparison of the engine singles out: none of the eight structural or
quoting characters and none of the blanks space, line feed, carriage return. -/
def Inert (b : Nat) : Prop :=
  b ≠ chLBrace ∧ b ≠ chRBrace ∧ b ≠ chLBracket ∧ b ≠ chRBracket ∧ b ≠ chColon ∧
  b ≠ chComma ∧ b ≠ chQuote ∧ b ≠ chBackslash ∧ b ≠ chSpace ∧ b ≠ chLF ∧ b ≠ chCR

instance (b : Nat) : Decidable (Inert b) := by
  unfold Inert; exact inferInstance

/-- Two buffers of the same length that agree up to some position and hold only inert
bytes from there on. -/
def PadRel (t t' : List Nat) : Prop :=
  t.length = t'.length ∧
  ∀ i : Nat, t.getD i 0 = t'.getD i 0 ∨ ∀ j : Nat, i ≤ j → Inert (t.getD j 0) ∧ Inert (t'.getD j 0)

/-- The buffer `t1` is replaced by `t2`; every other buffer is left as it is. -/
def swapText (t1 t2 t : List Nat) : List Nat := if t = t1 then t2 else t

/-- A byte that was loaded from index `idx` of the buffer `t` becomes the byte at the same
index of `t'`. -/
def fixByte (t t' : List Nat) (idx : Int) (b : Nat) : Nat :=
  if 0 ≤ idx ∧ t[idx.toNat]? = some b then t'.getD idx.toNat 0 else b

/-- The bytes of a lane loaded from index `idx` on, moved to the buffer `t'`. -/
def fixLane (t t' : List Nat) : Int → List Nat → List Nat
  | _, [] => []
  | idx, b :: l => fixByte t t' idx b :: fixLane t t' (idx + 1) l

/-- The index builder with the buffer `t1` replaced by `t2`. -/
def Index.swap (t1 t2 : List Nat) (s : Index) : Index :=
  { s with
    mText := swapText t1 t2 s.mText,
    v_text0 := fixLane s.mText (swapText t1 t2 s.mText) (s.mBase + (s.start_id - 1) * 32) s.v_text0,
    v_text := fixLane s.mText (swapText t1 t2 s.mText) (s.mBase + s.start_id * 32) s.v_text }

def FF.swap (t1 t2 : List Nat) (c : FF) : FF := { c with s := c.s.swap t1 t2 }

def Run.swap (t1 t2 : List Nat) (r : Run) : Run := { r with c := r.c.swap t1 t2 }

/-! ## Reference definitions for the bit-level primitives -/

/-- The positions of the set bits of a 64-bit word, in increasing order. -/
def setBits (M : Nat) : List Nat := (List.range 64).filter (fun i => M.testBit i)

/-- Bit `e` is the lowest set bit of `M`. -/
def LowestSet (M e : Nat) : Prop := M.testBit e = true ∧ ∀ j : Nat, j < e → M.testBit j = false

instance (M e : Nat) : Decidable (LowestSet M e) := by
  unfold LowestSet; exact inferInstance

/-- Length of the maximal run of backslashes that ends at byte `p - 1` of the text (0 when
byte `p - 1` is not a backslash or `p = 0`). -/
def bsRun (text : List Nat) : Nat → Nat
  | 0 => 0
  | p + 1 => if text.getD p 0 = chBackslash then bsRun text p + 1 else 0

/-! ## Auxiliary definitions for the runtime stack and the state table -/

/-- The automaton after the calls `pushStack(s)` for the states `s` of the list, in order. -/
def pushMany (qa : QueryAutomaton) : List Int → QueryAutomaton
  | [] => qa
  | s :: ss => pushMany (qa.pushStack s) ss

/-- The automaton after `n` calls of `popStack()`, and the values they return, in order. -/
def popMany : Nat → QueryAutomaton → QueryAutomaton × List Int
  | 0, qa => (qa, [])
  | n + 1, qa => ((popMany n qa.popStack.1).1, qa.popStack.2 :: (popMany n qa.popStack.1).2)

/-- The automaton of a fresh `QueryAutomaton` after 50 calls `pushStack(2)`. -/
def fullStack : QueryAutomaton := pushMany QueryAutomaton.new (List.replicate 50 2)

/-- What the stack below the current top holds is the same in two automata. -/
def StackAgree (qa qa1 : QueryAutomaton) : Prop :=
  qa1.mCurState = qa.mCurState ∧ qa1.mArrCounter = qa.mArrCounter ∧
  qa1.mStack.num_stack_ele = qa.mStack.num_stack_ele ∧
  qa1.mStack.stack.length = qa.mStack.stack.length ∧
  qa1.mStack.arr_counter_stack.length = qa.mStack.arr_counter_stack.length ∧
  (∀ i : Nat, (i : Int) < qa.mStack.num_stack_ele →
    qa1.mStack.stack.getD i 0 = qa.mStack.stack.getD i 0 ∧
    qa1.mStack.arr_counter_stack.getD i 0 = qa.mStack.arr_counter_stack.getD i 0)

/-- The transition that `updateStateTransInfo` writes over the transition `t0`: the key and
its length when a key is given, each expected type when it is not `NONE`, and the next
state. -/
def written (t0 : TransStrInfo) (exp_type_in_obj exp_type_in_arr : Int)
    (exp_key : Option (List Nat)) (next_state : Int) : TransStrInfo :=
  { key := match exp_key with | some k => QueryAutomaton.cstr k | none => t0.key,
    key_len := match exp_key with
      | some k => ((QueryAutomaton.cstr k).length : Int) | none => t0.key_len,
    exp_type_in_obj := if exp_type_in_obj ≠ NONE then exp_type_in_obj else t0.exp_type_in_obj,
    exp_type_in_arr := if exp_type_in_arr ≠ NONE then exp_type_in_arr else t0.exp_type_in_arr,
    next_state := next_state }

/-! ## Auxiliary definitions for the path compiler -/

def MAX_KEY_LENGTH : Nat := 100

/-- The state table has its `MAX_STATES` entries of `MAX_TRANS_STRING` transitions each. -/
def TableOk (qa : QueryAutomaton) : Prop :=
  qa.mDfa.trans_ele.length = MAX_STATES ∧
  ∀ e ∈ qa.mDfa.trans_ele, e.t_str_info.length = MAX_TRANS_STRING

instance (qa : QueryAutomaton) : Decidable (TableOk qa) := by
  unfold TableOk; exact inferInstance

/-- The text `.k1.k2...kn` of a sequence of keys. -/
def dotKeys : List (List Nat) → List Nat
  | [] => []
  | k :: ks => [chDot] ++ k ++ dotKeys ks

/-- The states `q, q + 1, ...` of the automaton `R` are the chain of a sequence of dot-keys:
one non-accepting state per key, whose transition has the key, the expected type `OBJECT`
(`PRIMITIVE` for the last key) and the next state; then an accepting state whose next state
is itself. -/
def KeyChain (R : QueryAutomaton) : Int → List (List Nat) → Prop
  | q, [] => R.isAccept q = true ∧ (QueryAutomaton.tr (R.ele (q - 1)) 0).next_state = q
  | q, k :: ks =>
    (QueryAutomaton.tr (R.ele (q - 1)) 0).key = k ∧
    (QueryAutomaton.tr (R.ele (q - 1)) 0).key_len = k.length ∧
    (QueryAutomaton.tr (R.ele (q - 1)) 0).exp_type_in_obj
      = (if ks = [] then PRIMITIVE else OBJECT) ∧
    (QueryAutomaton.tr (R.ele (q - 1)) 0).next_state = q + 1 ∧
    R.isAccept q = false ∧
    KeyChain R (q + 1) ks

/-- The assignments that follow the index loop of lexer state 2:
`if (has_colon == false && index_end > 0) { start_idx = atoi(buffer); end_idx = start_idx + 1; }
else if (index_end > 0) { end_idx = atoi(buffer); }`. -/
def idxFinish (s : JSONPathParser.IdxScan) : JSONPathParser.IdxScan :=
  if s.has_colon = false ∧ s.buf.length > 0 then
    { s with start_idx := JSONPathParser.atoi s.buf, end_idx := JSONPathParser.atoi s.buf + 1 }
  else if s.buf.length > 0 then { s with end_idx := JSONPathParser.atoi s.buf }
  else s

/-- The text between the brackets of a segment `[a]`, `[a:b]` or `[a:]`, with the index
constraint `(start, end)` the segment stands for. -/
def BracketBody (body : List Nat) (a e : Int) : Prop :=
  (∃ n : Nat, body = decimal n ∧ a = n ∧ e = n + 1) ∨
  (∃ n m : Nat, body = decimal n ++ [chColon] ++ decimal m ∧ a = n ∧ e = m) ∨
  (∃ n : Nat, body = decimal n ++ [chColon] ∧ a = n ∧ e = INT_MAX)

/-! ## Records used as instances for the fast-forward primitives -/

/-- The record `\x7b"k":[1...1,2...2,3...3,4...4]\x7d` whose four elements have 40 digits each:
171 bytes, three 64-byte windows; the commas are the bytes 46, 87 and 128. -/
def fourLong : JVal :=
  .obj (.cons [107] (.arr (.cons (.prim (List.replicate 40 49)) (.cons (.prim (List.replicate 40 50))
    (.cons (.prim (List.replicate 40 51)) (.cons (.prim (List.replicate 40 52)) .nil))))) .nil)

/-- The array `[1...1,2...2,3...3,4...4,5...5]` whose five elements have 45 digits each:
231 bytes; the commas are the bytes 46, 92, 138 and 184. -/
def fiveLong : JVal :=
  .arr (.cons (.prim (List.replicate 45 49)) (.cons (.prim (List.replicate 45 50))
    (.cons (.prim (List.replicate 45 51)) (.cons (.prim (List.replicate 45 52))
      (.cons (.prim (List.replicate 45 53)) .nil)))))

/-- The state in which a fast-forward primitive is called at `pos` on a record that has
just been loaded: no word has been indexed and the bitmap cache is empty. -/
def freshAt (rec : List Nat) (pos : Int) : FF :=
  { s := Index.init (loaded rec 100), pos := pos, bm := bitmap.init }

/-! ## Records whose first key is longer than a window -/

/-- The record `\x7b"k...k":\x7b"a":"\x7d"\x7d,"b":2\x7d` whose first key has 70 letters `k`: 90 bytes; the
value of the first attribute opens at byte 74 and closes at byte 82, byte 80 is the brace
inside the string. -/
def longKeyObj : JVal :=
  .obj (.cons (List.replicate 70 107)
    (.obj (.cons [97] (.prim (bytes "\"\x7d\"")) .nil)) (.cons [98] (.prim [50]) .nil))

/-- The record `\x7b"k...k":["]"],"b":2\x7d` whose first key has 70 letters `k`: 86 bytes; the
value of the first attribute opens at byte 74 and closes at byte 78, byte 76 is the bracket
inside the string. -/
def longKeyAry : JVal :=
  .obj (.cons (List.replicate 70 107)
    (.arr (.cons (.prim (bytes "\"]\"")) .nil)) (.cons [98] (.prim [50]) .nil))

/-- The record `\x7b"k...k":"x\x7dy","b":2\x7d` whose first key has 70 letters `k`: 86 bytes; the
value of the first attribute is the string at the bytes 74 to 78, the comma is byte 79. -/
def longKeyStr : JVal :=
  .obj (.cons (List.replicate 70 107) (.prim (bytes "\"x\x7dy\"")) (.cons [98] (.prim [50]) .nil))

/-- The record `\x7b"k...k":"x\x7dy"\x7d` whose only key has 70 letters `k`: 80 bytes; the value is
the string at the bytes 74 to 78, the closing brace of the record is byte 79. -/
def longKeyLast : JVal :=
  .obj (.cons (List.replicate 70 107) (.prim (bytes "\"x\x7dy\"")) .nil)

/-- The state in which a fast-forward primitive is called at `pos` once the index builder
has built the first window of the record, with an empty bitmap cache. -/
def afterFirstWindow (rec : List Nat) (pos : Int) : Except Err FF :=
  (scanWindows (loaded rec 100) 0).map (fun s => { s := s, pos := pos, bm := bitmap.init })

/-! ## RecordLoader.cpp -/

def MAX_PAD : Nat := 64

namespace RecordLoader

/-- The value of `int remain = 64 - (size % 64);`. -/
def remain (size : Nat) : Int := 64 - ((size % 64 : Nat) : Int)

/-- The loop `while (counter < remain) { record_text[size+counter] = 'd'; counter++; }` on a
buffer of `alloc` bytes: the buffer and `counter` after the loop. -/
def padLoop (alloc size : Nat) (remain : Int) : Nat → List Nat → Int → Except Err (List Nat × Int)
  | 0, _, _ => .error .outOfFuel
  | fuel + 1, buf, counter =>
    if counter < remain then
      if size + counter.toNat < alloc then
        padLoop alloc size remain fuel (buf.set (size + counter.toNat) 100) (counter + 1)
      else .error .outOfBounds
    else .ok (buf, counter)

/-- Transcription of `loadSingleRecord` on a file that holds the bytes `file` (the file can
be opened; sizes are far below `2^64`, so no `unsigned long` arithmetic wraps).  The buffer
has `size + MAX_PAD` bytes; `junk` is what the allocator leaves in the bytes that `fread`
does not fill.  A write at an index that is not below the allocated size is outside the
buffer.  `rec_length` is `strlen(record_text)`. -/
def loadSingleRecord (file : List Nat) (junk : Nat) : Except Err Record := do
  let size := file.length
  let alloc := size + MAX_PAD
  let buf0 := file ++ List.replicate MAX_PAD junk
  let (buf1, counter) ← padLoop alloc size (remain size) (MAX_PAD + 1) buf0 0
  if size + counter.toNat < alloc then
    let buf2 := buf1.set (size + counter.toNat) 0
    pure { text := buf2, rec_start_pos := 0, rec_length := (QueryAutomaton.cstr buf2).length }
  else .error .outOfBounds

end RecordLoader

/-! ## One pass through the loop body of `goOverObj` and `goOverAry` -/

/-- The body of the inner loop of `goOverObj`, entered with `word_id < mNumWords`: the state
after the pass, and either `none` when the function has returned (`pos` is set) or the
values of `num_open`, `word_id`, `first_interval` and `new_word` for the next pass. -/
def goOverObjIter (c : FF) (num_open word_id : Int) (first_interval new_word : Bool) :
    Except Err (FF × Option (Int × Int × Bool × Bool)) := do
  let c1 ← enterWord c word_id
  let bm1 := c1.s.get_bitmap_lbrace c1.bm
  let (interval, lb) :=
    if first_interval = false then
      if new_word = true then (get_interval_new_word bm1.lbracebit, bm1.lbracebit)
      else get_interval c1.pos bm1.lbracebit
    else next_interval bm1.lbracebit
  let bm2 := c1.s.get_bitmap_rbrace { bm1 with lbracebit := lb }
  let bitmap_rbrace := bm2.rbracebit &&& interval.intervalbit
  let num_close := popcountl bitmap_rbrace
  if num_close < num_open then
    if interval.is_complete = true then
      pure ({ c1 with bm := bm2 }, some (num_open - num_close + 1, word_id, true, new_word))
    else
      pure ({ c1 with bm := bm2 }, some (num_open - num_close, word_id + 1, false, true))
  else do
    let p ← get_position c1.s bitmap_rbrace num_open
    pure ({ c1 with bm := bm2, pos := p }, none)

/-- The body of the inner loop of `goOverAry`, as `goOverObjIter`. -/
def goOverAryIter (c : FF) (num_open word_id : Int) (first_interval new_word : Bool) :
    Except Err (FF × Option (Int × Int × Bool × Bool)) := do
  let c1 ← enterWord c word_id
  let bm1 := c1.s.get_bitmap_lbracket c1.bm
  let (interval, lb) :=
    if first_interval = false then
      if new_word = true then (get_interval_new_word bm1.lbracketbit, bm1.lbracketbit)
      else get_interval c1.pos bm1.lbracketbit
    else next_interval bm1.lbracketbit
  let bm2 := c1.s.get_bitmap_rbracket { bm1 with lbracketbit := lb }
  let bitmap_rbracket := bm2.rbracketbit &&& interval.intervalbit
  let num_close := popcountl bitmap_rbracket
  if num_close < num_open then
    if interval.is_complete = true then
      pure ({ c1 with bm := bm2 }, some (num_open - num_close + 1, word_id, true, new_word))
    else
      pure ({ c1 with bm := bm2 }, some (num_open - num_close, word_id + 1, false, true))
  else do
    let p ← get_position c1.s bitmap_rbracket num_open
    pure ({ c1 with bm := bm2, pos := p }, none)

/-- What follows a pass of the loop body: the result when the function has returned, the
loop `next` on the values for the next pass otherwise. -/
def afterIter (next : FF → Int → Int → Bool → Bool → Except Err FF)
    (r : FF × Option (Int × Int × Bool × Bool)) : Except Err FF :=
  match r.2 with
  | none => .ok r.1
  | some (num_open, word_id, first_interval, new_word) =>
    next r.1 num_open word_id first_interval new_word

/-! ## Auxiliary definitions for the expected types of a state -/

/-- The two expected types of a transition are not both set, unless the type expected in an
array is `OBJECT`. -/
def Unmixed (t : TransStrInfo) : Prop :=
  t.exp_type_in_obj = NONE ∨ t.exp_type_in_arr = NONE ∨ t.exp_type_in_arr = OBJECT

/-- The expected types in the table while the compiler is in lexer state `ls` with query
state `q`: every state is `Unmixed`, the states after `q` have no expected type, and state
`q` has none in lexer state 0, no object type in lexer state 2, and no array type other
than `OBJECT` in lexer state 1. -/
def TypesInv (ls q : Int) (qa : QueryAutomaton) : Prop :=
  (∀ idx : Int, Unmixed (QueryAutomaton.tr (qa.ele idx) 0)) ∧
  (∀ idx : Int, q ≤ idx →
    (QueryAutomaton.tr (qa.ele idx) 0).exp_type_in_obj = NONE ∧
    (QueryAutomaton.tr (qa.ele idx) 0).exp_type_in_arr = NONE) ∧
  (ls = 0 →
    (QueryAutomaton.tr (qa.ele (q - 1)) 0).exp_type_in_obj = NONE ∧
    (QueryAutomaton.tr (qa.ele (q - 1)) 0).exp_type_in_arr = NONE) ∧
  (ls = 2 → (QueryAutomaton.tr (qa.ele (q - 1)) 0).exp_type_in_obj = NONE) ∧
  (ls = 1 →
    (QueryAutomaton.tr (qa.ele (q - 1)) 0).exp_type_in_arr = NONE ∨
    (QueryAutomaton.tr (qa.ele (q - 1)) 0).exp_type_in_arr = OBJECT)

/-- The shape of a state of a linear automaton: one transition (slot 0; the other slots are
as the constructor left them), which is either untouched or leads to the state itself
(`idx + 1`) or to the next state (`idx + 2`); `idx` is the index of the state in the
table. -/
def LinearState (qa : QueryAutomaton) (idx : Int) : Prop :=
  (qa.ele idx).num_trans_str = 1 ∧
  (∀ i : Int, i ≠ 0 → QueryAutomaton.tr (qa.ele idx) i = TransStrInfo.init) ∧
  (QueryAutomaton.tr (qa.ele idx) 0 = TransStrInfo.init ∨
   (QueryAutomaton.tr (qa.ele idx) 0).next_state = idx + 1 ∨
   (QueryAutomaton.tr (qa.ele idx) 0).next_state = idx + 2)

/-! ## Auxiliary definitions for the match counter -/

/-- The run state with the match counter advanced by `m`. -/
def Run.addCount (m : Int) (r : Run) : Run := { r with mNumMatches := r.mNumMatches + m }

/-- The processor with the match counter set to zero (everything else as it is). -/
def QueryProcessor.resetCount (qp : QueryProcessor) : QueryProcessor :=
  { qp with mNumMatches := 0 }

/-! ## The automaton constructed over storage that is not zero-filled -/

/-- A transition after the constructor: the two expected types have the default member
initialiser `NONE`; `key`, `key_len` and `next_state` have no initialiser and keep what the
storage `raw` held. -/
def TransStrInfo.construct (raw : TransStrInfo) : TransStrInfo :=
  { raw with exp_type_in_obj := NONE, exp_type_in_arr := NONE }

/-- A state after the constructor: `num_trans_str = 1` and `has_index_constraint = false`
are default member initialisers; `matched_state`, `start_idx` and `end_idx` keep what the
storage held. -/
def StateTransEle.construct (raw : StateTransEle) : StateTransEle :=
  { raw with t_str_info := raw.t_str_info.map TransStrInfo.construct,
             num_trans_str := 1, has_index_constraint := false }

/-- The constructor `QueryAutomaton()` run over storage that holds `raw`: the default member
initialisers and `reset()`; every other member keeps the value of the storage. -/
def QueryAutomaton.construct (raw : QueryAutomaton) : QueryAutomaton :=
  QueryAutomaton.reset
    { raw with mDfa := { trans_ele := raw.mDfa.trans_ele.map StateTransEle.construct },
               mArrCounter := -1 }

/-- The constructor `QueryProcessor(query)` when the automaton is constructed over `raw`. -/
def QueryProcessor.onStorage (raw : QueryAutomaton) (query : List Nat) : QueryProcessor :=
  { s := Index.init { text := [], rec_start_pos := 0, rec_length := 0 },
    qa := JSONPathParser.updateQueryAutomaton query (QueryAutomaton.construct raw),
    mNumMatches := 0 }

/-- Storage whose bytes are zero except that every `key_len` holds 7. -/
def staleStorage : QueryAutomaton :=
  { mCurState := 0,
    mDfa := DFA.mk (List.replicate MAX_STATES
      (StateTransEle.mk
        (List.replicate MAX_TRANS_STRING (TransStrInfo.mk [] 7 0 0 0)) 0 false 0 0 false)),
    mArrCounter := 0,
    mStack := Stack.init }

/-- Storage whose bytes are all zero. -/
def zeroStorage : QueryAutomaton :=
  { mCurState := 0,
    mDfa := DFA.mk (List.replicate MAX_STATES
      (StateTransEle.mk
        (List.replicate MAX_TRANS_STRING (TransStrInfo.mk [] 0 0 0 0)) 0 false 0 0 false)),
    mArrCounter := 0,
    mStack := Stack.init }

/-! ## Appending a last element to a root array -/

/-- The elements followed by one more element `v` as the last sibling. -/
def appendLast (v : JVal) : JElems → JElems
  | .nil => .cons v .nil
  | .cons w rest => .cons w (appendLast v rest)

/-- The elements of the array `[\x7b"k...k":1,"a":2\x7d]` whose first key has 70 letters `k`:
the array has 84 bytes, the key ends with the quote at byte 73, the value `1` is byte 75, the
key `a` is at the bytes 77 to 79, its value `2` is byte 81, the object closes at byte 82 and
the array at byte 83. -/
def longKeyElems : JElems :=
  .cons (.obj (.cons (List.replicate 70 107) (.prim [49]) (.cons [97] (.prim [50]) .nil))) .nil

/-- The primitive `"\x7d"`: a string that holds a closing brace. -/
def braceString : JVal := .prim (bytes "\"\x7d\"")

end JsonSki

/-! # Properties -/

namespace JsonSki

/-! ## Bits of 64-bit words -/

theorem W64_eq : W64 = 2 ^ 64 := by decide

theorem testBit_not64 (a k : Nat) (hk : k < 64) : (not64 a).testBit k = !a.testBit k := by
  unfold not64
  rw [W64_eq, Nat.testBit_xor, Nat.testBit_two_pow_sub_one]
  simp [hk]

theorem testBit_shl64 (a n k : Nat) :
    (shl64 a n).testBit k = (decide (k < 64) && (decide (n ≤ k) && a.testBit (k - n))) := by
  unfold shl64
  rw [W64_eq, Nat.testBit_mod_two_pow, Nat.testBit_shiftLeft]

theorem testBit_cmpeqMask (v : List Nat) (c : Nat) :
    ∀ i : Nat, (cmpeqMask v c).testBit i = decide (v[i]? = some c) := by
  induction v with
  | nil => intro i; simp [cmpeqMask]
  | cons b v ih =>
    intro i
    cases i with
    | zero =>
      simp only [cmpeqMask, Nat.testBit_zero, List.getElem?_cons_zero, Option.some.injEq]
      by_cases h : b = c
      · simp [h, Nat.add_mul_mod_self_left]
      · simp [h, Nat.mul_mod_right]
    | succ i =>
      rw [Nat.testBit_succ]
      have h2 : ((if b = c then 1 else 0) + 2 * cmpeqMask v c) / 2 = cmpeqMask v c := by
        by_cases h : b = c
        · simp only [h, if_true]; omega
        · simp only [h, if_false]; omega
      simp only [cmpeqMask, h2, ih, List.getElem?_cons_succ]

theorem cmpeqMask_lt (v : List Nat) (c : Nat) : cmpeqMask v c < 2 ^ v.length := by
  induction v with
  | nil => simp [cmpeqMask]
  | cons b v ih =>
    simp only [cmpeqMask, List.length_cons, pow_succ]
    by_cases h : b = c
    · simp only [h, if_true]; omega
    · simp only [h, if_false]; omega

/-- Bit `k` of the raw bitmap `(hi << 32) | lo` built from the two lanes. -/
theorem testBit_rawBits (v0 v : List Nat) (c k : Nat) (h0 : v0.length = 32) (hk : k < 64) :
    (shl64 (cmpeqMask v c) 32 ||| cmpeqMask v0 c).testBit k
      = decide ((if k < 32 then v0[k]? else v[k - 32]?) = some c) := by
  rw [Nat.testBit_or, testBit_shl64, testBit_cmpeqMask, testBit_cmpeqMask]
  by_cases h : k < 32
  · have h1 : ¬ 32 ≤ k := by omega
    simp [h, h1, hk]
  · have h1 : 32 ≤ k := by omega
    have h2 : v0[k]? = none := List.getElem?_eq_none (by omega)
    simp [h, h1, hk, h2]

theorem testBit_classBits (s : Index) (c k : Nat) (h0 : s.v_text0.length = 32) (hk : k < 64) :
    (s.classBits c).testBit k
      = (decide ((if k < 32 then s.v_text0[k]? else s.v_text[k - 32]?) = some c)
          && !s.str_mask.testBit k) := by
  unfold Index.classBits
  rw [Nat.testBit_and, testBit_rawBits _ _ _ _ h0 hk, testBit_not64 _ _ hk]

/-! ## The lanes loaded by `build_bitmap_basic` -/

theorem load32_spec (s : Index) (i : Int) (v : List Nat) (h : s.load32 i = .ok v) :
    v.length = 32 ∧ ∀ j : Nat, j < 32 → s.rd (i + j) = .ok (v.getD j 0) ∧ v[j]? = some (v.getD j 0) := by
  unfold Index.load32 at h
  split at h
  · rename_i hb
    injection h with h
    subst h
    have hlen : ((s.mText.drop (s.mBase + i).toNat).take 32).length = 32 := by
      rw [List.length_take, List.length_drop]
      omega
    refine ⟨hlen, ?_⟩
    intro j hj
    constructor
    · unfold Index.rd
      rw [if_pos (by omega)]
      congr 1
      rw [List.getD_eq_getElem?_getD, List.getD_eq_getElem?_getD, List.getElem?_take,
        if_pos hj, List.getElem?_drop]
      congr 2
      omega
    · rw [List.getD_eq_getElem?_getD]
      have : j < ((s.mText.drop (s.mBase + i).toNat).take 32).length := by omega
      rw [List.getElem?_eq_getElem this]
      rfl
  · cases h

theorem build_bitmap_basic_lanes (s0 s : Index) (h : s0.build_bitmap_basic = .ok s) :
    s0.load32 (s0.start_id * 32) = .ok s.v_text0 ∧
    s0.load32 ((s0.start_id + 1) * 32) = .ok s.v_text ∧
    s.mText = s0.mText ∧ s.mBase = s0.mBase := by
  unfold Index.build_bitmap_basic at h
  cases h0 : s0.load32 (s0.start_id * 32) with
  | error e => simp [h0, bind, Except.bind] at h
  | ok v0 =>
    cases h1 : s0.load32 ((s0.start_id + 1) * 32) with
    | error e => simp [h0, h1, bind, Except.bind] at h
    | ok v =>
      simp only [h0, h1, bind, Except.bind, pure, Except.pure] at h
      injection h with h
      subst h
      exact ⟨rfl, rfl, rfl, rfl⟩

/-- The byte of the record under bit `k` of the word built by `build_bitmap_basic`. -/
theorem window_byte (s0 s : Index) (h : s0.build_bitmap_basic = .ok s) (k : Nat) (hk : k < 64) :
    s.v_text0.length = 32 ∧
    ∃ b : Nat, s0.rd (s0.start_id * 32 + k) = .ok b ∧
      (if k < 32 then s.v_text0[k]? else s.v_text[k - 32]?) = some b := by
  obtain ⟨h0, h1, _, _⟩ := build_bitmap_basic_lanes s0 s h
  obtain ⟨hl0, hb0⟩ := load32_spec s0 _ _ h0
  obtain ⟨_, hb1⟩ := load32_spec s0 _ _ h1
  refine ⟨hl0, ?_⟩
  by_cases hk32 : k < 32
  · obtain ⟨hr, hg⟩ := hb0 k hk32
    exact ⟨_, hr, by rw [if_pos hk32]; exact hg⟩
  · obtain ⟨hr, hg⟩ := hb1 (k - 32) (by omega)
    refine ⟨_, ?_, by rw [if_neg hk32]; exact hg⟩
    rw [← hr]
    congr 1
    omega

theorem classBits_bit (s0 s : Index) (h : s0.build_bitmap_basic = .ok s) (c k b : Nat)
    (hk : k < 64) (hb : s0.rd (s0.start_id * 32 + k) = .ok b) :
    ((s.classBits c).testBit k = true ↔ (b = c ∧ s.str_mask.testBit k = false)) := by
  obtain ⟨hl0, b', hb', hg⟩ := window_byte s0 s h k hk
  rw [hb] at hb'
  injection hb' with hb'
  subst hb'
  rw [testBit_classBits s c k hl0 hk, hg]
  simp

/-- C5. After `build_bitmap_basic` has loaded a 64-byte window, `get_bitmap_c` on a cache
whose flag for the class `c` is clear leaves a class bitmap whose bit `k` (`k < 64`) is 1
iff byte `k` of the window (the byte at offset `32 * start_id + k` of the record; bytes
0..31 are the low half, bytes 32..63 the high half) is the character of `c` and bit `k` of
the current string mask is 0. -/
theorem get_bitmap_bit_iff (s0 s : Index) (bm : bitmap) (k b : Nat)
    (hbuild : s0.build_bitmap_basic = .ok s) (hk : k < 64)
    (hb : s0.rd (s0.start_id * 32 + k) = .ok b) :
    (bm.has_colon = false → ((s.get_bitmap_colon bm).colonbit.testBit k = true ↔
      (b = chColon ∧ s.str_mask.testBit k = false))) ∧
    (bm.has_comma = false → ((s.get_bitmap_comma bm).commabit.testBit k = true ↔
      (b = chComma ∧ s.str_mask.testBit k = false))) ∧
    (bm.has_lbrace = false → ((s.get_bitmap_lbrace bm).lbracebit.testBit k = true ↔
      (b = chLBrace ∧ s.str_mask.testBit k = false))) ∧
    (bm.has_rbrace = false → ((s.get_bitmap_rbrace bm).rbracebit.testBit k = true ↔
      (b = chRBrace ∧ s.str_mask.testBit k = false))) ∧
    (bm.has_lbracket = false → ((s.get_bitmap_lbracket bm).lbracketbit.testBit k = true ↔
      (b = chLBracket ∧ s.str_mask.testBit k = false))) ∧
    (bm.has_rbracket = false → ((s.get_bitmap_rbracket bm).rbracketbit.testBit k = true ↔
      (b = chRBracket ∧ s.str_mask.testBit k = false))) := by
  refine ⟨?_, ?_, ?_, ?_, ?_, ?_⟩ <;> intro hflag
  · simp only [Index.get_bitmap_colon, hflag, if_true, Index.build_bitmap_colon]
    exact classBits_bit s0 s hbuild _ k b hk hb
  · simp only [Index.get_bitmap_comma, hflag, if_true, Index.build_bitmap_comma]
    exact classBits_bit s0 s hbuild _ k b hk hb
  · simp only [Index.get_bitmap_lbrace, hflag, if_true, Index.build_bitmap_lbrace]
    exact classBits_bit s0 s hbuild _ k b hk hb
  · simp only [Index.get_bitmap_rbrace, hflag, if_true, Index.build_bitmap_rbrace]
    exact classBits_bit s0 s hbuild _ k b hk hb
  · simp only [Index.get_bitmap_lbracket, hflag, if_true, Index.build_bitmap_lbracket]
    exact classBits_bit s0 s hbuild _ k b hk hb
  · simp only [Index.get_bitmap_rbracket, hflag, if_true, Index.build_bitmap_rbracket]
    exact classBits_bit s0 s hbuild _ k b hk hb

/-! ## Disjointness of the class bitmaps -/

theorem classBits_disjoint (s : Index) (c1 c2 : Nat) (hne : c1 ≠ c2)
    (h0 : s.v_text0.length = 32) : s.classBits c1 &&& s.classBits c2 = 0 := by
  apply Nat.eq_of_testBit_eq
  intro i
  rw [Nat.zero_testBit, Nat.testBit_and]
  unfold Index.classBits
  rw [Nat.testBit_and, Nat.testBit_and, Nat.testBit_or, Nat.testBit_or, testBit_shl64,
    testBit_shl64, testBit_cmpeqMask, testBit_cmpeqMask, testBit_cmpeqMask, testBit_cmpeqMask]
  by_cases hi : i < 32
  · have h1 : ¬ 32 ≤ i := by omega
    by_cases ha : s.v_text0[i]? = some c1
    · have hb : s.v_text0[i]? ≠ some c2 := by
        rw [ha]; intro h; exact hne (Option.some.inj h)
      simp [h1, ha, hne]
    · simp [h1, ha]
  · have h2 : s.v_text0[i]? = none := List.getElem?_eq_none (by omega)
    by_cases ha : s.v_text[i - 32]? = some c1
    · have hb : s.v_text[i - 32]? ≠ some c2 := by
        rw [ha]; intro h; exact hne (Option.some.inj h)
      simp [h2, ha, hne]
    · simp [h2, ha]

theorem buildAll_classes (s : Index) (bm : bitmap) :
    (s.buildAll bm).classes =
      [s.classBits chColon, s.classBits chComma, s.classBits chLBrace, s.classBits chRBrace,
       s.classBits chLBracket, s.classBits chRBracket] := rfl

/-- C6. The six class bitmaps built from one window are pairwise disjoint, and hence at every
bit position at most one of them has its bit set (a position whose bit is set in the union
has it set in exactly one class bitmap). -/
theorem class_bitmaps_disjoint (s0 s : Index) (bm : bitmap)
    (hbuild : s0.build_bitmap_basic = .ok s) :
    List.Pairwise (fun a b => a &&& b = 0) (s.buildAll bm).classes ∧
    ∀ k : Nat, (((s.buildAll bm).classes.filter (fun a => a.testBit k)).length ≤ 1) := by
  obtain ⟨hl0, _⟩ := window_byte s0 s hbuild 0 (by decide)
  have hd : ∀ c1 c2 : Nat, c1 ≠ c2 → s.classBits c1 &&& s.classBits c2 = 0 :=
    fun c1 c2 hne => classBits_disjoint s c1 c2 hne hl0
  have hpair : List.Pairwise (fun a b => a &&& b = 0) (s.buildAll bm).classes := by
    rw [buildAll_classes]
    simp only [List.pairwise_cons, List.mem_cons, List.mem_singleton, forall_eq_or_imp, forall_eq,
      List.not_mem_nil, false_implies, implies_true, List.Pairwise.nil, and_true]
    refine ⟨⟨?_, ?_, ?_, ?_, ?_⟩, ⟨?_, ?_, ?_, ?_⟩, ⟨?_, ?_, ?_⟩, ⟨?_, ?_⟩, ?_⟩ <;>
      exact hd _ _ (by decide)
  refine ⟨hpair, ?_⟩
  intro k
  have hb : ∀ c1 c2 : Nat, c1 ≠ c2 →
      ¬ ((s.classBits c1).testBit k = true ∧ (s.classBits c2).testBit k = true) := by
    intro c1 c2 hne h
    have h1 := congrArg (fun x => Nat.testBit x k) (hd c1 c2 hne)
    simp only [Nat.testBit_and, Nat.zero_testBit, h.1, h.2, Bool.and_self] at h1
    exact Bool.noConfusion h1
  rw [buildAll_classes]
  have h12 := hb chColon chComma (by decide)
  have h13 := hb chColon chLBrace (by decide)
  have h14 := hb chColon chRBrace (by decide)
  have h15 := hb chColon chLBracket (by decide)
  have h16 := hb chColon chRBracket (by decide)
  have h23 := hb chComma chLBrace (by decide)
  have h24 := hb chComma chRBrace (by decide)
  have h25 := hb chComma chLBracket (by decide)
  have h26 := hb chComma chRBracket (by decide)
  have h34 := hb chLBrace chRBrace (by decide)
  have h35 := hb chLBrace chLBracket (by decide)
  have h36 := hb chLBrace chRBracket (by decide)
  have h45 := hb chRBrace chLBracket (by decide)
  have h46 := hb chRBrace chRBracket (by decide)
  have h56 := hb chLBracket chRBracket (by decide)
  simp only [List.filter_cons, List.filter_nil]
  revert h12 h13 h14 h15 h16 h23 h24 h25 h26 h34 h35 h36 h45 h46 h56
  generalize (s.classBits chColon).testBit k = b1
  generalize (s.classBits chComma).testBit k = b2
  generalize (s.classBits chLBrace).testBit k = b3
  generalize (s.classBits chRBrace).testBit k = b4
  generalize (s.classBits chLBracket).testBit k = b5
  generalize (s.classBits chRBracket).testBit k = b6
  cases b1 <;> cases b2 <;> cases b3 <;> cases b4 <;> cases b5 <;> cases b6 <;> simp

/-! ## Addition of 64-bit words, bit by bit -/

theorem carryAt_zero (a b : Nat) : carryAt a b 0 = false := by
  simp [carryAt, Nat.mod_one]

theorem carryAt_eq_carry (a b k : Nat) (ha : a < 2 ^ 64) (hb : b < 2 ^ 64) :
    carryAt a b k = BitVec.carry k (BitVec.ofNat 64 a) (BitVec.ofNat 64 b) false := by
  have ha' : a % 18446744073709551616 = a := Nat.mod_eq_of_lt (by simpa using ha)
  have hb' : b % 18446744073709551616 = b := Nat.mod_eq_of_lt (by simpa using hb)
  simp [carryAt, BitVec.carry, BitVec.toNat_ofNat, ha', hb']

theorem carryAt_succ (a b k : Nat) (ha : a < 2 ^ 64) (hb : b < 2 ^ 64) :
    carryAt a b (k + 1) = Bool.atLeastTwo (a.testBit k) (b.testBit k) (carryAt a b k) := by
  rw [carryAt_eq_carry a b _ ha hb, carryAt_eq_carry a b _ ha hb, BitVec.carry_succ]
  have ha' : a % 18446744073709551616 = a := Nat.mod_eq_of_lt (by simpa using ha)
  have hb' : b % 18446744073709551616 = b := Nat.mod_eq_of_lt (by simpa using hb)
  simp [BitVec.getLsbD, BitVec.toNat_ofNat, ha', hb']

theorem testBit_add64 (a b k : Nat) (ha : a < 2 ^ 64) (hb : b < 2 ^ 64) (hk : k < 64) :
    (add64 a b).testBit k = xor (a.testBit k) (xor (b.testBit k) (carryAt a b k)) := by
  have h := BitVec.getLsbD_add hk (BitVec.ofNat 64 a) (BitVec.ofNat 64 b)
  have ha' : a % 18446744073709551616 = a := Nat.mod_eq_of_lt (by simpa using ha)
  have hb' : b % 18446744073709551616 = b := Nat.mod_eq_of_lt (by simpa using hb)
  rw [← carryAt_eq_carry a b k ha hb] at h
  simp only [BitVec.getLsbD, BitVec.toNat_add, BitVec.toNat_ofNat, Nat.reducePow, ha', hb'] at h
  unfold add64 W64
  exact h

theorem overflow_eq_carryAt (a b : Nat) (ha : a < 2 ^ 64) (hb : b < 2 ^ 64) :
    decide (W64 ≤ a + b) = carryAt a b 64 := by
  have ha' : a % 18446744073709551616 = a := Nat.mod_eq_of_lt (by simpa using ha)
  have hb' : b % 18446744073709551616 = b := Nat.mod_eq_of_lt (by simpa using hb)
  simp [carryAt, W64, ha', hb']

/-! ## The escape analysis of `build_bitmap_basic` (step 2) -/

theorem testBit_even_bits : ∀ k : Nat, k < 64 →
    (0x5555555555555555 : Nat).testBit k = decide (k % 2 = 0) := by decide!

theorem testBit_le_one (prev k : Nat) (h : prev ≤ 1) :
    prev.testBit k = (decide (k = 0) && decide (prev = 1)) := by
  have h2 : prev = 0 ∨ prev = 1 := by omega
  rcases h2 with h2 | h2
  · subst h2; simp
  · subst h2
    by_cases hk : k = 0
    · subst hk; simp
    · have : Nat.testBit 1 k = false := by
        cases hb : Nat.testBit 1 k
        · rfl
        · exact absurd (Nat.testBit_one_eq_true_iff_self_eq_zero.1 hb) hk
      simp [this, hk]

/-- Bit `k - 1` of `B`, for `k ≥ 1`. -/
theorem testBit_shl64_one (B k : Nat) (hk : k < 64) :
    (shl64 B 1).testBit k = (decide (1 ≤ k) && B.testBit (k - 1)) := by
  rw [testBit_shl64]; simp [hk]

theorem escAt_imp (B prev : Nat) : ∀ k, escAt B prev k = true → k = 0 ∨ B.testBit (k - 1) = true
  | 0, _ => Or.inl rfl
  | k + 1, h => by
    right
    simp only [escAt, Bool.and_eq_true] at h
    simpa using h.1

theorem bool_step_even (bk pbk ek ev z pv : Bool) (h1 : z = true → ev = true)
    (h2 : z = true → pbk = false) (h3 : z = true → ek = pv)
    (h4 : z = false → ek = true → pbk = true) :
    Bool.atLeastTwo bk (bk && !pbk && (xor ev (z && pv))) (pbk && (ek == !ev))
      = (bk && ((bk && !ek) == ev)) := by
  cases bk <;> cases pbk <;> cases ek <;> cases ev <;> cases z <;> cases pv <;>
    first
      | rfl
      | exact absurd (h4 rfl rfl) (by decide)
      | exact absurd (h1 rfl) (by decide)
      | exact absurd (h2 rfl) (by decide)
      | exact absurd (h3 rfl) (by decide)

theorem bool_step_odd (bk pbk ek ev z pv : Bool) (h1 : z = true → ev = true)
    (h2 : z = true → pbk = false) (h3 : z = true → ek = pv)
    (h4 : z = false → ek = true → pbk = true) :
    Bool.atLeastTwo bk (bk && !pbk && !(xor ev (z && pv))) (pbk && (ek == ev))
      = (bk && ((bk && !ek) == !ev)) := by
  cases bk <;> cases pbk <;> cases ek <;> cases ev <;> cases z <;> cases pv <;>
    first
      | rfl
      | exact absurd (h4 rfl rfl) (by decide)
      | exact absurd (h1 rfl) (by decide)
      | exact absurd (h2 rfl) (by decide)
      | exact absurd (h3 rfl) (by decide)

theorem bool_odd_ends (bk pbk ek ev z pv : Bool) (h1 : z = true → ev = true)
    (h2 : z = true → pbk = false) (h3 : z = true → ek = pv)
    (h4 : z = false → ek = true → pbk = true) :
    (((xor bk (xor (bk && !pbk && (xor ev (z && pv))) (pbk && (ek == !ev)))) && !bk && !ev) ||
     (((xor bk (xor (bk && !pbk && !(xor ev (z && pv))) (pbk && (ek == ev)))) || (z && pv))
        && !bk && ev))
      = (!bk && ek) := by
  cases bk <;> cases pbk <;> cases ek <;> cases ev <;> cases z <;> cases pv <;>
    first
      | rfl
      | exact absurd (h4 rfl rfl) (by decide)
      | exact absurd (h1 rfl) (by decide)
      | exact absurd (h2 rfl) (by decide)
      | exact absurd (h3 rfl) (by decide)

theorem parity_succ (k : Nat) : (!decide ((k + 1) % 2 = 0)) = decide (k % 2 = 0) := by
  by_cases h : k % 2 = 0
  · have : (k + 1) % 2 ≠ 0 := by omega
    simp [h, this]
  · have : (k + 1) % 2 = 0 := by omega
    simp [h, this]

theorem testBit_evenStarts (B prev k : Nat) (hp : prev ≤ 1) (hk : k < 64) :
    (B &&& not64 (shl64 B 1) &&& (0x5555555555555555 ^^^ prev)).testBit k
      = (B.testBit k && !(decide (1 ≤ k) && B.testBit (k - 1))
          && (xor (decide (k % 2 = 0)) (decide (k = 0) && decide (prev = 1)))) := by
  rw [Nat.testBit_and, Nat.testBit_and, testBit_not64 _ _ hk, testBit_shl64_one _ _ hk,
    Nat.testBit_xor, testBit_even_bits k hk, testBit_le_one prev k hp]

theorem testBit_oddStarts (B prev k : Nat) (hp : prev ≤ 1) (hk : k < 64) :
    (B &&& not64 (shl64 B 1) &&& not64 (0x5555555555555555 ^^^ prev)).testBit k
      = (B.testBit k && !(decide (1 ≤ k) && B.testBit (k - 1))
          && !(xor (decide (k % 2 = 0)) (decide (k = 0) && decide (prev = 1)))) := by
  rw [Nat.testBit_and, Nat.testBit_and, testBit_not64 _ _ hk, testBit_not64 _ _ hk,
    testBit_shl64_one _ _ hk, Nat.testBit_xor, testBit_even_bits k hk, testBit_le_one prev k hp]

theorem and_lt_of_lt (a b n : Nat) (h : a < n) : a &&& b < n :=
  lt_of_le_of_lt Nat.and_le_left h

theorem escape_side (B prev k : Nat) :
    (decide (k = 0) = true → decide (k % 2 = 0) = true) ∧
    (decide (k = 0) = true → (decide (1 ≤ k) && B.testBit (k - 1)) = false) ∧
    (decide (k = 0) = true → escAt B prev k = decide (prev = 1)) ∧
    (decide (k = 0) = false → escAt B prev k = true →
      (decide (1 ≤ k) && B.testBit (k - 1)) = true) := by
  refine ⟨?_, ?_, ?_, ?_⟩
  · intro h; simp only [decide_eq_true_eq] at h; subst h; rfl
  · intro h; simp only [decide_eq_true_eq] at h; subst h; rfl
  · intro h; simp only [decide_eq_true_eq] at h; subst h; rfl
  · intro h he
    simp only [decide_eq_false_iff_not] at h
    rcases escAt_imp B prev k he with h0 | h0
    · exact absurd h0 h
    · have : 1 ≤ k := by omega
      simp [this, h0]

/-- The carries of the two additions of step 2, in terms of the escape flag. -/
theorem carry_escape (B prev : Nat) (hB : B < 2 ^ 64) (hp : prev ≤ 1) : ∀ k : Nat, k ≤ 64 →
    carryAt B (B &&& not64 (shl64 B 1) &&& (0x5555555555555555 ^^^ prev)) k
      = ((decide (1 ≤ k) && B.testBit (k - 1)) && (escAt B prev k == !decide (k % 2 = 0))) ∧
    carryAt B (B &&& not64 (shl64 B 1) &&& not64 (0x5555555555555555 ^^^ prev)) k
      = ((decide (1 ≤ k) && B.testBit (k - 1)) && (escAt B prev k == decide (k % 2 = 0))) := by
  intro k
  induction k with
  | zero => intro _; simp [carryAt_zero]
  | succ k ih =>
    intro hk
    have hk' : k < 64 := by omega
    obtain ⟨ihe, iho⟩ := ih (by omega)
    obtain ⟨h1, h2, h3, h4⟩ := escape_side B prev k
    have hES : B &&& not64 (shl64 B 1) &&& (0x5555555555555555 ^^^ prev) < 2 ^ 64 :=
      and_lt_of_lt _ _ _ (and_lt_of_lt _ _ _ hB)
    have hOS : B &&& not64 (shl64 B 1) &&& not64 (0x5555555555555555 ^^^ prev) < 2 ^ 64 :=
      and_lt_of_lt _ _ _ (and_lt_of_lt _ _ _ hB)
    have hpb : (decide (1 ≤ k + 1) && B.testBit (k + 1 - 1)) = B.testBit k := by simp
    constructor
    · rw [carryAt_succ _ _ _ hB hES, ihe, testBit_evenStarts B prev k hp hk',
        bool_step_even _ _ _ _ _ _ h1 h2 h3 h4, hpb, parity_succ]
      rfl
    · rw [carryAt_succ _ _ _ hB hOS, iho, testBit_oddStarts B prev k hp hk',
        bool_step_odd _ _ _ _ _ _ h1 h2 h3 h4, hpb, ← parity_succ k, Bool.not_not]
      rfl

/-- Bit `k` of `odd_ends` is set iff byte `k` is not a backslash and is escaped. -/
theorem testBit_oddEnds (B prev k : Nat) (hB : B < 2 ^ 64) (hp : prev ≤ 1) (hk : k < 64) :
    (oddEnds 0x5555555555555555 (not64 0x5555555555555555) B prev).testBit k
      = (!B.testBit k && escAt B prev k) := by
  obtain ⟨he, ho⟩ := carry_escape B prev hB hp k (by omega)
  obtain ⟨h1, h2, h3, h4⟩ := escape_side B prev k
  have hES : B &&& not64 (shl64 B 1) &&& (0x5555555555555555 ^^^ prev) < 2 ^ 64 :=
    and_lt_of_lt _ _ _ (and_lt_of_lt _ _ _ hB)
  have hOS : B &&& not64 (shl64 B 1) &&& not64 (0x5555555555555555 ^^^ prev) < 2 ^ 64 :=
    and_lt_of_lt _ _ _ (and_lt_of_lt _ _ _ hB)
  unfold oddEnds
  rw [Nat.testBit_or, Nat.testBit_and, Nat.testBit_and, Nat.testBit_and, Nat.testBit_and,
    Nat.testBit_or, testBit_add64 _ _ _ hB hES hk, testBit_add64 _ _ _ hB hOS hk,
    testBit_not64 _ _ hk, testBit_not64 _ _ hk, testBit_even_bits k hk, testBit_le_one prev k hp,
    he, ho, testBit_evenStarts B prev k hp hk, testBit_oddStarts B prev k hp hk]
  exact bool_odd_ends _ _ _ _ _ _ h1 h2 h3 h4

/-- The carry out of the odd addition is the escape flag of the first byte of the next
word. -/
theorem oddOverflow_eq (B prev : Nat) (hB : B < 2 ^ 64) (hp : prev ≤ 1) :
    oddOverflow 0x5555555555555555 B prev = escAt B prev 64 := by
  have hOS : B &&& not64 (shl64 B 1) &&& not64 (0x5555555555555555 ^^^ prev) < 2 ^ 64 :=
    and_lt_of_lt _ _ _ (and_lt_of_lt _ _ _ hB)
  unfold oddOverflow
  rw [overflow_eq_carryAt _ _ hB hOS, (carry_escape B prev hB hp 64 (le_refl _)).2]
  show ((decide (1 ≤ 64) && B.testBit 63) &&
    ((B.testBit 63 && !escAt B prev 63) == decide (64 % 2 = 0)))
      = (B.testBit 63 && !escAt B prev 63)
  generalize B.testBit 63 = b
  generalize escAt B prev 63 = e
  cases b <;> cases e <;> rfl

/-! ## The string mask (step 3) -/

theorem testBit_allOnes_shift (n k : Nat) (hk : k < 64) :
    ((W64 - 1) <<< n).testBit k = decide (n ≤ k) := by
  rw [Nat.testBit_shiftLeft, W64_eq, Nat.testBit_two_pow_sub_one]
  by_cases h : n ≤ k
  · have : k - n < 64 := by omega
    simp [h, this]
  · simp [h]

theorem testBit_clmulAux (a k : Nat) (hk : k < 64) : ∀ n : Nat,
    (clmulAux a (W64 - 1) n).testBit k = prefixXor a (min n (k + 1)) := by
  intro n
  induction n with
  | zero => simp [clmulAux, prefixXor]
  | succ n ih =>
    unfold clmulAux
    rw [Nat.testBit_xor, ih]
    by_cases hn : n ≤ k
    · have h1 : min (n + 1) (k + 1) = n + 1 := by omega
      have h2 : min n (k + 1) = n := by omega
      rw [h1, h2]
      by_cases hb : a.testBit n = true
      · rw [if_pos hb, testBit_allOnes_shift n k hk]
        simp [prefixXor, hn, hb]
      · simp only [Bool.not_eq_true] at hb
        simp [prefixXor, hb]
    · have h1 : min (n + 1) (k + 1) = k + 1 := by omega
      have h2 : min n (k + 1) = k + 1 := by omega
      rw [h1, h2]
      by_cases hb : a.testBit n = true
      · rw [if_pos hb, testBit_allOnes_shift n k hk]
        simp [hn]
      · simp only [Bool.not_eq_true] at hb
        simp [hb]

/-- Bit `k` of the carry-less product with all-ones is the parity of the bits `0 .. k`. -/
theorem testBit_clmul64 (a k : Nat) (hk : k < 64) :
    (clmul64 a (W64 - 1)).testBit k = prefixXor a (k + 1) := by
  unfold clmul64
  rw [W64_eq, Nat.testBit_mod_two_pow, ← W64_eq, testBit_clmulAux a k hk 64]
  have : min 64 (k + 1) = k + 1 := by omega
  simp [this, hk]

theorem testBit_mask64 (b : Bool) (k : Nat) (hk : k < 64) :
    (if b = true then W64 - 1 else 0).testBit k = b := by
  cases b
  · simp
  · rw [if_pos rfl, W64_eq, Nat.testBit_two_pow_sub_one]
    simp [hk]

/-! ## The reference tokenizer -/

theorem tokAt_succ (text : List Nat) (p : Nat) (h : p < text.length) :
    tokAt text (p + 1) = tokStep (tokAt text p) (text.getD p 0) := by
  unfold tokAt
  rw [List.take_succ, List.foldl_append]
  have : text[p]? = some (text.getD p 0) := by
    rw [List.getD_eq_getElem?_getD, List.getElem?_eq_getElem h]
    rfl
  rw [this]
  rfl

theorem quote_ne_backslash : chQuote ≠ chBackslash := by decide

theorem tokStep_escaped (st : TokState) (b : Nat) :
    (tokStep st b).escaped = (decide (b = chBackslash) && !st.escaped) := by
  unfold tokStep
  cases he : st.escaped
  · by_cases hb : b = chBackslash
    · simp [hb]
    · by_cases hq : b = chQuote
      · simp [hb, hq, he, quote_ne_backslash]
      · simp [hb, hq, he]
  · simp

theorem tokStep_inString (st : TokState) (b : Nat) :
    (tokStep st b).inString = xor st.inString (decide (b = chQuote) && !st.escaped) := by
  unfold tokStep
  cases he : st.escaped
  · by_cases hb : b = chBackslash
    · simp [hb, quote_ne_backslash.symm]
    · by_cases hq : b = chQuote
      · simp [hb, hq, quote_ne_backslash]
      · simp [hb, hq]
  · simp

/-- The escape flag of the index builder is the escape flag of the tokenizer. -/
theorem escAt_tok (text : List Nat) (p0 B prev : Nat) (hlen : p0 + 64 ≤ text.length)
    (hB : ∀ j : Nat, j < 64 → B.testBit j = decide (text.getD (p0 + j) 0 = chBackslash))
    (hprev : prev = if (tokAt text p0).escaped = true then 1 else 0) :
    ∀ k : Nat, k ≤ 64 → escAt B prev k = (tokAt text (p0 + k)).escaped := by
  intro k
  induction k with
  | zero =>
    intro _
    simp only [escAt, Nat.add_zero, hprev]
    cases (tokAt text p0).escaped <;> simp
  | succ k ih =>
    intro hk
    have h1 : p0 + (k + 1) = (p0 + k) + 1 := by omega
    rw [h1, tokAt_succ text (p0 + k) (by omega), tokStep_escaped, ← ih (by omega),
      ← hB k (by omega)]
    rfl

/-- The string state of the tokenizer is the prefix parity of the unescaped quotes. -/
theorem inString_tok (text : List Nat) (p0 q : Nat) (hlen : p0 + 64 ≤ text.length)
    (hq : ∀ j : Nat, j < 64 → q.testBit j
      = (decide (text.getD (p0 + j) 0 = chQuote) && !(tokAt text (p0 + j)).escaped)) :
    ∀ k : Nat, k ≤ 64 →
      (tokAt text (p0 + k)).inString = xor (tokAt text p0).inString (prefixXor q k) := by
  intro k
  induction k with
  | zero => intro _; simp [prefixXor]
  | succ k ih =>
    intro hk
    have h1 : p0 + (k + 1) = (p0 + k) + 1 := by omega
    rw [h1, tokAt_succ text (p0 + k) (by omega), tokStep_inString, ih (by omega), prefixXor,
      hq k (by omega), Bool.xor_assoc]

/-! ## `build_bitmap_basic` on one window -/

theorem build_bitmap_basic_eq (s0 : Index) (v0 v : List Nat)
    (h0 : s0.load32 (s0.start_id * 32) = .ok v0)
    (h1 : s0.load32 ((s0.start_id + 1) * 32) = .ok v) :
    s0.build_bitmap_basic = .ok
      { s0 with
        top_word := s0.start_id / 2,
        start_id := s0.start_id + 1,
        v_text0 := v0,
        v_text := v,
        quote_bits := rawBits v0 v chQuote &&&
          not64 (oddEnds s0.even_bits s0.odd_bits (rawBits v0 v chBackslash)
            s0.prev_iter_ends_odd_backslash),
        str_mask := clmul64 (rawBits v0 v chQuote &&&
          not64 (oddEnds s0.even_bits s0.odd_bits (rawBits v0 v chBackslash)
            s0.prev_iter_ends_odd_backslash)) (W64 - 1) ^^^ s0.prev_iter_inside_quote,
        prev_iter_ends_odd_backslash :=
          if oddOverflow s0.even_bits (rawBits v0 v chBackslash)
            s0.prev_iter_ends_odd_backslash = true then 1 else 0,
        prev_iter_inside_quote :=
          if (clmul64 (rawBits v0 v chQuote &&&
            not64 (oddEnds s0.even_bits s0.odd_bits (rawBits v0 v chBackslash)
              s0.prev_iter_ends_odd_backslash)) (W64 - 1) ^^^
                s0.prev_iter_inside_quote).testBit 63 = true then W64 - 1 else 0 } := by
  unfold Index.build_bitmap_basic
  simp only [h0, h1, bind, Except.bind, pure, Except.pure]
  rfl

theorem load32_ok (text : List Nat) (s : Index) (p : Nat) (hT : s.mText = text)
    (hb : s.mBase = 0) (hlen : p + 32 ≤ text.length) :
    s.load32 (p : Int) = .ok ((text.drop p).take 32) := by
  unfold Index.load32
  rw [hT, hb, if_pos (by omega)]
  simp

theorem lane_getElem (text : List Nat) (p k : Nat) (hk : k < 32) (hlen : p + 32 ≤ text.length) :
    ((text.drop p).take 32)[k]? = some (text.getD (p + k) 0) := by
  rw [List.getElem?_take, if_pos hk, List.getElem?_drop, List.getD_eq_getElem?_getD,
    List.getElem?_eq_getElem (by omega)]
  rfl

theorem testBit_rawBits_text (text : List Nat) (p c k : Nat) (hk : k < 64)
    (hlen : p + 64 ≤ text.length) :
    (rawBits ((text.drop p).take 32) ((text.drop (p + 32)).take 32) c).testBit k
      = decide (text.getD (p + k) 0 = c) := by
  unfold rawBits
  rw [testBit_rawBits _ _ _ _ (by rw [List.length_take, List.length_drop]; omega) hk]
  by_cases h : k < 32
  · rw [if_pos h, lane_getElem text p k h (by omega)]
    simp
  · rw [if_neg h, lane_getElem text (p + 32) (k - 32) (by omega) (by omega)]
    have : p + 32 + (k - 32) = p + k := by omega
    rw [this]
    simp

theorem rawBits_lt (v0 v : List Nat) (c : Nat) (h0 : v0.length = 32) :
    rawBits v0 v c < 2 ^ 64 := by
  unfold rawBits
  apply Nat.or_lt_two_pow
  · unfold shl64
    rw [W64_eq]
    exact Nat.mod_lt _ (by decide)
  · have := cmpeqMask_lt v0 c
    rw [h0] at this
    exact lt_trans this (by decide)

/-- What `build_bitmap_basic` computes on window `w` when its carries agree with the
tokenizer state before the window. -/
theorem window_step (text : List Nat) (w : Nat) (s0 : Index)
    (hlen : 64 * w + 64 ≤ text.length) (hT : s0.mText = text) (hb : s0.mBase = 0)
    (hE : s0.even_bits = 0x5555555555555555) (hO : s0.odd_bits = not64 0x5555555555555555)
    (hid : s0.start_id = ((2 * w : Nat) : Int))
    (hpo : s0.prev_iter_ends_odd_backslash
      = if (tokAt text (64 * w)).escaped = true then 1 else 0)
    (hpi : s0.prev_iter_inside_quote
      = if (tokAt text (64 * w)).inString = true then W64 - 1 else 0) :
    ∃ s : Index, s0.build_bitmap_basic = .ok s ∧ s.mText = text ∧ s.mBase = 0 ∧
      s.even_bits = 0x5555555555555555 ∧ s.odd_bits = not64 0x5555555555555555 ∧
      s.prev_iter_ends_odd_backslash
        = (if (tokAt text (64 * w + 64)).escaped = true then 1 else 0) ∧
      s.prev_iter_inside_quote
        = (if (tokAt text (64 * w + 64)).inString = true then W64 - 1 else 0) ∧
      s.v_text0.length = 32 ∧
      (∀ k : Nat, k < 64 → s.str_mask.testBit k = (tokAt text (64 * w + k + 1)).inString) := by
  have hi0 : s0.start_id * 32 = ((64 * w : Nat) : Int) := by rw [hid]; push_cast; ring
  have hi1 : (s0.start_id + 1) * 32 = ((64 * w + 32 : Nat) : Int) := by
    rw [hid]; push_cast; ring
  have h0 : s0.load32 (s0.start_id * 32) = .ok ((text.drop (64 * w)).take 32) := by
    rw [hi0]; exact load32_ok text s0 _ hT hb (by omega)
  have h1 : s0.load32 ((s0.start_id + 1) * 32) = .ok ((text.drop (64 * w + 32)).take 32) := by
    rw [hi1]; exact load32_ok text s0 _ hT hb (by omega)
  have hl0 : ((text.drop (64 * w)).take 32).length = 32 := by
    rw [List.length_take, List.length_drop]; omega
  have hp1 : s0.prev_iter_ends_odd_backslash ≤ 1 := by
    rw [hpo]; split <;> omega
  have hBlt := rawBits_lt ((text.drop (64 * w)).take 32) ((text.drop (64 * w + 32)).take 32)
    chBackslash hl0
  have hBbit := fun (j : Nat) (hj : j < 64) =>
    testBit_rawBits_text text (64 * w) chBackslash j hj hlen
  have hQbit := fun (j : Nat) (hj : j < 64) =>
    testBit_rawBits_text text (64 * w) chQuote j hj hlen
  have hesc := escAt_tok text (64 * w) _ _ hlen hBbit hpo
  -- the bits of quote_bits
  have hqb : ∀ j : Nat, j < 64 →
      (rawBits ((text.drop (64 * w)).take 32) ((text.drop (64 * w + 32)).take 32) chQuote &&&
        not64 (oddEnds s0.even_bits s0.odd_bits
          (rawBits ((text.drop (64 * w)).take 32) ((text.drop (64 * w + 32)).take 32) chBackslash)
          s0.prev_iter_ends_odd_backslash)).testBit j
        = (decide (text.getD (64 * w + j) 0 = chQuote) && !(tokAt text (64 * w + j)).escaped) := by
    intro j hj
    rw [Nat.testBit_and, testBit_not64 _ _ hj, hE, hO, testBit_oddEnds _ _ _ hBlt hp1 hj,
      hQbit j hj, hBbit j hj, hesc j (by omega)]
    by_cases hq : text.getD (64 * w + j) 0 = chQuote
    · have : text.getD (64 * w + j) 0 ≠ chBackslash := by rw [hq]; exact quote_ne_backslash
      rw [decide_eq_true hq, decide_eq_false this]
      simp
    · rw [decide_eq_false hq]
      simp
  have hin := inString_tok text (64 * w) _ hlen hqb
  have hmask : ∀ k : Nat, k < 64 →
      (clmul64 (rawBits ((text.drop (64 * w)).take 32) ((text.drop (64 * w + 32)).take 32) chQuote
        &&& not64 (oddEnds s0.even_bits s0.odd_bits
          (rawBits ((text.drop (64 * w)).take 32) ((text.drop (64 * w + 32)).take 32) chBackslash)
          s0.prev_iter_ends_odd_backslash)) (W64 - 1) ^^^ s0.prev_iter_inside_quote).testBit k
        = (tokAt text (64 * w + k + 1)).inString := by
    intro k hk
    rw [Nat.testBit_xor, testBit_clmul64 _ _ hk, hpi, testBit_mask64 _ _ hk,
      Nat.add_assoc, hin (k + 1) (by omega), Bool.xor_comm]
  refine ⟨_, build_bitmap_basic_eq s0 _ _ h0 h1, hT, hb, hE, hO, ?_, ?_, hl0, hmask⟩
  · show (if oddOverflow s0.even_bits _ s0.prev_iter_ends_odd_backslash = true then 1 else 0) = _
    rw [hE, oddOverflow_eq _ _ hBlt hp1, hesc 64 (le_refl _)]
  · show (if (_ : Nat).testBit 63 = true then W64 - 1 else 0) = _
    rw [hmask 63 (by decide)]

/-! ## Scanning the windows in order -/

theorem tokAt_zero (text : List Nat) :
    tokAt text 0 = { inString := false, escaped := false } := by
  simp [tokAt]

/-- After the windows `0 .. w` have been built in order, the carries and the string mask
of the index builder agree with the reference tokenizer. -/
theorem scanWindows_tok (text : List Nat) : ∀ w : Nat, 64 * w + 64 ≤ text.length →
    ∃ s : Index, scanWindows (Record.ofBytes text) w = .ok s ∧ s.mText = text ∧ s.mBase = 0 ∧
      s.even_bits = 0x5555555555555555 ∧ s.odd_bits = not64 0x5555555555555555 ∧
      s.prev_iter_ends_odd_backslash
        = (if (tokAt text (64 * w + 64)).escaped = true then 1 else 0) ∧
      s.prev_iter_inside_quote
        = (if (tokAt text (64 * w + 64)).inString = true then W64 - 1 else 0) ∧
      s.v_text0.length = 32 ∧
      (∀ k : Nat, k < 64 → s.str_mask.testBit k = (tokAt text (64 * w + k + 1)).inString) := by
  intro w
  induction w with
  | zero =>
    intro hlen
    unfold scanWindows
    exact window_step text 0 _ hlen rfl rfl rfl rfl rfl
      (by rw [Nat.mul_zero, tokAt_zero]; rfl) (by rw [Nat.mul_zero, tokAt_zero]; rfl)
  | succ w ih =>
    intro hlen
    obtain ⟨s, hs, hT, hb, hE, hO, hpo, hpi, _, _⟩ := ih (by omega)
    unfold scanWindows
    rw [hs]
    have h64 : 64 * (w + 1) = 64 * w + 64 := by ring
    exact window_step text (w + 1) _ hlen hT hb hE hO (by show ((w : Int) + 1) * 2 = _; push_cast; ring)
      (by rw [h64]; exact hpo) (by rw [h64]; exact hpi)

/-- C4. String-mask correctness.  When the windows of an input are built in increasing
order from the start, in every window `w` that lies inside the input no bit `k` of any of
the six structural bitmaps (colon, comma, left/right brace, left/right bracket) is set at
a byte position `64 * w + k` that the reference escape-aware tokenizer classifies as inside
a string literal. -/
theorem string_mask_correct (text : List Nat) (w k : Nat) (hw : 64 * w + 64 ≤ text.length)
    (hk : k < 64) (hin : insideString text (64 * w + k)) :
    ∃ s : Index, scanWindows (Record.ofBytes text) w = .ok s ∧
      ∀ bm : bitmap, ∀ b ∈ (s.buildAll bm).classes, b.testBit k = false := by
  obtain ⟨s, hs, _, _, _, _, _, _, hl0, hmask⟩ := scanWindows_tok text w hw
  refine ⟨s, hs, ?_⟩
  intro bm b hb
  have hm : s.str_mask.testBit k = true := by
    rw [hmask k hk]; exact hin.2
  have hc : ∀ c : Nat, (s.classBits c).testBit k = false := by
    intro c
    rw [testBit_classBits s c k hl0 hk, hm]
    simp
  rw [buildAll_classes] at hb
  simp only [List.mem_cons, List.mem_singleton, List.not_mem_nil, or_false] at hb
  rcases hb with h | h | h | h | h | h <;> rw [h] <;> exact hc _

/-- The record `{"s":"a\"b:c,d}","x":5}` padded to 64 bytes: byte 10 is the colon inside
the string. -/
theorem string_mask_correct_witness :
    ∃ s : Index, scanWindows (Record.ofBytes
        (padded (bytes "\x7b\"s\":\"a\\\"b:c,d\x7d\",\"x\":5\x7d") 100 41)) 0 = .ok s ∧
      ∀ bm : bitmap, ∀ b ∈ (s.buildAll bm).classes, b.testBit 10 = false :=
  string_mask_correct (padded (bytes "\x7b\"s\":\"a\\\"b:c,d\x7d\",\"x\":5\x7d") 100 41) 0 10
    (by decide!) (by decide) (by decide!)

section
open QueryAutomaton

/-! ## Key comparison in `getNextState` -/

theorem memcmpEq_iff_eq (a b : List Nat) (n : Int) (ha : (a.length : Int) = n)
    (hb : (b.length : Int) = n) : memcmpEq a b n = true ↔ a = b := by
  have h1 : n.toNat = a.length := by omega
  have hab : a.length = b.length := by omega
  unfold memcmpEq
  rw [beq_iff_eq, h1, List.take_length, hab, List.take_length]

theorem getNextStateLoop_first (e : StateTransEle) (key : List Nat) (key_len : Int) :
    ∀ (fuel i k : Nat), (i : Int) + fuel = e.num_trans_str → i ≤ k → (k : Int) < e.num_trans_str →
      ((tr e k).key_len = key_len ∧ memcmpEq (tr e k).key key key_len = true) →
      (∀ j : Nat, i ≤ j → j < k →
        ¬ ((tr e j).key_len = key_len ∧ memcmpEq (tr e j).key key key_len = true)) →
      getNextStateLoop e key key_len fuel i = (tr e k).next_state := by
  intro fuel
  induction fuel with
  | zero => intro i k h1 h2 h3 _ _; omega
  | succ f ih =>
    intro i k h1 h2 h3 hk hj
    unfold getNextStateLoop
    have hi : (i : Int) < e.num_trans_str := by omega
    rw [if_pos hi]
    by_cases hik : i = k
    · subst hik
      rw [if_pos hk]
    · rw [if_neg (hj i (le_refl i) (by omega))]
      have h4 : ((i : Int) + 1) = ((i + 1 : Nat) : Int) := by push_cast; ring
      rw [h4]
      apply ih (i + 1) k
      · push_cast; omega
      · omega
      · exact h3
      · exact hk
      · intro j hj1 hj2
        exact hj j (by omega) hj2

theorem getNextStateLoop_none (e : StateTransEle) (key : List Nat) (key_len : Int) :
    ∀ (fuel i : Nat),
      (∀ j : Nat, i ≤ j → (j : Int) < e.num_trans_str →
        ¬ ((tr e j).key_len = key_len ∧ memcmpEq (tr e j).key key key_len = true)) →
      getNextStateLoop e key key_len fuel i = UNMATCHED_STATE := by
  intro fuel
  induction fuel with
  | zero => intro i _; rfl
  | succ f ih =>
    intro i hj
    unfold getNextStateLoop
    by_cases hi : (i : Int) < e.num_trans_str
    · rw [if_pos hi, if_neg (hj i (le_refl i) hi)]
      have h4 : ((i : Int) + 1) = ((i + 1 : Nat) : Int) := by push_cast; ring
      rw [h4]
      apply ih (i + 1)
      intro j hj1 hj2
      exact hj j (by omega) hj2
    · rw [if_neg hi]

/-- C10. Key comparison in `getNextState` is byte-exact.  In a state other than
`UNMATCHED_STATE` whose transitions store keys with `key_len` the key's length (as
`updateStateTransInfo` writes them), a lookup with the `key.length` bytes `key`
returns the `next_state` of the first transition whose stored key is equal to `key`
(same length, same bytes), and `UNMATCHED_STATE` when no stored key is equal to `key`;
in particular a key that differs from every stored key in one byte (such as the case of a
letter) matches nothing. -/
theorem getNextState_byte_exact (qa : QueryAutomaton) (key : List Nat)
    (hcur : qa.mCurState ≠ UNMATCHED_STATE)
    (hlen : ∀ i : Nat, (i : Int) < (qa.ele (qa.mCurState - 1)).num_trans_str →
      (((tr (qa.ele (qa.mCurState - 1)) i).key.length : Nat) : Int)
        = (tr (qa.ele (qa.mCurState - 1)) i).key_len) :
    (∀ i : Nat, (i : Int) < (qa.ele (qa.mCurState - 1)).num_trans_str →
      (tr (qa.ele (qa.mCurState - 1)) i).key = key →
      (∀ j : Nat, j < i → (tr (qa.ele (qa.mCurState - 1)) j).key ≠ key) →
      qa.getNextState key key.length = (tr (qa.ele (qa.mCurState - 1)) i).next_state) ∧
    ((∀ i : Nat, (i : Int) < (qa.ele (qa.mCurState - 1)).num_trans_str →
        (tr (qa.ele (qa.mCurState - 1)) i).key ≠ key) →
      qa.getNextState key key.length = UNMATCHED_STATE) ∧
    ((∀ i : Nat, (i : Int) < (qa.ele (qa.mCurState - 1)).num_trans_str →
        ∃ p : Nat, (tr (qa.ele (qa.mCurState - 1)) i).key.getD p 0 ≠ key.getD p 0) →
      qa.getNextState key key.length = UNMATCHED_STATE) := by
  have hnone : (∀ i : Nat, (i : Int) < (qa.ele (qa.mCurState - 1)).num_trans_str →
        (tr (qa.ele (qa.mCurState - 1)) i).key ≠ key) →
      qa.getNextState key key.length = UNMATCHED_STATE := by
    intro hne
    unfold getNextState
    rw [if_neg hcur]
    apply getNextStateLoop_none
    intro j _ hj hm
    have hl := hlen j hj
    by_cases hkl : (tr (qa.ele (qa.mCurState - 1)) j).key_len = (key.length : Int)
    · exact hne j hj ((memcmpEq_iff_eq _ _ _ (by omega) rfl).1 hm.2)
    · exact hkl hm.1
  refine ⟨?_, hnone, ?_⟩
  · intro i hi hkey hfirst
    unfold getNextState
    rw [if_neg hcur]
    have hl := hlen i hi
    apply getNextStateLoop_first _ _ _ _ 0 i
    · simp only [Nat.cast_zero, zero_add]
      omega
    · omega
    · exact hi
    · refine ⟨by rw [← hl, hkey], ?_⟩
      exact (memcmpEq_iff_eq _ _ _ (by rw [hkey]) rfl).2 hkey
    · intro j _ hji hm
      have hj : (j : Int) < (qa.ele (qa.mCurState - 1)).num_trans_str := by omega
      have hl2 := hlen j hj
      exact hfirst j hji ((memcmpEq_iff_eq _ _ _ (by omega) rfl).1 hm.2)
  · intro hdiff
    apply hnone
    intro i hi heq
    obtain ⟨p, hp⟩ := hdiff i hi
    exact hp (by rw [heq])

theorem getNextState_byte_exact_witness :
    (JSONPathParser.updateQueryAutomaton (bytes "$.Name") QueryAutomaton.new).getNextState
        (bytes "Name") 4 = 2 ∧
    (JSONPathParser.updateQueryAutomaton (bytes "$.Name") QueryAutomaton.new).getNextState
        (bytes "name") 4 = UNMATCHED_STATE := by
  have hnum : ((JSONPathParser.updateQueryAutomaton (bytes "$.Name") QueryAutomaton.new).ele
      ((JSONPathParser.updateQueryAutomaton (bytes "$.Name") QueryAutomaton.new).mCurState - 1)).num_trans_str
      = 1 := by decide!
  have hlen : ∀ i : Nat, (i : Int) <
      ((JSONPathParser.updateQueryAutomaton (bytes "$.Name") QueryAutomaton.new).ele
        ((JSONPathParser.updateQueryAutomaton (bytes "$.Name") QueryAutomaton.new).mCurState - 1)).num_trans_str →
      (((tr ((JSONPathParser.updateQueryAutomaton (bytes "$.Name") QueryAutomaton.new).ele
        ((JSONPathParser.updateQueryAutomaton (bytes "$.Name") QueryAutomaton.new).mCurState - 1)) i).key.length
          : Nat) : Int)
        = (tr ((JSONPathParser.updateQueryAutomaton (bytes "$.Name") QueryAutomaton.new).ele
        ((JSONPathParser.updateQueryAutomaton (bytes "$.Name") QueryAutomaton.new).mCurState - 1)) i).key_len := by
    intro i hi
    rw [hnum] at hi
    have h0 : i = 0 := by omega
    subst h0
    decide!
  refine ⟨?_, ?_⟩
  · have h := (getNextState_byte_exact
      (JSONPathParser.updateQueryAutomaton (bytes "$.Name") QueryAutomaton.new) (bytes "Name")
      (by decide!) hlen).1 0 (by rw [hnum]; decide) (by decide!) (by intro j hj; omega)
    rw [show ((bytes "Name").length : Int) = 4 by decide!] at h
    rw [h]
    decide!
  · have h := (getNextState_byte_exact
      (JSONPathParser.updateQueryAutomaton (bytes "$.Name") QueryAutomaton.new) (bytes "name")
      (by decide!) hlen).2.2 (by
        intro i hi
        rw [hnum] at hi
        have h0 : i = 0 := by omega
        subst h0
        exact ⟨0, by decide!⟩)
    rw [show ((bytes "name").length : Int) = 4 by decide!] at h
    exact h

end

theorem Post_ok {α : Type} {P : α → Prop} {a : α} (h : P a) : Post P (Except.ok a) := by
  intro b hb; injection hb with hb; subst hb; exact h

theorem Post_pure {α : Type} {P : α → Prop} {a : α} (h : P a) :
    Post P (pure a : Except Err α) := Post_ok h

theorem Post_error {α : Type} {P : α → Prop} {e : Err} : Post P (Except.error e) := by
  intro b hb; cases hb

theorem Post_bind {α β : Type} {Q : α → Prop} {P : β → Prop} {x : Except Err α}
    {f : α → Except Err β} (hx : Post Q x) (hf : ∀ a, Q a → Post P (f a)) :
    Post P (x >>= f) := by
  intro b hb
  cases x with
  | error e => simp [bind, Except.bind] at hb
  | ok a => exact hf a (hx a rfl) b hb

theorem Post_bind_any {α β : Type} {P : β → Prop} {x : Except Err α}
    {f : α → Except Err β} (hf : ∀ a, Post P (f a)) : Post P (x >>= f) :=
  Post_bind (Q := fun _ => True) (fun _ _ => trivial) (fun a _ => hf a)

theorem Post_ite {α : Type} {P : α → Prop} {c : Prop} [Decidable c] {x y : Except Err α}
    (hx : c → Post P x) (hy : ¬ c → Post P y) : Post P (if c then x else y) := by
  by_cases h : c
  · rw [if_pos h]; exact hx h
  · rw [if_neg h]; exact hy h

theorem Post_weaken {α : Type} {P Q : α → Prop} {x : Except Err α} (hx : Post Q x)
    (h : ∀ a, Q a → P a) : Post P x := fun a ha => h a (hx a ha)

set_option maxHeartbeats 2000000 in
theorem countMono_objectLoop (fuel : Nat) (ih : CountMono fuel) :
    ∀ r ty, Post (fun r' : Run => r.mNumMatches ≤ r'.mNumMatches) (objectLoop (fuel + 1) r ty) := by
  obtain ⟨ih1, ih2, ih3, ih4, ih5⟩ := ih
  intro r ty
  unfold objectLoop
  repeat' first
    | exact Post_error
    | (refine Post_ok ?_)
    | (refine Post_pure ?_)
    | (refine Post_ite ?_ ?_ <;> intro _)
    | (refine Post_bind (Q := fun r2 : Run => r.mNumMatches ≤ r2.mNumMatches) ?_ ?_)
    | (refine Post_bind (Q := fun p : Bool × Run => r.mNumMatches ≤ p.2.mNumMatches) ?_ ?_)
    | (refine Post_bind_any ?_)
    | (refine Post_weaken (ih1 _ _) ?_)
    | (refine Post_weaken (ih2 _) ?_)
    | (refine Post_weaken (ih3 _ _ _) ?_)
    | (refine Post_weaken (ih4 _ _) ?_)
    | (refine Post_weaken (ih5 _) ?_)
    | intro _
  all_goals (simp only [] at *; omega)

set_option maxHeartbeats 2000000 in
theorem countMono_arrayRangeLoop (fuel : Nat) (ih : CountMono fuel) :
    ∀ r et n, Post (fun p : Bool × Run => r.mNumMatches ≤ p.2.mNumMatches)
      (arrayRangeLoop (fuel + 1) r et n) := by
  obtain ⟨ih1, ih2, ih3, ih4, ih5⟩ := ih
  intro r et n
  unfold arrayRangeLoop
  repeat' first
    | exact Post_error
    | (refine Post_ok ?_)
    | (refine Post_pure ?_)
    | (refine Post_ite ?_ ?_ <;> intro _)
    | (refine Post_bind (Q := fun r2 : Run => r.mNumMatches ≤ r2.mNumMatches) ?_ ?_)
    | (refine Post_bind (Q := fun p : Bool × Run => r.mNumMatches ≤ p.2.mNumMatches) ?_ ?_)
    | (refine Post_bind_any ?_)
    | (refine Post_weaken (ih1 _ _) ?_)
    | (refine Post_weaken (ih2 _) ?_)
    | (refine Post_weaken (ih3 _ _ _) ?_)
    | (refine Post_weaken (ih4 _ _) ?_)
    | (refine Post_weaken (ih5 _) ?_)
    | intro _
  all_goals (simp only [] at *; omega)

set_option maxHeartbeats 2000000 in
theorem countMono_arrayAllLoop (fuel : Nat) (ih : CountMono fuel) :
    ∀ r et, Post (fun p : Bool × Run => r.mNumMatches ≤ p.2.mNumMatches)
      (arrayAllLoop (fuel + 1) r et) := by
  obtain ⟨ih1, ih2, ih3, ih4, ih5⟩ := ih
  intro r et
  unfold arrayAllLoop
  repeat' first
    | exact Post_error
    | (refine Post_ok ?_)
    | (refine Post_pure ?_)
    | (refine Post_ite ?_ ?_ <;> intro _)
    | (refine Post_bind (Q := fun r2 : Run => r.mNumMatches ≤ r2.mNumMatches) ?_ ?_)
    | (refine Post_bind (Q := fun p : Bool × Run => r.mNumMatches ≤ p.2.mNumMatches) ?_ ?_)
    | (refine Post_bind_any ?_)
    | (refine Post_weaken (ih1 _ _) ?_)
    | (refine Post_weaken (ih2 _) ?_)
    | (refine Post_weaken (ih3 _ _ _) ?_)
    | (refine Post_weaken (ih4 _ _) ?_)
    | (refine Post_weaken (ih5 _) ?_)
    | intro _
  all_goals (simp only [] at *; omega)

set_option maxHeartbeats 2000000 in
theorem countMono_array (fuel : Nat) (ih : CountMono fuel) :
    ∀ r, Post (fun r' : Run => r.mNumMatches ≤ r'.mNumMatches) (array (fuel + 1) r) := by
  obtain ⟨ih1, ih2, ih3, ih4, ih5⟩ := ih
  intro r
  unfold array
  repeat' first
    | exact Post_error
    | (refine Post_ok ?_)
    | (refine Post_pure ?_)
    | (refine Post_ite ?_ ?_ <;> intro _)
    | (refine Post_bind (Q := fun r2 : Run => r.mNumMatches ≤ r2.mNumMatches) ?_ ?_)
    | (refine Post_bind (Q := fun p : Bool × Run => r.mNumMatches ≤ p.2.mNumMatches) ?_ ?_)
    | (refine Post_bind_any ?_)
    | (refine Post_weaken (ih1 _ _) ?_)
    | (refine Post_weaken (ih2 _) ?_)
    | (refine Post_weaken (ih3 _ _ _) ?_)
    | (refine Post_weaken (ih4 _ _) ?_)
    | (refine Post_weaken (ih5 _) ?_)
    | intro _
  all_goals (simp only [] at *; omega)

theorem countMono : ∀ fuel, CountMono fuel := by
  intro fuel
  induction fuel with
  | zero =>
    refine ⟨?_, ?_, ?_, ?_, ?_⟩ <;> intros <;> intro a h <;> cases h
  | succ f ih =>
    refine ⟨countMono_objectLoop f ih, ?_, countMono_arrayRangeLoop f ih,
      countMono_arrayAllLoop f ih, countMono_array f ih⟩
    intro r
    unfold object
    exact ih.1 _ _

theorem goOverObjLoop_spin (c : FF) (num_open word_id : Int) (fi nw : Bool)
    (h : ¬ word_id < c.s.mNumWords) :
    ∀ fuel, goOverObjLoop fuel c num_open word_id fi nw = .error .outOfFuel := by
  intro fuel
  induction fuel with
  | zero => rfl
  | succ f ih =>
    unfold goOverObjLoop
    rw [if_neg h]
    exact ih

theorem goOverObj_starved (c : FF) (h : goOverObjStarved c) :
    ∀ fuel, goOverObj fuel c = .error .outOfFuel := by
  intro fuel
  obtain ⟨hw, h2⟩ := h
  cases fuel with
  | zero => rfl
  | succ f =>
    unfold goOverObj goOverObjLoop
    rw [if_pos hw]
    cases he : enterWord c (c.pos / 64) with
    | error e => rw [he] at h2; exact h2.elim
    | ok c1 =>
      rw [he] at h2
      obtain ⟨hc, hi, hend⟩ := h2
      simp only [bind, Except.bind, Bool.false_eq_true, if_false, if_true, hc, hi]
      apply goOverObjLoop_spin
      exact hend

theorem skipSpace_stop (f : Nat) (s : Index) (p : Int) (ch : Nat) (h : s.rd p = .ok ch)
    (hne : ch ≠ chSpace) : skipSpace (f + 1) s p = .ok p := by
  simp [skipSpace, h, hne, bind, Except.bind, pure, Except.pure]

theorem skipBlank_stop (f : Nat) (s : Index) (p : Int) (ch : Nat) (h : s.rd p = .ok ch)
    (hne : ¬ (ch = chSpace ∨ ch = chLF ∨ ch = chCR)) : skipBlank (f + 1) s p = .ok p := by
  simp [skipBlank, h, hne, bind, Except.bind, pure, Except.pure]

/-- An accepting array state whose next element is an object that `goOverObj` cannot
skip: the error of `goOverObj` is the result of `array`. -/
theorem array_accept_object_error (fuel : Nat) (r0 : Run) (p0 p1 : Int) (e : Err)
    (hic : (r0.qa.pushStack r0.qa.getNextStateNoKey).hasIndexConstraints = true)
    (hst : ((r0.qa.pushStack r0.qa.getNextStateNoKey).getIndexInfo
      (r0.qa.pushStack r0.qa.getNextStateNoKey).mCurState).start_idx = 0)
    (hen : ((r0.qa.pushStack r0.qa.getNextStateNoKey).getIndexInfo
      (r0.qa.pushStack r0.qa.getNextStateNoKey).mCurState).end_idx > 0)
    (hty : (r0.qa.pushStack r0.qa.getNextStateNoKey).typeExpectedInArr = PRIMITIVE)
    (hacc : (r0.qa.pushStack r0.qa.getNextStateNoKey).isAccept
      (r0.qa.pushStack r0.qa.getNextStateNoKey).mCurState = true)
    (hmore : hasMoreElements fuel r0.c.s r0.c.pos = .ok (true, p0))
    (htype : getElementType fuel r0.c.s p0 = .ok (OBJECT, p1))
    (hskip : goOverObj fuel { r0.c with pos := p1 } = .error e) :
    array (fuel + 2) r0 = .error e := by
  unfold array
  simp only [hic, hst, hty, if_true, bind, Except.bind, pure, Except.pure, gt_iff_lt,
    lt_self_iff_false, false_and, if_false, sub_zero]
  unfold arrayRangeLoop
  simp only [hmore, hacc, htype, hskip, hen, bind, Except.bind, pure, Except.pure, if_true,
    and_self, gt_iff_lt]

theorem runJsonSki_unclosed_spin (m : Nat) : runJsonSki (m + 3) (bytes "$[0]") unclosedObject = .error .outOfFuel := by
  have r0 : (Index.init unclosedObject).rd 0 = .ok 91 := by decide!
  have r1 : (Index.init unclosedObject).rd 1 = .ok 123 := by decide!
  have a1 := skipSpace_stop (m + 2) (Index.init unclosedObject) 0 91 r0 (by decide)
  have b0 := skipBlank_stop m (Index.init unclosedObject) 0 91 r0 (by decide)
  have b1 := skipBlank_stop m (Index.init unclosedObject) 1 123 r1 (by decide)
  have b2 := skipSpace_stop m (Index.init unclosedObject) 1 123 r1 (by decide)
  have hm : hasMoreElements (m + 1) (Index.init unclosedObject) 0 = .ok (true, 1) := by
    have h01 : (0 : Int) + 1 = 1 := rfl
    simp only [hasMoreElements, b0, b1, r1, h01, bind, Except.bind, pure, Except.pure]
    simp [chRBracket, chComma, b1]
  have ht : getElementType (m + 1) (Index.init unclosedObject) 1 = .ok (OBJECT, 1) := by
    simp only [getElementType, b2, r1, bind, Except.bind, pure, Except.pure]
    simp [chLBrace]
  have hg : getNextNonEmptyCharacter (m + 3) (Index.init unclosedObject) 0 = .ok (91, 0) := by
    simp only [getNextNonEmptyCharacter, a1, r0, bind, Except.bind, pure, Except.pure]
  have hq1 : (QueryProcessor.new (bytes "$[0]")).qa.typeExpectedInArr ≠ NONE := by decide!
  have hq0 : ¬ ((91 : Nat) = chLBrace ∧ (QueryProcessor.new (bytes "$[0]")).qa.typeExpectedInObj ≠ NONE) := by
    decide!
  simp only [runJsonSki, runQuery, hg, bind, Except.bind, pure, Except.pure]
  rw [if_neg hq0, if_pos ⟨by decide, hq1⟩]
  rw [array_accept_object_error (m + 1) _ 1 1 .outOfFuel (by decide!) (by decide!) (by decide!)
    (by decide!) (by decide!) hm ht
    (goOverObj_starved _ (by decide!) _)]

/-! ## Termination -/

/-- C3. On the 64-byte buffer `[\x7b` followed by 62 filler bytes `d` (a record that ends
before the closer of its object is found) and the query `$[0]`, `runQuery` on a fresh
processor returns no count: whatever the number of loop iterations allowed, the run is
still inside the `while(true)` loop of `goOverObj`, whose inner `while (word_id < mNumWords)`
is never entered again once the last word has been scanned. -/
theorem runQuery_unclosed_object_diverges (fuel : Nat) :
    runJsonSki fuel (bytes "$[0]") unclosedObject = .error .outOfFuel :=
  match fuel with
  | 0 => by decide!
  | 1 => by decide!
  | 2 => by decide!
  | m + 3 => runJsonSki_unclosed_spin m

/-! ## The match counter across two calls -/

theorem runQuery_count_ge (fuel : Nat) (qp qp1 : QueryProcessor) (rec : Record) (n : Int)
    (h : runQuery fuel qp rec = .ok (qp1, n)) : qp.mNumMatches ≤ n ∧ qp1.mNumMatches = n := by
  obtain ⟨_, hobj, _, _, harr⟩ := countMono fuel
  unfold runQuery at h
  dsimp only at h
  cases hg : getNextNonEmptyCharacter fuel (Index.init rec) 0 with
  | error e => rw [hg] at h; cases h
  | ok p =>
    obtain ⟨ch, pos⟩ := p
    rw [hg] at h
    simp only [bind, Except.bind] at h
    split at h
    · cases h
    · rename_i r1 hr1
      simp only [pure, Except.pure] at h
      injection h with h
      injection h with h1 h2
      subst h1 h2
      refine ⟨?_, rfl⟩
      split at hr1
      · exact hobj _ _ hr1
      · split at hr1
        · exact harr _ _ hr1
        · injection hr1 with hr1
          subst hr1
          exact le_refl _

/-- C2 (counterexample). The query `$.a` on the record `\x7b"a":1\x7d`, padded by the record
loader: the first call of `runQuery` returns 1 and the second call on the same processor
returns 2. -/
theorem runTwice_not_idempotent :
    runTwice 100 (bytes "$.a") (loaded (bytes "\x7b\"a\":1\x7d") 100) = .ok (1, 2) := by
  decide!

/-! ## Counts against the reference semantics -/

/-- C1. On the well-formed record `[1,\x7b"a":1,"b":2\x7d]` (padded by the record loader with
the filler `d`) and the path `$[2]` the reference semantics selects no node, the array
having two elements, but `runQuery` on a fresh processor returns 1. -/
theorem runQuery_index_past_object :
    arrayWithObject.render = bytes "[1,\x7b\"a\":1,\"b\":2\x7d]" ∧
    renderPath [.index 2] = bytes "$[2]" ∧
    refCount [.index 2] arrayWithObject = 0 ∧
    runJsonSki 1000 (renderPath [.index 2]) (loaded arrayWithObject.render 100) = .ok 1 := by
  decide!

/-! ## Instances of the window theorems -/

theorem exists_ok_of_isOk {α : Type} (x : Except Err α)
    (h : (match x with | .ok _ => true | .error _ => false) = true) : ∃ a, x = .ok a := by
  cases x with
  | ok a => exact ⟨a, rfl⟩
  | error e => cases h

/-- The first window of the record `\x7b"a":"b:c"\x7d`: byte 4 is the colon after the key,
byte 7 is the colon inside the string. -/
theorem get_bitmap_bit_iff_witness :
    ∃ s : Index, (Index.init (loaded (bytes "\x7b\"a\":\"b:c\"\x7d") 100)).build_bitmap_basic
        = .ok s ∧
      ((s.get_bitmap_colon bitmap.init).colonbit.testBit 4 = true ↔
        ((58 : Nat) = chColon ∧ s.str_mask.testBit 4 = false)) :=
  (exists_ok_of_isOk _ (by decide!)).elim (fun s h => ⟨s, h,
    (get_bitmap_bit_iff (Index.init (loaded (bytes "\x7b\"a\":\"b:c\"\x7d") 100)) s bitmap.init
      4 58 h (by decide) (by decide!)).1 rfl⟩)

/-- The six class bitmaps of the first window of the record `\x7b"a":[1,2]\x7d`. -/
theorem class_bitmaps_disjoint_witness :
    ∃ s : Index, (Index.init (loaded (bytes "\x7b\"a\":[1,2]\x7d") 100)).build_bitmap_basic
        = .ok s ∧
      List.Pairwise (fun a b => a &&& b = 0) (s.buildAll bitmap.init).classes :=
  (exists_ok_of_isOk _ (by decide!)).elim (fun s h => ⟨s, h,
    (class_bitmaps_disjoint (Index.init (loaded (bytes "\x7b\"a\":[1,2]\x7d") 100)) s
      bitmap.init h).1⟩)

/-! ## Two paddings of one record -/

theorem PadRel_refl (t : List Nat) : PadRel t t := ⟨rfl, fun _ => Or.inl rfl⟩

theorem PadRel_swapText {t1 t2 : List Nat} (hp : PadRel t1 t2) (t : List Nat) :
    PadRel t (swapText t1 t2 t) := by
  unfold swapText
  split
  · rename_i h; subst h; exact hp
  · exact PadRel_refl t

/-- Class equality of two bytes: equal, or both inert. -/
theorem PadRel_byte {t t' : List Nat} (hp : PadRel t t') (i : Nat) :
    t.getD i 0 = t'.getD i 0 ∨ (Inert (t.getD i 0) ∧ Inert (t'.getD i 0)) := by
  rcases hp.2 i with h | h
  · exact Or.inl h
  · exact Or.inr (h i (le_refl i))

/-- Below a byte that is not inert the two buffers agree. -/
theorem PadRel_below {t t' : List Nat} (hp : PadRel t t') (p : Nat) (hn : ¬ Inert (t.getD p 0))
    (i : Nat) (hi : i ≤ p) : t.getD i 0 = t'.getD i 0 := by
  rcases hp.2 i with h | h
  · exact h
  · exact absurd (h p hi).1 hn

theorem PadRel_below' {t t' : List Nat} (hp : PadRel t t') (p : Nat) (hn : ¬ Inert (t'.getD p 0))
    (i : Nat) (hi : i ≤ p) : t.getD i 0 = t'.getD i 0 := by
  rcases hp.2 i with h | h
  · exact h
  · exact absurd (h p hi).2 hn

@[simp] theorem swap_mBase (t1 t2 : List Nat) (s : Index) : (s.swap t1 t2).mBase = s.mBase := rfl
@[simp] theorem swap_mNumWords (t1 t2 : List Nat) (s : Index) :
    (s.swap t1 t2).mNumWords = s.mNumWords := rfl
@[simp] theorem swap_top_word (t1 t2 : List Nat) (s : Index) :
    (s.swap t1 t2).top_word = s.top_word := rfl
@[simp] theorem swap_str_mask (t1 t2 : List Nat) (s : Index) :
    (s.swap t1 t2).str_mask = s.str_mask := rfl
@[simp] theorem swap_start_id (t1 t2 : List Nat) (s : Index) :
    (s.swap t1 t2).start_id = s.start_id := rfl
@[simp] theorem swap_mText (t1 t2 : List Nat) (s : Index) :
    (s.swap t1 t2).mText = swapText t1 t2 s.mText := rfl

/-- The bytes read at one position in the two buffers: an error in both, or two bytes that
are equal or both inert. -/
theorem rd_swap {t1 t2 : List Nat} (hp : PadRel t1 t2) (s : Index) (p : Int) :
    (∃ e, s.rd p = .error e ∧ (s.swap t1 t2).rd p = .error e) ∨
    (∃ b b', s.rd p = .ok b ∧ (s.swap t1 t2).rd p = .ok b' ∧ (b = b' ∨ (Inert b ∧ Inert b'))) := by
  have h := PadRel_swapText hp s.mText
  unfold Index.rd
  simp only [swap_mBase, swap_mText, ← h.1]
  split
  · right
    exact ⟨_, _, rfl, rfl, PadRel_byte h _⟩
  · left
    exact ⟨_, rfl, rfl⟩

theorem Inert_ne {b : Nat} (h : Inert b) :
    b ≠ chLBrace ∧ b ≠ chRBrace ∧ b ≠ chLBracket ∧ b ≠ chRBracket ∧ b ≠ chColon ∧
    b ≠ chComma ∧ b ≠ chQuote ∧ b ≠ chBackslash ∧ b ≠ chSpace ∧ b ≠ chLF ∧ b ≠ chCR := h

theorem skipSpace_swap {t1 t2 : List Nat} (hp : PadRel t1 t2) (fuel : Nat) (s : Index) (p : Int) :
    skipSpace fuel (s.swap t1 t2) p = skipSpace fuel s p := by
  induction fuel generalizing p with
  | zero => rfl
  | succ f ih =>
    unfold skipSpace
    rcases rd_swap hp s p with ⟨e, h1, h2⟩ | ⟨b, b', h1, h2, rfl | ⟨hi, hi'⟩⟩
    · rw [h1, h2]; rfl
    · rw [h1, h2]; simp only [bind, Except.bind, ih]
    · rw [h1, h2]; simp only [bind, Except.bind, ih, hi.2.2.2.2.2.2.2.2.1, hi'.2.2.2.2.2.2.2.2.1]

theorem skipBlank_swap {t1 t2 : List Nat} (hp : PadRel t1 t2) (fuel : Nat) (s : Index) (p : Int) :
    skipBlank fuel (s.swap t1 t2) p = skipBlank fuel s p := by
  induction fuel generalizing p with
  | zero => rfl
  | succ f ih =>
    unfold skipBlank
    rcases rd_swap hp s p with ⟨e, h1, h2⟩ | ⟨b, b', h1, h2, rfl | ⟨hi, hi'⟩⟩
    · rw [h1, h2]; rfl
    · rw [h1, h2]; simp only [bind, Except.bind, ih]
    · rw [h1, h2]
      simp only [bind, Except.bind, ih, hi.2.2.2.2.2.2.2.2.1, hi'.2.2.2.2.2.2.2.2.1,
        hi.2.2.2.2.2.2.2.2.2.1, hi'.2.2.2.2.2.2.2.2.2.1, hi.2.2.2.2.2.2.2.2.2.2,
        hi'.2.2.2.2.2.2.2.2.2.2]

theorem skipSpaceLF_swap {t1 t2 : List Nat} (hp : PadRel t1 t2) (fuel : Nat) (s : Index)
    (p : Int) : skipSpaceLF fuel (s.swap t1 t2) p = skipSpaceLF fuel s p := by
  induction fuel generalizing p with
  | zero => rfl
  | succ f ih =>
    unfold skipSpaceLF
    rcases rd_swap hp s p with ⟨e, h1, h2⟩ | ⟨b, b', h1, h2, rfl | ⟨hi, hi'⟩⟩
    · rw [h1, h2]; rfl
    · rw [h1, h2]; simp only [bind, Except.bind, ih]
    · rw [h1, h2]
      simp only [bind, Except.bind, ih, hi.2.2.2.2.2.2.2.2.1, hi'.2.2.2.2.2.2.2.2.1,
        hi.2.2.2.2.2.2.2.2.2.1, hi'.2.2.2.2.2.2.2.2.2.1]

theorem scanFwd_swap {t1 t2 : List Nat} (hp : PadRel t1 t2) (target : Nat)
    (ht : ¬ Inert target) (fuel : Nat) (s : Index) (p : Int) :
    scanFwd target fuel (s.swap t1 t2) p = scanFwd target fuel s p := by
  induction fuel generalizing p with
  | zero => rfl
  | succ f ih =>
    unfold scanFwd
    rcases rd_swap hp s p with ⟨e, h1, h2⟩ | ⟨b, b', h1, h2, rfl | ⟨hi, hi'⟩⟩
    · rw [h1, h2]; rfl
    · rw [h1, h2]; simp only [bind, Except.bind, ih]
    · rw [h1, h2]
      have e1 : b ≠ target := fun h => ht (h ▸ hi)
      have e2 : b' ≠ target := fun h => ht (h ▸ hi')
      simp only [bind, Except.bind, ih, e1, e2, ne_eq, not_false_eq_true, if_true]

theorem scanBack_swap {t1 t2 : List Nat} (hp : PadRel t1 t2) (target : Nat)
    (ht : ¬ Inert target) (fuel : Nat) (s : Index) (p : Int) :
    scanBack target fuel (s.swap t1 t2) p = scanBack target fuel s p := by
  induction fuel generalizing p with
  | zero => rfl
  | succ f ih =>
    unfold scanBack
    rcases rd_swap hp s p with ⟨e, h1, h2⟩ | ⟨b, b', h1, h2, rfl | ⟨hi, hi'⟩⟩
    · rw [h1, h2]; rfl
    · rw [h1, h2]; simp only [bind, Except.bind, ih]
    · rw [h1, h2]
      have e1 : b ≠ target := fun h => ht (h ▸ hi)
      have e2 : b' ≠ target := fun h => ht (h ▸ hi')
      simp only [bind, Except.bind, ih, e1, e2, ne_eq, not_false_eq_true, if_true]

/-- A test of the byte at a position against the characters the engine looks for has the
same outcome in the two buffers. -/
theorem rd_bind_swap {α : Type} {t1 t2 : List Nat} (hp : PadRel t1 t2) (s : Index) (p : Int)
    (k k' : Nat → Except Err α)
    (hk : ∀ b b', (b = b' ∨ (Inert b ∧ Inert b')) → k' b' = k b) :
    ((s.swap t1 t2).rd p >>= k') = (s.rd p >>= k) := by
  rcases rd_swap hp s p with ⟨e, h1, h2⟩ | ⟨b, b', h1, h2, h⟩
  · rw [h1, h2]; rfl
  · rw [h1, h2]; exact hk b b' h

theorem hasMoreElements_swap {t1 t2 : List Nat} (hp : PadRel t1 t2) (fuel : Nat) (s : Index)
    (p : Int) : hasMoreElements fuel (s.swap t1 t2) p = hasMoreElements fuel s p := by
  unfold hasMoreElements
  simp only [skipBlank_swap hp]
  congr 1; funext p1; congr 1; funext p2
  refine rd_bind_swap hp _ _ _ _ ?_
  rintro b b' (rfl | ⟨hi, hi'⟩)
  · rfl
  · simp only [hi.2.2.2.1, hi'.2.2.2.1, hi.2.2.2.2.2.1, hi'.2.2.2.2.2.1, if_false]

theorem getElementType_swap {t1 t2 : List Nat} (hp : PadRel t1 t2) (fuel : Nat) (s : Index)
    (p : Int) : getElementType fuel (s.swap t1 t2) p = getElementType fuel s p := by
  unfold getElementType
  simp only [skipSpace_swap hp]
  congr 1; funext p1
  refine rd_bind_swap hp _ _ _ _ ?_
  rintro b b' (rfl | ⟨hi, hi'⟩)
  · rfl
  · simp only [hi.1, hi'.1, hi.2.2.1, hi'.2.2.1, if_false]

theorem hasMoreAttributes_swap {t1 t2 : List Nat} (hp : PadRel t1 t2) (fuel : Nat) (s : Index)
    (p : Int) : hasMoreAttributes fuel (s.swap t1 t2) p = hasMoreAttributes fuel s p := by
  unfold hasMoreAttributes
  simp only [skipSpace_swap hp, skipSpaceLF_swap hp]
  congr 1; funext p1; congr 1; funext p2
  refine rd_bind_swap hp _ _ _ _ ?_
  rintro b b' (rfl | ⟨hi, hi'⟩)
  · rfl
  · simp only [hi.2.1, hi'.2.1, hi.2.2.2.2.2.1, hi'.2.2.2.2.2.1, if_false]

theorem getAttributeType_swap {t1 t2 : List Nat} (hp : PadRel t1 t2) (fuel : Nat) (s : Index)
    (p : Int) : getAttributeType fuel (s.swap t1 t2) p = getAttributeType fuel s p := by
  unfold getAttributeType
  simp only [skipSpace_swap hp]
  congr 1; funext p1
  refine rd_bind_swap hp _ _ _ _ ?_
  rintro b b' (rfl | ⟨hi, hi'⟩)
  · rfl
  · simp only [hi.1, hi'.1, hi.2.2.1, hi'.2.2.1, if_false]

/-! ## The lanes and the bitmaps of a word in the two buffers -/

theorem fixByte_class {t t' : List Nat} (hp : PadRel t t') (idx : Int) (b : Nat) :
    b = fixByte t t' idx b ∨ (Inert b ∧ Inert (fixByte t t' idx b)) := by
  unfold fixByte
  split
  · rename_i h
    have hb : t.getD idx.toNat 0 = b := by
      rw [List.getD_eq_getElem?_getD, h.2]; rfl
    rw [← hb]
    exact PadRel_byte hp _
  · exact Or.inl rfl

theorem cmpeqMask_fixLane {t t' : List Nat} (hp : PadRel t t') (c : Nat) (hc : ¬ Inert c)
    (l : List Nat) : ∀ idx : Int, cmpeqMask (fixLane t t' idx l) c = cmpeqMask l c := by
  induction l with
  | nil => intro idx; rfl
  | cons b l ih =>
    intro idx
    unfold fixLane cmpeqMask
    rw [ih]
    rcases fixByte_class hp idx b with h | ⟨h1, h2⟩
    · rw [← h]
    · have e1 : b ≠ c := fun h => hc (h ▸ h1)
      have e2 : fixByte t t' idx b ≠ c := fun h => hc (h ▸ h2)
      rw [if_neg e1, if_neg e2]

theorem fixLane_load {t t' : List Nat} (hl : t.length = t'.length) (n : Nat) :
    ∀ a : Nat, a + n ≤ t.length →
      fixLane t t' (a : Int) ((t.drop a).take n) = (t'.drop a).take n := by
  induction n with
  | zero => intro a _; simp [fixLane]
  | succ n ih =>
    intro a ha
    have h1 : a < t.length := by omega
    have h2 : a < t'.length := by omega
    rw [List.drop_eq_getElem_cons h1, List.drop_eq_getElem_cons h2, List.take_succ_cons,
      List.take_succ_cons]
    unfold fixLane
    have := ih (a + 1) (by omega)
    rw [Nat.cast_add, Nat.cast_one] at this
    rw [this]
    congr 1
    unfold fixByte
    rw [if_pos]
    · simp [List.getD_eq_getElem?_getD, List.getElem?_eq_getElem h2]
    · exact ⟨by omega, by simp [List.getElem?_eq_getElem h1]⟩

theorem classBits_swap {t1 t2 : List Nat} (hp : PadRel t1 t2) (s : Index) (c : Nat)
    (hc : ¬ Inert c) : (s.swap t1 t2).classBits c = s.classBits c := by
  have h := PadRel_swapText hp s.mText
  unfold Index.classBits Index.swap
  simp only [cmpeqMask_fixLane h c hc]

theorem load32_swap {t1 t2 : List Nat} (hp : PadRel t1 t2) (s : Index) (l0 l1 : List Nat)
    (i : Int) :
    (∃ e, s.load32 i = .error e ∧
      ({ s with mText := swapText t1 t2 s.mText, v_text0 := l0, v_text := l1 } : Index).load32 i
        = .error e) ∨
    (∃ l, s.load32 i = .ok l ∧
      ({ s with mText := swapText t1 t2 s.mText, v_text0 := l0, v_text := l1 } : Index).load32 i
        = .ok (fixLane s.mText (swapText t1 t2 s.mText) (s.mBase + i) l)) := by
  have h := PadRel_swapText hp s.mText
  unfold Index.load32
  simp only [← h.1]
  split
  · rename_i hc
    right
    refine ⟨_, rfl, ?_⟩
    have := fixLane_load h.1 32 (s.mBase + i).toNat (by omega)
    rw [Int.toNat_of_nonneg hc.1] at this
    rw [this]
  · left
    exact ⟨_, rfl, rfl⟩

theorem build_bitmap_basic_swap {t1 t2 : List Nat} (hp : PadRel t1 t2) (s : Index)
    (l0 l1 : List Nat) :
    ({ s with mText := swapText t1 t2 s.mText, v_text0 := l0, v_text := l1 } :
        Index).build_bitmap_basic
      = (s.build_bitmap_basic).map (Index.swap t1 t2) := by
  have h := PadRel_swapText hp s.mText
  have hq : ¬ Inert chQuote := by decide
  have hb : ¬ Inert chBackslash := by decide
  unfold Index.build_bitmap_basic
  rcases load32_swap hp s l0 l1 (s.start_id * 32) with ⟨e, h1, h2⟩ | ⟨v0, h1, h2⟩
  · rw [h1, h2]; rfl
  · rw [h1, h2]
    simp only [bind, Except.bind]
    rcases load32_swap hp s l0 l1 ((s.start_id + 1) * 32) with ⟨e, h3, h4⟩ | ⟨v1, h3, h4⟩
    · rw [h3, h4]; rfl
    · rw [h3, h4]
      simp only [cmpeqMask_fixLane h _ hq, cmpeqMask_fixLane h _ hb, pure, Except.pure,
        Except.map, Index.swap, add_sub_cancel_right]

theorem enterWord_swap {t1 t2 : List Nat} (hp : PadRel t1 t2) (c : FF) (word_id : Int) :
    enterWord (c.swap t1 t2) word_id = (enterWord c word_id).map (FF.swap t1 t2) := by
  unfold enterWord
  simp only [FF.swap, swap_top_word]
  split
  · have := build_bitmap_basic_swap hp { c.s with start_id := word_id * 2 }
      (fixLane c.s.mText (swapText t1 t2 c.s.mText) (c.s.mBase + (c.s.start_id - 1) * 32)
        c.s.v_text0)
      (fixLane c.s.mText (swapText t1 t2 c.s.mText) (c.s.mBase + c.s.start_id * 32) c.s.v_text)
    simp only [Index.swap]
    rw [this]
    cases Index.build_bitmap_basic { c.s with start_id := word_id * 2 } <;> rfl
  · rfl

/-! ## The fast-forward primitives in the two buffers -/

theorem FF_swap_s (t1 t2 : List Nat) (c : FF) : (c.swap t1 t2).s = c.s.swap t1 t2 := rfl
theorem FF_swap_pos (t1 t2 : List Nat) (c : FF) : (c.swap t1 t2).pos = c.pos := rfl
theorem FF_swap_bm (t1 t2 : List Nat) (c : FF) : (c.swap t1 t2).bm = c.bm := rfl
theorem FF_mk_swap (t1 t2 : List Nat) (s : Index) (p : Int) (b : bitmap) :
    ({ s := s.swap t1 t2, pos := p, bm := b } : FF) = FF.swap t1 t2 { s := s, pos := p, bm := b } :=
  rfl

theorem get_bitmap_colon_swap {t1 t2 : List Nat} (hp : PadRel t1 t2) (s : Index) (bm : bitmap) :
    (s.swap t1 t2).get_bitmap_colon bm = s.get_bitmap_colon bm := by
  unfold Index.get_bitmap_colon Index.build_bitmap_colon
  rw [classBits_swap hp s _ (by decide)]

theorem get_bitmap_comma_swap {t1 t2 : List Nat} (hp : PadRel t1 t2) (s : Index) (bm : bitmap) :
    (s.swap t1 t2).get_bitmap_comma bm = s.get_bitmap_comma bm := by
  unfold Index.get_bitmap_comma Index.build_bitmap_comma
  rw [classBits_swap hp s _ (by decide)]

theorem get_bitmap_lbrace_swap {t1 t2 : List Nat} (hp : PadRel t1 t2) (s : Index) (bm : bitmap) :
    (s.swap t1 t2).get_bitmap_lbrace bm = s.get_bitmap_lbrace bm := by
  unfold Index.get_bitmap_lbrace Index.build_bitmap_lbrace
  rw [classBits_swap hp s _ (by decide)]

theorem get_bitmap_rbrace_swap {t1 t2 : List Nat} (hp : PadRel t1 t2) (s : Index) (bm : bitmap) :
    (s.swap t1 t2).get_bitmap_rbrace bm = s.get_bitmap_rbrace bm := by
  unfold Index.get_bitmap_rbrace Index.build_bitmap_rbrace
  rw [classBits_swap hp s _ (by decide)]

theorem get_bitmap_lbracket_swap {t1 t2 : List Nat} (hp : PadRel t1 t2) (s : Index)
    (bm : bitmap) : (s.swap t1 t2).get_bitmap_lbracket bm = s.get_bitmap_lbracket bm := by
  unfold Index.get_bitmap_lbracket Index.build_bitmap_lbracket
  rw [classBits_swap hp s _ (by decide)]

theorem build_bitmap_rbracket_swap {t1 t2 : List Nat} (hp : PadRel t1 t2) (s : Index)
    (bm : bitmap) : (s.swap t1 t2).build_bitmap_rbracket bm = s.build_bitmap_rbracket bm := by
  unfold Index.build_bitmap_rbracket
  rw [classBits_swap hp s _ (by decide)]

theorem get_bitmap_rbracket_swap {t1 t2 : List Nat} (hp : PadRel t1 t2) (s : Index)
    (bm : bitmap) : (s.swap t1 t2).get_bitmap_rbracket bm = s.get_bitmap_rbracket bm := by
  unfold Index.get_bitmap_rbracket
  rw [build_bitmap_rbracket_swap hp]

theorem get_position_swap (t1 t2 : List Nat) (s : Index) (b : Nat) (n : Int) :
    get_position (s.swap t1 t2) b n = get_position s b n := rfl

theorem interval_end_swap (t1 t2 : List Nat) (s : Index) (b : Nat) :
    interval_end (s.swap t1 t2) b = interval_end s b := rfl

theorem object_end_swap (t1 t2 : List Nat) (s : Index) (a b : Nat) :
    object_end (s.swap t1 t2) a b = object_end s a b := rfl

theorem map_ite {α β : Type} (g : α → β) (c : Prop) [Decidable c] (x y : Except Err α) :
    Except.map g (if c then x else y) = if c then Except.map g x else Except.map g y := by
  split <;> rfl

theorem map_bind {α β γ : Type} (g : β → γ) (x : Except Err α) (k : α → Except Err β) :
    Except.map g (x >>= k) = x >>= fun a => Except.map g (k a) := by
  cases x <;> rfl

theorem bind_map {α β γ : Type} (g : α → β) (x : Except Err α) (k : β → Except Err γ) :
    (Except.map g x >>= k) = x >>= fun a => k (g a) := by
  cases x <;> rfl

theorem map_pure {α β : Type} (g : α → β) (a : α) :
    Except.map g (pure a : Except Err α) = pure (g a) := rfl

theorem map_ok {α β : Type} (g : α → β) (a : α) :
    Except.map g (Except.ok a : Except Err α) = Except.ok (g a) := rfl

theorem map_error {α β : Type} (g : α → β) (e : Err) :
    Except.map g (Except.error e : Except Err α) = Except.error e := rfl

theorem goOverObjLoop_swap {t1 t2 : List Nat} (hp : PadRel t1 t2) (fuel : Nat) :
    ∀ (c : FF) (num_open word_id : Int) (fi nw : Bool),
      goOverObjLoop fuel (c.swap t1 t2) num_open word_id fi nw
        = (goOverObjLoop fuel c num_open word_id fi nw).map (FF.swap t1 t2) := by
  induction fuel with
  | zero => intros; rfl
  | succ f ih =>
    intro c num_open word_id fi nw
    unfold goOverObjLoop
    simp only [FF_swap_s, swap_mNumWords, enterWord_swap hp, ih, map_ite, map_bind, bind_map,
      map_pure, FF_swap_pos, FF_swap_bm,
      get_bitmap_lbrace_swap hp, get_bitmap_rbrace_swap hp, get_position_swap, FF_mk_swap]

theorem goOverObj_swap {t1 t2 : List Nat} (hp : PadRel t1 t2) (fuel : Nat) (c : FF)  :
    goOverObj fuel (c.swap t1 t2)  = (goOverObj fuel c ).map (FF.swap t1 t2) := by
  unfold goOverObj
  simp only [FF_swap_s, swap_mNumWords, enterWord_swap hp, map_ite, map_bind, bind_map, map_pure, map_ok,
    map_error, FF_swap_pos, FF_swap_bm, get_bitmap_colon_swap hp, get_bitmap_comma_swap hp,
    get_bitmap_lbrace_swap hp, get_bitmap_rbrace_swap hp, get_bitmap_lbracket_swap hp,
    get_bitmap_rbracket_swap hp, build_bitmap_rbracket_swap hp, get_position_swap,
    interval_end_swap, object_end_swap, FF_mk_swap, hasMoreElements_swap hp, getElementType_swap
    hp, hasMoreAttributes_swap hp, getAttributeType_swap hp, goOverObjLoop_swap hp]

theorem goOverAryLoop_swap {t1 t2 : List Nat} (hp : PadRel t1 t2) (fuel : Nat) :
    ∀ (c : FF) (num_open : Int) (word_id : Int) (fi : Bool) (nw : Bool),
      goOverAryLoop fuel (c.swap t1 t2) num_open word_id fi nw
        = (goOverAryLoop fuel c num_open word_id fi nw).map (FF.swap t1 t2) := by
  induction fuel with
  | zero => intros; rfl
  | succ f ih =>
    intro c num_open word_id fi nw
    unfold goOverAryLoop
    simp only [FF_swap_s, swap_mNumWords, enterWord_swap hp, map_ite, map_bind, bind_map, map_pure, map_ok,
      map_error, FF_swap_pos, FF_swap_bm, get_bitmap_colon_swap hp, get_bitmap_comma_swap hp,
      get_bitmap_lbrace_swap hp, get_bitmap_rbrace_swap hp, get_bitmap_lbracket_swap hp,
      get_bitmap_rbracket_swap hp, build_bitmap_rbracket_swap hp, get_position_swap,
      interval_end_swap, object_end_swap, FF_mk_swap, hasMoreElements_swap hp, getElementType_swap
      hp, hasMoreAttributes_swap hp, getAttributeType_swap hp, goOverObjLoop_swap hp,
      goOverObj_swap hp, ih]

theorem goOverAry_swap {t1 t2 : List Nat} (hp : PadRel t1 t2) (fuel : Nat) (c : FF)  :
    goOverAry fuel (c.swap t1 t2)  = (goOverAry fuel c ).map (FF.swap t1 t2) := by
  unfold goOverAry
  simp only [FF_swap_s, swap_mNumWords, enterWord_swap hp, map_ite, map_bind, bind_map, map_pure, map_ok,
    map_error, FF_swap_pos, FF_swap_bm, get_bitmap_colon_swap hp, get_bitmap_comma_swap hp,
    get_bitmap_lbrace_swap hp, get_bitmap_rbrace_swap hp, get_bitmap_lbracket_swap hp,
    get_bitmap_rbracket_swap hp, build_bitmap_rbracket_swap hp, get_position_swap,
    interval_end_swap, object_end_swap, FF_mk_swap, hasMoreElements_swap hp, getElementType_swap
    hp, hasMoreAttributes_swap hp, getAttributeType_swap hp, goOverObjLoop_swap hp,
    goOverObj_swap hp, goOverAryLoop_swap hp]

theorem goToObjEndLoop_swap {t1 t2 : List Nat} (hp : PadRel t1 t2) (fuel : Nat) :
    ∀ (c : FF) (num_open : Int) (word_id : Int) (fi : Bool) (nw : Bool),
      goToObjEndLoop fuel (c.swap t1 t2) num_open word_id fi nw
        = (goToObjEndLoop fuel c num_open word_id fi nw).map (FF.swap t1 t2) := by
  induction fuel with
  | zero => intros; rfl
  | succ f ih =>
    intro c num_open word_id fi nw
    unfold goToObjEndLoop
    simp only [FF_swap_s, swap_mNumWords, enterWord_swap hp, map_ite, map_bind, bind_map, map_pure, map_ok,
      map_error, FF_swap_pos, FF_swap_bm, get_bitmap_colon_swap hp, get_bitmap_comma_swap hp,
      get_bitmap_lbrace_swap hp, get_bitmap_rbrace_swap hp, get_bitmap_lbracket_swap hp,
      get_bitmap_rbracket_swap hp, build_bitmap_rbracket_swap hp, get_position_swap,
      interval_end_swap, object_end_swap, FF_mk_swap, hasMoreElements_swap hp, getElementType_swap
      hp, hasMoreAttributes_swap hp, getAttributeType_swap hp, goOverObjLoop_swap hp,
      goOverObj_swap hp, goOverAryLoop_swap hp, goOverAry_swap hp, ih]

theorem goToObjEnd_swap {t1 t2 : List Nat} (hp : PadRel t1 t2) (fuel : Nat) (c : FF)  :
    goToObjEnd fuel (c.swap t1 t2)  = (goToObjEnd fuel c ).map (FF.swap t1 t2) := by
  unfold goToObjEnd
  simp only [FF_swap_s, swap_mNumWords, enterWord_swap hp, map_ite, map_bind, bind_map, map_pure, map_ok,
    map_error, FF_swap_pos, FF_swap_bm, get_bitmap_colon_swap hp, get_bitmap_comma_swap hp,
    get_bitmap_lbrace_swap hp, get_bitmap_rbrace_swap hp, get_bitmap_lbracket_swap hp,
    get_bitmap_rbracket_swap hp, build_bitmap_rbracket_swap hp, get_position_swap,
    interval_end_swap, object_end_swap, FF_mk_swap, hasMoreElements_swap hp, getElementType_swap
    hp, hasMoreAttributes_swap hp, getAttributeType_swap hp, goOverObjLoop_swap hp,
    goOverObj_swap hp, goOverAryLoop_swap hp, goOverAry_swap hp, goToObjEndLoop_swap hp]

theorem goToAryEndLoop_swap {t1 t2 : List Nat} (hp : PadRel t1 t2) (fuel : Nat) :
    ∀ (c : FF) (num_open : Int) (word_id : Int) (fi : Bool) (nw : Bool),
      goToAryEndLoop fuel (c.swap t1 t2) num_open word_id fi nw
        = (goToAryEndLoop fuel c num_open word_id fi nw).map (FF.swap t1 t2) := by
  induction fuel with
  | zero => intros; rfl
  | succ f ih =>
    intro c num_open word_id fi nw
    unfold goToAryEndLoop
    simp only [FF_swap_s, swap_mNumWords, enterWord_swap hp, map_ite, map_bind, bind_map, map_pure, map_ok,
      map_error, FF_swap_pos, FF_swap_bm, get_bitmap_colon_swap hp, get_bitmap_comma_swap hp,
      get_bitmap_lbrace_swap hp, get_bitmap_rbrace_swap hp, get_bitmap_lbracket_swap hp,
      get_bitmap_rbracket_swap hp, build_bitmap_rbracket_swap hp, get_position_swap,
      interval_end_swap, object_end_swap, FF_mk_swap, hasMoreElements_swap hp, getElementType_swap
      hp, hasMoreAttributes_swap hp, getAttributeType_swap hp, goOverObjLoop_swap hp,
      goOverObj_swap hp, goOverAryLoop_swap hp, goOverAry_swap hp, goToObjEndLoop_swap hp,
      goToObjEnd_swap hp, ih]

theorem goToAryEnd_swap {t1 t2 : List Nat} (hp : PadRel t1 t2) (fuel : Nat) (c : FF)  :
    goToAryEnd fuel (c.swap t1 t2)  = (goToAryEnd fuel c ).map (FF.swap t1 t2) := by
  unfold goToAryEnd
  simp only [FF_swap_s, swap_mNumWords, enterWord_swap hp, map_ite, map_bind, bind_map, map_pure, map_ok,
    map_error, FF_swap_pos, FF_swap_bm, get_bitmap_colon_swap hp, get_bitmap_comma_swap hp,
    get_bitmap_lbrace_swap hp, get_bitmap_rbrace_swap hp, get_bitmap_lbracket_swap hp,
    get_bitmap_rbracket_swap hp, build_bitmap_rbracket_swap hp, get_position_swap,
    interval_end_swap, object_end_swap, FF_mk_swap, hasMoreElements_swap hp, getElementType_swap
    hp, hasMoreAttributes_swap hp, getAttributeType_swap hp, goOverObjLoop_swap hp,
    goOverObj_swap hp, goOverAryLoop_swap hp, goOverAry_swap hp, goToObjEndLoop_swap hp,
    goToObjEnd_swap hp, goToAryEndLoop_swap hp]

theorem goOverPriAttrLoop_swap {t1 t2 : List Nat} (hp : PadRel t1 t2) (fuel : Nat) :
    ∀ (c : FF) (word_id : Int) (fi : Bool) (nw : Bool),
      goOverPriAttrLoop fuel (c.swap t1 t2) word_id fi nw
        = (goOverPriAttrLoop fuel c word_id fi nw).map (FF.swap t1 t2) := by
  induction fuel with
  | zero => intros; rfl
  | succ f ih =>
    intro c word_id fi nw
    unfold goOverPriAttrLoop
    simp only [FF_swap_s, swap_mNumWords, enterWord_swap hp, map_ite, map_bind, bind_map, map_pure, map_ok,
      map_error, FF_swap_pos, FF_swap_bm, get_bitmap_colon_swap hp, get_bitmap_comma_swap hp,
      get_bitmap_lbrace_swap hp, get_bitmap_rbrace_swap hp, get_bitmap_lbracket_swap hp,
      get_bitmap_rbracket_swap hp, build_bitmap_rbracket_swap hp, get_position_swap,
      interval_end_swap, object_end_swap, FF_mk_swap, hasMoreElements_swap hp, getElementType_swap
      hp, hasMoreAttributes_swap hp, getAttributeType_swap hp, goOverObjLoop_swap hp,
      goOverObj_swap hp, goOverAryLoop_swap hp, goOverAry_swap hp, goToObjEndLoop_swap hp,
      goToObjEnd_swap hp, goToAryEndLoop_swap hp, goToAryEnd_swap hp, ih]

theorem goOverPriAttr_swap {t1 t2 : List Nat} (hp : PadRel t1 t2) (fuel : Nat) (c : FF)  :
    goOverPriAttr fuel (c.swap t1 t2)  = (goOverPriAttr fuel c ).map (FF.swap t1 t2) := by
  unfold goOverPriAttr
  simp only [FF_swap_s, swap_mNumWords, enterWord_swap hp, map_ite, map_bind, bind_map, map_pure, map_ok,
    map_error, FF_swap_pos, FF_swap_bm, get_bitmap_colon_swap hp, get_bitmap_comma_swap hp,
    get_bitmap_lbrace_swap hp, get_bitmap_rbrace_swap hp, get_bitmap_lbracket_swap hp,
    get_bitmap_rbracket_swap hp, build_bitmap_rbracket_swap hp, get_position_swap,
    interval_end_swap, object_end_swap, FF_mk_swap, hasMoreElements_swap hp, getElementType_swap
    hp, hasMoreAttributes_swap hp, getAttributeType_swap hp, goOverObjLoop_swap hp,
    goOverObj_swap hp, goOverAryLoop_swap hp, goOverAry_swap hp, goToObjEndLoop_swap hp,
    goToObjEnd_swap hp, goToAryEndLoop_swap hp, goToAryEnd_swap hp, goOverPriAttrLoop_swap hp]

theorem goOverPriElemLoop_swap {t1 t2 : List Nat} (hp : PadRel t1 t2) (fuel : Nat) :
    ∀ (c : FF) (word_id : Int) (fi : Bool) (nw : Bool),
      goOverPriElemLoop fuel (c.swap t1 t2) word_id fi nw
        = (goOverPriElemLoop fuel c word_id fi nw).map (fun p : Int × FF => (p.1, p.2.swap t1 t2)) := by
  induction fuel with
  | zero => intros; rfl
  | succ f ih =>
    intro c word_id fi nw
    unfold goOverPriElemLoop
    simp only [FF_swap_s, swap_mNumWords, enterWord_swap hp, map_ite, map_bind, bind_map, map_pure, map_ok,
      map_error, FF_swap_pos, FF_swap_bm, get_bitmap_colon_swap hp, get_bitmap_comma_swap hp,
      get_bitmap_lbrace_swap hp, get_bitmap_rbrace_swap hp, get_bitmap_lbracket_swap hp,
      get_bitmap_rbracket_swap hp, build_bitmap_rbracket_swap hp, get_position_swap,
      interval_end_swap, object_end_swap, FF_mk_swap, hasMoreElements_swap hp, getElementType_swap
      hp, hasMoreAttributes_swap hp, getAttributeType_swap hp, goOverObjLoop_swap hp,
      goOverObj_swap hp, goOverAryLoop_swap hp, goOverAry_swap hp, goToObjEndLoop_swap hp,
      goToObjEnd_swap hp, goToAryEndLoop_swap hp, goToAryEnd_swap hp, goOverPriAttrLoop_swap hp,
      goOverPriAttr_swap hp, ih]

theorem goOverPriElem_swap {t1 t2 : List Nat} (hp : PadRel t1 t2) (fuel : Nat) (c : FF)  :
    goOverPriElem fuel (c.swap t1 t2)  = (goOverPriElem fuel c ).map (fun p : Int × FF => (p.1, p.2.swap t1 t2)) := by
  unfold goOverPriElem
  simp only [FF_swap_s, swap_mNumWords, enterWord_swap hp, map_ite, map_bind, bind_map, map_pure, map_ok,
    map_error, FF_swap_pos, FF_swap_bm, get_bitmap_colon_swap hp, get_bitmap_comma_swap hp,
    get_bitmap_lbrace_swap hp, get_bitmap_rbrace_swap hp, get_bitmap_lbracket_swap hp,
    get_bitmap_rbracket_swap hp, build_bitmap_rbracket_swap hp, get_position_swap,
    interval_end_swap, object_end_swap, FF_mk_swap, hasMoreElements_swap hp, getElementType_swap
    hp, hasMoreAttributes_swap hp, getAttributeType_swap hp, goOverObjLoop_swap hp,
    goOverObj_swap hp, goOverAryLoop_swap hp, goOverAry_swap hp, goToObjEndLoop_swap hp,
    goToObjEnd_swap hp, goToAryEndLoop_swap hp, goToAryEnd_swap hp, goOverPriAttrLoop_swap hp,
    goOverPriAttr_swap hp, goOverPriElemLoop_swap hp]

theorem goOverPriElemsLoop_swap {t1 t2 : List Nat} (hp : PadRel t1 t2) (fuel : Nat) :
    ∀ (c : FF) (word_id : Int) (nw : Bool),
      goOverPriElemsLoop fuel (c.swap t1 t2) word_id nw
        = (goOverPriElemsLoop fuel c word_id nw).map (fun p : Int × FF => (p.1, p.2.swap t1 t2)) := by
  induction fuel with
  | zero => intros; rfl
  | succ f ih =>
    intro c word_id nw
    unfold goOverPriElemsLoop
    simp only [FF_swap_s, swap_mNumWords, enterWord_swap hp, map_ite, map_bind, bind_map, map_pure, map_ok,
      map_error, FF_swap_pos, FF_swap_bm, get_bitmap_colon_swap hp, get_bitmap_comma_swap hp,
      get_bitmap_lbrace_swap hp, get_bitmap_rbrace_swap hp, get_bitmap_lbracket_swap hp,
      get_bitmap_rbracket_swap hp, build_bitmap_rbracket_swap hp, get_position_swap,
      interval_end_swap, object_end_swap, FF_mk_swap, hasMoreElements_swap hp, getElementType_swap
      hp, hasMoreAttributes_swap hp, getAttributeType_swap hp, goOverObjLoop_swap hp,
      goOverObj_swap hp, goOverAryLoop_swap hp, goOverAry_swap hp, goToObjEndLoop_swap hp,
      goToObjEnd_swap hp, goToAryEndLoop_swap hp, goToAryEnd_swap hp, goOverPriAttrLoop_swap hp,
      goOverPriAttr_swap hp, goOverPriElemLoop_swap hp, goOverPriElem_swap hp, ih]

theorem goOverPriElems_swap {t1 t2 : List Nat} (hp : PadRel t1 t2) (fuel : Nat) (c : FF)  :
    goOverPriElems fuel (c.swap t1 t2)  = (goOverPriElems fuel c ).map (fun p : Int × FF => (p.1, p.2.swap t1 t2)) := by
  unfold goOverPriElems
  simp only [FF_swap_s, swap_mNumWords, enterWord_swap hp, map_ite, map_bind, bind_map, map_pure, map_ok,
    map_error, FF_swap_pos, FF_swap_bm, get_bitmap_colon_swap hp, get_bitmap_comma_swap hp,
    get_bitmap_lbrace_swap hp, get_bitmap_rbrace_swap hp, get_bitmap_lbracket_swap hp,
    get_bitmap_rbracket_swap hp, build_bitmap_rbracket_swap hp, get_position_swap,
    interval_end_swap, object_end_swap, FF_mk_swap, hasMoreElements_swap hp, getElementType_swap
    hp, hasMoreAttributes_swap hp, getAttributeType_swap hp, goOverObjLoop_swap hp,
    goOverObj_swap hp, goOverAryLoop_swap hp, goOverAry_swap hp, goToObjEndLoop_swap hp,
    goToObjEnd_swap hp, goToAryEndLoop_swap hp, goToAryEnd_swap hp, goOverPriAttrLoop_swap hp,
    goOverPriAttr_swap hp, goOverPriElemLoop_swap hp, goOverPriElem_swap hp,
    goOverPriElemsLoop_swap hp]

theorem goOverPriAttrsLoop_swap {t1 t2 : List Nat} (hp : PadRel t1 t2) (fuel : Nat) :
    ∀ (c : FF) (word_id : Int) (nw : Bool),
      goOverPriAttrsLoop fuel (c.swap t1 t2) word_id nw
        = (goOverPriAttrsLoop fuel c word_id nw).map (fun p : Int × FF => (p.1, p.2.swap t1 t2)) := by
  induction fuel with
  | zero => intros; rfl
  | succ f ih =>
    intro c word_id nw
    unfold goOverPriAttrsLoop
    simp only [FF_swap_s, swap_mNumWords, enterWord_swap hp, map_ite, map_bind, bind_map, map_pure, map_ok,
      map_error, FF_swap_pos, FF_swap_bm, get_bitmap_colon_swap hp, get_bitmap_comma_swap hp,
      get_bitmap_lbrace_swap hp, get_bitmap_rbrace_swap hp, get_bitmap_lbracket_swap hp,
      get_bitmap_rbracket_swap hp, build_bitmap_rbracket_swap hp, get_position_swap,
      interval_end_swap, object_end_swap, FF_mk_swap, hasMoreElements_swap hp, getElementType_swap
      hp, hasMoreAttributes_swap hp, getAttributeType_swap hp, goOverObjLoop_swap hp,
      goOverObj_swap hp, goOverAryLoop_swap hp, goOverAry_swap hp, goToObjEndLoop_swap hp,
      goToObjEnd_swap hp, goToAryEndLoop_swap hp, goToAryEnd_swap hp, goOverPriAttrLoop_swap hp,
      goOverPriAttr_swap hp, goOverPriElemLoop_swap hp, goOverPriElem_swap hp,
      goOverPriElemsLoop_swap hp, goOverPriElems_swap hp, ih]

theorem goOverPriAttrs_swap {t1 t2 : List Nat} (hp : PadRel t1 t2) (fuel : Nat) (c : FF)  :
    goOverPriAttrs fuel (c.swap t1 t2)  = (goOverPriAttrs fuel c ).map (fun p : Int × FF => (p.1, p.2.swap t1 t2)) := by
  unfold goOverPriAttrs
  simp only [FF_swap_s, swap_mNumWords, enterWord_swap hp, map_ite, map_bind, bind_map, map_pure, map_ok,
    map_error, FF_swap_pos, FF_swap_bm, get_bitmap_colon_swap hp, get_bitmap_comma_swap hp,
    get_bitmap_lbrace_swap hp, get_bitmap_rbrace_swap hp, get_bitmap_lbracket_swap hp,
    get_bitmap_rbracket_swap hp, build_bitmap_rbracket_swap hp, get_position_swap,
    interval_end_swap, object_end_swap, FF_mk_swap, hasMoreElements_swap hp, getElementType_swap
    hp, hasMoreAttributes_swap hp, getAttributeType_swap hp, goOverObjLoop_swap hp,
    goOverObj_swap hp, goOverAryLoop_swap hp, goOverAry_swap hp, goToObjEndLoop_swap hp,
    goToObjEnd_swap hp, goToAryEndLoop_swap hp, goToAryEnd_swap hp, goOverPriAttrLoop_swap hp,
    goOverPriAttr_swap hp, goOverPriElemLoop_swap hp, goOverPriElem_swap hp,
    goOverPriElemsLoop_swap hp, goOverPriElems_swap hp, goOverPriAttrsLoop_swap hp]

theorem bind_pure_ok {α β : Type} (a : α) (k : α → Except Err β) :
    ((pure a : Except Err α) >>= k) = k a := rfl

theorem goToObjElem_swap {t1 t2 : List Nat} (hp : PadRel t1 t2) (fuel : Nat) :
    ∀ (c : FF) ,
      goToObjElem fuel (c.swap t1 t2) 
        = (goToObjElem fuel c ).map (fun p : Int × FF => (p.1, p.2.swap t1 t2)) := by
  induction fuel with
  | zero => intros; rfl
  | succ f ih =>
    intro c 
    unfold goToObjElem
    rw [map_bind]
    refine rd_bind_swap hp _ _ _ _ ?_
    rintro b b' (rfl | ⟨hi, hi'⟩)
    · simp only [FF_swap_s, swap_mNumWords, enterWord_swap hp, map_ite, map_bind, bind_map, map_pure, map_ok,
        map_error, bind_pure_ok, FF_swap_pos, FF_swap_bm, get_bitmap_colon_swap hp, get_bitmap_comma_swap hp,
        get_bitmap_lbrace_swap hp, get_bitmap_rbrace_swap hp, get_bitmap_lbracket_swap hp,
        get_bitmap_rbracket_swap hp, build_bitmap_rbracket_swap hp, get_position_swap,
        interval_end_swap, object_end_swap, FF_mk_swap, hasMoreElements_swap hp, getElementType_swap
        hp, hasMoreAttributes_swap hp, getAttributeType_swap hp, goOverObjLoop_swap hp,
        goOverObj_swap hp, goOverAryLoop_swap hp, goOverAry_swap hp, goToObjEndLoop_swap hp,
        goToObjEnd_swap hp, goToAryEndLoop_swap hp, goToAryEnd_swap hp, goOverPriAttrLoop_swap hp,
        goOverPriAttr_swap hp, goOverPriElemLoop_swap hp, goOverPriElem_swap hp,
        goOverPriElemsLoop_swap hp, goOverPriElems_swap hp, goOverPriAttrsLoop_swap hp,
        goOverPriAttrs_swap hp, ih]
    · obtain ⟨a1, a2, a3, a4, a5, a6, a7, a8, a9, a10, a11⟩ := hi
      obtain ⟨b1, b2, b3, b4, b5, b6, b7, b8, b9, b10, b11⟩ := hi'
      simp only [a1, a2, a3, a4, a5, a6, b1, b2, b3, b4, b5, b6, ne_eq, not_false_eq_true,
        or_self, true_and, if_true,
        FF_swap_s, swap_mNumWords, enterWord_swap hp, map_ite, map_bind, bind_map, map_pure, map_ok,
        map_error, bind_pure_ok, FF_swap_pos, FF_swap_bm, get_bitmap_colon_swap hp, get_bitmap_comma_swap hp,
        get_bitmap_lbrace_swap hp, get_bitmap_rbrace_swap hp, get_bitmap_lbracket_swap hp,
        get_bitmap_rbracket_swap hp, build_bitmap_rbracket_swap hp, get_position_swap,
        interval_end_swap, object_end_swap, FF_mk_swap, hasMoreElements_swap hp, getElementType_swap
        hp, hasMoreAttributes_swap hp, getAttributeType_swap hp, goOverObjLoop_swap hp,
        goOverObj_swap hp, goOverAryLoop_swap hp, goOverAry_swap hp, goToObjEndLoop_swap hp,
        goToObjEnd_swap hp, goToAryEndLoop_swap hp, goToAryEnd_swap hp, goOverPriAttrLoop_swap hp,
        goOverPriAttr_swap hp, goOverPriElemLoop_swap hp, goOverPriElem_swap hp,
        goOverPriElemsLoop_swap hp, goOverPriElems_swap hp, goOverPriAttrsLoop_swap hp,
        goOverPriAttrs_swap hp, ih]

theorem goToAryElem_swap {t1 t2 : List Nat} (hp : PadRel t1 t2) (fuel : Nat) :
    ∀ (c : FF) ,
      goToAryElem fuel (c.swap t1 t2) 
        = (goToAryElem fuel c ).map (fun p : Int × FF => (p.1, p.2.swap t1 t2)) := by
  induction fuel with
  | zero => intros; rfl
  | succ f ih =>
    intro c 
    unfold goToAryElem
    rw [map_bind]
    refine rd_bind_swap hp _ _ _ _ ?_
    rintro b b' (rfl | ⟨hi, hi'⟩)
    · simp only [FF_swap_s, swap_mNumWords, enterWord_swap hp, map_ite, map_bind, bind_map, map_pure, map_ok,
        map_error, bind_pure_ok, FF_swap_pos, FF_swap_bm, get_bitmap_colon_swap hp, get_bitmap_comma_swap hp,
        get_bitmap_lbrace_swap hp, get_bitmap_rbrace_swap hp, get_bitmap_lbracket_swap hp,
        get_bitmap_rbracket_swap hp, build_bitmap_rbracket_swap hp, get_position_swap,
        interval_end_swap, object_end_swap, FF_mk_swap, hasMoreElements_swap hp, getElementType_swap
        hp, hasMoreAttributes_swap hp, getAttributeType_swap hp, goOverObjLoop_swap hp,
        goOverObj_swap hp, goOverAryLoop_swap hp, goOverAry_swap hp, goToObjEndLoop_swap hp,
        goToObjEnd_swap hp, goToAryEndLoop_swap hp, goToAryEnd_swap hp, goOverPriAttrLoop_swap hp,
        goOverPriAttr_swap hp, goOverPriElemLoop_swap hp, goOverPriElem_swap hp,
        goOverPriElemsLoop_swap hp, goOverPriElems_swap hp, goOverPriAttrsLoop_swap hp,
        goOverPriAttrs_swap hp, goToObjElem_swap hp, ih]
    · obtain ⟨a1, a2, a3, a4, a5, a6, a7, a8, a9, a10, a11⟩ := hi
      obtain ⟨b1, b2, b3, b4, b5, b6, b7, b8, b9, b10, b11⟩ := hi'
      simp only [a1, a2, a3, a4, a5, a6, b1, b2, b3, b4, b5, b6, ne_eq, not_false_eq_true,
        or_self, true_and, if_true,
        FF_swap_s, swap_mNumWords, enterWord_swap hp, map_ite, map_bind, bind_map, map_pure, map_ok,
        map_error, bind_pure_ok, FF_swap_pos, FF_swap_bm, get_bitmap_colon_swap hp, get_bitmap_comma_swap hp,
        get_bitmap_lbrace_swap hp, get_bitmap_rbrace_swap hp, get_bitmap_lbracket_swap hp,
        get_bitmap_rbracket_swap hp, build_bitmap_rbracket_swap hp, get_position_swap,
        interval_end_swap, object_end_swap, FF_mk_swap, hasMoreElements_swap hp, getElementType_swap
        hp, hasMoreAttributes_swap hp, getAttributeType_swap hp, goOverObjLoop_swap hp,
        goOverObj_swap hp, goOverAryLoop_swap hp, goOverAry_swap hp, goToObjEndLoop_swap hp,
        goToObjEnd_swap hp, goToAryEndLoop_swap hp, goToAryEnd_swap hp, goOverPriAttrLoop_swap hp,
        goOverPriAttr_swap hp, goOverPriElemLoop_swap hp, goOverPriElem_swap hp,
        goOverPriElemsLoop_swap hp, goOverPriElems_swap hp, goOverPriAttrsLoop_swap hp,
        goOverPriAttrs_swap hp, goToObjElem_swap hp, ih]

theorem goToObjAttr_swap {t1 t2 : List Nat} (hp : PadRel t1 t2) (fuel : Nat) :
    ∀ (c : FF) ,
      goToObjAttr fuel (c.swap t1 t2) 
        = (goToObjAttr fuel c ).map (fun p : Int × FF => (p.1, p.2.swap t1 t2)) := by
  induction fuel with
  | zero => intros; rfl
  | succ f ih =>
    intro c 
    unfold goToObjAttr
    simp only [FF_swap_s, swap_mNumWords, enterWord_swap hp, map_ite, map_bind, bind_map, map_pure, map_ok,
      map_error, bind_pure_ok, FF_swap_pos, FF_swap_bm, get_bitmap_colon_swap hp, get_bitmap_comma_swap hp,
      get_bitmap_lbrace_swap hp, get_bitmap_rbrace_swap hp, get_bitmap_lbracket_swap hp,
      get_bitmap_rbracket_swap hp, build_bitmap_rbracket_swap hp, get_position_swap,
      interval_end_swap, object_end_swap, FF_mk_swap, hasMoreElements_swap hp, getElementType_swap
      hp, hasMoreAttributes_swap hp, getAttributeType_swap hp, goOverObjLoop_swap hp,
      goOverObj_swap hp, goOverAryLoop_swap hp, goOverAry_swap hp, goToObjEndLoop_swap hp,
      goToObjEnd_swap hp, goToAryEndLoop_swap hp, goToAryEnd_swap hp, goOverPriAttrLoop_swap hp,
      goOverPriAttr_swap hp, goOverPriElemLoop_swap hp, goOverPriElem_swap hp,
      goOverPriElemsLoop_swap hp, goOverPriElems_swap hp, goOverPriAttrsLoop_swap hp,
      goOverPriAttrs_swap hp, goToObjElem_swap hp, goToAryElem_swap hp, ih]

theorem goToAryAttr_swap {t1 t2 : List Nat} (hp : PadRel t1 t2) (fuel : Nat) :
    ∀ (c : FF) ,
      goToAryAttr fuel (c.swap t1 t2) 
        = (goToAryAttr fuel c ).map (fun p : Int × FF => (p.1, p.2.swap t1 t2)) := by
  induction fuel with
  | zero => intros; rfl
  | succ f ih =>
    intro c 
    unfold goToAryAttr
    simp only [FF_swap_s, swap_mNumWords, enterWord_swap hp, map_ite, map_bind, bind_map, map_pure, map_ok,
      map_error, bind_pure_ok, FF_swap_pos, FF_swap_bm, get_bitmap_colon_swap hp, get_bitmap_comma_swap hp,
      get_bitmap_lbrace_swap hp, get_bitmap_rbrace_swap hp, get_bitmap_lbracket_swap hp,
      get_bitmap_rbracket_swap hp, build_bitmap_rbracket_swap hp, get_position_swap,
      interval_end_swap, object_end_swap, FF_mk_swap, hasMoreElements_swap hp, getElementType_swap
      hp, hasMoreAttributes_swap hp, getAttributeType_swap hp, goOverObjLoop_swap hp,
      goOverObj_swap hp, goOverAryLoop_swap hp, goOverAry_swap hp, goToObjEndLoop_swap hp,
      goToObjEnd_swap hp, goToAryEndLoop_swap hp, goToAryEnd_swap hp, goOverPriAttrLoop_swap hp,
      goOverPriAttr_swap hp, goOverPriElemLoop_swap hp, goOverPriElem_swap hp,
      goOverPriElemsLoop_swap hp, goOverPriElems_swap hp, goOverPriAttrsLoop_swap hp,
      goOverPriAttrs_swap hp, goToObjElem_swap hp, goToAryElem_swap hp, goToObjAttr_swap hp, ih]

theorem goToPrimAttrLoop_swap {t1 t2 : List Nat} (hp : PadRel t1 t2) (fuel : Nat) :
    ∀ (c : FF) (word_id : Int) (fi : Bool) (nw : Bool),
      goToPrimAttrLoop fuel (c.swap t1 t2) word_id fi nw
        = (goToPrimAttrLoop fuel c word_id fi nw).map (fun p : Int × FF => (p.1, p.2.swap t1 t2)) := by
  induction fuel with
  | zero => intros; rfl
  | succ f ih =>
    intro c word_id fi nw
    unfold goToPrimAttrLoop
    simp only [FF_swap_s, swap_mNumWords, enterWord_swap hp, map_ite, map_bind, bind_map, map_pure, map_ok,
      map_error, bind_pure_ok, FF_swap_pos, FF_swap_bm, get_bitmap_colon_swap hp, get_bitmap_comma_swap hp,
      get_bitmap_lbrace_swap hp, get_bitmap_rbrace_swap hp, get_bitmap_lbracket_swap hp,
      get_bitmap_rbracket_swap hp, build_bitmap_rbracket_swap hp, get_position_swap,
      interval_end_swap, object_end_swap, FF_mk_swap, hasMoreElements_swap hp, getElementType_swap
      hp, hasMoreAttributes_swap hp, getAttributeType_swap hp, goOverObjLoop_swap hp,
      goOverObj_swap hp, goOverAryLoop_swap hp, goOverAry_swap hp, goToObjEndLoop_swap hp,
      goToObjEnd_swap hp, goToAryEndLoop_swap hp, goToAryEnd_swap hp, goOverPriAttrLoop_swap hp,
      goOverPriAttr_swap hp, goOverPriElemLoop_swap hp, goOverPriElem_swap hp,
      goOverPriElemsLoop_swap hp, goOverPriElems_swap hp, goOverPriAttrsLoop_swap hp,
      goOverPriAttrs_swap hp, goToObjElem_swap hp, goToAryElem_swap hp, goToObjAttr_swap hp,
      goToAryAttr_swap hp, ih]

theorem goToPrimAttr_swap {t1 t2 : List Nat} (hp : PadRel t1 t2) (fuel : Nat) (c : FF)  :
    goToPrimAttr fuel (c.swap t1 t2)  = (goToPrimAttr fuel c ).map (fun p : Int × FF => (p.1, p.2.swap t1 t2)) := by
  unfold goToPrimAttr
  simp only [FF_swap_s, swap_mNumWords, enterWord_swap hp, map_ite, map_bind, bind_map, map_pure, map_ok,
    map_error, bind_pure_ok, FF_swap_pos, FF_swap_bm, get_bitmap_colon_swap hp, get_bitmap_comma_swap hp,
    get_bitmap_lbrace_swap hp, get_bitmap_rbrace_swap hp, get_bitmap_lbracket_swap hp,
    get_bitmap_rbracket_swap hp, build_bitmap_rbracket_swap hp, get_position_swap,
    interval_end_swap, object_end_swap, FF_mk_swap, hasMoreElements_swap hp, getElementType_swap
    hp, hasMoreAttributes_swap hp, getAttributeType_swap hp, goOverObjLoop_swap hp,
    goOverObj_swap hp, goOverAryLoop_swap hp, goOverAry_swap hp, goToObjEndLoop_swap hp,
    goToObjEnd_swap hp, goToAryEndLoop_swap hp, goToAryEnd_swap hp, goOverPriAttrLoop_swap hp,
    goOverPriAttr_swap hp, goOverPriElemLoop_swap hp, goOverPriElem_swap hp,
    goOverPriElemsLoop_swap hp, goOverPriElems_swap hp, goOverPriAttrsLoop_swap hp,
    goOverPriAttrs_swap hp, goToObjElem_swap hp, goToAryElem_swap hp, goToObjAttr_swap hp,
    goToAryAttr_swap hp, goToPrimAttrLoop_swap hp]

theorem goOverPrimElemsInRangeLoop_swap {t1 t2 : List Nat} (hp : PadRel t1 t2) (fuel : Nat) :
    ∀ (c : FF) (word_id : Int) (nw : Bool) (num_comma : Int) (num_elements : Int),
      goOverPrimElemsInRangeLoop fuel (c.swap t1 t2) word_id nw num_comma num_elements
        = (goOverPrimElemsInRangeLoop fuel c word_id nw num_comma num_elements).map (fun p : JumpInfo × FF => (p.1, p.2.swap t1 t2)) := by
  induction fuel with
  | zero => intros; rfl
  | succ f ih =>
    intro c word_id nw num_comma num_elements
    unfold goOverPrimElemsInRangeLoop
    simp only [FF_swap_s, swap_mNumWords, enterWord_swap hp, map_ite, map_bind, bind_map, map_pure, map_ok,
      map_error, bind_pure_ok, FF_swap_pos, FF_swap_bm, get_bitmap_colon_swap hp, get_bitmap_comma_swap hp,
      get_bitmap_lbrace_swap hp, get_bitmap_rbrace_swap hp, get_bitmap_lbracket_swap hp,
      get_bitmap_rbracket_swap hp, build_bitmap_rbracket_swap hp, get_position_swap,
      interval_end_swap, object_end_swap, FF_mk_swap, hasMoreElements_swap hp, getElementType_swap
      hp, hasMoreAttributes_swap hp, getAttributeType_swap hp, goOverObjLoop_swap hp,
      goOverObj_swap hp, goOverAryLoop_swap hp, goOverAry_swap hp, goToObjEndLoop_swap hp,
      goToObjEnd_swap hp, goToAryEndLoop_swap hp, goToAryEnd_swap hp, goOverPriAttrLoop_swap hp,
      goOverPriAttr_swap hp, goOverPriElemLoop_swap hp, goOverPriElem_swap hp,
      goOverPriElemsLoop_swap hp, goOverPriElems_swap hp, goOverPriAttrsLoop_swap hp,
      goOverPriAttrs_swap hp, goToObjElem_swap hp, goToAryElem_swap hp, goToObjAttr_swap hp,
      goToAryAttr_swap hp, goToPrimAttrLoop_swap hp, goToPrimAttr_swap hp, ih]

theorem goOverPrimElemsInRange_swap {t1 t2 : List Nat} (hp : PadRel t1 t2) (fuel : Nat) (c : FF) (num_elements : Int) :
    goOverPrimElemsInRange fuel (c.swap t1 t2) num_elements = (goOverPrimElemsInRange fuel c num_elements).map (fun p : JumpInfo × FF => (p.1, p.2.swap t1 t2)) := by
  unfold goOverPrimElemsInRange
  simp only [FF_swap_s, swap_mNumWords, enterWord_swap hp, map_ite, map_bind, bind_map, map_pure, map_ok,
    map_error, bind_pure_ok, FF_swap_pos, FF_swap_bm, get_bitmap_colon_swap hp, get_bitmap_comma_swap hp,
    get_bitmap_lbrace_swap hp, get_bitmap_rbrace_swap hp, get_bitmap_lbracket_swap hp,
    get_bitmap_rbracket_swap hp, build_bitmap_rbracket_swap hp, get_position_swap,
    interval_end_swap, object_end_swap, FF_mk_swap, hasMoreElements_swap hp, getElementType_swap
    hp, hasMoreAttributes_swap hp, getAttributeType_swap hp, goOverObjLoop_swap hp,
    goOverObj_swap hp, goOverAryLoop_swap hp, goOverAry_swap hp, goToObjEndLoop_swap hp,
    goToObjEnd_swap hp, goToAryEndLoop_swap hp, goToAryEnd_swap hp, goOverPriAttrLoop_swap hp,
    goOverPriAttr_swap hp, goOverPriElemLoop_swap hp, goOverPriElem_swap hp,
    goOverPriElemsLoop_swap hp, goOverPriElems_swap hp, goOverPriAttrsLoop_swap hp,
    goOverPriAttrs_swap hp, goToObjElem_swap hp, goToAryElem_swap hp, goToObjAttr_swap hp,
    goToAryAttr_swap hp, goToPrimAttrLoop_swap hp, goToPrimAttr_swap hp,
    goOverPrimElemsInRangeLoop_swap hp]

theorem goOverElem_swap {t1 t2 : List Nat} (hp : PadRel t1 t2) (fuel : Nat) :
    ∀ (c : FF) (num_elements : Int),
      goOverElem fuel (c.swap t1 t2) num_elements
        = (goOverElem fuel c num_elements).map (fun p : Int × FF => (p.1, p.2.swap t1 t2)) := by
  induction fuel with
  | zero => intros; rfl
  | succ f ih =>
    intro c num_elements
    unfold goOverElem
    simp only [FF_swap_s, swap_mNumWords, enterWord_swap hp, map_ite, map_bind, bind_map, map_pure, map_ok,
      map_error, bind_pure_ok, FF_swap_pos, FF_swap_bm, get_bitmap_colon_swap hp, get_bitmap_comma_swap hp,
      get_bitmap_lbrace_swap hp, get_bitmap_rbrace_swap hp, get_bitmap_lbracket_swap hp,
      get_bitmap_rbracket_swap hp, build_bitmap_rbracket_swap hp, get_position_swap,
      interval_end_swap, object_end_swap, FF_mk_swap, hasMoreElements_swap hp, getElementType_swap
      hp, hasMoreAttributes_swap hp, getAttributeType_swap hp, goOverObjLoop_swap hp,
      goOverObj_swap hp, goOverAryLoop_swap hp, goOverAry_swap hp, goToObjEndLoop_swap hp,
      goToObjEnd_swap hp, goToAryEndLoop_swap hp, goToAryEnd_swap hp, goOverPriAttrLoop_swap hp,
      goOverPriAttr_swap hp, goOverPriElemLoop_swap hp, goOverPriElem_swap hp,
      goOverPriElemsLoop_swap hp, goOverPriElems_swap hp, goOverPriAttrsLoop_swap hp,
      goOverPriAttrs_swap hp, goToObjElem_swap hp, goToAryElem_swap hp, goToObjAttr_swap hp,
      goToAryAttr_swap hp, goToPrimAttrLoop_swap hp, goToPrimAttr_swap hp,
      goOverPrimElemsInRangeLoop_swap hp, goOverPrimElemsInRange_swap hp, ih]

theorem goToObjElemInRange_swap {t1 t2 : List Nat} (hp : PadRel t1 t2) (fuel : Nat) :
    ∀ (c : FF) (num_elements : Int),
      goToObjElemInRange fuel (c.swap t1 t2) num_elements
        = (goToObjElemInRange fuel c num_elements).map (fun p : Int × Int × FF => (p.1, p.2.1, p.2.2.swap t1 t2)) := by
  induction fuel with
  | zero => intros; rfl
  | succ f ih =>
    intro c num_elements
    unfold goToObjElemInRange
    simp only [FF_swap_s, swap_mNumWords, enterWord_swap hp, map_ite, map_bind, bind_map, map_pure, map_ok,
      map_error, bind_pure_ok, FF_swap_pos, FF_swap_bm, get_bitmap_colon_swap hp, get_bitmap_comma_swap hp,
      get_bitmap_lbrace_swap hp, get_bitmap_rbrace_swap hp, get_bitmap_lbracket_swap hp,
      get_bitmap_rbracket_swap hp, build_bitmap_rbracket_swap hp, get_position_swap,
      interval_end_swap, object_end_swap, FF_mk_swap, hasMoreElements_swap hp, getElementType_swap
      hp, hasMoreAttributes_swap hp, getAttributeType_swap hp, goOverObjLoop_swap hp,
      goOverObj_swap hp, goOverAryLoop_swap hp, goOverAry_swap hp, goToObjEndLoop_swap hp,
      goToObjEnd_swap hp, goToAryEndLoop_swap hp, goToAryEnd_swap hp, goOverPriAttrLoop_swap hp,
      goOverPriAttr_swap hp, goOverPriElemLoop_swap hp, goOverPriElem_swap hp,
      goOverPriElemsLoop_swap hp, goOverPriElems_swap hp, goOverPriAttrsLoop_swap hp,
      goOverPriAttrs_swap hp, goToObjElem_swap hp, goToAryElem_swap hp, goToObjAttr_swap hp,
      goToAryAttr_swap hp, goToPrimAttrLoop_swap hp, goToPrimAttr_swap hp,
      goOverPrimElemsInRangeLoop_swap hp, goOverPrimElemsInRange_swap hp, goOverElem_swap hp, ih]

theorem goToAryElemInRange_swap {t1 t2 : List Nat} (hp : PadRel t1 t2) (fuel : Nat) :
    ∀ (c : FF) (num_elements : Int),
      goToAryElemInRange fuel (c.swap t1 t2) num_elements
        = (goToAryElemInRange fuel c num_elements).map (fun p : Int × Int × FF => (p.1, p.2.1, p.2.2.swap t1 t2)) := by
  induction fuel with
  | zero => intros; rfl
  | succ f ih =>
    intro c num_elements
    unfold goToAryElemInRange
    simp only [FF_swap_s, swap_mNumWords, enterWord_swap hp, map_ite, map_bind, bind_map, map_pure, map_ok,
      map_error, bind_pure_ok, FF_swap_pos, FF_swap_bm, get_bitmap_colon_swap hp, get_bitmap_comma_swap hp,
      get_bitmap_lbrace_swap hp, get_bitmap_rbrace_swap hp, get_bitmap_lbracket_swap hp,
      get_bitmap_rbracket_swap hp, build_bitmap_rbracket_swap hp, get_position_swap,
      interval_end_swap, object_end_swap, FF_mk_swap, hasMoreElements_swap hp, getElementType_swap
      hp, hasMoreAttributes_swap hp, getAttributeType_swap hp, goOverObjLoop_swap hp,
      goOverObj_swap hp, goOverAryLoop_swap hp, goOverAry_swap hp, goToObjEndLoop_swap hp,
      goToObjEnd_swap hp, goToAryEndLoop_swap hp, goToAryEnd_swap hp, goOverPriAttrLoop_swap hp,
      goOverPriAttr_swap hp, goOverPriElemLoop_swap hp, goOverPriElem_swap hp,
      goOverPriElemsLoop_swap hp, goOverPriElems_swap hp, goOverPriAttrsLoop_swap hp,
      goOverPriAttrs_swap hp, goToObjElem_swap hp, goToAryElem_swap hp, goToObjAttr_swap hp,
      goToAryAttr_swap hp, goToPrimAttrLoop_swap hp, goToPrimAttr_swap hp,
      goOverPrimElemsInRangeLoop_swap hp, goOverPrimElemsInRange_swap hp, goOverElem_swap hp,
      goToObjElemInRange_swap hp, ih]

theorem goToPrimElemInRange_swap {t1 t2 : List Nat} (hp : PadRel t1 t2) (fuel : Nat) :
    ∀ (c : FF) (num_elements : Int),
      goToPrimElemInRange fuel (c.swap t1 t2) num_elements
        = (goToPrimElemInRange fuel c num_elements).map (fun p : Int × Int × FF => (p.1, p.2.1, p.2.2.swap t1 t2)) := by
  induction fuel with
  | zero => intros; rfl
  | succ f ih =>
    intro c num_elements
    unfold goToPrimElemInRange
    simp only [FF_swap_s, swap_mNumWords, enterWord_swap hp, map_ite, map_bind, bind_map, map_pure, map_ok,
      map_error, bind_pure_ok, FF_swap_pos, FF_swap_bm, get_bitmap_colon_swap hp, get_bitmap_comma_swap hp,
      get_bitmap_lbrace_swap hp, get_bitmap_rbrace_swap hp, get_bitmap_lbracket_swap hp,
      get_bitmap_rbracket_swap hp, build_bitmap_rbracket_swap hp, get_position_swap,
      interval_end_swap, object_end_swap, FF_mk_swap, hasMoreElements_swap hp, getElementType_swap
      hp, hasMoreAttributes_swap hp, getAttributeType_swap hp, goOverObjLoop_swap hp,
      goOverObj_swap hp, goOverAryLoop_swap hp, goOverAry_swap hp, goToObjEndLoop_swap hp,
      goToObjEnd_swap hp, goToAryEndLoop_swap hp, goToAryEnd_swap hp, goOverPriAttrLoop_swap hp,
      goOverPriAttr_swap hp, goOverPriElemLoop_swap hp, goOverPriElem_swap hp,
      goOverPriElemsLoop_swap hp, goOverPriElems_swap hp, goOverPriAttrsLoop_swap hp,
      goOverPriAttrs_swap hp, goToObjElem_swap hp, goToAryElem_swap hp, goToObjAttr_swap hp,
      goToAryAttr_swap hp, goToPrimAttrLoop_swap hp, goToPrimAttr_swap hp,
      goOverPrimElemsInRangeLoop_swap hp, goOverPrimElemsInRange_swap hp, goOverElem_swap hp,
      goToObjElemInRange_swap hp, goToAryElemInRange_swap hp, ih]

theorem goToPrimElem_swap {t1 t2 : List Nat} (hp : PadRel t1 t2) (fuel : Nat) :
    ∀ (c : FF) ,
      goToPrimElem fuel (c.swap t1 t2) 
        = (goToPrimElem fuel c ).map (fun p : Int × FF => (p.1, p.2.swap t1 t2)) := by
  induction fuel with
  | zero => intros; rfl
  | succ f ih =>
    intro c 
    unfold goToPrimElem
    simp only [FF_swap_s, swap_mNumWords, enterWord_swap hp, map_ite, map_bind, bind_map, map_pure, map_ok,
      map_error, bind_pure_ok, FF_swap_pos, FF_swap_bm, get_bitmap_colon_swap hp, get_bitmap_comma_swap hp,
      get_bitmap_lbrace_swap hp, get_bitmap_rbrace_swap hp, get_bitmap_lbracket_swap hp,
      get_bitmap_rbracket_swap hp, build_bitmap_rbracket_swap hp, get_position_swap,
      interval_end_swap, object_end_swap, FF_mk_swap, hasMoreElements_swap hp, getElementType_swap
      hp, hasMoreAttributes_swap hp, getAttributeType_swap hp, goOverObjLoop_swap hp,
      goOverObj_swap hp, goOverAryLoop_swap hp, goOverAry_swap hp, goToObjEndLoop_swap hp,
      goToObjEnd_swap hp, goToAryEndLoop_swap hp, goToAryEnd_swap hp, goOverPriAttrLoop_swap hp,
      goOverPriAttr_swap hp, goOverPriElemLoop_swap hp, goOverPriElem_swap hp,
      goOverPriElemsLoop_swap hp, goOverPriElems_swap hp, goOverPriAttrsLoop_swap hp,
      goOverPriAttrs_swap hp, goToObjElem_swap hp, goToAryElem_swap hp, goToObjAttr_swap hp,
      goToAryAttr_swap hp, goToPrimAttrLoop_swap hp, goToPrimAttr_swap hp,
      goOverPrimElemsInRangeLoop_swap hp, goOverPrimElemsInRange_swap hp, goOverElem_swap hp,
      goToObjElemInRange_swap hp, goToAryElemInRange_swap hp, goToPrimElemInRange_swap hp, ih]

theorem skipValue_swap {t1 t2 : List Nat} (hp : PadRel t1 t2) (fuel : Nat) (c : FF) (element_type : Int) :
    skipValue fuel (c.swap t1 t2) element_type = (skipValue fuel c element_type).map (FF.swap t1 t2) := by
  unfold skipValue
  simp only [FF_swap_s, swap_mNumWords, enterWord_swap hp, map_ite, map_bind, bind_map, map_pure, map_ok,
    map_error, bind_pure_ok, FF_swap_pos, FF_swap_bm, get_bitmap_colon_swap hp, get_bitmap_comma_swap hp,
    get_bitmap_lbrace_swap hp, get_bitmap_rbrace_swap hp, get_bitmap_lbracket_swap hp,
    get_bitmap_rbracket_swap hp, build_bitmap_rbracket_swap hp, get_position_swap,
    interval_end_swap, object_end_swap, FF_mk_swap, hasMoreElements_swap hp, getElementType_swap
    hp, hasMoreAttributes_swap hp, getAttributeType_swap hp, goOverObjLoop_swap hp,
    goOverObj_swap hp, goOverAryLoop_swap hp, goOverAry_swap hp, goToObjEndLoop_swap hp,
    goToObjEnd_swap hp, goToAryEndLoop_swap hp, goToAryEnd_swap hp, goOverPriAttrLoop_swap hp,
    goOverPriAttr_swap hp, goOverPriElemLoop_swap hp, goOverPriElem_swap hp,
    goOverPriElemsLoop_swap hp, goOverPriElems_swap hp, goOverPriAttrsLoop_swap hp,
    goOverPriAttrs_swap hp, goToObjElem_swap hp, goToAryElem_swap hp, goToObjAttr_swap hp,
    goToAryAttr_swap hp, goToPrimAttrLoop_swap hp, goToPrimAttr_swap hp,
    goOverPrimElemsInRangeLoop_swap hp, goOverPrimElemsInRange_swap hp, goOverElem_swap hp,
    goToObjElemInRange_swap hp, goToAryElemInRange_swap hp, goToPrimElemInRange_swap hp,
    goToPrimElem_swap hp]

/-! ## The key of an attribute in the two buffers -/

theorem scanFwd_rd (target : Nat) (fuel : Nat) (s : Index) :
    ∀ (p q : Int), scanFwd target fuel s p = .ok q → s.rd q = .ok target := by
  induction fuel with
  | zero => intro p q h; cases h
  | succ f ih =>
    intro p q h
    unfold scanFwd at h
    cases hr : s.rd p with
    | error e => rw [hr] at h; cases h
    | ok ch =>
      rw [hr] at h
      simp only [bind, Except.bind] at h
      split at h
      · exact ih _ _ h
      · rename_i hc
        simp only [pure, Except.pure] at h
        injection h with h
        subst h
        rw [hr, not_not.mp hc]

theorem scanBack_rd (target : Nat) (fuel : Nat) (s : Index) :
    ∀ (p q : Int), scanBack target fuel s p = .ok q → s.rd q = .ok target := by
  induction fuel with
  | zero => intro p q h; cases h
  | succ f ih =>
    intro p q h
    unfold scanBack at h
    cases hr : s.rd p with
    | error e => rw [hr] at h; cases h
    | ok ch =>
      rw [hr] at h
      simp only [bind, Except.bind] at h
      split at h
      · exact ih _ _ h
      · rename_i hc
        simp only [pure, Except.pure] at h
        injection h with h
        subst h
        rw [hr, not_not.mp hc]

/-- A slice that ends at or before a byte that is not inert is the same in the two buffers. -/
theorem slice_swap {t1 t2 : List Nat} (hp : PadRel t1 t2) (s : Index) (p n q : Int) (b : Nat)
    (hq : s.rd q = .ok b) (hb : ¬ Inert b) (hle : p + n ≤ q) :
    (s.swap t1 t2).slice p n = s.slice p n := by
  have h := PadRel_swapText hp s.mText
  unfold Index.rd at hq
  split at hq
  · rename_i hc
    injection hq with hq
    unfold Index.slice
    simp only [swap_mBase, swap_mText, ← h.1]
    split
    · rename_i hc2
      congr 1
      apply List.ext_getElem?
      intro i
      rw [List.getElem?_take, List.getElem?_take]
      split
      · rename_i hi
        rw [List.getElem?_drop, List.getElem?_drop]
        have hlt : (s.mBase + p).toNat + i ≤ (s.mBase + q).toNat := by omega
        have hlen : (s.mBase + p).toNat + i < s.mText.length := by omega
        have hlen' : (s.mBase + p).toNat + i < (swapText t1 t2 s.mText).length := by
          rw [← h.1]; exact hlen
        have := PadRel_below h (s.mBase + q).toNat (by rw [hq]; exact hb) _ hlt
        rw [List.getD_eq_getElem?_getD, List.getD_eq_getElem?_getD,
          List.getElem?_eq_getElem hlen, List.getElem?_eq_getElem hlen'] at this
        rw [List.getElem?_eq_getElem hlen, List.getElem?_eq_getElem hlen']
        exact congrArg some (by simpa using this.symm)
      · rfl
    · rfl
  · cases hq

theorem keyForward_swap {t1 t2 : List Nat} (hp : PadRel t1 t2) (fuel : Nat) (s : Index)
    (qa : QueryAutomaton) (pos : Int) :
    keyForward fuel (s.swap t1 t2) qa pos = keyForward fuel s qa pos := by
  unfold keyForward
  simp only [scanFwd_swap hp chQuote (by decide), scanFwd_swap hp chColon (by decide)]
  cases h1 : scanFwd chQuote fuel s pos with
  | error e => rfl
  | ok st =>
    simp only [bind, Except.bind]
    cases h2 : scanFwd chQuote fuel s (st + 1) with
    | error e => rfl
    | ok ed =>
      simp only []
      rw [slice_swap hp s (st + 1) (ed - st - 1) ed chQuote (scanFwd_rd _ _ _ _ _ h2)
        (by decide) (by omega)]

theorem keyBackward_swap {t1 t2 : List Nat} (hp : PadRel t1 t2) (fuel : Nat) (s : Index)
    (qa : QueryAutomaton) (pos : Int) :
    keyBackward fuel (s.swap t1 t2) qa pos = keyBackward fuel s qa pos := by
  unfold keyBackward
  simp only [scanBack_swap hp chQuote (by decide), scanBack_swap hp chColon (by decide)]
  cases h1 : scanBack chColon fuel s pos with
  | error e => rfl
  | ok st1 =>
    simp only [bind, Except.bind]
    cases h2 : scanBack chQuote fuel s st1 with
    | error e => rfl
    | ok st =>
      simp only []
      cases h3 : scanBack chQuote fuel s (st - 1) with
      | error e => rfl
      | ok ed =>
        simp only []
        rw [slice_swap hp s (ed + 1) (st - ed - 1) st chQuote (scanBack_rd _ _ _ _ _ h2)
          (by decide) (by omega)]

/-! ## `object` and `array` in the two buffers -/

theorem Run_swap_c (t1 t2 : List Nat) (r : Run) : (r.swap t1 t2).c = r.c.swap t1 t2 := rfl
theorem Run_swap_qa (t1 t2 : List Nat) (r : Run) : (r.swap t1 t2).qa = r.qa := rfl
theorem Run_swap_mNumMatches (t1 t2 : List Nat) (r : Run) :
    (r.swap t1 t2).mNumMatches = r.mNumMatches := rfl
theorem Run_mk_swap (t1 t2 : List Nat) (c : FF) (qa : QueryAutomaton) (n : Int) :
    ({ c := c.swap t1 t2, qa := qa, mNumMatches := n } : Run)
      = Run.swap t1 t2 { c := c, qa := qa, mNumMatches := n } := rfl

theorem ite_FF_swap (t1 t2 : List Nat) (p : Prop) [Decidable p] (a b : FF) :
    (if p then FF.swap t1 t2 a else FF.swap t1 t2 b) = FF.swap t1 t2 (if p then a else b) := by
  split <;> rfl

theorem rd_ne_swap {α : Type} {t1 t2 : List Nat} (hp : PadRel t1 t2) (s : Index) (p : Int)
    (c : Nat) (hc : ¬ Inert c) (A B : Except Err α) :
    ((s.swap t1 t2).rd p >>= fun ch => if ch ≠ c then A else B)
      = (s.rd p >>= fun ch => if ch ≠ c then A else B) := by
  refine rd_bind_swap hp _ _ _ _ ?_
  rintro b b' (rfl | ⟨hi, hi'⟩)
  · rfl
  · have e1 : b ≠ c := fun h => hc (h ▸ hi)
    have e2 : b' ≠ c := fun h => hc (h ▸ hi')
    rw [if_pos e1, if_pos e2]

theorem bind_ite {α β : Type} (p : Prop) [Decidable p] (x y : Except Err α)
    (k : α → Except Err β) :
    ((if p then x else y) >>= k) = if p then x >>= k else y >>= k := by
  split <;> rfl

theorem bind_bind {α β γ : Type} (x : Except Err α) (f : α → Except Err β)
    (k : β → Except Err γ) : ((x >>= f) >>= k) = x >>= fun a => f a >>= k := by
  cases x <;> rfl

theorem bind_error {α β : Type} (e : Err) (k : α → Except Err β) :
    ((Except.error e : Except Err α) >>= k) = Except.error e := rfl

theorem engine_swap {t1 t2 : List Nat} (hp : PadRel t1 t2) : ∀ fuel : Nat,
    (∀ (r : Run) (ty : Int), objectLoop fuel (r.swap t1 t2) ty
      = (objectLoop fuel r ty).map (Run.swap t1 t2)) ∧
    (∀ r : Run, object fuel (r.swap t1 t2) = (object fuel r).map (Run.swap t1 t2)) ∧
    (∀ (r : Run) (et n : Int), arrayRangeLoop fuel (r.swap t1 t2) et n
      = (arrayRangeLoop fuel r et n).map (fun p : Bool × Run => (p.1, p.2.swap t1 t2))) ∧
    (∀ (r : Run) (et : Int), arrayAllLoop fuel (r.swap t1 t2) et
      = (arrayAllLoop fuel r et).map (fun p : Bool × Run => (p.1, p.2.swap t1 t2))) ∧
    (∀ r : Run, array fuel (r.swap t1 t2) = (array fuel r).map (Run.swap t1 t2)) := by
  intro fuel
  induction fuel with
  | zero => exact ⟨fun _ _ => rfl, fun _ => rfl, fun _ _ _ => rfl, fun _ _ => rfl, fun _ => rfl⟩
  | succ f ih =>
    refine ⟨?_, ?_, ?_, ?_, ?_⟩
    · intro r ty
      unfold objectLoop
      simp only [bind_ite, bind_bind, bind_error, FF_swap_s, swap_mNumWords, map_ite, map_bind, bind_map, map_pure, map_ok, map_error,
      bind_pure_ok, FF_swap_pos, FF_swap_bm, FF_mk_swap, hasMoreElements_swap hp,
      getElementType_swap hp, hasMoreAttributes_swap hp, getAttributeType_swap hp, keyForward_swap
      hp, keyBackward_swap hp, Run_swap_c, Run_swap_qa, Run_swap_mNumMatches, Run_mk_swap,
      ite_FF_swap, rd_ne_swap hp _ _ chRBrace (by decide), rd_ne_swap hp _ _ chRBracket (by
      decide), goOverObjLoop_swap hp, goOverObj_swap hp, goOverAryLoop_swap hp, goOverAry_swap hp,
      goToObjEndLoop_swap hp, goToObjEnd_swap hp, goToAryEndLoop_swap hp, goToAryEnd_swap hp,
      goOverPriAttrLoop_swap hp, goOverPriAttr_swap hp, goOverPriElemLoop_swap hp,
      goOverPriElem_swap hp, goOverPriElemsLoop_swap hp, goOverPriElems_swap hp,
      goOverPriAttrsLoop_swap hp, goOverPriAttrs_swap hp, goToObjElem_swap hp, goToAryElem_swap
      hp, goToObjAttr_swap hp, goToAryAttr_swap hp, goToPrimAttrLoop_swap hp, goToPrimAttr_swap
      hp, goOverPrimElemsInRangeLoop_swap hp, goOverPrimElemsInRange_swap hp, goOverElem_swap hp,
      goToObjElemInRange_swap hp, goToAryElemInRange_swap hp, goToPrimElemInRange_swap hp,
      goToPrimElem_swap hp, skipValue_swap hp, ih.1, ih.2.1, ih.2.2.1, ih.2.2.2.1, ih.2.2.2.2]
    · intro r
      unfold object
      simp only [bind_ite, bind_bind, bind_error, FF_swap_s, swap_mNumWords, map_ite, map_bind, bind_map, map_pure, map_ok, map_error,
      bind_pure_ok, FF_swap_pos, FF_swap_bm, FF_mk_swap, hasMoreElements_swap hp,
      getElementType_swap hp, hasMoreAttributes_swap hp, getAttributeType_swap hp, keyForward_swap
      hp, keyBackward_swap hp, Run_swap_c, Run_swap_qa, Run_swap_mNumMatches, Run_mk_swap,
      ite_FF_swap, rd_ne_swap hp _ _ chRBrace (by decide), rd_ne_swap hp _ _ chRBracket (by
      decide), goOverObjLoop_swap hp, goOverObj_swap hp, goOverAryLoop_swap hp, goOverAry_swap hp,
      goToObjEndLoop_swap hp, goToObjEnd_swap hp, goToAryEndLoop_swap hp, goToAryEnd_swap hp,
      goOverPriAttrLoop_swap hp, goOverPriAttr_swap hp, goOverPriElemLoop_swap hp,
      goOverPriElem_swap hp, goOverPriElemsLoop_swap hp, goOverPriElems_swap hp,
      goOverPriAttrsLoop_swap hp, goOverPriAttrs_swap hp, goToObjElem_swap hp, goToAryElem_swap
      hp, goToObjAttr_swap hp, goToAryAttr_swap hp, goToPrimAttrLoop_swap hp, goToPrimAttr_swap
      hp, goOverPrimElemsInRangeLoop_swap hp, goOverPrimElemsInRange_swap hp, goOverElem_swap hp,
      goToObjElemInRange_swap hp, goToAryElemInRange_swap hp, goToPrimElemInRange_swap hp,
      goToPrimElem_swap hp, skipValue_swap hp, ih.1, ih.2.1, ih.2.2.1, ih.2.2.2.1, ih.2.2.2.2]
    · intro r et n
      unfold arrayRangeLoop
      simp only [bind_ite, bind_bind, bind_error, FF_swap_s, swap_mNumWords, map_ite, map_bind, bind_map, map_pure, map_ok, map_error,
      bind_pure_ok, FF_swap_pos, FF_swap_bm, FF_mk_swap, hasMoreElements_swap hp,
      getElementType_swap hp, hasMoreAttributes_swap hp, getAttributeType_swap hp, keyForward_swap
      hp, keyBackward_swap hp, Run_swap_c, Run_swap_qa, Run_swap_mNumMatches, Run_mk_swap,
      ite_FF_swap, rd_ne_swap hp _ _ chRBrace (by decide), rd_ne_swap hp _ _ chRBracket (by
      decide), goOverObjLoop_swap hp, goOverObj_swap hp, goOverAryLoop_swap hp, goOverAry_swap hp,
      goToObjEndLoop_swap hp, goToObjEnd_swap hp, goToAryEndLoop_swap hp, goToAryEnd_swap hp,
      goOverPriAttrLoop_swap hp, goOverPriAttr_swap hp, goOverPriElemLoop_swap hp,
      goOverPriElem_swap hp, goOverPriElemsLoop_swap hp, goOverPriElems_swap hp,
      goOverPriAttrsLoop_swap hp, goOverPriAttrs_swap hp, goToObjElem_swap hp, goToAryElem_swap
      hp, goToObjAttr_swap hp, goToAryAttr_swap hp, goToPrimAttrLoop_swap hp, goToPrimAttr_swap
      hp, goOverPrimElemsInRangeLoop_swap hp, goOverPrimElemsInRange_swap hp, goOverElem_swap hp,
      goToObjElemInRange_swap hp, goToAryElemInRange_swap hp, goToPrimElemInRange_swap hp,
      goToPrimElem_swap hp, skipValue_swap hp, ih.1, ih.2.1, ih.2.2.1, ih.2.2.2.1, ih.2.2.2.2]
    · intro r et
      unfold arrayAllLoop
      simp only [bind_ite, bind_bind, bind_error, FF_swap_s, swap_mNumWords, map_ite, map_bind, bind_map, map_pure, map_ok, map_error,
      bind_pure_ok, FF_swap_pos, FF_swap_bm, FF_mk_swap, hasMoreElements_swap hp,
      getElementType_swap hp, hasMoreAttributes_swap hp, getAttributeType_swap hp, keyForward_swap
      hp, keyBackward_swap hp, Run_swap_c, Run_swap_qa, Run_swap_mNumMatches, Run_mk_swap,
      ite_FF_swap, rd_ne_swap hp _ _ chRBrace (by decide), rd_ne_swap hp _ _ chRBracket (by
      decide), goOverObjLoop_swap hp, goOverObj_swap hp, goOverAryLoop_swap hp, goOverAry_swap hp,
      goToObjEndLoop_swap hp, goToObjEnd_swap hp, goToAryEndLoop_swap hp, goToAryEnd_swap hp,
      goOverPriAttrLoop_swap hp, goOverPriAttr_swap hp, goOverPriElemLoop_swap hp,
      goOverPriElem_swap hp, goOverPriElemsLoop_swap hp, goOverPriElems_swap hp,
      goOverPriAttrsLoop_swap hp, goOverPriAttrs_swap hp, goToObjElem_swap hp, goToAryElem_swap
      hp, goToObjAttr_swap hp, goToAryAttr_swap hp, goToPrimAttrLoop_swap hp, goToPrimAttr_swap
      hp, goOverPrimElemsInRangeLoop_swap hp, goOverPrimElemsInRange_swap hp, goOverElem_swap hp,
      goToObjElemInRange_swap hp, goToAryElemInRange_swap hp, goToPrimElemInRange_swap hp,
      goToPrimElem_swap hp, skipValue_swap hp, ih.1, ih.2.1, ih.2.2.1, ih.2.2.2.1, ih.2.2.2.2]
    · intro r
      unfold array
      simp only [bind_ite, bind_bind, bind_error, FF_swap_s, swap_mNumWords, map_ite, map_bind, bind_map, map_pure, map_ok, map_error,
      bind_pure_ok, FF_swap_pos, FF_swap_bm, FF_mk_swap, hasMoreElements_swap hp,
      getElementType_swap hp, hasMoreAttributes_swap hp, getAttributeType_swap hp, keyForward_swap
      hp, keyBackward_swap hp, Run_swap_c, Run_swap_qa, Run_swap_mNumMatches, Run_mk_swap,
      ite_FF_swap, rd_ne_swap hp _ _ chRBrace (by decide), rd_ne_swap hp _ _ chRBracket (by
      decide), goOverObjLoop_swap hp, goOverObj_swap hp, goOverAryLoop_swap hp, goOverAry_swap hp,
      goToObjEndLoop_swap hp, goToObjEnd_swap hp, goToAryEndLoop_swap hp, goToAryEnd_swap hp,
      goOverPriAttrLoop_swap hp, goOverPriAttr_swap hp, goOverPriElemLoop_swap hp,
      goOverPriElem_swap hp, goOverPriElemsLoop_swap hp, goOverPriElems_swap hp,
      goOverPriAttrsLoop_swap hp, goOverPriAttrs_swap hp, goToObjElem_swap hp, goToAryElem_swap
      hp, goToObjAttr_swap hp, goToAryAttr_swap hp, goToPrimAttrLoop_swap hp, goToPrimAttr_swap
      hp, goOverPrimElemsInRangeLoop_swap hp, goOverPrimElemsInRange_swap hp, goOverElem_swap hp,
      goToObjElemInRange_swap hp, goToAryElemInRange_swap hp, goToPrimElemInRange_swap hp,
      goToPrimElem_swap hp, skipValue_swap hp, ih.1, ih.2.1, ih.2.2.1, ih.2.2.2.1, ih.2.2.2.2]

/-! ## Padding independence of `runQuery` -/

theorem PadRel_padded (rec : List Nat) (f1 f2 n : Nat) (h1 : Inert f1) (h2 : Inert f2) :
    PadRel (padded rec f1 n) (padded rec f2 n) := by
  have h0 : Inert 0 := by decide
  have hin : ∀ (f : Nat), Inert f → ∀ j, rec.length ≤ j → Inert ((padded rec f n).getD j 0) := by
    intro f hf j hj
    unfold padded
    rw [List.getD_eq_getElem?_getD, List.getElem?_append_right hj]
    by_cases hlt : j - rec.length < n
    · rw [List.getElem?_replicate, if_pos hlt]; exact hf
    · rw [List.getElem?_replicate, if_neg hlt]; exact h0
  refine ⟨by simp [padded], ?_⟩
  intro i
  by_cases hi : i < rec.length
  · left
    unfold padded
    rw [List.getD_eq_getElem?_getD, List.getD_eq_getElem?_getD, List.getElem?_append_left hi,
      List.getElem?_append_left hi]
  · right
    intro j hj
    exact ⟨hin f1 h1 j (by omega), hin f2 h2 j (by omega)⟩

theorem init_swap (t1 t2 : List Nat) (hl : t1.length = t2.length) :
    Index.init (Record.ofBytes t2) = (Index.init (Record.ofBytes t1)).swap t1 t2 := by
  simp [Index.init, Record.ofBytes, Index.swap, swapText, fixLane, hl]

theorem getNextNonEmptyCharacter_swap {t1 t2 : List Nat} (hp : PadRel t1 t2) (fuel : Nat)
    (s : Index) (pos : Int) :
    (∃ e, getNextNonEmptyCharacter fuel s pos = .error e ∧
      getNextNonEmptyCharacter fuel (s.swap t1 t2) pos = .error e) ∨
    (∃ b b' p, getNextNonEmptyCharacter fuel s pos = .ok (b, p) ∧
      getNextNonEmptyCharacter fuel (s.swap t1 t2) pos = .ok (b', p) ∧
      (b = b' ∨ (Inert b ∧ Inert b'))) := by
  unfold getNextNonEmptyCharacter
  rw [skipSpace_swap hp]
  rcases rd_swap hp s pos with ⟨e, h1, h2⟩ | ⟨b, b', h1, h2, _⟩
  · left; exact ⟨e, by rw [h1]; rfl, by rw [h2]; rfl⟩
  · rw [h1, h2]
    simp only [bind, Except.bind]
    cases hs : skipSpace fuel s pos with
    | error e => left; exact ⟨e, rfl, rfl⟩
    | ok p =>
      simp only []
      rcases rd_swap hp s p with ⟨e, h3, h4⟩ | ⟨c, c', h3, h4, hc⟩
      · left; exact ⟨e, by rw [h3], by rw [h4]⟩
      · right; exact ⟨c, c', p, by rw [h3]; rfl, by rw [h4]; rfl, hc⟩

theorem runQuery_swap {t1 t2 : List Nat} (hp : PadRel t1 t2) (fuel : Nat) (qp : QueryProcessor) :
    (runQuery fuel qp (Record.ofBytes t2)).map (fun p => p.2)
      = (runQuery fuel qp (Record.ofBytes t1)).map (fun p => p.2) := by
  have hobj := (engine_swap hp fuel).2.1
  have harr := (engine_swap hp fuel).2.2.2.2
  unfold runQuery
  simp only [init_swap t1 t2 hp.1]
  rcases getNextNonEmptyCharacter_swap hp fuel (Index.init (Record.ofBytes t1)) 0 with
    ⟨e, h1, h2⟩ | ⟨b, b', p, h1, h2, hc⟩
  · rw [h1, h2]; rfl
  · rw [h1, h2]
    simp only [bind, Except.bind]
    have hr : ∀ (qa : QueryAutomaton) (m : Int),
        ({ c := { s := Index.swap t1 t2 (Index.init (Record.ofBytes t1)), pos := p,
                  bm := bitmap.init },
           qa := qa, mNumMatches := m } : Run)
        = Run.swap t1 t2 ⟨⟨Index.init (Record.ofBytes t1), p, bitmap.init⟩, qa, m⟩ :=
      fun _ _ => rfl
    rw [hr]
    rcases hc with rfl | ⟨hi, hi'⟩
    · by_cases hA : b = chLBrace ∧ qp.qa.typeExpectedInObj ≠ NONE
      · rw [if_pos hA, if_pos hA, hobj]
        cases object fuel _ <;> rfl
      · rw [if_neg hA, if_neg hA]
        by_cases hB : b = chLBracket ∧ qp.qa.typeExpectedInArr ≠ NONE
        · rw [if_pos hB, if_pos hB, harr]
          cases array fuel _ <;> rfl
        · rw [if_neg hB, if_neg hB]
          rfl
    · rw [if_neg (fun h => hi'.1 h.1), if_neg (fun h => hi'.2.2.1 h.1),
        if_neg (fun h => hi.1 h.1), if_neg (fun h => hi.2.2.1 h.1)]
      rfl

theorem runJsonSki_eq_map (fuel : Nat) (query : List Nat) (rec : Record) :
    runJsonSki fuel query rec
      = (runQuery fuel (QueryProcessor.new query) rec).map (fun p => p.2) := by
  unfold runJsonSki
  cases runQuery fuel (QueryProcessor.new query) rec <;> rfl

/-- C7 (amended). Padding independence for fillers that are inert: for every query, every
record and any two filler bytes that are none of the eight characters
`\x7b \x7d [ ] : , " \` and none of the blanks space, line feed and carriage return,
padding the record with the same number of bytes of either filler gives the same result of
`runQuery` on a fresh processor (the same count, or no count in both cases), whatever the
number of loop iterations allowed. -/
theorem padding_independent (fuel : Nat) (query rec : List Nat) (f1 f2 n : Nat)
    (h1 : Inert f1) (h2 : Inert f2) :
    runJsonSki fuel query (Record.ofBytes (padded rec f1 n))
      = runJsonSki fuel query (Record.ofBytes (padded rec f2 n)) := by
  rw [runJsonSki_eq_map, runJsonSki_eq_map]
  exact (runQuery_swap (PadRel_padded rec f1 f2 n h1 h2) fuel (QueryProcessor.new query)).symm

/-- The record `\x7b"a":` (an object that is cut off after the colon) with the query `$.a`,
padded with the letters `d` and `e`. -/
theorem padding_independent_witness :
    Inert 100 ∧ Inert 101 ∧
      runJsonSki 100 (bytes "$.a") (Record.ofBytes (padded (bytes "\x7b\"a\":") 100 59))
        = runJsonSki 100 (bytes "$.a") (Record.ofBytes (padded (bytes "\x7b\"a\":") 101 59)) :=
  ⟨by decide, by decide,
    padding_independent 100 (bytes "$.a") (bytes "\x7b\"a\":") 100 101 59 (by decide) (by decide)⟩

/-- C7 (counterexample). The record `\x7b"a":` with the query `$.a`, padded to 64 bytes:
with the filler `d` the count is 1; with the filler space, which is none of the eight
forbidden characters, `getElementType` skips the spaces of the padding and reads past the
end of the buffer. -/
theorem padding_space_differs :
    runJsonSki 100 (bytes "$.a") (Record.ofBytes (padded (bytes "\x7b\"a\":") 100 59)) = .ok 1 ∧
    runJsonSki 100 (bytes "$.a") (Record.ofBytes (padded (bytes "\x7b\"a\":") 32 59))
      = .error .outOfBounds := by
  decide!

/-! ## The lowest set bit of a word -/

theorem lowestSet_decomp (M e : Nat) (h : LowestSet M e) :
    M = 2 ^ (e + 1) * (M / 2 ^ (e + 1)) + 2 ^ e := by
  have hm : M % 2 ^ (e + 1) = 2 ^ e := by
    apply Nat.eq_of_testBit_eq
    intro j
    rw [Nat.testBit_mod_two_pow, Nat.testBit_two_pow]
    by_cases hj : j < e
    · simp [h.2 j hj]; omega
    · by_cases hje : j = e
      · subst hje; simp [h.1]
      · have : ¬ j < e + 1 := by omega
        simp [this]; omega
  have := Nat.div_add_mod M (2 ^ (e + 1))
  rw [hm] at this
  exact this.symm

theorem two_pow_lt_succ (e : Nat) : 2 ^ e < 2 ^ (e + 1) := by
  rw [pow_succ]; have := Nat.two_pow_pos e; omega

/-- Bits of a word whose lowest set bit is `e`. -/
theorem testBit_decomp (t e j : Nat) :
    (2 ^ (e + 1) * t + 2 ^ e).testBit j
      = if j < e + 1 then decide (j = e) else t.testBit (j - (e + 1)) := by
  rw [Nat.testBit_mul_pow_two_add t (two_pow_lt_succ e) j, Nat.testBit_two_pow]
  by_cases h : j < e + 1
  · simp only [h, if_true]; congr 1; exact propext ⟨fun h => h.symm, fun h => h.symm⟩
  · simp only [h, if_false]


/-- The word `M & -M` is the lowest set bit of `M`. -/
theorem and_neg64 (M e : Nat) (hM : M < 2 ^ 64) (h : LowestSet M e) :
    M &&& neg64 M = 2 ^ e := by
  have he : e < 64 := by
    by_contra hc
    have := Nat.testBit_lt_two_pow (lt_of_lt_of_le hM (Nat.pow_le_pow_right (by decide) (not_lt.1 hc)))
    rw [h.1] at this
    exact absurd this (by decide)
  have hd := lowestSet_decomp M e h
  generalize M / 2 ^ (e + 1) = t at hd
  have ht : t < 2 ^ (63 - e) := by
    by_contra hc
    have h1 : 2 ^ (e + 1) * 2 ^ (63 - e) ≤ 2 ^ (e + 1) * t := Nat.mul_le_mul_left _ (not_lt.1 hc)
    rw [← pow_add, show e + 1 + (63 - e) = 64 by omega] at h1
    have : 2 ^ 64 ≤ M := by rw [hd]; exact le_trans h1 (Nat.le_add_right _ _)
    omega
  have hneg : neg64 M = 2 ^ (e + 1) * (2 ^ (63 - e) - (t + 1)) + 2 ^ e := by
    unfold neg64
    rw [W64_eq]
    have hpos : 0 < M := by rw [hd]; have := Nat.two_pow_pos e; omega
    rw [Nat.mod_eq_of_lt (by omega)]
    have h64 : (2:Nat) ^ 64 = 2 ^ (e + 1) * 2 ^ (63 - e) := by
      rw [← pow_add, show e + 1 + (63 - e) = 64 by omega]
    rw [h64, hd, Nat.mul_sub, Nat.mul_add, Nat.mul_one]
    have h2 : 2 ^ (e + 1) * t + 2 ^ (e + 1) ≤ 2 ^ (e + 1) * 2 ^ (63 - e) := by
      rw [← Nat.mul_succ]; exact Nat.mul_le_mul_left _ ht
    have h3 : (2:Nat) ^ (e + 1) = 2 * 2 ^ e := by rw [pow_succ]; ring
    omega
  apply Nat.eq_of_testBit_eq
  intro j
  rw [Nat.testBit_and, hneg, testBit_decomp]
  conv_lhs => rw [hd, testBit_decomp]
  rw [Nat.testBit_two_pow]
  by_cases hj : j < e + 1
  · simp only [hj, if_true, Bool.and_self]
    congr 1; exact propext ⟨fun h => h.symm, fun h => h.symm⟩
  · simp only [hj, if_false]
    rw [Nat.testBit_two_pow_sub_succ ht]
    have : e ≠ j := by omega
    cases t.testBit (j - (e + 1)) <;> simp [this]

theorem sub64_of_le (a b : Nat) (hb : b ≤ a) (ha : a < 2 ^ 64) : sub64 a b = a - b := by
  unfold sub64
  rw [W64_eq, show a + 2 ^ 64 - b = (a - b) + 2 ^ 64 by omega, Nat.add_mod_right,
    Nat.mod_eq_of_lt (by omega)]

theorem lowestSet_lt (M e : Nat) (hM : M < 2 ^ 64) (h : LowestSet M e) : e < 64 := by
  by_contra hc
  have := Nat.testBit_lt_two_pow (lt_of_lt_of_le hM (Nat.pow_le_pow_right (by decide) (not_lt.1 hc)))
  rw [h.1] at this
  exact absurd this (by decide)

/-- The word `M & (M - 1)` is `M` without its lowest set bit. -/
theorem and_sub_one (M e : Nat) (hM : M < 2 ^ 64) (h : LowestSet M e) (j : Nat) :
    (M &&& sub64 M 1).testBit j = (M.testBit j && decide (j ≠ e)) := by
  have hd := lowestSet_decomp M e h
  generalize M / 2 ^ (e + 1) = t at hd
  have hpe := Nat.two_pow_pos e
  have hsub : sub64 M 1 = 2 ^ (e + 1) * t + (2 ^ e - 1) := by
    rw [sub64_of_le M 1 (by omega) hM, hd]
    omega
  have hlt : 2 ^ e - 1 < 2 ^ (e + 1) := by have := two_pow_lt_succ e; omega
  have hMj : M.testBit j = if j < e + 1 then decide (j = e) else t.testBit (j - (e + 1)) := by
    rw [hd, testBit_decomp]
  rw [Nat.testBit_and, hsub, Nat.testBit_mul_pow_two_add t hlt j, Nat.testBit_two_pow_sub_one,
    hMj]
  by_cases hj : j < e + 1
  · simp only [hj, if_true]
    by_cases hje : j = e
    · simp [hje]
    · have : j < e := by omega
      simp [hje]
  · simp only [hj, if_false]
    have : j ≠ e := by omega
    simp [this]

theorem and_sub_one_lt (M : Nat) (hM : M < 2 ^ 64) : M &&& sub64 M 1 < 2 ^ 64 :=
  and_lt_of_lt _ _ _ hM

theorem shl64_one (r : Nat) (hr : r < 64) : shl64 1 r = 2 ^ r := by
  unfold shl64
  rw [Nat.one_shiftLeft, W64_eq]
  exact Nat.mod_eq_of_lt (Nat.pow_lt_pow_right (by decide) hr)

/-- Bits of `(w_end - w_start) | w_end` for `w_start = 2 ^ s`, `w_end = 2 ^ e`, `s ≤ e`. -/
theorem testBit_span (s e k : Nat) (hse : s ≤ e) (he : e < 64) :
    (sub64 (2 ^ e) (2 ^ s) ||| 2 ^ e).testBit k = decide (s ≤ k ∧ k ≤ e) := by
  have h1 : (2:Nat) ^ s ≤ 2 ^ e := Nat.pow_le_pow_right (by decide) hse
  have h2 : (2:Nat) ^ e < 2 ^ 64 := Nat.pow_lt_pow_right (by decide) he
  have hsub : sub64 (2 ^ e) (2 ^ s) = 2 ^ s * (2 ^ (e - s) - 1) + 0 := by
    rw [sub64_of_le _ _ h1 h2, Nat.mul_sub, ← pow_add, show s + (e - s) = e by omega]
    simp
  rw [Nat.testBit_or, hsub, Nat.testBit_mul_pow_two_add _ (Nat.two_pow_pos s) k,
    Nat.testBit_two_pow_sub_one, Nat.testBit_two_pow]
  by_cases hk : k < s
  · have : e ≠ k := by omega
    simp [hk, this]
  · simp only [hk, if_false]
    by_cases hke : e = k
    · subst hke; simp; omega
    · have h3 : (k - s < e - s) ↔ (s ≤ k ∧ k ≤ e) := by omega
      simp [hke, h3]

/-- Bits of `w_start ^ (w_start - 1)` for `w_start = 2 ^ r`. -/
theorem testBit_mask_start (r k : Nat) (hr : r < 64) :
    (2 ^ r ^^^ sub64 (2 ^ r) 1).testBit k = decide (k ≤ r) := by
  have h2 : (2:Nat) ^ r < 2 ^ 64 := Nat.pow_lt_pow_right (by decide) hr
  have hp := Nat.two_pow_pos r
  have hsub : sub64 (2 ^ r) 1 = 2 ^ r - 1 := sub64_of_le _ _ hp h2
  rw [Nat.testBit_xor, hsub, Nat.testBit_two_pow_sub_one, Nat.testBit_two_pow]
  by_cases hk : k < r
  · have : r ≠ k := by omega
    simp [hk, this]; omega
  · by_cases hke : r = k
    · subst hke; simp
    · simp [hk, hke]; omega

/-! ## The interval engine -/

theorem relpos_lt (pos : Int) : (pos % 64).toNat < 64 := by
  have h1 := Int.emod_nonneg pos (show (64:Int) ≠ 0 by decide)
  have h2 := Int.emod_lt_of_pos pos (show (0:Int) < 64 by decide)
  omega

/-- Bits of the bitmap that `get_interval` leaves in its reference parameter. -/
theorem testBit_above (M r k : Nat) (hr : r < 64) (hM : M < 2 ^ 64) :
    (M &&& not64 (2 ^ r ^^^ sub64 (2 ^ r) 1)).testBit k = (M.testBit k && decide (r < k)) := by
  rw [Nat.testBit_and]
  by_cases hk : k < 64
  · rw [testBit_not64 _ _ hk, testBit_mask_start r k hr]
    by_cases h : r < k
    · have : ¬ k ≤ r := by omega
      simp [h, this]
    · have : k ≤ r := by omega
      simp [h, this]
  · have : M.testBit k = false :=
      Nat.testBit_lt_two_pow (lt_of_lt_of_le hM (Nat.pow_le_pow_right (by decide) (not_lt.1 hk)))
    simp [this]

theorem lowestSet_above (M r e : Nat) (hr : r < 64) (hM : M < 2 ^ 64) (hre : r < e)
    (hbit : M.testBit e = true) (hlow : ∀ j : Nat, r < j → j < e → M.testBit j = false) :
    LowestSet (M &&& not64 (2 ^ r ^^^ sub64 (2 ^ r) 1)) e := by
  constructor
  · rw [testBit_above M r e hr hM, hbit]; simp [hre]
  · intro j hj
    rw [testBit_above M r j hr hM]
    by_cases h : r < j
    · simp [hlow j h hj]
    · simp [h]

theorem ne_zero_of_testBit (M e : Nat) (h : M.testBit e = true) : M ≠ 0 := by
  intro h0; rw [h0] at h; simp at h

theorem eq_zero_of_testBit (M : Nat) (h : ∀ j : Nat, M.testBit j = false) : M = 0 := by
  apply Nat.eq_of_testBit_eq
  intro j; rw [h j]; simp

theorem get_interval_complete_aux (pos : Int) (M e r : Nat) (hrr : (pos % 64).toNat = r)
    (hr : r < 64) (hM : M < 2 ^ 64)
    (hre : r < e) (hbit : M.testBit e = true)
    (hlow : ∀ j : Nat, r < j → j < e → M.testBit j = false) :
    (get_interval pos M).1.is_complete = true ∧
    (∀ k : Nat, (get_interval pos M).1.intervalbit.testBit k = decide (r < k ∧ k ≤ e)) ∧
    (∀ k : Nat, (get_interval pos M).2.testBit k = (M.testBit k && decide (r < k))) := by
  have hL := lowestSet_above M r e hr hM hre hbit hlow
  have hM2 : M &&& not64 (2 ^ r ^^^ sub64 (2 ^ r) 1) < 2 ^ 64 := and_lt_of_lt _ _ _ hM
  have he := lowestSet_lt _ e hM2 hL
  have hne := ne_zero_of_testBit _ e hL.1
  unfold get_interval
  simp only [hrr, shl64_one r hr]
  rw [if_pos hne]
  refine ⟨rfl, ?_, ?_⟩
  · intro k
    show (((sub64 _ (2 ^ r)) ||| _) &&& _).testBit k = _
    rw [and_neg64 _ e hM2 hL, Nat.testBit_and, testBit_span r e k (by omega) he]
    by_cases hk : k < 64
    · rw [testBit_not64 _ _ hk, testBit_mask_start r k hr]
      by_cases h1 : r < k
      · have : ¬ k ≤ r := by omega
        have h2 : r ≤ k := by omega
        simp [h1, this, h2]
      · have : k ≤ r := by omega
        simp [h1, this]
    · have : ¬ k ≤ e := by omega
      simp [this]
  · intro k
    exact testBit_above M r k hr hM

theorem get_interval_incomplete_aux (pos : Int) (M r : Nat) (hrr : (pos % 64).toNat = r)
    (hr : r < 64) (hM : M < 2 ^ 64)
    (hlow : ∀ j : Nat, r < j → M.testBit j = false) :
    (get_interval pos M).1.is_complete = false ∧
    (∀ k : Nat, (get_interval pos M).1.intervalbit.testBit k = decide (r < k ∧ k < 64)) ∧
    (get_interval pos M).2 = 0 := by
  have hz : M &&& not64 (2 ^ r ^^^ sub64 (2 ^ r) 1) = 0 := by
    apply eq_zero_of_testBit
    intro j
    rw [testBit_above M r j hr hM]
    by_cases h : r < j
    · simp [hlow j h]
    · simp [h]
  unfold get_interval
  simp only [hrr, shl64_one r hr, shl64_one 63 (by decide)]
  rw [if_neg (by rw [hz]; simp)]
  refine ⟨rfl, ?_, hz⟩
  intro k
  show (((sub64 _ (2 ^ r)) ||| _) &&& _).testBit k = _
  rw [Nat.testBit_and, testBit_span r 63 k (by omega) (by decide)]
  by_cases hk : k < 64
  · rw [testBit_not64 _ _ hk, testBit_mask_start r k hr]
    by_cases h1 : r < k
    · have : ¬ k ≤ r := by omega
      have h2 : r ≤ k := by omega
      have h3 : k ≤ 63 := by omega
      simp [h1, this, h2, h3, hk]
    · have : k ≤ r := by omega
      simp [h1, this]
  · have : ¬ k ≤ 63 := by omega
    simp [this, hk]

theorem get_interval_new_word_aux (M : Nat) (hM : M < 2 ^ 64) :
    (∀ e : Nat, LowestSet M e →
      (get_interval_new_word M).is_complete = true ∧
      ∀ k : Nat, (get_interval_new_word M).intervalbit.testBit k = decide (k ≤ e)) ∧
    (M = 0 →
      (get_interval_new_word M).is_complete = false ∧
      ∀ k : Nat, (get_interval_new_word M).intervalbit.testBit k = decide (k < 64)) := by
  constructor
  · intro e hL
    have he := lowestSet_lt M e hM hL
    have hne := ne_zero_of_testBit M e hL.1
    unfold get_interval_new_word
    simp only []
    rw [if_pos hne]
    refine ⟨rfl, ?_⟩
    intro k
    show ((sub64 _ 1) ||| _).testBit k = _
    rw [and_neg64 M e hM hL]
    have := testBit_span 0 e k (Nat.zero_le _) he
    rw [pow_zero] at this
    rw [this]
    simp
  · intro h0
    unfold get_interval_new_word
    simp only [shl64_one 63 (by decide)]
    rw [if_neg (by simp [h0])]
    refine ⟨rfl, ?_⟩
    intro k
    show ((sub64 _ 1) ||| _).testBit k = _
    have := testBit_span 0 63 k (Nat.zero_le _) (by decide)
    rw [pow_zero] at this
    rw [this]
    have h3 : k ≤ 63 ↔ k < 64 := by omega
    simp [h3]

theorem next_interval_aux (M s : Nat) (hM : M < 2 ^ 64) (hs : LowestSet M s) :
    (∀ k : Nat, (next_interval M).2.testBit k = (M.testBit k && decide (k ≠ s))) ∧
    (∀ e : Nat, LowestSet (next_interval M).2 e →
      (next_interval M).1.is_complete = true ∧
      ∀ k : Nat, (next_interval M).1.intervalbit.testBit k = decide (s ≤ k ∧ k ≤ e)) ∧
    ((next_interval M).2 = 0 →
      (next_interval M).1.is_complete = false ∧
      ∀ k : Nat, (next_interval M).1.intervalbit.testBit k = decide (s ≤ k ∧ k < 64)) := by
  have hs64 := lowestSet_lt M s hM hs
  have h2 : (next_interval M).2 = M &&& sub64 M 1 := by
    unfold next_interval; simp only []; split <;> rfl
  have hM2 := and_sub_one_lt M hM
  refine ⟨?_, ?_, ?_⟩
  · intro k; rw [h2]; exact and_sub_one M s hM hs k
  · intro e hL
    rw [h2] at hL
    have he := lowestSet_lt _ e hM2 hL
    have hne := ne_zero_of_testBit _ e hL.1
    have hse : s ≤ e := by
      by_contra hc
      have h1 := hL.1
      rw [and_sub_one M s hM hs e, hs.2 e (by omega)] at h1
      simp at h1
    unfold next_interval
    simp only []
    rw [if_pos hne]
    refine ⟨rfl, ?_⟩
    intro k
    show ((sub64 _ _) ||| _).testBit k = _
    rw [and_neg64 _ e hM2 hL, and_neg64 M s hM hs]
    exact testBit_span s e k hse he
  · intro h0
    rw [h2] at h0
    unfold next_interval
    simp only [shl64_one 63 (by decide)]
    rw [if_neg (by simp [h0])]
    refine ⟨rfl, ?_⟩
    intro k
    show ((sub64 _ _) ||| _).testBit k = _
    rw [and_neg64 M s hM hs, testBit_span s 63 k (by omega) (by decide)]
    have h3 : (s ≤ k ∧ k ≤ 63) ↔ (s ≤ k ∧ k < 64) := by omega
    simp [h3]

/-! ## Counting and locating set bits -/

theorem popcountAux_eq (n : Nat) : ∀ x : Nat,
    popcountAux n x = ((List.range n).filter (fun i => x.testBit i)).length := by
  induction n with
  | zero => intro x; simp [popcountAux]
  | succ n ih =>
    intro x
    rw [popcountAux, ih (x / 2), List.range_succ_eq_map, List.filter_cons, List.filter_map]
    have hf : ((fun i => x.testBit i) ∘ Nat.succ) = (fun i => (x / 2).testBit i) := by
      funext i; simp [Nat.testBit_succ]
    rw [hf]
    have h0 : x.testBit 0 = decide (x % 2 = 1) := Nat.testBit_zero x
    by_cases hx : x % 2 = 1
    · rw [h0, decide_eq_true hx, if_pos rfl, hx, List.length_cons, List.length_map]; omega
    · have : x % 2 = 0 := by omega
      rw [h0, decide_eq_false hx, this, if_neg (by simp), List.length_map]; simp

theorem popcountl_eq (x : Nat) : popcountl x = ((setBits x).length : Int) := by
  unfold popcountl setBits
  rw [popcountAux_eq]
  rfl

theorem ctzAux_lowest (n : Nat) : ∀ x e : Nat, e < n → LowestSet x e → ctzAux n x = e := by
  induction n with
  | zero => intro x e he; omega
  | succ n ih =>
    intro x e he hL
    rw [ctzAux]
    cases e with
    | zero =>
      have := hL.1
      rw [Nat.testBit_zero] at this
      rw [if_pos (by simpa using this)]
    | succ e =>
      have h0 := hL.2 0 (by omega)
      rw [Nat.testBit_zero] at h0
      rw [if_neg (by simpa using h0)]
      have hL2 : LowestSet (x / 2) e := by
        constructor
        · rw [← Nat.testBit_succ]; exact hL.1
        · intro j hj; rw [← Nat.testBit_succ]; exact hL.2 (j + 1) (by omega)
      rw [ih (x / 2) e (by omega) hL2]
      omega

theorem ctzll_lowest (x e : Nat) (hx : x < 2 ^ 64) (hL : LowestSet x e) :
    ctzll x = .ok (e : Int) := by
  have he := lowestSet_lt x e hx hL
  have hne := ne_zero_of_testBit x e hL.1
  unfold ctzll
  rw [W64_eq, Nat.mod_eq_of_lt hx, if_neg hne, ctzAux_lowest 64 x e he hL]
  rfl

theorem filter_range_cons (p q : Nat → Bool) (e : Nat) (hp : p e = true)
    (hlow : ∀ j : Nat, j < e → p j = false) (hq : q e = false)
    (hpq : ∀ j : Nat, j ≠ e → q j = p j) : ∀ n : Nat, e < n →
    (List.range n).filter p = e :: (List.range n).filter q := by
  intro n
  induction n with
  | zero => intro h; omega
  | succ n ih =>
    intro hen
    rw [List.range_succ, List.filter_append, List.filter_append]
    by_cases h : e = n
    · subst h
      have h1 : (List.range e).filter p = [] := by
        rw [List.filter_eq_nil_iff]
        intro a ha
        rw [hlow a (List.mem_range.1 ha)]; simp
      have h2 : (List.range e).filter q = [] := by
        rw [List.filter_eq_nil_iff]
        intro a ha
        have := List.mem_range.1 ha
        rw [hpq a (by omega), hlow a this]; simp
      rw [h1, h2]
      simp [hp, hq]
    · rw [ih (by omega)]
      have : q n = p n := hpq n (fun hc => h hc.symm)
      simp [List.filter_cons, this]

theorem setBits_cons (M e : Nat) (hM : M < 2 ^ 64) (hL : LowestSet M e) :
    setBits M = e :: setBits (M &&& sub64 M 1) := by
  unfold setBits
  apply filter_range_cons _ _ e hL.1 hL.2 _ _ 64 (lowestSet_lt M e hM hL)
  · show (M &&& sub64 M 1).testBit e = false
    rw [and_sub_one M e hM hL e]; simp
  · intro j hj
    show (M &&& sub64 M 1).testBit j = M.testBit j
    rw [and_sub_one M e hM hL j]; simp [hj]

theorem exists_lowestSet (M : Nat) (h : M ≠ 0) : ∃ e : Nat, LowestSet M e := by
  have hex : ∃ i : Nat, M.testBit i = true := by
    by_contra hc
    apply h
    apply eq_zero_of_testBit
    intro j
    cases hb : M.testBit j
    · rfl
    · exact absurd ⟨j, hb⟩ hc
  refine ⟨Nat.find hex, Nat.find_spec hex, ?_⟩
  intro j hj
  have := Nat.find_min hex hj
  simpa using this

theorem setBits_zero : setBits 0 = [] := by decide

theorem clearLowest_lt (n : Nat) : ∀ M : Nat, M < 2 ^ 64 → clearLowest n M < 2 ^ 64 := by
  induction n with
  | zero => intro M h; exact h
  | succ n ih => intro M h; rw [clearLowest]; exact ih _ (and_sub_one_lt M h)

theorem get_position_aux (n : Nat) : ∀ M : Nat, M < 2 ^ 64 →
    n < (setBits M).length →
    ctzll (clearLowest n M) = .ok (((setBits M).getD n 0 : Nat) : Int) := by
  induction n with
  | zero =>
    intro M hM hlen
    have hne : M ≠ 0 := by
      intro h0; rw [h0, setBits_zero] at hlen; simp at hlen
    obtain ⟨e, hL⟩ := exists_lowestSet M hne
    rw [clearLowest, setBits_cons M e hM hL, ctzll_lowest M e hM hL]
    rfl
  | succ n ih =>
    intro M hM hlen
    have hne : M ≠ 0 := by
      intro h0; rw [h0, setBits_zero] at hlen; simp at hlen
    obtain ⟨e, hL⟩ := exists_lowestSet M hne
    rw [setBits_cons M e hM hL] at hlen ⊢
    rw [clearLowest, ih _ (and_sub_one_lt M hM) (by simpa using hlen)]
    rfl

/-! ## The interval primitives -/

/-- C22 (amended).  For every `pos ≥ 0` and every 64-bit bitmap `M` whose lowest set bit
strictly above `r = pos % 64` is `e`, `get_interval(pos, M)` returns `is_complete = true`
and an interval whose set bits are exactly the positions `k` with `r < k ≤ e`: the span
from the byte after the current position up to and including the next opener.  Bit `r`
itself is not part of the interval.  The bitmap `M` is left with its bits above `r`. -/
theorem get_interval_complete (pos : Int) (M e : Nat) (hpos : 0 ≤ pos) (hM : M < 2 ^ 64)
    (hre : (pos % 64).toNat < e) (hbit : M.testBit e = true)
    (hlow : ∀ j : Nat, (pos % 64).toNat < j → j < e → M.testBit j = false) :
    (get_interval pos M).1.is_complete = true ∧
    (∀ k : Nat, (get_interval pos M).1.intervalbit.testBit k
      = decide ((pos % 64).toNat < k ∧ k ≤ e)) ∧
    (∀ k : Nat, (get_interval pos M).2.testBit k
      = (M.testBit k && decide ((pos % 64).toNat < k))) :=
  get_interval_complete_aux pos M e _ rfl (relpos_lt pos) hM hre hbit hlow

/-- Position 70 (bit 6 of the second word) and the bitmap with the bits 3, 9 and 20. -/
theorem get_interval_complete_witness :
    (get_interval 70 1049096).1.is_complete = true ∧
    (∀ k : Nat, (get_interval 70 1049096).1.intervalbit.testBit k
      = decide (((70 : Int) % 64).toNat < k ∧ k ≤ 9)) ∧
    (∀ k : Nat, (get_interval 70 1049096).2.testBit k
      = (Nat.testBit 1049096 k && decide (((70 : Int) % 64).toNat < k))) :=
  get_interval_complete 70 1049096 9 (by decide) (by decide) (by decide) (by decide)
    (by
      intro j h1 h2
      have h6 : ((70 : Int) % 64).toNat = 6 := by decide
      rw [h6] at h1
      interval_cases j <;> decide)

/-- Position 0 and the bitmap with the single bit 1: the interval is the single bit 1,
bit 0 (the position itself) is not in it. -/
theorem get_interval_excludes_pos :
    (get_interval 0 2).1 = { intervalbit := 2, is_complete := true } ∧
    (get_interval 0 2).1.intervalbit.testBit 0 = false := by decide

/-- C23 (amended).  For every `pos ≥ 0` and every 64-bit bitmap `M` with no set bit above
`r = pos % 64`, `get_interval(pos, M)` returns `is_complete = false` and an interval whose
set bits are exactly the positions `k` with `r < k ≤ 63`; for `r = 63` this interval is
empty.  The bitmap `M` is left empty. -/
theorem get_interval_incomplete (pos : Int) (M : Nat) (hpos : 0 ≤ pos) (hM : M < 2 ^ 64)
    (hlow : ∀ j : Nat, (pos % 64).toNat < j → M.testBit j = false) :
    (get_interval pos M).1.is_complete = false ∧
    (∀ k : Nat, (get_interval pos M).1.intervalbit.testBit k
      = decide ((pos % 64).toNat < k ∧ k < 64)) ∧
    (get_interval pos M).2 = 0 ∧
    ((pos % 64).toNat = 63 → (get_interval pos M).1.intervalbit = 0) := by
  obtain ⟨h1, h2, h3⟩ := get_interval_incomplete_aux pos M _ rfl (relpos_lt pos) hM hlow
  refine ⟨h1, h2, h3, ?_⟩
  intro h63
  apply eq_zero_of_testBit
  intro j
  rw [h2 j, h63]
  exact decide_eq_false (by omega)

/-- Position 70 (bit 6 of the second word) and the bitmap with the bits 3 and 6. -/
theorem get_interval_incomplete_witness :
    (get_interval 70 72).1.is_complete = false ∧
    (∀ k : Nat, (get_interval 70 72).1.intervalbit.testBit k
      = decide (((70 : Int) % 64).toNat < k ∧ k < 64)) ∧
    (get_interval 70 72).2 = 0 ∧
    (((70 : Int) % 64).toNat = 63 → (get_interval 70 72).1.intervalbit = 0) :=
  get_interval_incomplete 70 72 (by decide) (by decide) (by
    intro j hj
    have h6 : ((70 : Int) % 64).toNat = 6 := by decide
    rw [h6] at hj
    have h72 : (72 : Nat) < 2 ^ 7 := by decide
    exact Nat.testBit_lt_two_pow (lt_of_lt_of_le h72 (Nat.pow_le_pow_right (by decide) hj)))

/-- Position 63 and the empty bitmap: the interval returned is empty, it does not contain
bit 63. -/
theorem get_interval_last_bit_empty :
    (get_interval 63 0).1 = { intervalbit := 0, is_complete := false } ∧
    (get_interval 63 0).1.intervalbit.testBit 63 = false := by decide

/-- C24.  For every 64-bit bitmap `M`, `get_interval_new_word(M)` returns: if `M ≠ 0`,
`is_complete = true` and the interval with exactly the bits `0 .. e` set, `e` the lowest
set bit of `M`; if `M = 0`, `is_complete = false` and all 64 bits set.  (The function
does not write to `M`: its result is the interval alone.) -/
theorem get_interval_new_word_spec (M : Nat) (hM : M < 2 ^ 64) :
    (∀ e : Nat, M.testBit e = true → (∀ j : Nat, j < e → M.testBit j = false) →
      (get_interval_new_word M).is_complete = true ∧
      ∀ k : Nat, (get_interval_new_word M).intervalbit.testBit k = decide (k ≤ e)) ∧
    (M = 0 →
      (get_interval_new_word M).is_complete = false ∧
      (get_interval_new_word M).intervalbit = 0xFFFFFFFFFFFFFFFF) ∧
    (M ≠ 0 → ∃ e : Nat, M.testBit e = true ∧ ∀ j : Nat, j < e → M.testBit j = false) := by
  refine ⟨fun e h1 h2 => (get_interval_new_word_aux M hM).1 e ⟨h1, h2⟩, ?_, ?_⟩
  · intro h0
    subst h0
    decide
  · intro hne
    obtain ⟨e, he⟩ := exists_lowestSet M hne
    exact ⟨e, he.1, he.2⟩

/-- The bitmap with the bits 3, 9 and 20: the interval is the bits `0 .. 3`. -/
theorem get_interval_new_word_spec_witness :
    (get_interval_new_word 1049096).is_complete = true ∧
    ∀ k : Nat, (get_interval_new_word 1049096).intervalbit.testBit k = decide (k ≤ 3) :=
  (get_interval_new_word_spec 1049096 (by decide)).1 3 (by decide) (by decide)

/-- C25.  For every 64-bit bitmap `M ≠ 0` with lowest set bit `s`, `next_interval(M)` clears
bit `s` from `M` and returns: if another set bit remains, with lowest index `e`,
`is_complete = true` and the interval with exactly the bits `s .. e` set; otherwise
`is_complete = false` and the interval with exactly the bits `s .. 63` set. -/
theorem next_interval_spec (M s : Nat) (hM : M < 2 ^ 64) (hs : M.testBit s = true)
    (hlow : ∀ j : Nat, j < s → M.testBit j = false) :
    (∀ k : Nat, (next_interval M).2.testBit k = (M.testBit k && decide (k ≠ s))) ∧
    (∀ e : Nat, (next_interval M).2.testBit e = true →
      (∀ j : Nat, j < e → (next_interval M).2.testBit j = false) →
      (next_interval M).1.is_complete = true ∧
      ∀ k : Nat, (next_interval M).1.intervalbit.testBit k = decide (s ≤ k ∧ k ≤ e)) ∧
    ((next_interval M).2 = 0 →
      (next_interval M).1.is_complete = false ∧
      ∀ k : Nat, (next_interval M).1.intervalbit.testBit k = decide (s ≤ k ∧ k < 64)) := by
  obtain ⟨h1, h2, h3⟩ := next_interval_aux M s hM ⟨hs, hlow⟩
  exact ⟨h1, fun e he hl => h2 e ⟨he, hl⟩, h3⟩

/-- The bitmap with the bits 3, 9 and 20: bit 3 is cleared and the interval is the bits
`3 .. 9`. -/
theorem next_interval_spec_witness :
    (next_interval 1049096).1.is_complete = true ∧
    ∀ k : Nat, (next_interval 1049096).1.intervalbit.testBit k = decide (3 ≤ k ∧ k ≤ 9) :=
  (next_interval_spec 1049096 3 (by decide) (by decide) (by decide)).2.1 9 (by decide)
    (by decide)

/-- C26.  For every 64-bit bitmap with at least `N` set bits (`N ≥ 1`),
`get_position(bitmap, N)` returns `top_word * 64 + i` where `i` is the index of the `N`-th
lowest set bit; `count(interval, bitmap)` returns the number of set bits of
`bitmap & interval`. -/
theorem get_position_count_spec (s : Index) (M itv : Nat) (N : Int) (hM : M < 2 ^ 64)
    (hN : 1 ≤ N) (hlen : N ≤ (setBits M).length) :
    get_position s M N = .ok (s.top_word * 64 + ((setBits M).getD (N - 1).toNat 0 : Nat)) ∧
    count itv M = ((setBits (M &&& itv)).length : Int) := by
  constructor
  · unfold get_position
    dsimp only
    rw [get_position_aux (N - 1).toNat M hM (by omega)]
    rfl
  · unfold count
    exact popcountl_eq _

/-- The bitmap with the bits 3, 9 and 20 in the word 2: the second lowest set bit is bit 9
at position 137; two of the three bits lie in the interval of the bits `4 .. 20`. -/
theorem get_position_count_spec_witness :
    get_position { Index.init (Record.ofBytes []) with top_word := 2 } 1049096 2
      = .ok (2 * 64 + ((setBits 1049096).getD ((2 : Int) - 1).toNat 0 : Nat)) ∧
    count 2097136 1049096 = ((setBits (1049096 &&& 2097136)).length : Int) :=
  get_position_count_spec { Index.init (Record.ofBytes []) with top_word := 2 } 1049096 2097136
    2 (by decide) (by decide) (by decide)

/-! ## The carries of `build_bitmap_basic` -/

/-- The words that `build_bitmap_basic` stores, in terms of the two lanes it has loaded. -/
theorem build_bitmap_basic_fields (s0 s : Index) (h : s0.build_bitmap_basic = .ok s) :
    s.quote_bits = rawBits s.v_text0 s.v_text chQuote &&&
      not64 (oddEnds s0.even_bits s0.odd_bits (rawBits s.v_text0 s.v_text chBackslash)
        s0.prev_iter_ends_odd_backslash) ∧
    s.str_mask = clmul64 s.quote_bits (W64 - 1) ^^^ s0.prev_iter_inside_quote ∧
    s.prev_iter_ends_odd_backslash
      = (if oddOverflow s0.even_bits (rawBits s.v_text0 s.v_text chBackslash)
          s0.prev_iter_ends_odd_backslash = true then 1 else 0) ∧
    s.prev_iter_inside_quote = (if s.str_mask.testBit 63 = true then W64 - 1 else 0) ∧
    s.v_text0.length = 32 ∧ s.v_text.length = 32 := by
  obtain ⟨h0, h1, _, _⟩ := build_bitmap_basic_lanes s0 s h
  have hl0 := (load32_spec s0 _ _ h0).1
  have hl1 := (load32_spec s0 _ _ h1).1
  rw [build_bitmap_basic_eq s0 _ _ h0 h1] at h
  injection h with h
  rw [← h]
  exact ⟨rfl, rfl, rfl, rfl, by rw [← h] at hl0; exact hl0, by rw [← h] at hl1; exact hl1⟩

theorem prefixXor_eq_parity (q : Nat) : ∀ n : Nat,
    prefixXor q n = decide (((List.range n).filter (fun i => q.testBit i)).length % 2 = 1) := by
  intro n
  induction n with
  | zero => simp [prefixXor]
  | succ n ih =>
    rw [prefixXor, ih, List.range_succ, List.filter_append, List.length_append]
    cases hb : q.testBit n
    · simp [List.filter_cons, hb]
    · simp only [List.filter_cons, hb, if_true, List.filter_nil, List.length_cons,
        List.length_nil]
      generalize ((List.range n).filter (fun i => q.testBit i)).length = m
      by_cases hm : m % 2 = 1
      · have : ¬ (m + (0 + 1)) % 2 = 1 := by omega
        simp [hm, this]
      · have : (m + (0 + 1)) % 2 = 1 := by omega
        simp [hm, this]

theorem testBit_carry_mask (c k : Nat) (hk : k < 64) (hc : c = 0 ∨ c = 0xFFFFFFFFFFFFFFFF) :
    c.testBit k = c.testBit 0 := by
  rcases hc with h | h
  · subst h; simp
  · subst h
    have h1 : (0xFFFFFFFFFFFFFFFF : Nat) = 2 ^ 64 - 1 := by decide
    rw [h1, Nat.testBit_two_pow_sub_one, Nat.testBit_two_pow_sub_one]
    simp [hk]

theorem escAt_bsRun (l : List Nat) (B : Nat) (n : Nat)
    (hB : ∀ j : Nat, j < n → B.testBit j = decide (l.getD j 0 = chBackslash)) :
    ∀ k : Nat, k ≤ n → escAt B 0 k = decide (bsRun l k % 2 = 1) := by
  intro k
  induction k with
  | zero => intro _; simp [escAt, bsRun]
  | succ k ih =>
    intro hk
    rw [escAt, ih (by omega), hB k (by omega), bsRun]
    by_cases hb : l.getD k 0 = chBackslash
    · rw [if_pos hb, decide_eq_true hb, Bool.true_and]
      by_cases hm : bsRun l k % 2 = 1
      · have : ¬ (bsRun l k + 1) % 2 = 1 := by omega
        simp [hm, this]
      · have : (bsRun l k + 1) % 2 = 1 := by omega
        simp [hm, this]
    · rw [if_neg hb, decide_eq_false hb]
      simp

theorem tok_escaped_bsRun (text : List Nat) : ∀ p : Nat, p ≤ text.length →
    (tokAt text p).escaped = decide (bsRun text p % 2 = 1) := by
  intro p
  induction p with
  | zero => intro _; rw [tokAt_zero]; simp [bsRun]
  | succ p ih =>
    intro hp
    rw [tokAt_succ text p (by omega), tokStep_escaped, ih (by omega), bsRun]
    by_cases hb : text.getD p 0 = chBackslash
    · rw [if_pos hb, decide_eq_true hb, Bool.true_and]
      by_cases hm : bsRun text p % 2 = 1
      · have : ¬ (bsRun text p + 1) % 2 = 1 := by omega
        simp [hm, this]
      · have : (bsRun text p + 1) % 2 = 1 := by omega
        simp [hm, this]
    · rw [if_neg hb, decide_eq_false hb]
      simp

/-- Bit `k` of the raw bitmap of two loaded lanes, in terms of the 64 bytes of the window. -/
theorem testBit_rawBits_window (v0 v : List Nat) (c k : Nat) (h0 : v0.length = 32)
    (h1 : v.length = 32) (hk : k < 64) :
    (rawBits v0 v c).testBit k = decide ((v0 ++ v).getD k 0 = c) := by
  unfold rawBits
  rw [testBit_rawBits v0 v c k h0 hk, List.getD_eq_getElem?_getD]
  by_cases h : k < 32
  · rw [if_pos h, List.getElem?_append_left (by omega), List.getElem?_eq_getElem (by omega)]
    simp
  · rw [if_neg h, List.getElem?_append_right (by omega), h0,
      List.getElem?_eq_getElem (by omega)]
    simp

/-! ## Escapes, string mask and carries -/

/-- C18.  Escape detection.  In `build_bitmap_basic` with carry-in
`prev_iter_ends_odd_backslash = 0`, for every window and every `k < 64` (in particular
`k` in `1 .. 63`), bit `k` of `odd_ends` is 1 iff byte `k` of the window is not a backslash
and the maximal run of backslashes ending at byte `k - 1` has odd length; hence bit `k` of
`quote_bits` is 1 iff byte `k` is a quote that is not preceded by a backslash run of odd
length.  The window is the 64 bytes of the two lanes loaded, `v_text0 ++ v_text`. -/
theorem odd_ends_escape (s0 s : Index) (k : Nat) (h : s0.build_bitmap_basic = .ok s)
    (hc : s0.prev_iter_ends_odd_backslash = 0)
    (hE : s0.even_bits = 0x5555555555555555) (hO : s0.odd_bits = not64 0x5555555555555555)
    (hk : k < 64) :
    (oddEnds s0.even_bits s0.odd_bits (rawBits s.v_text0 s.v_text chBackslash)
        s0.prev_iter_ends_odd_backslash).testBit k
      = (decide ((s.v_text0 ++ s.v_text).getD k 0 ≠ chBackslash) &&
          decide (bsRun (s.v_text0 ++ s.v_text) k % 2 = 1)) ∧
    s.quote_bits.testBit k
      = (decide ((s.v_text0 ++ s.v_text).getD k 0 = chQuote) &&
          !decide (bsRun (s.v_text0 ++ s.v_text) k % 2 = 1)) := by
  obtain ⟨hq, _, _, _, hl0, hl1⟩ := build_bitmap_basic_fields s0 s h
  have hBlt := rawBits_lt s.v_text0 s.v_text chBackslash hl0
  have hB := fun (j : Nat) (hj : j < 64) =>
    testBit_rawBits_window s.v_text0 s.v_text chBackslash j hl0 hl1 hj
  have hesc := escAt_bsRun (s.v_text0 ++ s.v_text) _ 64 hB k (by omega)
  have hodd : (oddEnds s0.even_bits s0.odd_bits (rawBits s.v_text0 s.v_text chBackslash)
        s0.prev_iter_ends_odd_backslash).testBit k
      = (decide ((s.v_text0 ++ s.v_text).getD k 0 ≠ chBackslash) &&
          decide (bsRun (s.v_text0 ++ s.v_text) k % 2 = 1)) := by
    rw [hE, hO, hc, testBit_oddEnds _ 0 k hBlt (by decide) hk, hB k hk, hesc]
    simp
  refine ⟨hodd, ?_⟩
  rw [hq, Nat.testBit_and, testBit_not64 _ _ hk, hodd,
    testBit_rawBits_window s.v_text0 s.v_text chQuote k hl0 hl1 hk]
  generalize (s.v_text0 ++ s.v_text).getD k 0 = b
  generalize decide (bsRun (s.v_text0 ++ s.v_text) k % 2 = 1) = p
  by_cases hqk : b = chQuote
  · subst hqk
    simp [quote_ne_backslash]
  · simp [hqk]

/-- The first window of the record `\x7b"a":"x\"y"\x7d`: byte 8 is the quote after the
backslash at byte 7. -/
theorem odd_ends_escape_witness :
    ∃ s : Index, (Index.init (loaded (bytes "\x7b\"a\":\"x\\\"y\"\x7d") 100)).build_bitmap_basic
        = .ok s ∧
      s.quote_bits.testBit 8
        = (decide ((s.v_text0 ++ s.v_text).getD 8 0 = chQuote) &&
            !decide (bsRun (s.v_text0 ++ s.v_text) 8 % 2 = 1)) :=
  (exists_ok_of_isOk _ (by decide!)).elim (fun s h => ⟨s, h,
    (odd_ends_escape (Index.init (loaded (bytes "\x7b\"a\":\"x\\\"y\"\x7d") 100)) s 8 h
      rfl rfl rfl (by decide)).2⟩)

/-- C19.  For every 64-bit `quote_bits` and carry `prev_iter_inside_quote` in
`{0, all-ones}`, bit `k` of the `str_mask` that `build_bitmap_basic` computes equals the
parity of the number of set bits of `quote_bits` in the positions `0 .. k`, XOR bit 0 of the
carry: the carry-less product with all-ones is the prefix-XOR scan. -/
theorem str_mask_prefix_parity (s0 s : Index) (k : Nat) (h : s0.build_bitmap_basic = .ok s)
    (hc : s0.prev_iter_inside_quote = 0 ∨ s0.prev_iter_inside_quote = 0xFFFFFFFFFFFFFFFF)
    (hk : k < 64) :
    s.str_mask.testBit k
      = xor (decide (((List.range (k + 1)).filter (fun i => s.quote_bits.testBit i)).length % 2
          = 1)) (s0.prev_iter_inside_quote.testBit 0) := by
  obtain ⟨_, hm, _, _, _, _⟩ := build_bitmap_basic_fields s0 s h
  rw [hm, Nat.testBit_xor, testBit_clmul64 _ _ hk, prefixXor_eq_parity,
    testBit_carry_mask _ k hk hc]

/-- The first window of the record `\x7b"a":"b:c"\x7d`, bit 7 (the colon inside the
string). -/
theorem str_mask_prefix_parity_witness :
    ∃ s : Index, (Index.init (loaded (bytes "\x7b\"a\":\"b:c\"\x7d") 100)).build_bitmap_basic
        = .ok s ∧
      s.str_mask.testBit 7
        = xor (decide (((List.range (7 + 1)).filter (fun i => s.quote_bits.testBit i)).length % 2
            = 1)) (Nat.testBit 0 0) :=
  (exists_ok_of_isOk _ (by decide!)).elim (fun s h => ⟨s, h,
    str_mask_prefix_parity (Index.init (loaded (bytes "\x7b\"a\":\"b:c\"\x7d") 100)) s 7 h
      (Or.inl rfl) (by decide)⟩)

/-- C20.  Backslash carry.  After `build_bitmap_basic` has been run on the windows
`0, 1, ..., w` of an input in this order, `prev_iter_ends_odd_backslash` is 1 iff the
maximal run of backslashes that ends at the last byte of window `w` (counted across all
earlier windows it extends into) has odd length, and 0 otherwise; so the value is always 0
or 1. -/
theorem backslash_carry (text : List Nat) (w : Nat) (hw : 64 * w + 64 ≤ text.length) :
    ∃ s : Index, scanWindows (Record.ofBytes text) w = .ok s ∧
      s.prev_iter_ends_odd_backslash = (if bsRun text (64 * w + 64) % 2 = 1 then 1 else 0) := by
  obtain ⟨s, hs, _, _, _, _, hpo, _⟩ := scanWindows_tok text w hw
  refine ⟨s, hs, ?_⟩
  rw [hpo, tok_escaped_bsRun text _ hw]
  by_cases hm : bsRun text (64 * w + 64) % 2 = 1
  · simp [hm]
  · simp [hm]

/-- A text of 128 bytes whose bytes 61, 62 and 63 are backslashes: the first window ends
with a run of three. -/
theorem backslash_carry_witness :
    ∃ s : Index, scanWindows (Record.ofBytes (List.replicate 61 97 ++ [92, 92, 92] ++
        List.replicate 64 97)) 0 = .ok s ∧
      s.prev_iter_ends_odd_backslash
        = (if bsRun (List.replicate 61 97 ++ [92, 92, 92] ++ List.replicate 64 97)
            (64 * 0 + 64) % 2 = 1 then 1 else 0) :=
  backslash_carry (List.replicate 61 97 ++ [92, 92, 92] ++ List.replicate 64 97) 0 (by simp)

/-- C21.  After every `build_bitmap_basic` call, `prev_iter_inside_quote` is either 0 or
`0xFFFFFFFFFFFFFFFF`, and it is all-ones iff bit 63 of the window's `str_mask` is 1. -/
theorem inside_quote_carry (s0 s : Index) (h : s0.build_bitmap_basic = .ok s) :
    (s.prev_iter_inside_quote = 0 ∨ s.prev_iter_inside_quote = 0xFFFFFFFFFFFFFFFF) ∧
    (s.prev_iter_inside_quote = 0xFFFFFFFFFFFFFFFF ↔ s.str_mask.testBit 63 = true) := by
  obtain ⟨_, _, _, hi, _, _⟩ := build_bitmap_basic_fields s0 s h
  rw [hi]
  cases s.str_mask.testBit 63
  · simp
  · simp [W64]

/-- The first 64 bytes of a text that opens a string at byte 5 and closes it in the next
window. -/
theorem inside_quote_carry_witness :
    ∃ s : Index, (Index.init (Record.ofBytes (bytes "\x7b\"a\":\"" ++ List.replicate 70 120
        ++ bytes "\"\x7d" ++ List.replicate 51 100))).build_bitmap_basic = .ok s ∧
      (s.prev_iter_inside_quote = 0xFFFFFFFFFFFFFFFF ↔ s.str_mask.testBit 63 = true) :=
  (exists_ok_of_isOk _ (by decide!)).elim (fun s h => ⟨s, h,
    (inside_quote_carry (Index.init (Record.ofBytes (bytes "\x7b\"a\":\"" ++ List.replicate 70 120
        ++ bytes "\"\x7d" ++ List.replicate 51 100))) s h).2⟩)

section
open QueryAutomaton JSONPathParser

/-! ## The runtime stack -/

theorem popMany_succ (n : Nat) : ∀ qa : QueryAutomaton,
    popMany (n + 1) qa = ((popMany n qa).1.popStack.1,
      (popMany n qa).2 ++ [(popMany n qa).1.popStack.2]) := by
  induction n with
  | zero => intro qa; rfl
  | succ n ih =>
    intro qa
    rw [popMany, ih qa.popStack.1]
    rfl

theorem getD_set_eq (l : List Int) (i : Nat) (v : Int) (h : i < l.length) :
    (l.set i v).getD i 0 = v := by
  rw [List.getD_eq_getElem?_getD, List.getElem?_set_self h]
  rfl

theorem getD_set_ne (l : List Int) (i j : Nat) (v : Int) (h : i ≠ j) :
    (l.set i v).getD j 0 = l.getD j 0 := by
  rw [List.getD_eq_getElem?_getD, List.getD_eq_getElem?_getD, List.getElem?_set_ne h]

theorem push_pop_many (ss : List Int) : ∀ qa : QueryAutomaton,
    0 ≤ qa.mStack.num_stack_ele →
    qa.mStack.num_stack_ele + ss.length ≤ MAX_STACK_DEPTH →
    qa.mStack.stack.length = MAX_STACK_DEPTH →
    qa.mStack.arr_counter_stack.length = MAX_STACK_DEPTH →
    StackAgree qa (popMany ss.length (pushMany qa ss)).1 ∧
    (popMany ss.length (pushMany qa ss)).2 = ((qa.mCurState :: ss).dropLast).reverse := by
  induction ss with
  | nil =>
    intro qa _ _ _ _
    exact ⟨⟨rfl, rfl, rfl, rfl, rfl, fun _ _ => ⟨rfl, rfl⟩⟩, rfl⟩
  | cons s rest ih =>
    intro qa h0 hn hl1 hl2
    have hlt : qa.mStack.num_stack_ele < MAX_STACK_DEPTH := by
      simp only [List.length_cons] at hn; push_cast at hn; omega
    have hpush : qa.pushStack s =
        { qa with
          mStack :=
            { stack := qa.mStack.stack.set qa.mStack.num_stack_ele.toNat qa.mCurState,
              arr_counter_stack :=
                qa.mStack.arr_counter_stack.set qa.mStack.num_stack_ele.toNat qa.mArrCounter,
              num_stack_ele := qa.mStack.num_stack_ele + 1 },
          mCurState := s,
          mArrCounter := -1 } := by
      unfold pushStack; rw [if_pos hlt]
    obtain ⟨⟨a1, a2, a3, a4, a5, a6⟩, hres⟩ := ih (qa.pushStack s)
      (by rw [hpush]; show 0 ≤ qa.mStack.num_stack_ele + 1; omega)
      (by rw [hpush]; show qa.mStack.num_stack_ele + 1 + _ ≤ _
          simp only [List.length_cons] at hn; push_cast at hn; omega)
      (by rw [hpush]; show (List.set _ _ _).length = _; rw [List.length_set]; exact hl1)
      (by rw [hpush]; show (List.set _ _ _).length = _; rw [List.length_set]; exact hl2)
    show StackAgree qa (popMany (rest.length + 1) (pushMany (qa.pushStack s) rest)).1 ∧
      (popMany (rest.length + 1) (pushMany (qa.pushStack s) rest)).2 = _
    rw [popMany_succ]
    generalize (popMany rest.length (pushMany (qa.pushStack s) rest)) = r at *
    rw [hpush] at a1 a2 a3 a4 a5 a6
    simp only at a1 a2 a3 a4 a5 a6
    have hM : (MAX_STACK_DEPTH : Int) = 50 := rfl
    have hnat : ((qa.mStack.num_stack_ele.toNat : Nat) : Int) = qa.mStack.num_stack_ele :=
      Int.toNat_of_nonneg h0
    have hidx : qa.mStack.num_stack_ele.toNat < qa.mStack.stack.length := by
      rw [hl1]; show _ < 50; omega
    have hidx2 : qa.mStack.num_stack_ele.toNat < qa.mStack.arr_counter_stack.length := by
      rw [hl2]; show _ < 50; omega
    obtain ⟨t1, t2⟩ := a6 qa.mStack.num_stack_ele.toNat (by omega)
    rw [getD_set_eq _ _ _ hidx] at t1
    rw [getD_set_eq _ _ _ hidx2] at t2
    have hpos : r.1.mStack.num_stack_ele > 0 := by rw [a3]; omega
    have hsub : (r.1.mStack.num_stack_ele - 1).toNat = qa.mStack.num_stack_ele.toNat := by
      rw [a3]; congr 1; omega
    have hpop : r.1.popStack =
        ({ r.1 with
            mStack := { r.1.mStack with num_stack_ele := r.1.mStack.num_stack_ele - 1 },
            mCurState := r.1.mStack.stack.getD (r.1.mStack.num_stack_ele - 1).toNat 0,
            mArrCounter :=
              r.1.mStack.arr_counter_stack.getD (r.1.mStack.num_stack_ele - 1).toNat 0 },
          r.1.mStack.stack.getD (r.1.mStack.num_stack_ele - 1).toNat 0) := by
      unfold popStack; rw [if_pos hpos]
    rw [hpop, hsub, t1, t2]
    refine ⟨⟨rfl, rfl, ?_, ?_, ?_, ?_⟩, ?_⟩
    · show r.1.mStack.num_stack_ele - 1 = _; rw [a3]; omega
    · show r.1.mStack.stack.length = _; rw [a4, List.length_set]
    · show r.1.mStack.arr_counter_stack.length = _; rw [a5, List.length_set]
    · intro i hi
      show r.1.mStack.stack.getD i 0 = _ ∧ r.1.mStack.arr_counter_stack.getD i 0 = _
      obtain ⟨u1, u2⟩ := a6 i (by omega)
      rw [getD_set_ne _ _ _ _ (by omega)] at u1
      rw [getD_set_ne _ _ _ _ (by omega)] at u2
      exact ⟨u1, u2⟩
    · show r.2 ++ [qa.mCurState] = _
      have hcur : (qa.pushStack s).mCurState = s := by rw [hpush]
      rw [hres, hcur]
      cases rest with
      | nil => rfl
      | cons x xs =>
        rw [List.dropLast_cons₂, List.dropLast_cons₂, List.dropLast_cons₂, List.reverse_cons,
          List.reverse_cons, List.reverse_cons]

/-- C15.  The runtime stack is LIFO with capacity 50.  Starting from `reset()`, for every
`k ≤ 50` and every sequence of states `s1 .. sk`, the `k` calls `pushStack(si)` followed by
`k` calls `popStack()` return the previously current states in reverse order
(`s(k-1), ..., s1, START_STATE`) and leave `mCurState = START_STATE`, the array counter
`-1` and the stack size 0; after every `pushStack` on a stack that is not full the array
counter is `-1`.  The two arrays of the stack have their 50 entries. -/
theorem stack_lifo (qa : QueryAutomaton) (ss : List Int)
    (hl1 : qa.mStack.stack.length = MAX_STACK_DEPTH)
    (hl2 : qa.mStack.arr_counter_stack.length = MAX_STACK_DEPTH)
    (hk : ss.length ≤ 50) :
    (popMany ss.length (pushMany qa.reset ss)).2 = ((START_STATE :: ss).dropLast).reverse ∧
    (popMany ss.length (pushMany qa.reset ss)).1.mCurState = START_STATE ∧
    (popMany ss.length (pushMany qa.reset ss)).1.mArrCounter = -1 ∧
    (popMany ss.length (pushMany qa.reset ss)).1.getStackSize = 0 ∧
    (∀ (q : QueryAutomaton) (s : Int), q.mStack.num_stack_ele < MAX_STACK_DEPTH →
      (q.pushStack s).mArrCounter = -1) := by
  obtain ⟨⟨a1, a2, a3, _, _, _⟩, hres⟩ := push_pop_many ss qa.reset (le_refl _)
    (by show (0 : Int) + _ ≤ 50; omega) hl1 hl2
  refine ⟨hres, a1, a2, a3, ?_⟩
  intro q s hq
  unfold pushStack
  rw [if_pos hq]

/-- Three pushes on a fresh automaton: the pops return 7, 5 and the start state 1. -/
theorem stack_lifo_witness :
    (popMany 3 (pushMany QueryAutomaton.new.reset [5, 7, 9])).2 = [7, 5, 1] ∧
    (popMany 3 (pushMany QueryAutomaton.new.reset [5, 7, 9])).1.mCurState = START_STATE :=
  ⟨(stack_lifo QueryAutomaton.new [5, 7, 9] rfl rfl (by decide)).1,
   (stack_lifo QueryAutomaton.new [5, 7, 9] rfl rfl (by decide)).2.1⟩

/-- C16 (counterexample).  A `pushStack` call made when the runtime stack already holds 50
entries does not abort: it returns, and leaves the automaton as it was (the current state is not set to the
state pushed, the stack size stays 50). -/
theorem pushStack_full_continues :
    fullStack.getStackSize = 50 ∧ fullStack.mCurState = 2 ∧
    (fullStack.pushStack 7).mCurState = 2 ∧ (fullStack.pushStack 7).getStackSize = 50 ∧
    ∀ s : Int, fullStack.pushStack s = fullStack := by
  have h : fullStack.mStack.num_stack_ele = 50 ∧ fullStack.mCurState = 2 := by decide!
  have hp : ∀ s : Int, fullStack.pushStack s = fullStack := by
    intro s
    unfold pushStack
    rw [if_neg (by rw [h.1]; decide)]
  refine ⟨h.1, h.2, ?_, ?_, hp⟩
  · rw [hp]; exact h.2
  · rw [hp]; exact h.1

/-! ## Reading and writing the state table -/

theorem ele_setEle (qa : QueryAutomaton) (j idx : Int) (e : StateTransEle) :
    (qa.setEle j e).ele idx
      = if idx = j ∧ 0 ≤ j ∧ j.toNat < qa.mDfa.trans_ele.length then e else qa.ele idx := by
  unfold setEle ele
  by_cases hj : 0 ≤ j
  · rw [if_pos hj]
    by_cases hi : 0 ≤ idx
    · simp only [if_pos hi]
      by_cases h : idx = j
      · subst h
        by_cases hl : idx.toNat < qa.mDfa.trans_ele.length
        · rw [if_pos ⟨rfl, hj, hl⟩, List.getD_eq_getElem?_getD, List.getElem?_set_self hl]
          rfl
        · rw [if_neg (fun hc => hl hc.2.2), List.getD_eq_getElem?_getD,
            List.getD_eq_getElem?_getD, List.getElem?_set]
          simp [hl, List.getElem?_eq_none (not_lt.1 hl)]
      · rw [if_neg (fun hc => h hc.1), List.getD_eq_getElem?_getD, List.getD_eq_getElem?_getD,
          List.getElem?_set_ne (by omega)]
    · have : idx ≠ j := by omega
      simp only [if_neg hi, if_neg (fun hc : idx = j ∧ _ => this hc.1)]
  · have hcond : ¬ (idx = j ∧ 0 ≤ j ∧ j.toNat < qa.mDfa.trans_ele.length) := fun hc => hj hc.2.1
    simp only [if_neg hj, if_neg hcond]

theorem setEle_table_length (qa : QueryAutomaton) (j : Int) (e : StateTransEle) :
    (qa.setEle j e).mDfa.trans_ele.length = qa.mDfa.trans_ele.length := by
  unfold setEle
  split
  · simp
  · rfl

theorem tr_set_zero (l : List TransStrInfo) (t : TransStrInfo) (i : Int) (e : StateTransEle)
    (he : e.t_str_info = l.set 0 t) :
    tr e i = if i = 0 ∧ 0 < l.length then t
      else (if 0 ≤ i then l.getD i.toNat TransStrInfo.init else TransStrInfo.init) := by
  unfold tr
  rw [he]
  by_cases hi : 0 ≤ i
  · rw [if_pos hi]
    by_cases h0 : i = 0
    · subst h0
      by_cases hl : 0 < l.length
      · rw [if_pos ⟨rfl, hl⟩, List.getD_eq_getElem?_getD]
        show (l.set 0 t)[0]?.getD _ = t
        rw [List.getElem?_set_self hl]; rfl
      · rw [if_neg (fun hc => hl hc.2), if_pos (le_refl _)]
        have : l = [] := List.eq_nil_of_length_eq_zero (by omega)
        subst this; rfl
    · rw [if_neg (fun hc => h0 hc.1), if_pos hi, List.getD_eq_getElem?_getD,
        List.getD_eq_getElem?_getD, List.getElem?_set_ne (by omega)]
  · have : i ≠ 0 := by omega
    rw [if_neg hi, if_neg (fun hc => this hc.1), if_neg hi]

theorem updateStateTransInfo_eq (qa : QueryAutomaton) (cur : Int) (fin : Bool) (eo ea : Int)
    (k : Option (List Nat)) (ns : Int) :
    qa.updateStateTransInfo cur fin eo ea k ns
      = qa.setEle (cur - 1)
          { qa.ele (cur - 1) with
            t_str_info := (qa.ele (cur - 1)).t_str_info.set 0
              (written (tr (qa.ele (cur - 1)) 0) eo ea k ns),
            matched_state := fin } := by
  unfold updateStateTransInfo written
  cases k <;> by_cases h1 : eo ≠ NONE <;> by_cases h2 : ea ≠ NONE <;> simp [h1, h2]

/-! ## Invariants of the compiler loop -/

/-- An invariant of the writes of `updateQueryAutomaton`: every call of
`updateStateTransInfo` is for the current query state or the next one and names a next
state among the current one and the two after it; every call of `addIndexConstraints` is
for the current query state; the query state never decreases. -/
theorem parseLoop_induct (query : List Nat) (P : Int → QueryAutomaton → Prop)
    (hmono : ∀ q qa, P q qa → P (q + 1) qa)
    (hupd : ∀ q qa cur fin eo ea k ns, P q qa → (cur = q ∨ cur = q + 1) →
      (ns = q ∨ ns = q + 1 ∨ ns = q + 2) → P q (qa.updateStateTransInfo cur fin eo ea k ns))
    (hidx : ∀ q qa a b, P q qa → P q (qa.addIndexConstraints q a b)) :
    ∀ (fuel i : Nat) (ls q : Int) (qa : QueryAutomaton), P q qa →
      ∃ q' : Int, P q' (parseLoop query fuel i ls q qa) := by
  intro fuel
  induction fuel with
  | zero => intro i ls q qa h; exact ⟨q, h⟩
  | succ fuel ih =>
    intro i ls q qa h
    unfold parseLoop
    by_cases hi : i < query.length
    · simp only [if_pos hi]
      by_cases h0 : ls = 0
      · simp only [if_pos h0]
        by_cases hd : qat query i = chDot
        · simp only [if_pos hd]; exact ih _ _ _ _ h
        · simp only [if_neg hd]
          by_cases hb : qat query i = chLBracket
          · simp only [if_pos hb]
            exact ih _ _ _ _ (hmono _ _ (hupd _ _ _ _ _ _ _ _ h (Or.inl rfl) (Or.inr (Or.inl rfl))))
          · simp only [if_neg hb]; exact ih _ _ _ _ h
      · simp only [if_neg h0]
        by_cases h1 : ls = 1
        · simp only [if_pos h1]
          rcases hk : keyLoop query (query.length + 1) i (qat query i) [] with ⟨buffer, i1, ch1⟩
          simp only []
          by_cases he : i1 + 1 < query.length
          · simp only [if_pos he]
            by_cases hb : ch1 = chLBracket
            · simp only [if_pos hb]
              have := hmono _ _ (hmono _ _ (hupd _ _ (q + 1) false NONE NONE none (q + 2)
                (hupd _ _ q false ARRAY NONE (some buffer) (q + 1) h (Or.inl rfl)
                  (Or.inr (Or.inl rfl))) (Or.inr rfl) (Or.inr (Or.inr rfl))))
              rw [show q + 1 + 1 = q + 2 by ring] at this
              exact ih _ _ _ _ this
            · simp only [if_neg hb]
              by_cases hd : ch1 = chDot
              · simp only [if_pos hd]
                exact ih _ _ _ _ (hmono _ _ (hupd _ _ _ _ _ _ _ _ h (Or.inl rfl)
                  (Or.inr (Or.inl rfl))))
              · simp only [if_neg hd]; exact ih _ _ _ _ h
          · simp only [if_neg he]
            exact ih _ _ _ _ (hupd _ _ (q + 1) true NONE NONE none (q + 1)
                (hupd _ _ q false PRIMITIVE NONE (some buffer) (q + 1) h (Or.inl rfl)
                  (Or.inr (Or.inl rfl))) (Or.inr rfl) (Or.inr (Or.inl rfl)))
        · simp only [if_neg h1]
          by_cases h2 : ls = 2
          · simp only [if_pos h2]
            generalize idxLoop query (query.length + 1)
              { start_idx := 0, end_idx := -1, buf := [], has_colon := false, i := i,
                ch := qat query i } = s
            generalize (if s.has_colon = false ∧ s.buf.length > 0 then
                ({ s with start_idx := atoi s.buf, end_idx := atoi s.buf + 1 } : IdxScan)
              else if s.buf.length > 0 then { s with end_idx := atoi s.buf } else s) = s1
            have hq1 : P q (if s1.end_idx > -1 then
                qa.addIndexConstraints q s1.start_idx s1.end_idx else qa) := by
              split
              · exact hidx _ _ _ _ h
              · exact h
            generalize (if s1.end_idx > -1 then
                qa.addIndexConstraints q s1.start_idx s1.end_idx else qa) = qa1 at hq1
            by_cases he : s1.i + 1 < query.length
            · simp only [if_pos he]
              by_cases hd : qat query (s1.i + 1) = chDot
              · simp only [if_pos hd]
                exact ih _ _ _ _ (hupd _ _ _ _ _ _ _ _ hq1 (Or.inl rfl) (Or.inr (Or.inl rfl)))
              · simp only [if_neg hd]
                by_cases hb : qat query (s1.i + 1) = chLBracket
                · simp only [if_pos hb]
                  exact ih _ _ _ _ (hmono _ _ (hupd _ _ _ _ _ _ _ _ hq1 (Or.inl rfl)
                    (Or.inr (Or.inl rfl))))
                · simp only [if_neg hb]; exact ih _ _ _ _ hq1
            · simp only [if_neg he]
              exact ih _ _ _ _ (hupd _ _ _ _ _ _ _ _ hq1 (Or.inl rfl) (Or.inl rfl))
          · simp only [if_neg h2]; exact ih _ _ _ _ h
    · simp only [if_neg hi]; exact ⟨q, h⟩

theorem tr_update (qa : QueryAutomaton) (cur : Int) (fin : Bool) (eo ea : Int)
    (k : Option (List Nat)) (ns : Int) (idx i : Int) :
    tr ((qa.updateStateTransInfo cur fin eo ea k ns).ele idx) i = tr (qa.ele idx) i ∨
    tr ((qa.updateStateTransInfo cur fin eo ea k ns).ele idx) i
      = written (tr (qa.ele (cur - 1)) 0) eo ea k ns := by
  rw [updateStateTransInfo_eq, ele_setEle]
  by_cases hc : idx = cur - 1 ∧ 0 ≤ cur - 1 ∧ (cur - 1).toNat < qa.mDfa.trans_ele.length
  · rw [if_pos hc, tr_set_zero (qa.ele (cur - 1)).t_str_info _ i _ rfl]
    by_cases h0 : i = 0 ∧ 0 < (qa.ele (cur - 1)).t_str_info.length
    · right; rw [if_pos h0]
    · left; rw [if_neg h0, hc.1]; rfl
  · left; rw [if_neg hc]

theorem tr_addIndexConstraints (qa : QueryAutomaton) (q a b : Int) (idx i : Int) :
    tr ((qa.addIndexConstraints q a b).ele idx) i = tr (qa.ele idx) i := by
  unfold addIndexConstraints
  by_cases hq : q ≠ UNMATCHED_STATE
  · simp only [if_pos hq]
    rw [ele_setEle]
    by_cases hc : idx = q - 1 ∧ 0 ≤ q - 1 ∧ (q - 1).toNat < qa.mDfa.trans_ele.length
    · rw [if_pos hc, hc.1]; rfl
    · rw [if_neg hc]
  · simp only [if_neg hq]

/-- C17.  State 0 is a sentinel: `getNextState` and `getNextStateNoKey` return
`UNMATCHED_STATE` whenever the current state is `UNMATCHED_STATE`, `isAccept(0)` is false,
and for every query no transition written by the compiler has `next_state = 0`: every
transition of the table after `updateQueryAutomaton` is the one that was there before or
has a next state other than 0. -/
theorem unmatched_sentinel (qa : QueryAutomaton) (query key : List Nat) (key_len : Int) :
    ((qa.setCurState UNMATCHED_STATE).getNextState key key_len = UNMATCHED_STATE ∧
      (qa.setCurState UNMATCHED_STATE).getNextStateNoKey = UNMATCHED_STATE) ∧
    qa.isAccept 0 = false ∧
    (∀ idx i : Int,
      tr ((updateQueryAutomaton query qa).ele idx) i = tr (qa.ele idx) i ∨
      (tr ((updateQueryAutomaton query qa).ele idx) i).next_state ≠ 0) := by
  refine ⟨⟨?_, ?_⟩, ?_, ?_⟩
  · unfold getNextState setCurState; simp
  · unfold getNextStateNoKey setCurState; simp
  · unfold isAccept UNMATCHED_STATE; simp
  · obtain ⟨q', _, h⟩ := parseLoop_induct query
      (fun q qa1 => 0 < q ∧ ∀ idx i : Int,
        tr (qa1.ele idx) i = tr (qa.ele idx) i ∨ (tr (qa1.ele idx) i).next_state ≠ 0)
      (fun q qa1 h => ⟨by omega, h.2⟩)
      (fun q qa1 cur fin eo ea k ns h hcur hns => ⟨h.1, by
        intro idx i
        rcases tr_update qa1 cur fin eo ea k ns idx i with h1 | h1
        · rw [h1]; exact h.2 idx i
        · right; rw [h1]; show ns ≠ 0; have := h.1; omega⟩)
      (fun q qa1 a b h => ⟨h.1, by
        intro idx i
        rw [tr_addIndexConstraints]; exact h.2 idx i⟩)
      (query.length + 1) 0 0 START_STATE qa ⟨by decide, fun _ _ => Or.inl rfl⟩
    exact h

/-! ## The key loop of the compiler -/

theorem qat_append (pre : List Nat) (x : Nat) (rest : List Nat) :
    qat (pre ++ x :: rest) pre.length = x := by
  unfold qat
  rw [List.getD_eq_getElem?_getD, List.getElem?_append_right (le_refl _)]
  simp

theorem parseLoop_end (query : List Nat) (fuel i : Nat) (ls q : Int) (qa : QueryAutomaton)
    (h : query.length ≤ i) : parseLoop query fuel i ls q qa = qa := by
  cases fuel with
  | zero => rfl
  | succ f => unfold parseLoop; rw [if_neg (by omega)]

/-- The key loop on a key that is followed by `.` or `[`. -/
theorem keyLoop_sep (rem : List Nat) : ∀ (pre buf : List Nat) (c : Nat) (rest : List Nat)
    (fuel : Nat), (∀ x ∈ rem, x ≠ chDot ∧ x ≠ chLBracket) → (c = chDot ∨ c = chLBracket) →
    rem.length < fuel →
    keyLoop (pre ++ rem ++ c :: rest) fuel pre.length (qat (pre ++ rem ++ c :: rest) pre.length)
      buf = (buf ++ rem, pre.length + rem.length, c) := by
  induction rem with
  | nil =>
    intro pre buf c rest fuel _ hc hf
    obtain ⟨f, rfl⟩ : ∃ f, fuel = f + 1 := ⟨fuel - 1, by simp at hf; omega⟩
    rw [List.append_nil, qat_append, keyLoop]
    rw [if_neg (by rcases hc with h | h <;> simp [h])]
    simp
  | cons x r ih =>
    intro pre buf c rest fuel hrem hc hf
    obtain ⟨f, rfl⟩ : ∃ f, fuel = f + 1 := ⟨fuel - 1, by simp at hf; omega⟩
    have hq : pre ++ x :: r ++ c :: rest = pre ++ x :: (r ++ c :: rest) := by simp
    rw [hq, qat_append, keyLoop, if_pos (hrem x (List.mem_cons_self _ _))]
    rw [if_neg (by simp)]
    have hq2 : pre ++ x :: (r ++ c :: rest) = (pre ++ [x]) ++ r ++ c :: rest := by simp
    have hl : pre.length + 1 = (pre ++ [x]).length := by simp
    rw [hq2, hl, ih (pre ++ [x]) (buf ++ [x]) c rest f
      (fun y hy => hrem y (List.mem_cons_of_mem _ hy)) hc (by simp at hf; omega)]
    simp
    omega

/-- The key loop on a key that ends the query. -/
theorem keyLoop_last (rem : List Nat) : ∀ (pre buf : List Nat) (x : Nat) (fuel : Nat),
    (∀ y ∈ rem ++ [x], y ≠ chDot ∧ y ≠ chLBracket) → rem.length + 1 < fuel →
    keyLoop (pre ++ (rem ++ [x])) fuel pre.length (qat (pre ++ (rem ++ [x])) pre.length) buf
      = (buf ++ (rem ++ [x]), pre.length + rem.length, x) := by
  induction rem with
  | nil =>
    intro pre buf x fuel hk hf
    obtain ⟨f, rfl⟩ : ∃ f, fuel = f + 1 := ⟨fuel - 1, by omega⟩
    rw [List.nil_append, qat_append, keyLoop, if_pos (hk x (by simp)), if_pos (by simp)]
    simp
  | cons y r ih =>
    intro pre buf x fuel hk hf
    obtain ⟨f, rfl⟩ : ∃ f, fuel = f + 1 := ⟨fuel - 1, by omega⟩
    have hq : pre ++ (y :: r ++ [x]) = pre ++ y :: (r ++ [x]) := by simp
    rw [hq, qat_append, keyLoop, if_pos (hk y (by simp))]
    rw [if_neg (by simp)]
    have hq2 : pre ++ y :: (r ++ [x]) = (pre ++ [y]) ++ (r ++ [x]) := by simp
    have hl : pre.length + 1 = (pre ++ [y]).length := by simp
    rw [hq2, hl, ih (pre ++ [y]) (buf ++ [y]) x f
      (fun z hz => hk z (by simp at hz ⊢; tauto)) (by simp at hf; omega)]
    simp
    omega

/-! ## One segment of a path -/

/-- Lexer state 1 on a key that is followed by `.` and more. -/
theorem parseLoop_key_dot (pre k rest : List Nat) (fuel : Nat) (q : Int) (qa : QueryAutomaton)
    (hk : ∀ x ∈ k, x ≠ chDot ∧ x ≠ chLBracket) (hrest : rest ≠ []) :
    parseLoop (pre ++ k ++ chDot :: rest) (fuel + 1) pre.length 1 q qa
      = parseLoop (pre ++ k ++ chDot :: rest) fuel (pre.length + k.length + 1) 1 (q + 1)
          (qa.updateStateTransInfo q false OBJECT NONE (some k) (q + 1)) := by
  have hlen : (pre ++ k ++ chDot :: rest).length = pre.length + k.length + 1 + rest.length := by
    simp; omega
  have hr : 0 < rest.length := List.length_pos.2 hrest
  rw [parseLoop]
  rw [if_pos (by rw [hlen]; omega)]
  simp only [show ¬ ((1 : Int) = 0) by decide, if_false, if_true]
  rw [keyLoop_sep k pre [] chDot rest _ hk (Or.inl rfl) (by rw [hlen]; omega)]
  simp only [List.nil_append]
  rw [if_pos (by rw [hlen]; omega)]
  rfl

/-- Lexer state 1 on a key that is followed by `[` and more. -/
theorem parseLoop_key_bracket (pre k rest : List Nat) (fuel : Nat) (q : Int)
    (qa : QueryAutomaton) (hk : ∀ x ∈ k, x ≠ chDot ∧ x ≠ chLBracket) (hrest : rest ≠ []) :
    parseLoop (pre ++ k ++ chLBracket :: rest) (fuel + 1) pre.length 1 q qa
      = parseLoop (pre ++ k ++ chLBracket :: rest) fuel (pre.length + k.length + 1) 2 (q + 2)
          ((qa.updateStateTransInfo q false ARRAY NONE (some k) (q + 1)).updateStateTransInfo
            (q + 1) false NONE NONE none (q + 2)) := by
  have hlen : (pre ++ k ++ chLBracket :: rest).length
      = pre.length + k.length + 1 + rest.length := by
    simp; omega
  have hr : 0 < rest.length := List.length_pos.2 hrest
  rw [parseLoop]
  rw [if_pos (by rw [hlen]; omega)]
  simp only [show ¬ ((1 : Int) = 0) by decide, if_false, if_true]
  rw [keyLoop_sep k pre [] chLBracket rest _ hk (Or.inr rfl) (by rw [hlen]; omega)]
  simp only [List.nil_append]
  rw [if_pos (by rw [hlen]; omega)]
  rfl

/-- Lexer state 1 on a key that ends the query. -/
theorem parseLoop_key_last (pre r : List Nat) (x : Nat) (fuel : Nat) (q : Int)
    (qa : QueryAutomaton) (hk : ∀ y ∈ r ++ [x], y ≠ chDot ∧ y ≠ chLBracket) :
    parseLoop (pre ++ (r ++ [x])) (fuel + 1) pre.length 1 q qa
      = (qa.updateStateTransInfo q false PRIMITIVE NONE (some (r ++ [x])) (q + 1)).updateStateTransInfo
          (q + 1) true NONE NONE none (q + 1) := by
  have hlen : (pre ++ (r ++ [x])).length = pre.length + r.length + 1 := by
    simp; omega
  rw [parseLoop]
  rw [if_pos (by rw [hlen]; omega)]
  simp only [show ¬ ((1 : Int) = 0) by decide, if_false, if_true]
  rw [keyLoop_last r pre [] x _ hk (by rw [hlen]; omega)]
  simp only [List.nil_append]
  rw [if_neg (by rw [hlen]; omega), parseLoop_end _ _ _ _ _ _ (by rw [hlen])]

theorem parseLoop_frame (query : List Nat) (fuel i : Nat) (ls q : Int) (qa : QueryAutomaton)
    (idx : Int) (h : idx < q - 1) :
    (parseLoop query fuel i ls q qa).ele idx = qa.ele idx := by
  obtain ⟨q', _, h2⟩ := parseLoop_induct query
    (fun q' qa' => idx < q' - 1 ∧ qa'.ele idx = qa.ele idx)
    (fun q' qa' h => ⟨by omega, h.2⟩)
    (fun q' qa' cur fin eo ea k ns h hcur _ => ⟨h.1, by
      rw [updateStateTransInfo_eq, ele_setEle, if_neg (by omega)]; exact h.2⟩)
    (fun q' qa' a b h => ⟨h.1, by
      unfold addIndexConstraints
      split
      · rw [ele_setEle, if_neg (by omega)]; exact h.2
      · exact h.2⟩)
    fuel i ls q qa ⟨h, rfl⟩
  exact h2

/-! ## What the compiler leaves in a state -/

theorem TableOk_ele (qa : QueryAutomaton) (h : TableOk qa) (idx : Int) :
    0 < (qa.ele idx).t_str_info.length := by
  unfold ele
  by_cases hi : 0 ≤ idx
  · rw [if_pos hi, List.getD_eq_getElem?_getD]
    by_cases hl : idx.toNat < qa.mDfa.trans_ele.length
    · rw [List.getElem?_eq_getElem hl]
      show 0 < (qa.mDfa.trans_ele[idx.toNat]).t_str_info.length
      rw [h.2 _ (List.getElem_mem hl)]; decide
    · rw [List.getElem?_eq_none (not_lt.1 hl)]; decide
  · rw [if_neg hi]; decide

theorem TableOk_setEle (qa : QueryAutomaton) (h : TableOk qa) (j : Int) (e : StateTransEle)
    (he : e.t_str_info.length = MAX_TRANS_STRING) : TableOk (qa.setEle j e) := by
  unfold setEle
  split
  · refine ⟨by simp [h.1], ?_⟩
    intro e' he'
    rcases List.mem_or_eq_of_mem_set he' with h1 | h1
    · exact h.2 e' h1
    · rw [h1]; exact he
  · exact h

theorem ele_length (qa : QueryAutomaton) (h : TableOk qa) (idx : Int) :
    (qa.ele idx).t_str_info.length = MAX_TRANS_STRING := by
  unfold ele
  by_cases hi : 0 ≤ idx
  · rw [if_pos hi, List.getD_eq_getElem?_getD]
    by_cases hl : idx.toNat < qa.mDfa.trans_ele.length
    · rw [List.getElem?_eq_getElem hl]
      exact h.2 _ (List.getElem_mem hl)
    · rw [List.getElem?_eq_none (not_lt.1 hl)]; rfl
  · rw [if_neg hi]; rfl

theorem TableOk_update (qa : QueryAutomaton) (h : TableOk qa) (cur : Int) (fin : Bool)
    (eo ea : Int) (k : Option (List Nat)) (ns : Int) :
    TableOk (qa.updateStateTransInfo cur fin eo ea k ns) := by
  rw [updateStateTransInfo_eq]
  apply TableOk_setEle qa h
  show (List.set _ _ _).length = _
  rw [List.length_set]
  exact ele_length qa h _

theorem TableOk_addIndexConstraints (qa : QueryAutomaton) (h : TableOk qa) (q a b : Int) :
    TableOk (qa.addIndexConstraints q a b) := by
  unfold addIndexConstraints
  split
  · apply TableOk_setEle qa h
    exact ele_length qa h _
  · exact h

/-- The state that `updateStateTransInfo` has written. -/
theorem ele_update_self (qa : QueryAutomaton) (h : TableOk qa) (cur : Int) (fin : Bool)
    (eo ea : Int) (k : Option (List Nat)) (ns : Int) (h1 : 1 ≤ cur) (h2 : cur ≤ MAX_STATES) :
    tr ((qa.updateStateTransInfo cur fin eo ea k ns).ele (cur - 1)) 0
      = written (tr (qa.ele (cur - 1)) 0) eo ea k ns ∧
    ((qa.updateStateTransInfo cur fin eo ea k ns).ele (cur - 1)).matched_state = fin ∧
    ((qa.updateStateTransInfo cur fin eo ea k ns).ele (cur - 1)).num_trans_str
      = (qa.ele (cur - 1)).num_trans_str ∧
    ((qa.updateStateTransInfo cur fin eo ea k ns).ele (cur - 1)).has_index_constraint
      = (qa.ele (cur - 1)).has_index_constraint ∧
    ((qa.updateStateTransInfo cur fin eo ea k ns).ele (cur - 1)).start_idx
      = (qa.ele (cur - 1)).start_idx ∧
    ((qa.updateStateTransInfo cur fin eo ea k ns).ele (cur - 1)).end_idx
      = (qa.ele (cur - 1)).end_idx := by
  have hM : ((MAX_STATES : Nat) : Int) = 50 := rfl
  have hl : (cur - 1).toNat < qa.mDfa.trans_ele.length := by
    rw [h.1]; show _ < 50; omega
  rw [updateStateTransInfo_eq, ele_setEle, if_pos ⟨rfl, by omega, hl⟩]
  refine ⟨?_, rfl, rfl, rfl, rfl, rfl⟩
  rw [tr_set_zero (qa.ele (cur - 1)).t_str_info _ 0 _ rfl, if_pos ⟨rfl, TableOk_ele qa h _⟩]

theorem ele_update_other (qa : QueryAutomaton) (cur : Int) (fin : Bool)
    (eo ea : Int) (k : Option (List Nat)) (ns : Int) (idx : Int) (h : idx ≠ cur - 1) :
    (qa.updateStateTransInfo cur fin eo ea k ns).ele idx = qa.ele idx := by
  rw [updateStateTransInfo_eq, ele_setEle, if_neg (fun hc => h hc.1)]

theorem cstr_eq (k : List Nat) (h : ∀ c ∈ k, c ≠ 0) : cstr k = k := by
  unfold cstr
  rw [List.takeWhile_eq_self_iff]
  intro c hc
  simpa using h c hc

theorem isAccept_eq (qa : QueryAutomaton) (q : Int) (h : 1 ≤ q) :
    qa.isAccept q = (qa.ele (q - 1)).matched_state := by
  unfold isAccept UNMATCHED_STATE
  cases (qa.ele (q - 1)).matched_state
  · simp
  · simp; omega

/-! ## Paths of dot-keys -/

theorem keyChain_parse (ks : List (List Nat)) : ∀ (k pre : List Nat) (q : Int)
    (qa : QueryAutomaton) (fuel : Nat),
    (∀ k' ∈ k :: ks, k' ≠ [] ∧ ∀ c ∈ k', c ≠ chDot ∧ c ≠ chLBracket ∧ c ≠ 0) →
    TableOk qa → 1 ≤ q → q + (ks.length + 1) ≤ MAX_STATES → ks.length + 1 ≤ fuel →
    KeyChain (parseLoop (pre ++ k ++ dotKeys ks) fuel pre.length 1 q qa) q (k :: ks) := by
  have hM : ((MAX_STATES : Nat) : Int) = 50 := rfl
  induction ks with
  | nil =>
    intro k pre q qa fuel hk hT hq hfit hf
    obtain ⟨f, rfl⟩ : ∃ f, fuel = f + 1 := ⟨fuel - 1, by simp at hf; omega⟩
    obtain ⟨hne, hc⟩ := hk k (List.mem_cons_self _ _)
    obtain ⟨r, x, rfl⟩ : ∃ r x, k = r ++ [x] :=
      ⟨k.dropLast, k.getLast hne, (List.dropLast_append_getLast hne).symm⟩
    simp only [dotKeys, List.append_nil, List.length_nil] at hfit ⊢
    rw [parseLoop_key_last pre r x f q qa (fun y hy => ⟨(hc y hy).1, (hc y hy).2.1⟩)]
    have hT1 := TableOk_update qa hT q false PRIMITIVE NONE (some (r ++ [x])) (q + 1)
    obtain ⟨a1, a2, _⟩ := ele_update_self qa hT q false PRIMITIVE NONE (some (r ++ [x])) (q + 1)
      hq (by omega)
    obtain ⟨b1, b2, _⟩ := ele_update_self _ hT1 (q + 1) true NONE NONE none (q + 1)
      (by omega) (by omega)
    have hother := ele_update_other (qa.updateStateTransInfo q false PRIMITIVE NONE
      (some (r ++ [x])) (q + 1)) (q + 1) true NONE NONE none (q + 1) (q - 1) (by omega)
    have hcs := cstr_eq (r ++ [x]) (fun c hcc => (hc c hcc).2.2)
    refine ⟨?_, ?_, ?_, ?_, ?_, ?_, ?_⟩
    · rw [hother, a1]; exact hcs
    · rw [hother, a1]; show (((cstr (r ++ [x])).length : Nat) : Int) = _; rw [hcs]
    · rw [hother, a1]; rfl
    · rw [hother, a1]; rfl
    · rw [isAccept_eq _ _ hq, hother, a2]
    · rw [isAccept_eq _ _ (by omega)]; exact b2
    · rw [b1]; rfl
  | cons k2 ks ih =>
    intro k pre q qa fuel hk hT hq hfit hf
    obtain ⟨f, rfl⟩ : ∃ f, fuel = f + 1 := ⟨fuel - 1, by simp at hf; omega⟩
    obtain ⟨hne, hc⟩ := hk k (List.mem_cons_self _ _)
    obtain ⟨hne2, _⟩ := hk k2 (by simp)
    have hquery : pre ++ k ++ dotKeys (k2 :: ks) = pre ++ k ++ chDot :: (k2 ++ dotKeys ks) := by
      simp [dotKeys]
    have hquery2 : pre ++ k ++ chDot :: (k2 ++ dotKeys ks)
        = (pre ++ k ++ [chDot]) ++ k2 ++ dotKeys ks := by simp
    have hpl : pre.length + k.length + 1 = (pre ++ k ++ [chDot]).length := by simp; omega
    rw [hquery, parseLoop_key_dot pre k _ f q qa (fun y hy => ⟨(hc y hy).1, (hc y hy).2.1⟩)
      (by simp [hne2])]
    have hT1 := TableOk_update qa hT q false OBJECT NONE (some k) (q + 1)
    obtain ⟨a1, a2, _⟩ := ele_update_self qa hT q false OBJECT NONE (some k) (q + 1)
      hq (by simp only [List.length_cons] at hfit; push_cast at hfit; omega)
    have hframe := parseLoop_frame (pre ++ k ++ chDot :: (k2 ++ dotKeys ks)) f
      (pre.length + k.length + 1) 1 (q + 1)
      (qa.updateStateTransInfo q false OBJECT NONE (some k) (q + 1)) (q - 1) (by omega)
    have hrec := ih k2 (pre ++ k ++ [chDot]) (q + 1)
      (qa.updateStateTransInfo q false OBJECT NONE (some k) (q + 1)) f
      (fun k' hk' => hk k' (List.mem_cons_of_mem _ hk')) hT1 (by omega)
      (by simp only [List.length_cons] at hfit ⊢; push_cast at hfit ⊢; omega)
      (by simp only [List.length_cons] at hf ⊢; omega)
    rw [← hquery2, ← hpl] at hrec
    have hcs := cstr_eq k (fun c hcc => (hc c hcc).2.2)
    refine ⟨?_, ?_, ?_, ?_, ?_, hrec⟩
    · rw [hframe, a1]; exact hcs
    · rw [hframe, a1]; show (((cstr k).length : Nat) : Int) = _; rw [hcs]
    · rw [hframe, a1]; rfl
    · rw [hframe, a1]; rfl
    · rw [isAccept_eq _ _ hq, hframe, a2]

theorem keyChain_index (R : QueryAutomaton) (keys : List (List Nat)) : ∀ q : Int, 1 ≤ q →
    KeyChain R q keys →
    (∀ j : Nat, j < keys.length →
      (tr (R.ele (q - 1 + j)) 0).key = keys.getD j [] ∧
      (tr (R.ele (q - 1 + j)) 0).key_len = (keys.getD j []).length ∧
      (tr (R.ele (q - 1 + j)) 0).exp_type_in_obj
        = (if j + 1 < keys.length then OBJECT else PRIMITIVE) ∧
      (tr (R.ele (q - 1 + j)) 0).next_state = q + j + 1 ∧
      R.isAccept (q + j) = false) ∧
    R.isAccept (q + keys.length) = true ∧
    (tr (R.ele (q - 1 + keys.length)) 0).next_state = q + keys.length := by
  induction keys with
  | nil =>
    intro q _ h
    refine ⟨fun j hj => absurd hj (by simp), ?_, ?_⟩
    · simpa using h.1
    · simpa using h.2
  | cons k ks ih =>
    intro q hq h
    obtain ⟨h1, h2, h3, h4, h5, h6⟩ := h
    obtain ⟨i1, i2, i3⟩ := ih (q + 1) (by omega) h6
    refine ⟨?_, ?_, ?_⟩
    · intro j hj
      cases j with
      | zero =>
        simp only [Nat.cast_zero, add_zero, List.getD_cons_zero, List.length_cons]
        refine ⟨h1, h2, ?_, h4, h5⟩
        rw [h3]
        cases ks with
        | nil => simp
        | cons a b => simp
      | succ j =>
        have hj' : j < ks.length := by simpa using hj
        obtain ⟨c1, c2, c3, c4, c5⟩ := i1 j hj'
        have e1 : q - 1 + ((j + 1 : Nat) : Int) = q + 1 - 1 + (j : Int) := by push_cast; ring
        have e2 : q + ((j + 1 : Nat) : Int) = q + 1 + (j : Int) := by push_cast; ring
        rw [e1, e2]
        simp only [List.getD_cons_succ, List.length_cons]
        refine ⟨c1, c2, ?_, by rw [c4], c5⟩
        rw [c3]
        by_cases hlt : j + 1 < ks.length
        · simp [hlt]
        · simp [hlt]
    · have e2 : q + (((k :: ks).length : Nat) : Int) = q + 1 + (ks.length : Int) := by
        simp only [List.length_cons]; push_cast; ring
      rw [e2]; exact i2
    · have e1 : q - 1 + (((k :: ks).length : Nat) : Int) = q + 1 - 1 + (ks.length : Int) := by
        simp only [List.length_cons]; push_cast; ring
      have e2 : q + (((k :: ks).length : Nat) : Int) = q + 1 + (ks.length : Int) := by
        simp only [List.length_cons]; push_cast; ring
      rw [e1, e2]; exact i3

/-! ## Decimal numbers -/

theorem digitChar_toNat (d : Nat) (h : d < 10) :
    (Nat.digitChar d).toNat = d + 48 := by
  interval_cases d <;> rfl

theorem atoi_fold_append (xs ds : List Nat) (acc : Nat) :
    (xs ++ ds).foldl (fun acc c => acc * 10 + (c - chZero)) acc
      = ds.foldl (fun acc c => acc * 10 + (c - chZero)) (xs.foldl (fun acc c => acc * 10 + (c - chZero)) acc) :=
  List.foldl_append _ _ _ _

theorem fold_shift (ds : List Nat) : ∀ acc : Nat,
    ds.foldl (fun acc c => acc * 10 + (c - chZero)) acc
      = acc * 10 ^ ds.length + ds.foldl (fun acc c => acc * 10 + (c - chZero)) 0 := by
  induction ds with
  | nil => intro acc; simp
  | cons d ds ih =>
    intro acc
    rw [List.foldl_cons, ih, List.foldl_cons, ih (0 * 10 + (d - chZero)), List.length_cons, pow_succ]
    ring

theorem toDigitsCore_value (fuel : Nat) : ∀ (n : Nat) (ds : List Char), n < fuel →
    ((Nat.toDigitsCore 10 fuel n ds).map Char.toNat).foldl (fun acc c => acc * 10 + (c - chZero)) 0
      = n * 10 ^ ds.length + (ds.map Char.toNat).foldl (fun acc c => acc * 10 + (c - chZero)) 0 := by
  induction fuel with
  | zero => intro n ds h; omega
  | succ fuel ih =>
    intro n ds h
    rw [Nat.toDigitsCore]
    by_cases h0 : n / 10 = 0
    · rw [if_pos h0, List.map_cons, List.foldl_cons, fold_shift, List.length_map,
        digitChar_toNat _ (Nat.mod_lt _ (by decide))]
      have : n % 10 = n := by omega
      rw [this]
      show (0 * 10 + (n + 48 - 48)) * _ + _ = _
      simp
    · rw [if_neg h0, ih (n / 10) _ (by omega), List.map_cons, List.foldl_cons, fold_shift,
        List.length_map, digitChar_toNat _ (Nat.mod_lt _ (by decide)), List.length_cons, pow_succ]
      show _ + ((0 * 10 + (n % 10 + 48 - 48)) * _ + _) = _
      have hn : n = 10 * (n / 10) + n % 10 := (Nat.div_add_mod n 10).symm
      generalize n / 10 = a at *
      generalize n % 10 = b at *
      subst hn
      simp
      ring

theorem atoi_decimal (n : Nat) : atoi (decimal n) = n := by
  unfold atoi decimal Nat.toDigits
  rw [toDigitsCore_value (n + 1) n [] (by omega)]
  simp

theorem toDigitsCore_digits (fuel : Nat) : ∀ (n : Nat) (ds : List Char),
    (∀ c ∈ ds, chZero ≤ c.toNat ∧ c.toNat ≤ chNine) →
    ∀ c ∈ Nat.toDigitsCore 10 fuel n ds, chZero ≤ c.toNat ∧ c.toNat ≤ chNine := by
  induction fuel with
  | zero => intro n ds h; exact h
  | succ fuel ih =>
    intro n ds h
    rw [Nat.toDigitsCore]
    have hd : ∀ c ∈ Nat.digitChar (n % 10) :: ds, chZero ≤ c.toNat ∧ c.toNat ≤ chNine := by
      intro c hc
      rcases List.mem_cons.1 hc with h1 | h1
      · rw [h1, digitChar_toNat _ (Nat.mod_lt _ (by decide))]
        have := Nat.mod_lt n (show 10 > 0 by decide)
        unfold chZero chNine; omega
      · exact h c h1
    by_cases h0 : n / 10 = 0
    · rw [if_pos h0]; exact hd
    · rw [if_neg h0]; exact ih _ _ hd

theorem decimal_digits (n : Nat) : ∀ c ∈ decimal n, chZero ≤ c ∧ c ≤ chNine := by
  intro c hc
  unfold decimal Nat.toDigits at hc
  obtain ⟨ch, h1, h2⟩ := List.mem_map.1 hc
  rw [← h2]
  exact toDigitsCore_digits _ _ [] (fun _ h => absurd h (List.not_mem_nil _)) ch h1

theorem toDigitsCore_ne_nil (fuel n : Nat) (ds : List Char) (h : 0 < fuel) :
    Nat.toDigitsCore 10 fuel n ds ≠ [] := by
  induction fuel generalizing n ds with
  | zero => omega
  | succ fuel ih =>
    rw [Nat.toDigitsCore]
    by_cases h0 : n / 10 = 0
    · rw [if_pos h0]; simp
    · rw [if_neg h0]
      cases fuel with
      | zero => rw [Nat.toDigitsCore]; simp
      | succ f => exact ih _ _ (by omega)

theorem decimal_ne_nil (n : Nat) : decimal n ≠ [] := by
  unfold decimal Nat.toDigits
  intro h
  exact toDigitsCore_ne_nil (n + 1) n [] (by omega) (List.map_eq_nil_iff.1 h)

theorem renderPath_keys (keys : List (List Nat)) :
    renderPath (keys.map Seg.key) = chDollar :: dotKeys keys := by
  unfold renderPath
  congr 1
  induction keys with
  | nil => rfl
  | cons k ks ih =>
    rw [List.map_cons, List.foldr_cons, ih]
    rfl

theorem dotKeys_length (keys : List (List Nat)) : keys.length ≤ (dotKeys keys).length := by
  induction keys with
  | nil => simp [dotKeys]
  | cons k ks ih => simp only [dotKeys, List.length_append, List.length_cons, List.length_nil]; omega

/-- The first two characters `$.` of a path. -/
theorem parseLoop_start (rest : List Nat) (fuel : Nat) (q : Int) (qa : QueryAutomaton) :
    parseLoop (chDollar :: chDot :: rest) (fuel + 2) 0 0 q qa
      = parseLoop (chDollar :: chDot :: rest) fuel 2 1 q qa := by
  rw [parseLoop, if_pos (by simp)]
  have h0 : qat (chDollar :: chDot :: rest) 0 = chDollar := rfl
  simp only [h0, if_true]
  rw [if_neg (by decide), if_neg (by decide), parseLoop, if_pos (by simp)]
  have h1 : qat (chDollar :: chDot :: rest) (0 + 1) = chDot := rfl
  simp only [h1, if_true]

/-- C12.  For every path `$.k1.k2...kn` (`n ≥ 1`; keys non-empty, without `.`, `[` and NUL,
shorter than `MAX_KEY_LENGTH`; `n + 1 ≤ MAX_STATES`, so that the states fit the table), the
compiler produces: for each `i < n`, state `i` non-accepting with the transition (key `ki`,
`expected_in_object = OBJECT`, next `i + 1`); state `n` non-accepting with the transition
(key `kn`, `expected_in_object = PRIMITIVE`, next `n + 1`); and state `n + 1` accepting with
next `n + 1`.  State `i` is entry `i - 1` of the table: below, `j = i - 1`. -/
theorem compile_dot_keys (keys : List (List Nat)) (qa : QueryAutomaton)
    (hn : 1 ≤ keys.length) (hfit : keys.length + 1 ≤ MAX_STATES)
    (hkeys : ∀ k ∈ keys, k ≠ [] ∧ k.length < MAX_KEY_LENGTH ∧
      ∀ c ∈ k, c ≠ chDot ∧ c ≠ chLBracket ∧ c ≠ 0)
    (hT : TableOk qa) :
    (∀ j : Nat, j < keys.length →
      (tr ((updateQueryAutomaton (renderPath (keys.map Seg.key)) qa).ele j) 0).key
        = keys.getD j [] ∧
      (tr ((updateQueryAutomaton (renderPath (keys.map Seg.key)) qa).ele j) 0).key_len
        = (keys.getD j []).length ∧
      (tr ((updateQueryAutomaton (renderPath (keys.map Seg.key)) qa).ele j) 0).exp_type_in_obj
        = (if j + 1 < keys.length then OBJECT else PRIMITIVE) ∧
      (tr ((updateQueryAutomaton (renderPath (keys.map Seg.key)) qa).ele j) 0).next_state
        = j + 2 ∧
      (updateQueryAutomaton (renderPath (keys.map Seg.key)) qa).isAccept (j + 1) = false) ∧
    (updateQueryAutomaton (renderPath (keys.map Seg.key)) qa).isAccept (keys.length + 1) = true ∧
    (tr ((updateQueryAutomaton (renderPath (keys.map Seg.key)) qa).ele keys.length) 0).next_state
      = keys.length + 1 := by
  obtain ⟨k, ks, rfl⟩ : ∃ k ks, keys = k :: ks := by
    cases keys with
    | nil => simp at hn
    | cons k ks => exact ⟨k, ks, rfl⟩
  have hM : ((MAX_STATES : Nat) : Int) = 50 := rfl
  have hq : renderPath ((k :: ks).map Seg.key) = [chDollar, chDot] ++ k ++ dotKeys ks := by
    rw [renderPath_keys]; simp [dotKeys]
  have hlen : ([chDollar, chDot] ++ k ++ dotKeys ks).length
      = (k.length + (dotKeys ks).length) + 2 := by
    simp
  have hchain : KeyChain (updateQueryAutomaton (renderPath ((k :: ks).map Seg.key)) qa) 1
      (k :: ks) := by
    unfold updateQueryAutomaton
    rw [hq, hlen]
    have h2 : [chDollar, chDot] ++ k ++ dotKeys ks = chDollar :: chDot :: (k ++ dotKeys ks) := by
      simp
    rw [show k.length + (dotKeys ks).length + 2 + 1 = (k.length + (dotKeys ks).length + 1) + 2
      by omega]
    have h4 := parseLoop_start (k ++ dotKeys ks) (k.length + (dotKeys ks).length + 1)
      START_STATE qa
    rw [← h2] at h4
    have := keyChain_parse ks k [chDollar, chDot] 1 qa (k.length + (dotKeys ks).length + 1)
      (fun k' hk' => ⟨(hkeys k' hk').1, (hkeys k' hk').2.2⟩) hT (le_refl _)
      (by simp only [List.length_cons] at hfit; rw [hM]; omega)
      (by have := dotKeys_length ks; omega)
    rw [h4]
    exact this
  obtain ⟨c1, c2, c3⟩ := keyChain_index _ (k :: ks) 1 (le_refl _) hchain
  refine ⟨?_, ?_, ?_⟩
  · intro j hj
    obtain ⟨d1, d2, d3, d4, d5⟩ := c1 j hj
    have e1 : (1 : Int) - 1 + (j : Int) = (j : Int) := by ring
    have e2 : (1 : Int) + (j : Int) + 1 = (j : Int) + 2 := by ring
    have e3 : (1 : Int) + (j : Int) = (j : Int) + 1 := by ring
    rw [e1] at d1 d2 d3 d4
    rw [e2] at d4
    rw [e3] at d5
    exact ⟨d1, d2, d3, d4, d5⟩
  · have e3 : (1 : Int) + ((k :: ks).length : Int) = ((k :: ks).length : Int) + 1 := by ring
    rw [e3] at c2; exact c2
  · have e1 : (1 : Int) - 1 + ((k :: ks).length : Int) = ((k :: ks).length : Int) := by ring
    have e3 : (1 : Int) + ((k :: ks).length : Int) = ((k :: ks).length : Int) + 1 := by ring
    rw [e1, e3] at c3; exact c3

/-- The path `$.a.bc` compiled into a fresh automaton. -/
theorem compile_dot_keys_witness :
    (tr ((updateQueryAutomaton (renderPath ([[97], [98, 99]].map Seg.key))
        QueryAutomaton.new).ele 1) 0).key = [98, 99] ∧
    (updateQueryAutomaton (renderPath ([[97], [98, 99]].map Seg.key))
        QueryAutomaton.new).isAccept 3 = true :=
  ⟨((compile_dot_keys [[97], [98, 99]] QueryAutomaton.new (by decide) (by decide) (by decide)
      (by decide!)).1 1 (by decide)).1,
   (compile_dot_keys [[97], [98, 99]] QueryAutomaton.new (by decide) (by decide) (by decide)
      (by decide!)).2.1⟩

theorem getNextStateNoKey_empty (R : QueryAutomaton) (s : Int) (hs : s ≠ UNMATCHED_STATE)
    (hnum : (R.ele (s - 1)).num_trans_str = 1) (hkl : (tr (R.ele (s - 1)) 0).key_len = 0) :
    (R.setCurState s).getNextStateNoKey = (tr (R.ele (s - 1)) 0).next_state := by
  have he : (R.setCurState s).ele (s - 1) = R.ele (s - 1) := rfl
  have hc : (R.setCurState s).mCurState = s := rfl
  unfold getNextStateNoKey
  rw [hc, if_neg hs]
  simp only [he, hnum]
  show getNextStateNoKeyLoop _ 1 0 = _
  rw [getNextStateNoKeyLoop, hnum, if_pos (by decide), if_pos hkl]

/-! ## The index loop of the compiler -/

theorem idxLoop_stop (query : List Nat) (fuel : Nat) (s : IdxScan) (h : s.ch = chRBracket) :
    idxLoop query (fuel + 1) s = s := by
  rw [idxLoop, if_neg (by simp [h])]

theorem qat_append2 (pre ds : List Nat) (c : Nat) (rest : List Nat) :
    qat (pre ++ ds ++ c :: rest) (pre.length + ds.length) = c := by
  have := qat_append (pre ++ ds) c rest
  rw [List.length_append] at this
  exact this

/-- The index loop over a run of digits that is followed by another character. -/
theorem idxLoop_digits (ds : List Nat) : ∀ (pre buf : List Nat) (c : Nat) (rest : List Nat)
    (st en : Int) (hc : Bool) (fuel : Nat),
    (∀ d ∈ ds, chZero ≤ d ∧ d ≤ chNine) →
    idxLoop (pre ++ ds ++ c :: rest) (fuel + ds.length)
        { start_idx := st, end_idx := en, buf := buf, has_colon := hc, i := pre.length,
          ch := qat (pre ++ ds ++ c :: rest) pre.length }
      = idxLoop (pre ++ ds ++ c :: rest) fuel
        { start_idx := st, end_idx := en, buf := buf ++ ds, has_colon := hc,
          i := pre.length + ds.length, ch := c } := by
  induction ds with
  | nil =>
    intro pre buf c rest st en hc fuel _
    simp only [List.append_nil, List.length_nil, Nat.add_zero, qat_append]
  | cons d r ih =>
    intro pre buf c rest st en hc fuel hd
    obtain ⟨d1, d2⟩ := hd d (List.mem_cons_self _ _)
    have hq : pre ++ d :: r ++ c :: rest = pre ++ d :: (r ++ c :: rest) := by simp
    have hq2 : pre ++ d :: (r ++ c :: rest) = (pre ++ [d]) ++ r ++ c :: rest := by simp
    have hl : pre.length + 1 = (pre ++ [d]).length := by simp
    rw [List.length_cons, ← Nat.add_assoc, idxLoop]
    simp only [hq, qat_append]
    have hnr : d ≠ chRBracket := by
      have e1 : chNine = 57 := rfl
      have e2 : chRBracket = 93 := rfl
      omega
    have hnc : d ≠ chColon := by
      have e1 : chNine = 57 := rfl
      have e2 : chColon = 58 := rfl
      omega
    rw [if_pos hnr]
    simp only [if_neg hnc, if_pos (And.intro d1 d2)]
    rw [if_neg (by simp)]
    rw [hq2, hl, ih (pre ++ [d]) (buf ++ [d]) c rest st en hc fuel
      (fun y hy => hd y (List.mem_cons_of_mem _ hy))]
    simp only [List.length_append, List.length_cons, List.length_nil, List.append_assoc,
      List.singleton_append, Nat.add_assoc, Nat.zero_add]
    congr 3
    omega

/-- The index loop on the colon of a slice. -/
theorem idxLoop_colon (query : List Nat) (fuel : Nat) (st en : Int) (buf : List Nat) (hc : Bool)
    (i : Nat) (h : i + 1 ≠ query.length) :
    idxLoop query (fuel + 1)
        { start_idx := st, end_idx := en, buf := buf, has_colon := hc, i := i, ch := chColon }
      = idxLoop query fuel
        { start_idx := atoi buf, end_idx := INT_MAX, buf := [], has_colon := true, i := i + 1,
          ch := qat query (i + 1) } := by
  have hne : chColon ≠ chRBracket := by decide
  rw [idxLoop, if_pos hne]
  simp only [if_true]
  rw [if_neg h]

/-- What the index loop and the assignments after it compute on the text between the
brackets. -/
theorem idxLoop_body (pre body suf : List Nat) (a e : Int) (h : BracketBody body a e) :
    (idxFinish (idxLoop (pre ++ body ++ chRBracket :: suf)
      ((pre ++ body ++ chRBracket :: suf).length + 1)
      { start_idx := 0, end_idx := -1, buf := [], has_colon := false, i := pre.length,
        ch := qat (pre ++ body ++ chRBracket :: suf) pre.length })).start_idx = a ∧
    (idxFinish (idxLoop (pre ++ body ++ chRBracket :: suf)
      ((pre ++ body ++ chRBracket :: suf).length + 1)
      { start_idx := 0, end_idx := -1, buf := [], has_colon := false, i := pre.length,
        ch := qat (pre ++ body ++ chRBracket :: suf) pre.length })).end_idx = e ∧
    (idxFinish (idxLoop (pre ++ body ++ chRBracket :: suf)
      ((pre ++ body ++ chRBracket :: suf).length + 1)
      { start_idx := 0, end_idx := -1, buf := [], has_colon := false, i := pre.length,
        ch := qat (pre ++ body ++ chRBracket :: suf) pre.length })).i
      = pre.length + body.length := by
  rcases h with ⟨n, rfl, rfl, rfl⟩ | ⟨n, m, rfl, rfl, rfl⟩ | ⟨n, rfl, rfl, rfl⟩
  · have hlen : (pre ++ decimal n ++ chRBracket :: suf).length + 1
        = (pre.length + suf.length + 1 + 1) + (decimal n).length := by
      simp; omega
    rw [hlen, idxLoop_digits (decimal n) pre [] chRBracket suf 0 (-1) false _ (decimal_digits n),
      idxLoop_stop _ _ _ rfl]
    have hne : (decimal n).length > 0 := List.length_pos.2 (decimal_ne_nil n)
    unfold idxFinish
    simp only [List.nil_append]
    rw [if_pos ⟨by simp, hne⟩]
    exact ⟨atoi_decimal n, by show atoi (decimal n) + 1 = _; rw [atoi_decimal], rfl⟩
  · have hq : pre ++ (decimal n ++ [chColon] ++ decimal m) ++ chRBracket :: suf
        = pre ++ decimal n ++ chColon :: (decimal m ++ chRBracket :: suf) := by simp
    have hq2 : pre ++ decimal n ++ chColon :: (decimal m ++ chRBracket :: suf)
        = (pre ++ decimal n ++ [chColon]) ++ decimal m ++ chRBracket :: suf := by simp
    have hlen : (pre ++ decimal n ++ chColon :: (decimal m ++ chRBracket :: suf)).length + 1
        = ((pre.length + suf.length + 1 + 1 + (decimal m).length) + 1) + (decimal n).length := by
      simp; omega
    rw [hq, hlen, idxLoop_digits (decimal n) pre [] chColon _ 0 (-1) false _ (decimal_digits n),
      idxLoop_colon _ _ _ _ _ _ _ (by simp; omega)]
    have hpl : pre.length + (decimal n).length + 1 = (pre ++ decimal n ++ [chColon]).length := by
      simp; omega
    rw [hq2, hpl, idxLoop_digits (decimal m) (pre ++ decimal n ++ [chColon]) [] chRBracket suf _ _
      true _ (decimal_digits m), idxLoop_stop _ _ _ rfl]
    have hne : (decimal m).length > 0 := List.length_pos.2 (decimal_ne_nil m)
    unfold idxFinish
    simp only [List.nil_append]
    rw [if_neg (by simp), if_pos hne]
    refine ⟨atoi_decimal n, atoi_decimal m, ?_⟩
    simp; omega
  · have hq : pre ++ (decimal n ++ [chColon]) ++ chRBracket :: suf
        = pre ++ decimal n ++ chColon :: (chRBracket :: suf) := by simp
    have hlen : (pre ++ decimal n ++ chColon :: (chRBracket :: suf)).length + 1
        = ((pre.length + suf.length + 1 + 1) + 1) + (decimal n).length := by
      simp; omega
    rw [hq, hlen, idxLoop_digits (decimal n) pre [] chColon _ 0 (-1) false _ (decimal_digits n),
      idxLoop_colon _ _ _ _ _ _ _ (by simp; omega)]
    have hch : qat (pre ++ decimal n ++ chColon :: chRBracket :: suf)
        (pre.length + (decimal n).length + 1) = chRBracket := by
      have := qat_append (pre ++ decimal n ++ [chColon]) chRBracket suf
      simp only [List.length_append, List.length_cons, List.length_nil, List.append_assoc,
        List.singleton_append] at this
      simpa [List.append_assoc] using this
    rw [hch, idxLoop_stop _ _ _ rfl]
    unfold idxFinish
    simp only [List.nil_append]
    rw [if_neg (by simp), if_neg (by simp)]
    refine ⟨atoi_decimal n, rfl, ?_⟩
    simp; omega

/-! ## Bracket segments -/

/-- One pass of the compiler loop in lexer state 2, given what the index loop has found. -/
theorem parseLoop_bracket (Q : List Nat) (fuel i : Nat) (q : Int) (qa : QueryAutomaton)
    (a e : Int) (p : Nat) (hi : i < Q.length)
    (h1 : (idxFinish (idxLoop Q (Q.length + 1)
      { start_idx := 0, end_idx := -1, buf := [], has_colon := false, i := i,
        ch := qat Q i })).start_idx = a)
    (h2 : (idxFinish (idxLoop Q (Q.length + 1)
      { start_idx := 0, end_idx := -1, buf := [], has_colon := false, i := i,
        ch := qat Q i })).end_idx = e)
    (h3 : (idxFinish (idxLoop Q (Q.length + 1)
      { start_idx := 0, end_idx := -1, buf := [], has_colon := false, i := i,
        ch := qat Q i })).i = p)
    (he : e > -1) :
    parseLoop Q (fuel + 1) i 2 q qa =
      if p + 1 < Q.length then
        if qat Q (p + 1) = chDot then
          parseLoop Q fuel (p + 2) 1 q
            ((qa.addIndexConstraints q a e).updateStateTransInfo q false NONE OBJECT none (q + 1))
        else if qat Q (p + 1) = chLBracket then
          parseLoop Q fuel (p + 2) 2 (q + 1)
            ((qa.addIndexConstraints q a e).updateStateTransInfo q false NONE ARRAY none (q + 1))
        else parseLoop Q fuel (p + 2) 2 q (qa.addIndexConstraints q a e)
      else
        parseLoop Q fuel (p + 1) 2 q
          ((qa.addIndexConstraints q a e).updateStateTransInfo q true NONE PRIMITIVE none q) := by
  rw [parseLoop, if_pos hi]
  unfold idxFinish at h1 h2 h3
  simp only [show ¬ ((2 : Int) = 0) by decide, show ¬ ((2 : Int) = 1) by decide, if_false,
    if_true, h1, h2, h3, if_pos he]

/-- The three fields of the index constraint of a state. -/
theorem cons_update (qa : QueryAutomaton) (cur : Int) (fin : Bool) (eo ea : Int)
    (k : Option (List Nat)) (ns : Int) (idx : Int) :
    ((qa.updateStateTransInfo cur fin eo ea k ns).ele idx).has_index_constraint
      = (qa.ele idx).has_index_constraint ∧
    ((qa.updateStateTransInfo cur fin eo ea k ns).ele idx).start_idx = (qa.ele idx).start_idx ∧
    ((qa.updateStateTransInfo cur fin eo ea k ns).ele idx).end_idx = (qa.ele idx).end_idx := by
  rw [updateStateTransInfo_eq, ele_setEle]
  by_cases hc : idx = cur - 1 ∧ 0 ≤ cur - 1 ∧ (cur - 1).toNat < qa.mDfa.trans_ele.length
  · rw [if_pos hc, hc.1]; exact ⟨rfl, rfl, rfl⟩
  · rw [if_neg hc]; exact ⟨rfl, rfl, rfl⟩

/-- Lexer state 1 at query state `q` leaves the index constraint of state `q` as it is. -/
theorem parseLoop_key_cons (query : List Nat) (q : Int) : ∀ (fuel i : Nat) (qa : QueryAutomaton),
    ((parseLoop query fuel i 1 q qa).ele (q - 1)).has_index_constraint
      = (qa.ele (q - 1)).has_index_constraint ∧
    ((parseLoop query fuel i 1 q qa).ele (q - 1)).start_idx = (qa.ele (q - 1)).start_idx ∧
    ((parseLoop query fuel i 1 q qa).ele (q - 1)).end_idx = (qa.ele (q - 1)).end_idx := by
  intro fuel
  induction fuel with
  | zero => intro i qa; exact ⟨rfl, rfl, rfl⟩
  | succ fuel ih =>
    intro i qa
    unfold parseLoop
    by_cases hi : i < query.length
    · simp only [if_pos hi, show ¬ ((1 : Int) = 0) by decide, if_false, if_true]
      rcases hk : keyLoop query (query.length + 1) i (qat query i) [] with ⟨buffer, i1, ch1⟩
      simp only []
      by_cases he : i1 + 1 < query.length
      · simp only [if_pos he]
        by_cases hb : ch1 = chLBracket
        · simp only [if_pos hb]
          rw [parseLoop_frame _ _ _ _ _ _ _ (by omega)]
          obtain ⟨c1, c2, c3⟩ := cons_update (qa.updateStateTransInfo q false ARRAY NONE
            (some buffer) (q + 1)) (q + 1) false NONE NONE none (q + 2) (q - 1)
          obtain ⟨d1, d2, d3⟩ := cons_update qa q false ARRAY NONE (some buffer) (q + 1) (q - 1)
          exact ⟨c1.trans d1, c2.trans d2, c3.trans d3⟩
        · simp only [if_neg hb]
          by_cases hd : ch1 = chDot
          · simp only [if_pos hd]
            rw [parseLoop_frame _ _ _ _ _ _ _ (by omega)]
            exact cons_update qa q false OBJECT NONE (some buffer) (q + 1) (q - 1)
          · simp only [if_neg hd]
            exact ih _ _
      · simp only [if_neg he]
        obtain ⟨b1, b2, b3⟩ := ih (i1 + 1) ((qa.updateStateTransInfo q false PRIMITIVE NONE
          (some buffer) (q + 1)).updateStateTransInfo (q + 1) true NONE NONE none (q + 1))
        obtain ⟨c1, c2, c3⟩ := cons_update (qa.updateStateTransInfo q false PRIMITIVE NONE
          (some buffer) (q + 1)) (q + 1) true NONE NONE none (q + 1) (q - 1)
        obtain ⟨d1, d2, d3⟩ := cons_update qa q false PRIMITIVE NONE (some buffer) (q + 1) (q - 1)
        exact ⟨b1.trans (c1.trans d1), b2.trans (c2.trans d2), b3.trans (c3.trans d3)⟩
    · simp only [if_neg hi, and_self]

theorem ele_addIndexConstraints_self (qa : QueryAutomaton) (h : TableOk qa) (q a e : Int)
    (h1 : 1 ≤ q) (h2 : q ≤ MAX_STATES) :
    (qa.addIndexConstraints q a e).ele (q - 1)
      = { qa.ele (q - 1) with has_index_constraint := true, start_idx := a, end_idx := e } := by
  have hM : ((MAX_STATES : Nat) : Int) = 50 := rfl
  have hl : (q - 1).toNat < qa.mDfa.trans_ele.length := by
    rw [h.1]; show _ < 50; omega
  unfold addIndexConstraints
  rw [if_pos (by unfold UNMATCHED_STATE; omega), ele_setEle, if_pos ⟨rfl, by omega, hl⟩]

theorem compile_bracket_core (pre body suf : List Nat) (a e : Int) (f : Nat) (q : Int)
    (qa : QueryAutomaton) (hbody : BracketBody body a e)
    (hsuf : suf = [] ∨ (∃ rest, suf = chDot :: rest) ∨ (∃ rest, suf = chLBracket :: rest))
    (hT : TableOk qa) (h1 : 1 ≤ q) (h2 : q ≤ MAX_STATES) :
    ((parseLoop (pre ++ body ++ chRBracket :: suf) (f + 1) pre.length 2 q qa).ele
      (q - 1)).has_index_constraint = true ∧
    ((parseLoop (pre ++ body ++ chRBracket :: suf) (f + 1) pre.length 2 q qa).ele
      (q - 1)).start_idx = a ∧
    ((parseLoop (pre ++ body ++ chRBracket :: suf) (f + 1) pre.length 2 q qa).ele
      (q - 1)).end_idx = e ∧
    (suf = [] →
      ((parseLoop (pre ++ body ++ chRBracket :: suf) (f + 1) pre.length 2 q qa).ele
        (q - 1)).matched_state = true ∧
      (tr ((parseLoop (pre ++ body ++ chRBracket :: suf) (f + 1) pre.length 2 q qa).ele
        (q - 1)) 0).exp_type_in_arr = PRIMITIVE) := by
  have he : e > -1 := by
    rcases hbody with ⟨n, _, _, rfl⟩ | ⟨n, m, _, _, rfl⟩ | ⟨n, _, _, rfl⟩
    · omega
    · omega
    · decide
  obtain ⟨b1, b2, b3⟩ := idxLoop_body pre body suf a e hbody
  have hlen : (pre ++ body ++ chRBracket :: suf).length
      = pre.length + body.length + 1 + suf.length := by
    simp; omega
  rw [parseLoop_bracket _ f pre.length q qa a e (pre.length + body.length)
    (by rw [hlen]; omega) b1 b2 b3 he]
  have hT1 := TableOk_addIndexConstraints qa hT q a e
  have hself := ele_addIndexConstraints_self qa hT q a e h1 h2
  rcases hsuf with rfl | ⟨rest, rfl⟩ | ⟨rest, rfl⟩
  · rw [if_neg (by rw [hlen]; simp), parseLoop_end _ _ _ _ _ _ (by rw [hlen]; simp)]
    obtain ⟨a1, a2, _, a4, a5, a6⟩ := ele_update_self _ hT1 q true NONE PRIMITIVE none q h1 h2
    rw [hself] at a4 a5 a6
    refine ⟨a4, a5, a6, fun _ => ⟨a2, ?_⟩⟩
    rw [a1]; rfl
  · have hq : qat (pre ++ body ++ chRBracket :: chDot :: rest) (pre.length + body.length + 1)
        = chDot := by
      have := qat_append (pre ++ body ++ [chRBracket]) chDot rest
      simp only [List.length_append, List.length_cons, List.length_nil, List.append_assoc,
        List.singleton_append] at this
      simpa [List.append_assoc] using this
    rw [if_pos (by rw [hlen]; simp), hq, if_pos rfl]
    obtain ⟨c1, c2, c3⟩ := parseLoop_key_cons (pre ++ body ++ chRBracket :: chDot :: rest) q f
      (pre.length + body.length + 2)
      ((qa.addIndexConstraints q a e).updateStateTransInfo q false NONE OBJECT none (q + 1))
    obtain ⟨d1, d2, d3⟩ := cons_update (qa.addIndexConstraints q a e) q false NONE OBJECT none
      (q + 1) (q - 1)
    rw [hself] at d1 d2 d3
    exact ⟨c1.trans d1, c2.trans d2, c3.trans d3, fun h => absurd h (by simp)⟩
  · have hq : qat (pre ++ body ++ chRBracket :: chLBracket :: rest) (pre.length + body.length + 1)
        = chLBracket := by
      have := qat_append (pre ++ body ++ [chRBracket]) chLBracket rest
      simp only [List.length_append, List.length_cons, List.length_nil, List.append_assoc,
        List.singleton_append] at this
      simpa [List.append_assoc] using this
    rw [if_pos (by rw [hlen]; simp), hq, if_neg (by decide), if_pos rfl,
      parseLoop_frame _ _ _ _ _ _ _ (by omega)]
    obtain ⟨d1, d2, d3⟩ := cons_update (qa.addIndexConstraints q a e) q false NONE ARRAY none
      (q + 1) (q - 1)
    rw [hself] at d1 d2 d3
    exact ⟨d1, d2, d3, fun h => absurd h (by simp)⟩

/-- C14.  For every bracket segment with decimal `a` and `b` (numbers that fit an `int`),
the compiler attaches to the current state `q` the index constraint `(a, a + 1)` for `[a]`,
`(a, b)` for `[a:b]` and `(a, INT_MAX)` for `[a:]`; when the bracket is the last segment
of the path that state is marked accepting with `expected_in_array = PRIMITIVE`.  The
compiler loop is in lexer state 2 at the first character after the `[`, the segment is the
last one or is followed by `.` or `[`, and the constraint is the one the automaton holds
when the compiler has finished with the rest of the path. -/
theorem compile_bracket (pre body suf : List Nat) (a e : Int) (fuel : Nat) (q : Int)
    (qa : QueryAutomaton) (hbody : BracketBody body a e)
    (hint : a ≤ INT_MAX ∧ e ≤ INT_MAX)
    (hsuf : suf = [] ∨ (∃ rest, suf = chDot :: rest) ∨ (∃ rest, suf = chLBracket :: rest))
    (hT : TableOk qa) (h1 : 1 ≤ q) (h2 : q ≤ MAX_STATES) (hfuel : 1 ≤ fuel) :
    ((parseLoop (pre ++ body ++ chRBracket :: suf) fuel pre.length 2 q qa).setCurState
      q).hasIndexConstraints = true ∧
    (parseLoop (pre ++ body ++ chRBracket :: suf) fuel pre.length 2 q qa).getIndexInfo q
      = { start_idx := a, end_idx := e } ∧
    (suf = [] →
      (parseLoop (pre ++ body ++ chRBracket :: suf) fuel pre.length 2 q qa).isAccept q = true ∧
      ((parseLoop (pre ++ body ++ chRBracket :: suf) fuel pre.length 2 q qa).setCurState
        q).typeExpectedInArr = PRIMITIVE) := by
  obtain ⟨f, rfl⟩ : ∃ f, fuel = f + 1 := ⟨fuel - 1, by omega⟩
  obtain ⟨c1, c2, c3, c4⟩ := compile_bracket_core pre body suf a e f q qa hbody hsuf hT h1 h2
  have hq0 : q ≠ UNMATCHED_STATE := by unfold UNMATCHED_STATE; omega
  refine ⟨?_, ?_, ?_⟩
  · unfold hasIndexConstraints
    show (if q = UNMATCHED_STATE then false else _) = true
    rw [if_neg hq0]; exact c1
  · unfold getIndexInfo
    rw [if_neg hq0, c2, c3]
  · intro hs
    obtain ⟨d1, d2⟩ := c4 hs
    constructor
    · rw [isAccept_eq _ _ h1]; exact d1
    · unfold typeExpectedInArr
      show (if q = UNMATCHED_STATE then 0 else _) = _
      rw [if_neg hq0]; exact d2

/-- The path `$[2:5]` compiled into a fresh automaton: the `[` at the start moves the
compiler to state 2, which gets the constraint `(2, 5)` and is accepting. -/
theorem compile_bracket_witness :
    (parseLoop (bytes "$[" ++ bytes "2:5" ++ chRBracket :: []) 5 2 2 2
        (QueryAutomaton.new.updateStateTransInfo 1 false NONE ARRAY none 2)).getIndexInfo 2
      = { start_idx := 2, end_idx := 5 } ∧
    (parseLoop (bytes "$[" ++ bytes "2:5" ++ chRBracket :: []) 5 2 2 2
        (QueryAutomaton.new.updateStateTransInfo 1 false NONE ARRAY none 2)).isAccept 2 = true ∧
    updateQueryAutomaton (bytes "$[2:5]") QueryAutomaton.new
      = parseLoop (bytes "$[" ++ bytes "2:5" ++ chRBracket :: []) 5 2 2 2
          (QueryAutomaton.new.updateStateTransInfo 1 false NONE ARRAY none 2) :=
  ⟨(compile_bracket (bytes "$[") (bytes "2:5") [] 2 5 5 2
      (QueryAutomaton.new.updateStateTransInfo 1 false NONE ARRAY none 2)
      (Or.inr (Or.inl ⟨2, 5, by decide, rfl, rfl⟩)) (by decide) (Or.inl rfl) (by decide!)
      (by decide) (by decide) (by decide)).2.1,
   ((compile_bracket (bytes "$[") (bytes "2:5") [] 2 5 5 2
      (QueryAutomaton.new.updateStateTransInfo 1 false NONE ARRAY none 2)
      (Or.inr (Or.inl ⟨2, 5, by decide, rfl, rfl⟩)) (by decide) (Or.inl rfl) (by decide!)
      (by decide) (by decide) (by decide)).2.2 rfl).1,
   by decide!⟩

end

/-! ## The fast-forward primitives on records of several windows -/

set_option maxRecDepth 100000 in
/-- C11.  On the record `\x7b"k":[p0,p1,p2,p3]\x7d` whose four primitive elements have 40
digits each (171 bytes, three windows) and the slice query `$.k[4:5]`, the reference
semantics selects no node (`min(5,4) - min(4,4) = 0`), but `runQuery` on a fresh processor
returns 1. -/
theorem runQuery_slice_long_elements :
    fourLong.render.length = 171 ∧
    renderPath [.key [107], .slice 4 5] = bytes "$.k[4:5]" ∧
    refCount [.key [107], .slice 4 5] fourLong = 0 ∧
    runJsonSki 60 (renderPath [.key [107], .slice 4 5]) (loaded fourLong.render 100) = .ok 1 := by
  decide!

set_option maxRecDepth 100000 in
/-- C28.  On the array `[p0,p1,p2,p3,p4]` whose five primitive elements have 45 digits each
(the four commas are the bytes 46, 92, 138 and 184, spread over three windows, the closing
bracket is byte 230), `goOverPrimElemsInRange(pos, 4)` started at the first element returns
`SUCCESS` with `pos = 138`, the third comma, not the fourth; with 5 elements to skip it
returns `SUCCESS` on the fourth comma although the closing bracket comes before a fifth
comma; with 3 it evaluates `__builtin_ctzll(0)`. -/
theorem goOverPrimElemsInRange_miscounts :
    (List.range fiveLong.render.length).filter (fun p => fiveLong.render.getD p 0 = chComma)
      = [46, 92, 138, 184] ∧
    fiveLong.render.getD 230 0 = chRBracket ∧
    (goOverPrimElemsInRange 20 (freshAt fiveLong.render 1) 4).map
      (fun r => (r.1.status, r.2.pos)) = .ok (SUCCESS, 138) ∧
    (goOverPrimElemsInRange 20 (freshAt fiveLong.render 1) 5).map
      (fun r => (r.1.status, r.2.pos)) = .ok (SUCCESS, 184) ∧
    (goOverPrimElemsInRange 20 (freshAt fiveLong.render 1) 3).map
      (fun r => (r.1.status, r.2.pos)) = .error .undefinedBuiltin := by
  decide!

set_option maxRecDepth 100000 in
/-- C30.  On the array `[[1],\x7b"k":1\x7d]`, `goToObjElem` started at the inner `[` (byte 1)
returns `ARRAY_END` with `pos = 3`, the closing bracket of the inner array, although the
object element at byte 5 remains; on `[\x7b"k":[1]\x7d,[2]]`, `goToAryElem` started at the
object (byte 1) returns `SUCCESS` with `pos = 6`, the `[` inside the object, not the array
element at byte 11. -/
theorem goToObjElem_stops_in_nested_array :
    (bytes "[[1],\x7b\"k\":1\x7d]").getD 5 0 = chLBrace ∧
    (goToObjElem 20 (freshAt (bytes "[[1],\x7b\"k\":1\x7d]") 1)).map
      (fun r => (r.1, r.2.pos)) = .ok (ARRAY_END, 3) ∧
    (bytes "[\x7b\"k\":[1]\x7d,[2]]").getD 11 0 = chLBracket ∧
    (goToAryElem 20 (freshAt (bytes "[\x7b\"k\":[1]\x7d,[2]]") 1)).map
      (fun r => (r.1, r.2.pos)) = .ok (SUCCESS, 6) := by
  decide!

section
open QueryAutomaton

/-! ## The automaton in the unmatched state, and the guards of the runtime stack -/

/-- C35 (counterexample).  On a fresh automaton whose current state has been set to
`UNMATCHED_STATE`, `typeExpectedInObj()` and `typeExpectedInArr()` return 0 (the `false` of
the source), and `NONE` is 108: the value returned is not equal to `NONE`. -/
theorem typeExpected_unmatched_not_none :
    (QueryAutomaton.new.setCurState UNMATCHED_STATE).typeExpectedInObj = 0 ∧
    (QueryAutomaton.new.setCurState UNMATCHED_STATE).typeExpectedInArr = 0 ∧
    NONE = 108 ∧
    (QueryAutomaton.new.setCurState UNMATCHED_STATE).typeExpectedInObj ≠ NONE ∧
    (QueryAutomaton.new.setCurState UNMATCHED_STATE).typeExpectedInArr ≠ NONE := by
  decide

/-- C35 (amended).  When the current state is `UNMATCHED_STATE`, `typeExpectedInObj()` and
`typeExpectedInArr()` return 0, the integer value of `false`; this value differs from `NONE`
(108) and from each of the type codes `OBJECT`, `ARRAY` and `PRIMITIVE`. -/
theorem typeExpected_unmatched_zero (qa : QueryAutomaton) (h : qa.mCurState = UNMATCHED_STATE) :
    qa.typeExpectedInObj = 0 ∧ qa.typeExpectedInArr = 0 ∧
    qa.typeExpectedInObj ≠ NONE ∧ qa.typeExpectedInArr ≠ NONE ∧
    qa.typeExpectedInObj ≠ OBJECT ∧ qa.typeExpectedInObj ≠ ARRAY ∧
    qa.typeExpectedInObj ≠ PRIMITIVE ∧
    qa.typeExpectedInArr ≠ OBJECT ∧ qa.typeExpectedInArr ≠ ARRAY ∧
    qa.typeExpectedInArr ≠ PRIMITIVE := by
  have h1 : qa.typeExpectedInObj = 0 := by unfold typeExpectedInObj; rw [if_pos h]
  have h2 : qa.typeExpectedInArr = 0 := by unfold typeExpectedInArr; rw [if_pos h]
  rw [h1, h2]
  decide

/-- The automaton of `$.a` after a transition to the unmatched state. -/
theorem typeExpected_unmatched_zero_witness :
    ((JSONPathParser.updateQueryAutomaton [36, 46, 97] QueryAutomaton.new).pushStack
      UNMATCHED_STATE).typeExpectedInObj = 0 ∧
    ((JSONPathParser.updateQueryAutomaton [36, 46, 97] QueryAutomaton.new).pushStack
      UNMATCHED_STATE).typeExpectedInArr = 0 :=
  ⟨(typeExpected_unmatched_zero
      ((JSONPathParser.updateQueryAutomaton [36, 46, 97] QueryAutomaton.new).pushStack
        UNMATCHED_STATE) (by decide!)).1,
   (typeExpected_unmatched_zero
      ((JSONPathParser.updateQueryAutomaton [36, 46, 97] QueryAutomaton.new).pushStack
        UNMATCHED_STATE) (by decide!)).2.1⟩

/-- C40.  `popStack` on an empty runtime stack returns `INVALID` (-1) and leaves the whole
automaton unchanged, in particular the current state, the array counter and the stack size;
`pushStack` on a stack that holds `MAX_STACK_DEPTH` (50) entries leaves the whole automaton
unchanged, in particular the current state, the array counter and the stack contents. -/
theorem stack_guards (qa : QueryAutomaton) (next_state : Int) :
    (qa.getStackSize = 0 →
      qa.popStack.2 = INVALID ∧ INVALID = -1 ∧ qa.popStack.1 = qa ∧
      qa.popStack.1.mCurState = qa.mCurState ∧ qa.popStack.1.mArrCounter = qa.mArrCounter ∧
      qa.popStack.1.getStackSize = qa.getStackSize) ∧
    (qa.getStackSize = MAX_STACK_DEPTH →
      qa.pushStack next_state = qa ∧
      (qa.pushStack next_state).mCurState = qa.mCurState ∧
      (qa.pushStack next_state).mArrCounter = qa.mArrCounter ∧
      (qa.pushStack next_state).mStack = qa.mStack) := by
  constructor
  · intro h
    have hp : qa.popStack = (qa, INVALID) := by
      unfold popStack
      unfold getStackSize at h
      rw [if_neg (by rw [h]; decide)]
    rw [hp]
    exact ⟨rfl, rfl, rfl, rfl, rfl, rfl⟩
  · intro h
    have hp : qa.pushStack next_state = qa := by
      unfold pushStack
      unfold getStackSize at h
      rw [if_neg (by rw [h]; exact lt_irrefl _)]
    rw [hp]
    exact ⟨rfl, rfl, rfl, rfl⟩

/-- The guards on a fresh automaton (empty stack) and on a stack filled by 50 pushes. -/
theorem stack_guards_witness :
    QueryAutomaton.new.getStackSize = 0 ∧ QueryAutomaton.new.popStack.2 = -1 ∧
    QueryAutomaton.new.popStack.1 = QueryAutomaton.new ∧
    fullStack.getStackSize = 50 ∧ fullStack.pushStack 7 = fullStack :=
  ⟨by decide, ((stack_guards QueryAutomaton.new 0).1 (by decide)).1,
   ((stack_guards QueryAutomaton.new 0).1 (by decide)).2.2.1,
   by decide!, ((stack_guards fullStack 7).2 (by decide!)).1⟩

/-! ## The twin functions `goToObjEnd` / `goOverObj` and `goToAryEnd` / `goOverAry` -/

theorem goToObjEndLoop_eq : ∀ (fuel : Nat) (c : FF) (num_open word_id : Int)
    (first_interval new_word : Bool),
    goToObjEndLoop fuel c num_open word_id first_interval new_word
      = goOverObjLoop fuel c num_open word_id first_interval new_word := by
  intro fuel
  induction fuel with
  | zero => intro c n w fi nw; rfl
  | succ fuel ih =>
    intro c n w fi nw
    unfold goToObjEndLoop goOverObjLoop
    simp only [ih]

theorem goToAryEndLoop_eq : ∀ (fuel : Nat) (c : FF) (num_open word_id : Int)
    (first_interval new_word : Bool),
    goToAryEndLoop fuel c num_open word_id first_interval new_word
      = goOverAryLoop fuel c num_open word_id first_interval new_word := by
  intro fuel
  induction fuel with
  | zero => intro c n w fi nw; rfl
  | succ fuel ih =>
    intro c n w fi nw
    unfold goToAryEndLoop goOverAryLoop
    simp only [ih]

/-- C37.  `goToObjEnd` computes the same function as `goOverObj`, and `goToAryEnd` the same
as `goOverAry`: for every bound on the number of loop tests and every state (index builder,
position, bitmap cache) the two calls have the same outcome, that is the same final state
(position, cache and index builder) or the same failure. -/
theorem goToEnd_eq_goOver (fuel : Nat) (c : FF) :
    goToObjEnd fuel c = goOverObj fuel c ∧ goToAryEnd fuel c = goOverAry fuel c := by
  unfold goToObjEnd goOverObj goToAryEnd goOverAry
  exact ⟨goToObjEndLoop_eq _ _ _ _ _ _, goToAryEndLoop_eq _ _ _ _ _ _⟩

/-! ## The bitmap cache and its flags -/

/-- C32 (counterexample).  After the comma bitmap of the first word of `[1,2]` has been
built and the cache has been reset for a new word, the flag `has_comma` is clear and the
comma bitmap still holds the bit of the comma (bit 2).  `goOverPrimElemsInRange` on the same
record builds the bitmap of `]` without setting its flag: after the call `has_rbracket` is
clear and the bitmap holds the bit of the bracket (bit 4). -/
theorem reset_keeps_bitmaps :
    ((scanWindows (loaded (bytes "[1,2]") 100) 0).map
      (fun s => ((resetBitmap (s.get_bitmap_comma bitmap.init)).has_comma,
                 (resetBitmap (s.get_bitmap_comma bitmap.init)).commabit))) = .ok (false, 4) ∧
    ((goOverPrimElemsInRange 20 (freshAt (bytes "[1,2]") 1) 5).map
      (fun r => (r.1.status, r.2.bm.has_rbracket, r.2.bm.rbracketbit)))
        = .ok (ARRAY_END, false, 16) := by
  decide!

/-- C32 (amended).  `resetBitmap` clears the six flags and leaves the six bitmaps as they
are, so a class whose flag is clear may hold the bitmap of an earlier word; such a value is
never used: `get_bitmap_X` on a cache whose flag for `X` is clear builds the bitmap from the
current word and sets the flag, whatever the cache held, and on a cache whose flag is set it
changes nothing. -/
theorem reset_clears_flags_only (s : Index) (bm : bitmap) :
    (resetBitmap bm).classes = bm.classes ∧
    ((resetBitmap bm).has_colon = false ∧ (resetBitmap bm).has_comma = false ∧
     (resetBitmap bm).has_lbrace = false ∧ (resetBitmap bm).has_rbrace = false ∧
     (resetBitmap bm).has_lbracket = false ∧ (resetBitmap bm).has_rbracket = false) ∧
    ((s.get_bitmap_colon (resetBitmap bm)).colonbit = s.classBits chColon ∧
     (s.get_bitmap_comma (resetBitmap bm)).commabit = s.classBits chComma ∧
     (s.get_bitmap_lbrace (resetBitmap bm)).lbracebit = s.classBits chLBrace ∧
     (s.get_bitmap_rbrace (resetBitmap bm)).rbracebit = s.classBits chRBrace ∧
     (s.get_bitmap_lbracket (resetBitmap bm)).lbracketbit = s.classBits chLBracket ∧
     (s.get_bitmap_rbracket (resetBitmap bm)).rbracketbit = s.classBits chRBracket) ∧
    ((s.get_bitmap_colon (resetBitmap bm)).has_colon = true ∧
     (s.get_bitmap_comma (resetBitmap bm)).has_comma = true ∧
     (s.get_bitmap_lbrace (resetBitmap bm)).has_lbrace = true ∧
     (s.get_bitmap_rbrace (resetBitmap bm)).has_rbrace = true ∧
     (s.get_bitmap_lbracket (resetBitmap bm)).has_lbracket = true ∧
     (s.get_bitmap_rbracket (resetBitmap bm)).has_rbracket = true) ∧
    ((bm.has_colon = true → s.get_bitmap_colon bm = bm) ∧
     (bm.has_comma = true → s.get_bitmap_comma bm = bm) ∧
     (bm.has_lbrace = true → s.get_bitmap_lbrace bm = bm) ∧
     (bm.has_rbrace = true → s.get_bitmap_rbrace bm = bm) ∧
     (bm.has_lbracket = true → s.get_bitmap_lbracket bm = bm) ∧
     (bm.has_rbracket = true → s.get_bitmap_rbracket bm = bm)) := by
  refine ⟨rfl, ⟨rfl, rfl, rfl, rfl, rfl, rfl⟩, ⟨rfl, rfl, rfl, rfl, rfl, rfl⟩,
    ⟨rfl, rfl, rfl, rfl, rfl, rfl⟩, ⟨?_, ?_, ?_, ?_, ?_, ?_⟩⟩
  · intro h; unfold Index.get_bitmap_colon; rw [if_neg (by rw [h]; decide)]
  · intro h; unfold Index.get_bitmap_comma; rw [if_neg (by rw [h]; decide)]
  · intro h; unfold Index.get_bitmap_lbrace; rw [if_neg (by rw [h]; decide)]
  · intro h; unfold Index.get_bitmap_rbrace; rw [if_neg (by rw [h]; decide)]
  · intro h; unfold Index.get_bitmap_lbracket; rw [if_neg (by rw [h]; decide)]
  · intro h; unfold Index.get_bitmap_rbracket; rw [if_neg (by rw [h]; decide)]

end

/-! ## Windows that are entered without their predecessor -/

set_option maxRecDepth 100000 in
/-- C27.  On the record `\x7b"k...k":\x7b"a":"\x7d"\x7d,"b":2\x7d` (first key of 70 letters, so the
value of the first attribute opens at byte 74, in the second window), `goOverObj` called at
that opening brace on a freshly loaded record (no window built yet, as `object` calls it
after it has read the key byte by byte) sets `pos` to 80, the brace inside the string
`"\x7d"`, not to 82, the matching closing brace.  On `\x7b"k...k":["]"],"b":2\x7d`, `goOverAry`
called at byte 74 sets `pos` to 76, the bracket inside the string, not to 78.  Called after
the first window has been built, both land on the matching closer.  With the query `$.b`,
`runQuery` on a fresh processor calls the functions in that state and returns 0 on both
records, where the reference semantics selects one node. -/
theorem goOver_later_window_wrong_closer :
    (longKeyObj.render.getD 74 0 = chLBrace ∧ ¬ insideString longKeyObj.render 74 ∧
     insideString longKeyObj.render 80 ∧
     longKeyObj.render.getD 82 0 = chRBrace ∧ ¬ insideString longKeyObj.render 82) ∧
    (goOverObj 20 (freshAt longKeyObj.render 74)).map (fun c => c.pos) = .ok 80 ∧
    ((afterFirstWindow longKeyObj.render 74).bind (goOverObj 20)).map (fun c => c.pos)
      = .ok 82 ∧
    (longKeyAry.render.getD 74 0 = chLBracket ∧ ¬ insideString longKeyAry.render 74 ∧
     insideString longKeyAry.render 76 ∧
     longKeyAry.render.getD 78 0 = chRBracket ∧ ¬ insideString longKeyAry.render 78) ∧
    (goOverAry 20 (freshAt longKeyAry.render 74)).map (fun c => c.pos) = .ok 76 ∧
    ((afterFirstWindow longKeyAry.render 74).bind (goOverAry 20)).map (fun c => c.pos)
      = .ok 78 ∧
    (runJsonSki 100 (bytes "$.b") (loaded longKeyObj.render 100) = .ok 0 ∧
     refCount [.key [98]] longKeyObj = 1 ∧
     runJsonSki 100 (bytes "$.b") (loaded longKeyAry.render 100) = .ok 0 ∧
     refCount [.key [98]] longKeyAry = 1) := by
  decide!

set_option maxRecDepth 100000 in
/-- C29.  On the record `\x7b"k...k":"x\x7dy"\x7d` (only key of 70 letters, so the string value
starts at byte 74, in the second window; there is no comma, and the first closing brace
outside strings is byte 79), `goOverPriAttr` called at the value on a freshly loaded record
(no window built yet, as `object` calls it after it has read the key byte by byte) leaves
`pos = 75`, the byte before the brace inside the string, not 78, the byte before the
closing brace of the record.  Called after the first window has been built, it leaves
`pos = 78`. -/
theorem goOverPriAttr_stops_inside_string :
    (longKeyLast.render.length = 80 ∧
     longKeyLast.render.getD 76 0 = chRBrace ∧ insideString longKeyLast.render 76 ∧
     longKeyLast.render.getD 79 0 = chRBrace ∧ ¬ insideString longKeyLast.render 79 ∧
     ∀ p : Nat, p < 79 → 74 ≤ p →
       (longKeyLast.render.getD p 0 = chComma ∨ longKeyLast.render.getD p 0 = chRBrace) →
       insideString longKeyLast.render p) ∧
    (goOverPriAttr 20 (freshAt longKeyLast.render 74)).map (fun c => c.pos) = .ok 75 ∧
    ((afterFirstWindow longKeyLast.render 74).bind (goOverPriAttr 20)).map (fun c => c.pos)
      = .ok 78 := by
  decide!

set_option maxRecDepth 100000 in
/-- C31.  On the record `\x7b"k...k":"x\x7dy","b":2\x7d` (first key of 70 letters) and the query
`$.b`, `object` reads the first key byte by byte and calls `goOverPriAttr` at byte 74: the
first window that `build_bitmap_basic` builds is window 1 (`top_word` goes from -1 to 1,
`start_id` to 3), with the initial carry state (not inside a string) although byte 64 lies
inside the key.  The brace inside the string value is then taken for the end of the object:
`runQuery` returns 0 where the reference semantics selects one node, and window 0 is never
built (`top_word` is 1 at the end).  With the long key itself as the query (`$.k...k`) the
count is 1, and window 1 is again the only window built. -/
theorem runQuery_skips_first_window :
    (freshAt longKeyStr.render 74).s.top_word = -1 ∧
    (enterWord (freshAt longKeyStr.render 74) (74 / 64)).map
      (fun c => (c.s.top_word, c.s.start_id)) = .ok (1, 3) ∧
    (freshAt longKeyStr.render 74).s.prev_iter_inside_quote = 0 ∧
    (tokAt longKeyStr.render 64).inString = true ∧
    (runQuery 100 (QueryProcessor.new (bytes "$.b")) (loaded longKeyStr.render 100)).map
      (fun p => (p.2, p.1.s.top_word)) = .ok (0, 1) ∧
    refCount [.key [98]] longKeyStr = 1 ∧
    (runQuery 100 (QueryProcessor.new (renderPath [.key (List.replicate 70 107)]))
      (loaded longKeyStr.render 100)).map (fun p => (p.2, p.1.s.top_word)) = .ok (1, 1) := by
  decide!

/-! ## The runtime stack at the end of `runQuery` -/

set_option maxRecDepth 100000 in
/-- C36.  On the record `[1,2,3]` and the query `$[0]`, `runQuery` on a fresh processor
returns (the count 1) with one entry on the runtime stack and the current state 2, not
`START_STATE`: `array` has pushed on entry and returns through
`if (qa.getStackSize() == 1) return;` without `popStack`.  A second `runQuery` on the same
processor starts in that state: for `$[0].a` on `[\x7b"a":1\x7d,\x7b"a":2\x7d]` the first call
returns 1 and the second call, whose count includes the first, returns 1 again. -/
theorem runQuery_root_array_leaves_stack :
    (runQuery 30 (QueryProcessor.new (bytes "$[0]")) (loaded (bytes "[1,2,3]") 100)).map
      (fun p => (p.2, p.1.qa.getStackSize, p.1.qa.mCurState)) = .ok (1, 1, 2) ∧
    START_STATE = 1 ∧
    runTwice 60 (bytes "$[0].a") (loaded (bytes "[\x7b\"a\":1\x7d,\x7b\"a\":2\x7d]") 100)
      = .ok (1, 1) := by
  decide!

/-! ## The record loader -/

theorem padLoop_ok (alloc size : Nat) (rem : Int) (hr : rem ≤ 64) (ha : size + 64 ≤ alloc) :
    ∀ (fuel : Nat) (buf : List Nat) (counter : Int), 0 ≤ counter → counter ≤ rem →
      (rem - counter).toNat < fuel →
      ∃ buf1 : List Nat, RecordLoader.padLoop alloc size rem fuel buf counter = .ok (buf1, rem) ∧
        buf1.length = buf.length := by
  intro fuel
  induction fuel with
  | zero => intro buf counter _ _ hf; omega
  | succ fuel ih =>
    intro buf counter h0 h1 hf
    unfold RecordLoader.padLoop
    by_cases hc : counter < rem
    · rw [if_pos hc, if_pos (by omega)]
      obtain ⟨b, hb, hl⟩ := ih (buf.set (size + counter.toNat) 100) (counter + 1) (by omega)
        (by omega) (by omega)
      exact ⟨b, hb, by rw [hl, List.length_set]⟩
    · rw [if_neg hc]
      have : counter = rem := by omega
      subst this
      exact ⟨buf, rfl, rfl⟩

/-- C39.  For every file size `s`, `loadSingleRecord` appends `r = 64 - (s mod 64)` filler
bytes, `1 ≤ r ≤ 64`, and `s + r` is a multiple of 64; the terminating NUL is then written at
index `s + r` of a buffer of `s + MAX_PAD = s + 64` bytes.  When `s` is a multiple of 64
(`r = 64`) that index is the allocated size itself, one byte past the end of the buffer;
otherwise it is inside the buffer and the record is returned.  Instance: a file of 64
bytes. -/
theorem loadSingleRecord_nul_past_buffer (file : List Nat) (junk : Nat) :
    (1 ≤ RecordLoader.remain file.length ∧ RecordLoader.remain file.length ≤ 64 ∧
      ((file.length : Int) + RecordLoader.remain file.length) % 64 = 0) ∧
    (file.length % 64 = 0 →
      (file.length : Int) + RecordLoader.remain file.length = ((file.length + MAX_PAD : Nat) : Int) ∧
      RecordLoader.loadSingleRecord file junk = .error .outOfBounds) ∧
    (file.length % 64 ≠ 0 →
      (file.length : Int) + RecordLoader.remain file.length < ((file.length + MAX_PAD : Nat) : Int) ∧
      ∃ r : Record, RecordLoader.loadSingleRecord file junk = .ok r) ∧
    RecordLoader.loadSingleRecord (List.replicate 64 120) 0 = .error .outOfBounds := by
  have hP : MAX_PAD = 64 := rfl
  have hrem : RecordLoader.remain file.length = 64 - ((file.length % 64 : Nat) : Int) := rfl
  have hlt : file.length % 64 < 64 := Nat.mod_lt _ (by decide)
  have hrun : ∃ buf1 : List Nat,
      RecordLoader.padLoop (file.length + MAX_PAD) file.length (RecordLoader.remain file.length)
        (MAX_PAD + 1) (file ++ List.replicate MAX_PAD junk) 0
        = .ok (buf1, RecordLoader.remain file.length) ∧
      buf1.length = (file ++ List.replicate MAX_PAD junk).length :=
    padLoop_ok _ _ _ (by rw [hrem]; omega) (by rw [hP]) _ _ _ (le_refl _) (by rw [hrem]; omega)
      (by rw [hrem, hP]; omega)
  obtain ⟨buf1, hb, _⟩ := hrun
  refine ⟨⟨by rw [hrem]; omega, by rw [hrem]; omega, by rw [hrem]; omega⟩, ?_, ?_, by decide⟩
  · intro h0
    refine ⟨by rw [hrem, h0, hP]; push_cast; ring, ?_⟩
    unfold RecordLoader.loadSingleRecord
    simp only [hb, bind, Except.bind]
    rw [if_neg]
    rw [hrem, h0, hP]
    simp
  · intro h0
    refine ⟨by rw [hrem, hP]; push_cast; omega, ?_⟩
    unfold RecordLoader.loadSingleRecord
    simp only [hb, bind, Except.bind]
    rw [if_pos]
    · exact ⟨_, rfl⟩
    · rw [hrem, hP]; omega

/-! ## The counter `num_open` of `goOverObj` and `goOverAry` -/

theorem goOverObjLoop_iter (fuel : Nat) (c : FF) (n w : Int) (fi nw : Bool) :
    goOverObjLoop (fuel + 1) c n w fi nw =
      if w < c.s.mNumWords then
        (goOverObjIter c n w fi nw).bind (afterIter (goOverObjLoop fuel))
      else goOverObjLoop fuel c n w fi nw := by
  rw [goOverObjLoop]
  unfold goOverObjIter afterIter
  by_cases hw : w < c.s.mNumWords
  · simp only [if_pos hw]
    cases enterWord c w with
    | error e => rfl
    | ok c1 =>
      simp only [bind, Except.bind, pure, Except.pure]
      cases fi <;> cases nw <;>
        simp only [if_true, if_false, Bool.false_eq_true] <;>
        split_ifs <;> (try rfl) <;>
        (generalize get_position _ _ _ = g; cases g <;> rfl)
  · simp only [if_neg hw]

theorem goOverAryLoop_iter (fuel : Nat) (c : FF) (n w : Int) (fi nw : Bool) :
    goOverAryLoop (fuel + 1) c n w fi nw =
      if w < c.s.mNumWords then
        (goOverAryIter c n w fi nw).bind (afterIter (goOverAryLoop fuel))
      else goOverAryLoop fuel c n w fi nw := by
  rw [goOverAryLoop]
  unfold goOverAryIter afterIter
  by_cases hw : w < c.s.mNumWords
  · simp only [if_pos hw]
    cases enterWord c w with
    | error e => rfl
    | ok c1 =>
      simp only [bind, Except.bind, pure, Except.pure]
      cases fi <;> cases nw <;>
        simp only [if_true, if_false, Bool.false_eq_true] <;>
        split_ifs <;> (try rfl) <;>
        (generalize get_position _ _ _ = g; cases g <;> rfl)
  · simp only [if_neg hw]

theorem mod64_lt (x : Nat) : x % W64 < 2 ^ 64 := by
  have : W64 = 2 ^ 64 := by decide
  rw [this]; exact Nat.mod_lt _ (Nat.two_pow_pos 64)

theorem or_mod64_lt (a b : Nat) (hb : b < 2 ^ 64) : sub64 a 1 ||| b < 2 ^ 64 :=
  Nat.or_lt_two_pow (mod64_lt _) hb

theorem interval_bits_lt (pos : Int) (M : Nat) :
    (get_interval pos M).1.intervalbit < 2 ^ 64 ∧
    (get_interval_new_word M).intervalbit < 2 ^ 64 ∧
    (next_interval M).1.intervalbit < 2 ^ 64 := by
  have hneg : ∀ x : Nat, x &&& neg64 x < 2 ^ 64 := fun x => Nat.and_lt_two_pow _ (mod64_lt _)
  have hnot : ∀ x : Nat, x < 2 ^ 64 → not64 x < 2 ^ 64 := by
    intro x hx
    unfold not64
    exact Nat.xor_lt_two_pow (by decide) hx
  have hsub : ∀ a b : Nat, sub64 a b < 2 ^ 64 := fun a b => mod64_lt _
  have hshl : ∀ a b : Nat, shl64 a b < 2 ^ 64 := fun a b => mod64_lt _
  refine ⟨?_, ?_, ?_⟩
  · unfold get_interval
    simp only []
    split
    · exact Nat.and_lt_two_pow _ (hnot _ (Nat.xor_lt_two_pow (hshl _ _) (hsub _ _)))
    · exact Nat.and_lt_two_pow _ (hnot _ (Nat.xor_lt_two_pow (hshl _ _) (hsub _ _)))
  · unfold get_interval_new_word
    simp only []
    split
    · exact Nat.or_lt_two_pow (hsub _ _) (hneg _)
    · exact Nat.or_lt_two_pow (hsub _ _) (hshl _ _)
  · unfold next_interval
    simp only []
    split
    · exact Nat.or_lt_two_pow (hsub _ _) (hneg _)
    · exact Nat.or_lt_two_pow (hsub _ _) (hshl _ _)

/-- A call of `get_position` with a bitmap that has at least `number >= 1` set bits does not
take the trailing-zero count of zero. -/
theorem get_position_defined (s : Index) (M : Nat) (n : Int) (hM : M < 2 ^ 64) (h1 : 1 ≤ n)
    (h2 : ¬ popcountl M < n) : ∃ p : Int, get_position s M n = .ok p := by
  have hlen : (n - 1).toNat < (setBits M).length := by
    rw [popcountl_eq] at h2
    omega
  unfold get_position
  dsimp only
  rw [get_position_aux _ M hM hlen]
  exact ⟨_, rfl⟩

theorem load32_error (s : Index) (i : Int) (e : Err) (h : s.load32 i = .error e) :
    e = .outOfBounds := by
  unfold Index.load32 at h
  split at h
  · cases h
  · injection h with h; exact h.symm

theorem build_bitmap_basic_error (s : Index) (e : Err) (h : s.build_bitmap_basic = .error e) :
    e = .outOfBounds := by
  unfold Index.build_bitmap_basic at h
  cases h1 : s.load32 (s.start_id * 32) with
  | error e1 =>
    rw [h1] at h
    simp only [bind, Except.bind] at h
    injection h with h
    subst h
    exact load32_error _ _ _ h1
  | ok v0 =>
    rw [h1] at h
    simp only [bind, Except.bind] at h
    cases h2 : s.load32 ((s.start_id + 1) * 32) with
    | error e2 =>
      rw [h2] at h
      simp only [] at h
      injection h with h
      subst h
      exact load32_error _ _ _ h2
    | ok v =>
      rw [h2] at h
      simp only [pure, Except.pure] at h
      cases h

theorem enterWord_error (c : FF) (w : Int) (e : Err) (h : enterWord c w = .error e) :
    e = .outOfBounds := by
  unfold enterWord at h
  split at h
  · cases hb : ({ c.s with start_id := w * 2 } : Index).build_bitmap_basic with
    | error e1 =>
      rw [hb] at h
      simp only [bind, Except.bind] at h
      injection h with h
      subst h
      exact build_bitmap_basic_error _ _ hb
    | ok s1 =>
      rw [hb] at h
      simp only [bind, Except.bind, pure, Except.pure] at h
      cases h
  · cases h

theorem interval_choice_lt (pos : Int) (M : Nat) (fi nw : Bool) :
    (if fi = false then
      if nw = true then (get_interval_new_word M, M) else get_interval pos M
     else next_interval M).1.intervalbit < 2 ^ 64 := by
  cases fi <;> cases nw <;> simp only [if_true, if_false, Bool.false_eq_true]
  · exact (interval_bits_lt pos M).1
  · exact (interval_bits_lt pos M).2.1
  · exact (interval_bits_lt pos M).2.2
  · exact (interval_bits_lt pos M).2.2

theorem goOverObjIter_safe (c : FF) (n w : Int) (fi nw : Bool) (hn : 1 ≤ n) :
    goOverObjIter c n w fi nw ≠ .error .undefinedBuiltin ∧
    ∀ (c1 : FF) (n1 w1 : Int) (f1 nw1 : Bool),
      goOverObjIter c n w fi nw = .ok (c1, some (n1, w1, f1, nw1)) → 1 ≤ n1 := by
  unfold goOverObjIter
  cases he : enterWord c w with
  | error e =>
    have := enterWord_error c w e he
    subst this
    exact ⟨by simp [bind, Except.bind], by intro c1 n1 w1 f1 nw1 h; cases h⟩
  | ok c1 =>
    simp only [bind, Except.bind, pure, Except.pure]
    have hI := interval_choice_lt c1.pos (c1.s.get_bitmap_lbrace c1.bm).lbracebit fi nw
    generalize (if fi = false then
      if nw = true then (get_interval_new_word (c1.s.get_bitmap_lbrace c1.bm).lbracebit,
        (c1.s.get_bitmap_lbrace c1.bm).lbracebit)
      else get_interval c1.pos (c1.s.get_bitmap_lbrace c1.bm).lbracebit
     else next_interval (c1.s.get_bitmap_lbrace c1.bm).lbracebit) = itv at hI ⊢
    obtain ⟨interval, lb⟩ := itv
    have hlt : (c1.s.get_bitmap_rbrace
        { c1.s.get_bitmap_lbrace c1.bm with lbracebit := lb }).rbracebit &&& interval.intervalbit
          < 2 ^ 64 := Nat.and_lt_two_pow _ hI
    generalize (c1.s.get_bitmap_rbrace { c1.s.get_bitmap_lbrace c1.bm with lbracebit := lb }) = bm2
      at hlt ⊢
    generalize bm2.rbracebit &&& interval.intervalbit = M at hlt ⊢
    by_cases h1 : popcountl M < n
    · simp only [if_pos h1]
      by_cases h2 : interval.is_complete = true
      · simp only [if_pos h2]
        refine ⟨(fun h => by cases h), ?_⟩
        intro c2 n1 w1 f1 nw1 h
        simp only [Except.ok.injEq, Prod.mk.injEq, Option.some.injEq] at h
        have h3 := h.2.1
        omega
      · simp only [if_neg h2]
        refine ⟨(fun h => by cases h), ?_⟩
        intro c2 n1 w1 f1 nw1 h
        simp only [Except.ok.injEq, Prod.mk.injEq, Option.some.injEq] at h
        have h3 := h.2.1
        omega
    · simp only [if_neg h1]
      obtain ⟨p, hp⟩ := get_position_defined c1.s M n hlt hn h1
      rw [hp]
      refine ⟨(fun h => by cases h), ?_⟩
      intro c2 n1 w1 f1 nw1 h
      simp only [Except.ok.injEq, Prod.mk.injEq] at h
      exact absurd h.2 (by simp)

theorem goOverAryIter_safe (c : FF) (n w : Int) (fi nw : Bool) (hn : 1 ≤ n) :
    goOverAryIter c n w fi nw ≠ .error .undefinedBuiltin ∧
    ∀ (c1 : FF) (n1 w1 : Int) (f1 nw1 : Bool),
      goOverAryIter c n w fi nw = .ok (c1, some (n1, w1, f1, nw1)) → 1 ≤ n1 := by
  unfold goOverAryIter
  cases he : enterWord c w with
  | error e =>
    have := enterWord_error c w e he
    subst this
    exact ⟨by simp [bind, Except.bind], by intro c1 n1 w1 f1 nw1 h; cases h⟩
  | ok c1 =>
    simp only [bind, Except.bind, pure, Except.pure]
    have hI := interval_choice_lt c1.pos (c1.s.get_bitmap_lbracket c1.bm).lbracketbit fi nw
    generalize (if fi = false then
      if nw = true then (get_interval_new_word (c1.s.get_bitmap_lbracket c1.bm).lbracketbit,
        (c1.s.get_bitmap_lbracket c1.bm).lbracketbit)
      else get_interval c1.pos (c1.s.get_bitmap_lbracket c1.bm).lbracketbit
     else next_interval (c1.s.get_bitmap_lbracket c1.bm).lbracketbit) = itv at hI ⊢
    obtain ⟨interval, lb⟩ := itv
    have hlt : (c1.s.get_bitmap_rbracket
        { c1.s.get_bitmap_lbracket c1.bm with lbracketbit := lb }).rbracketbit &&& interval.intervalbit
          < 2 ^ 64 := Nat.and_lt_two_pow _ hI
    generalize (c1.s.get_bitmap_rbracket { c1.s.get_bitmap_lbracket c1.bm with lbracketbit := lb }) = bm2
      at hlt ⊢
    generalize bm2.rbracketbit &&& interval.intervalbit = M at hlt ⊢
    by_cases h1 : popcountl M < n
    · simp only [if_pos h1]
      by_cases h2 : interval.is_complete = true
      · simp only [if_pos h2]
        refine ⟨(fun h => by cases h), ?_⟩
        intro c2 n1 w1 f1 nw1 h
        simp only [Except.ok.injEq, Prod.mk.injEq, Option.some.injEq] at h
        have h3 := h.2.1
        omega
      · simp only [if_neg h2]
        refine ⟨(fun h => by cases h), ?_⟩
        intro c2 n1 w1 f1 nw1 h
        simp only [Except.ok.injEq, Prod.mk.injEq, Option.some.injEq] at h
        have h3 := h.2.1
        omega
    · simp only [if_neg h1]
      obtain ⟨p, hp⟩ := get_position_defined c1.s M n hlt hn h1
      rw [hp]
      refine ⟨(fun h => by cases h), ?_⟩
      intro c2 n1 w1 f1 nw1 h
      simp only [Except.ok.injEq, Prod.mk.injEq] at h
      exact absurd h.2 (by simp)

theorem goOverObjLoop_safe : ∀ (fuel : Nat) (c : FF) (n w : Int) (fi nw : Bool), 1 ≤ n →
    goOverObjLoop fuel c n w fi nw ≠ .error .undefinedBuiltin := by
  intro fuel
  induction fuel with
  | zero => intro c n w fi nw _; unfold goOverObjLoop; simp
  | succ fuel ih =>
    intro c n w fi nw hn
    rw [goOverObjLoop_iter]
    split
    · obtain ⟨h1, h2⟩ := goOverObjIter_safe c n w fi nw hn
      cases hr : goOverObjIter c n w fi nw with
      | error e =>
        rw [hr] at h1
        intro h
        apply h1
        simp only [Except.bind] at h
        injection h with h
        rw [h]
      | ok r =>
        obtain ⟨c1, o⟩ := r
        simp only [Except.bind, afterIter]
        cases o with
        | none => simp
        | some v =>
          obtain ⟨n1, w1, f1, nw1⟩ := v
          exact ih c1 n1 w1 f1 nw1 (h2 c1 n1 w1 f1 nw1 hr)
    · exact ih c n w fi nw hn

theorem goOverAryLoop_safe : ∀ (fuel : Nat) (c : FF) (n w : Int) (fi nw : Bool), 1 ≤ n →
    goOverAryLoop fuel c n w fi nw ≠ .error .undefinedBuiltin := by
  intro fuel
  induction fuel with
  | zero => intro c n w fi nw _; unfold goOverAryLoop; simp
  | succ fuel ih =>
    intro c n w fi nw hn
    rw [goOverAryLoop_iter]
    split
    · obtain ⟨h1, h2⟩ := goOverAryIter_safe c n w fi nw hn
      cases hr : goOverAryIter c n w fi nw with
      | error e =>
        rw [hr] at h1
        intro h
        apply h1
        simp only [Except.bind] at h
        injection h with h
        rw [h]
      | ok r =>
        obtain ⟨c1, o⟩ := r
        simp only [Except.bind, afterIter]
        cases o with
        | none => simp
        | some v =>
          obtain ⟨n1, w1, f1, nw1⟩ := v
          exact ih c1 n1 w1 f1 nw1 (h2 c1 n1 w1 f1 nw1 hr)
    · exact ih c n w fi nw hn

/-- C38.  In `goOverObj` and `goOverAry` the counter `num_open` is at least 1 at every pass
through the loop: the functions enter the loop with `num_open = 1`, the loop is its body
(`goOverObjIter`, `goOverAryIter`) followed by the loop again, and a pass entered with
`num_open >= 1` that does not return hands a value `>= 1` to the next pass.  `get_position`
is called only when the bitmap of closers has at least `num_open` set bits, so no pass and
no run of the loop ends in the undefined `__builtin_ctzll(0)`. -/
theorem goOver_num_open_positive (c : FF) (num_open word_id : Int)
    (first_interval new_word : Bool) (h : 1 ≤ num_open) :
    ((∀ fuel : Nat, goOverObj fuel c = goOverObjLoop fuel c 1 (c.pos / 64) false false) ∧
     (∀ fuel : Nat, goOverObjLoop (fuel + 1) c num_open word_id first_interval new_word =
        if word_id < c.s.mNumWords then
          (goOverObjIter c num_open word_id first_interval new_word).bind
            (afterIter (goOverObjLoop fuel))
        else goOverObjLoop fuel c num_open word_id first_interval new_word) ∧
     goOverObjIter c num_open word_id first_interval new_word ≠ .error .undefinedBuiltin ∧
     (∀ (c1 : FF) (n1 w1 : Int) (f1 nw1 : Bool),
        goOverObjIter c num_open word_id first_interval new_word
          = .ok (c1, some (n1, w1, f1, nw1)) → 1 ≤ n1) ∧
     (∀ fuel : Nat, goOverObjLoop fuel c num_open word_id first_interval new_word
        ≠ .error .undefinedBuiltin)) ∧
    ((∀ fuel : Nat, goOverAry fuel c = goOverAryLoop fuel c 1 (c.pos / 64) false false) ∧
     (∀ fuel : Nat, goOverAryLoop (fuel + 1) c num_open word_id first_interval new_word =
        if word_id < c.s.mNumWords then
          (goOverAryIter c num_open word_id first_interval new_word).bind
            (afterIter (goOverAryLoop fuel))
        else goOverAryLoop fuel c num_open word_id first_interval new_word) ∧
     goOverAryIter c num_open word_id first_interval new_word ≠ .error .undefinedBuiltin ∧
     (∀ (c1 : FF) (n1 w1 : Int) (f1 nw1 : Bool),
        goOverAryIter c num_open word_id first_interval new_word
          = .ok (c1, some (n1, w1, f1, nw1)) → 1 ≤ n1) ∧
     (∀ fuel : Nat, goOverAryLoop fuel c num_open word_id first_interval new_word
        ≠ .error .undefinedBuiltin)) :=
  ⟨⟨fun _ => rfl, fun fuel => goOverObjLoop_iter fuel c num_open word_id first_interval new_word,
    (goOverObjIter_safe c num_open word_id first_interval new_word h).1,
    (goOverObjIter_safe c num_open word_id first_interval new_word h).2,
    fun fuel => goOverObjLoop_safe fuel c num_open word_id first_interval new_word h⟩,
   ⟨fun _ => rfl, fun fuel => goOverAryLoop_iter fuel c num_open word_id first_interval new_word,
    (goOverAryIter_safe c num_open word_id first_interval new_word h).1,
    (goOverAryIter_safe c num_open word_id first_interval new_word h).2,
    fun fuel => goOverAryLoop_safe fuel c num_open word_id first_interval new_word h⟩⟩

set_option maxRecDepth 100000 in
/-- The object `\x7b"a":\x7b"b":1\x7d\x7d` entered at its opening brace: the first pass finds no
closer before the inner opening brace and continues with `num_open = 2`; the function
returns with `pos` on the last brace (byte 12). -/
theorem goOver_num_open_positive_witness :
    (goOverObjIter (freshAt (bytes "\x7b\"a\":\x7b\"b\":1\x7d\x7d") 0) 1 0 false false).map
      (fun r => r.2) = .ok (some (2, 0, true, false)) ∧
    (goOverObj 20 (freshAt (bytes "\x7b\"a\":\x7b\"b\":1\x7d\x7d") 0)).map (fun c => c.pos)
      = .ok 12 ∧
    goOverObjLoop 20 (freshAt (bytes "\x7b\"a\":\x7b\"b\":1\x7d\x7d") 0) 1 0 false false
      ≠ .error .undefinedBuiltin :=
  ⟨by decide!, by decide!,
   (goOver_num_open_positive (freshAt (bytes "\x7b\"a\":\x7b\"b\":1\x7d\x7d") 0) 1 0 false false
      (by decide)).1.2.2.2.2 20⟩

section
open QueryAutomaton JSONPathParser

/-! ## The writes of the compiler, by lexer state -/

/-- An invariant of `updateQueryAutomaton` that may depend on the lexer state: it is enough
to check the nine writes of the loop. -/
theorem parseLoop_steps (query : List Nat) (P : Int → Int → QueryAutomaton → Prop)
    (h0dot : ∀ q qa, P 0 q qa → P 1 q qa)
    (h0br : ∀ q qa, P 0 q qa →
      P 2 (q + 1) (qa.updateStateTransInfo q false NONE ARRAY none (q + 1)))
    (h1br : ∀ q qa k, P 1 q qa →
      P 2 (q + 2) ((qa.updateStateTransInfo q false ARRAY NONE (some k) (q + 1)).updateStateTransInfo
        (q + 1) false NONE NONE none (q + 2)))
    (h1dot : ∀ q qa k, P 1 q qa →
      P 1 (q + 1) (qa.updateStateTransInfo q false OBJECT NONE (some k) (q + 1)))
    (h1end : ∀ q qa k, P 1 q qa →
      P 1 q ((qa.updateStateTransInfo q false PRIMITIVE NONE (some k) (q + 1)).updateStateTransInfo
        (q + 1) true NONE NONE none (q + 1)))
    (h2idx : ∀ q qa a b, P 2 q qa → P 2 q (qa.addIndexConstraints q a b))
    (h2dot : ∀ q qa, P 2 q qa →
      P 1 q (qa.updateStateTransInfo q false NONE OBJECT none (q + 1)))
    (h2br : ∀ q qa, P 2 q qa →
      P 2 (q + 1) (qa.updateStateTransInfo q false NONE ARRAY none (q + 1)))
    (h2end : ∀ q qa, P 2 q qa →
      P 2 q (qa.updateStateTransInfo q true NONE PRIMITIVE none q)) :
    ∀ (fuel i : Nat) (ls q : Int) (qa : QueryAutomaton), P ls q qa →
      ∃ ls1 q1 : Int, P ls1 q1 (parseLoop query fuel i ls q qa) := by
  intro fuel
  induction fuel with
  | zero => intro i ls q qa h; exact ⟨ls, q, h⟩
  | succ fuel ih =>
    intro i ls q qa h
    unfold parseLoop
    by_cases hi : i < query.length
    · simp only [if_pos hi]
      by_cases h0 : ls = 0
      · subst h0
        simp only [if_true]
        by_cases hd : qat query i = chDot
        · simp only [if_pos hd]; exact ih _ _ _ _ (h0dot _ _ h)
        · simp only [if_neg hd]
          by_cases hb : qat query i = chLBracket
          · simp only [if_pos hb]
            exact ih _ _ _ _ (h0br _ _ h)
          · simp only [if_neg hb]; exact ih _ _ _ _ h
      · simp only [if_neg h0]
        by_cases h1 : ls = 1
        · subst h1
          simp only [if_true]
          rcases hk : keyLoop query (query.length + 1) i (qat query i) [] with ⟨buffer, i1, ch1⟩
          simp only []
          by_cases he : i1 + 1 < query.length
          · simp only [if_pos he]
            by_cases hb : ch1 = chLBracket
            · simp only [if_pos hb]
              exact ih _ _ _ _ (h1br _ _ buffer h)
            · simp only [if_neg hb]
              by_cases hd : ch1 = chDot
              · simp only [if_pos hd]
                exact ih _ _ _ _ (h1dot _ _ buffer h)
              · simp only [if_neg hd]; exact ih _ _ _ _ h
          · simp only [if_neg he]
            exact ih _ _ _ _ (h1end _ _ buffer h)
        · simp only [if_neg h1]
          by_cases h2 : ls = 2
          · subst h2
            simp only [if_true]
            generalize idxLoop query (query.length + 1)
              { start_idx := 0, end_idx := -1, buf := [], has_colon := false, i := i,
                ch := qat query i } = s
            generalize (if s.has_colon = false ∧ s.buf.length > 0 then
                ({ s with start_idx := atoi s.buf, end_idx := atoi s.buf + 1 } : IdxScan)
              else if s.buf.length > 0 then { s with end_idx := atoi s.buf } else s) = s1
            have hq1 : P 2 q (if s1.end_idx > -1 then
                qa.addIndexConstraints q s1.start_idx s1.end_idx else qa) := by
              split
              · exact h2idx _ _ _ _ h
              · exact h
            generalize (if s1.end_idx > -1 then
                qa.addIndexConstraints q s1.start_idx s1.end_idx else qa) = qa1 at hq1
            by_cases he : s1.i + 1 < query.length
            · simp only [if_pos he]
              by_cases hd : qat query (s1.i + 1) = chDot
              · simp only [if_pos hd]
                exact ih _ _ _ _ (h2dot _ _ hq1)
              · simp only [if_neg hd]
                by_cases hb : qat query (s1.i + 1) = chLBracket
                · simp only [if_pos hb]
                  exact ih _ _ _ _ (h2br _ _ hq1)
                · simp only [if_neg hb]; exact ih _ _ _ _ hq1
            · simp only [if_neg he]
              exact ih _ _ _ _ (h2end _ _ hq1)
          · simp only [if_neg h2]; exact ih _ _ _ _ h
    · simp only [if_neg hi]; exact ⟨ls, q, h⟩

/-! ## The table after a write -/

theorem ele_new (idx : Int) : QueryAutomaton.new.ele idx = StateTransEle.init := by
  unfold ele
  split
  · show (List.replicate MAX_STATES StateTransEle.init).getD idx.toNat StateTransEle.init = _
    rw [List.getD_eq_getElem?_getD]
    exact List.getElem?_getD_replicate_default_eq _ _ _
  · rfl

theorem tr_init (i : Int) : tr StateTransEle.init i = TransStrInfo.init := by
  unfold tr
  split
  · show (List.replicate MAX_TRANS_STRING TransStrInfo.init).getD i.toNat TransStrInfo.init = _
    rw [List.getD_eq_getElem?_getD]
    exact List.getElem?_getD_replicate_default_eq _ _ _
  · rfl

/-- A write of `updateStateTransInfo` changes slot 0 of the state written and nothing else
of the transitions; the number of transitions of a state is not changed. -/
theorem tr_update_cases (qa : QueryAutomaton) (cur : Int) (fin : Bool) (eo ea : Int)
    (k : Option (List Nat)) (ns : Int) (idx i : Int) :
    ((qa.updateStateTransInfo cur fin eo ea k ns).ele idx).num_trans_str
      = (qa.ele idx).num_trans_str ∧
    (tr ((qa.updateStateTransInfo cur fin eo ea k ns).ele idx) i = tr (qa.ele idx) i ∨
     (idx = cur - 1 ∧ i = 0 ∧
      tr ((qa.updateStateTransInfo cur fin eo ea k ns).ele idx) i
        = written (tr (qa.ele idx) 0) eo ea k ns)) := by
  rw [updateStateTransInfo_eq, ele_setEle]
  by_cases hc : idx = cur - 1 ∧ 0 ≤ cur - 1 ∧ (cur - 1).toNat < qa.mDfa.trans_ele.length
  · rw [if_pos hc, tr_set_zero (qa.ele (cur - 1)).t_str_info _ i _ rfl]
    refine ⟨by rw [hc.1], ?_⟩
    by_cases h0 : i = 0 ∧ 0 < (qa.ele (cur - 1)).t_str_info.length
    · right; rw [if_pos h0, hc.1]; exact ⟨rfl, h0.1, rfl⟩
    · left; rw [if_neg h0, hc.1]; rfl
  · rw [if_neg hc]
    exact ⟨rfl, Or.inl rfl⟩

theorem num_addIndexConstraints (qa : QueryAutomaton) (q a b : Int) (idx : Int) :
    ((qa.addIndexConstraints q a b).ele idx).num_trans_str = (qa.ele idx).num_trans_str := by
  unfold addIndexConstraints
  by_cases hq : q ≠ UNMATCHED_STATE
  · simp only [if_pos hq]
    rw [ele_setEle]
    by_cases hc : idx = q - 1 ∧ 0 ≤ q - 1 ∧ (q - 1).toNat < qa.mDfa.trans_ele.length
    · rw [if_pos hc, hc.1]
    · rw [if_neg hc]
  · simp only [if_neg hq]

/-- The expected types of a state after a write. -/
theorem types_update (qa : QueryAutomaton) (cur : Int) (fin : Bool) (eo ea : Int)
    (k : Option (List Nat)) (ns : Int) (idx : Int) :
    ((tr ((qa.updateStateTransInfo cur fin eo ea k ns).ele idx) 0).exp_type_in_obj
        = (tr (qa.ele idx) 0).exp_type_in_obj ∧
      (tr ((qa.updateStateTransInfo cur fin eo ea k ns).ele idx) 0).exp_type_in_arr
        = (tr (qa.ele idx) 0).exp_type_in_arr) ∨
    (idx = cur - 1 ∧
      (tr ((qa.updateStateTransInfo cur fin eo ea k ns).ele idx) 0).exp_type_in_obj
        = (if eo ≠ NONE then eo else (tr (qa.ele idx) 0).exp_type_in_obj) ∧
      (tr ((qa.updateStateTransInfo cur fin eo ea k ns).ele idx) 0).exp_type_in_arr
        = (if ea ≠ NONE then ea else (tr (qa.ele idx) 0).exp_type_in_arr)) := by
  rcases (tr_update_cases qa cur fin eo ea k ns idx 0).2 with h | ⟨h1, _, h⟩
  · left; rw [h]; exact ⟨rfl, rfl⟩
  · right; rw [h]; exact ⟨h1, rfl, rfl⟩

theorem types_update_other (qa : QueryAutomaton) (cur : Int) (fin : Bool) (eo ea : Int)
    (k : Option (List Nat)) (ns : Int) (idx : Int) (h : idx ≠ cur - 1) :
    (tr ((qa.updateStateTransInfo cur fin eo ea k ns).ele idx) 0).exp_type_in_obj
        = (tr (qa.ele idx) 0).exp_type_in_obj ∧
    (tr ((qa.updateStateTransInfo cur fin eo ea k ns).ele idx) 0).exp_type_in_arr
        = (tr (qa.ele idx) 0).exp_type_in_arr := by
  rcases types_update qa cur fin eo ea k ns idx with h1 | ⟨h1, _⟩
  · exact h1
  · exact absurd h1 h

theorem types_update_none (qa : QueryAutomaton) (cur : Int) (fin : Bool)
    (k : Option (List Nat)) (ns : Int) (idx : Int) :
    (tr ((qa.updateStateTransInfo cur fin NONE NONE k ns).ele idx) 0).exp_type_in_obj
        = (tr (qa.ele idx) 0).exp_type_in_obj ∧
    (tr ((qa.updateStateTransInfo cur fin NONE NONE k ns).ele idx) 0).exp_type_in_arr
        = (tr (qa.ele idx) 0).exp_type_in_arr := by
  rcases types_update qa cur fin NONE NONE k ns idx with h1 | ⟨_, h1, h2⟩
  · exact h1
  · rw [h1, h2]; simp

/-- The state written by `updateStateTransInfo`: its slot 0 holds the transition written,
unless the state lies outside the table, where every read gives the initial transition. -/
theorem tr_update_self (qa : QueryAutomaton) (cur : Int) (fin : Bool) (eo ea : Int)
    (k : Option (List Nat)) (ns : Int) :
    tr ((qa.updateStateTransInfo cur fin eo ea k ns).ele (cur - 1)) 0
      = written (tr (qa.ele (cur - 1)) 0) eo ea k ns ∨
    (tr ((qa.updateStateTransInfo cur fin eo ea k ns).ele (cur - 1)) 0
      = tr (qa.ele (cur - 1)) 0 ∧ tr (qa.ele (cur - 1)) 0 = TransStrInfo.init) := by
  rw [updateStateTransInfo_eq, ele_setEle]
  by_cases hc : cur - 1 = cur - 1 ∧ 0 ≤ cur - 1 ∧ (cur - 1).toNat < qa.mDfa.trans_ele.length
  · rw [if_pos hc, tr_set_zero (qa.ele (cur - 1)).t_str_info _ 0 _ rfl]
    by_cases h0 : (0 : Int) = 0 ∧ 0 < (qa.ele (cur - 1)).t_str_info.length
    · left; rw [if_pos h0]
    · right
      rw [if_neg h0]
      have hl : (qa.ele (cur - 1)).t_str_info = [] := by
        have := h0; simp at this; exact this
      have ht : tr (qa.ele (cur - 1)) 0 = TransStrInfo.init := by
        unfold tr; rw [hl]; rfl
      rw [ht, hl]
      exact ⟨rfl, rfl⟩
  · rw [if_neg hc]
    right
    refine ⟨rfl, ?_⟩
    have he : qa.ele (cur - 1) = StateTransEle.init := by
      unfold ele
      split
      · rename_i h0
        rw [List.getD_eq_getElem?_getD, List.getElem?_eq_none]
        · rfl
        · by_contra hlt
          exact hc ⟨rfl, h0, by omega⟩
      · rfl
    rw [he, tr_init]

/-- A write of an object type to the current state in lexer state 1. -/
theorem typesInv_obj (q : Int) (qa : QueryAutomaton) (fin : Bool) (eo : Int)
    (k : Option (List Nat)) (ns : Int) (h : TypesInv 1 q qa) :
    TypesInv 1 q (qa.updateStateTransInfo q fin eo NONE k ns) := by
  obtain ⟨ha, hb, _, _, h1⟩ := h
  have harr : ∀ idx : Int,
      (tr ((qa.updateStateTransInfo q fin eo NONE k ns).ele idx) 0).exp_type_in_arr
        = (tr (qa.ele idx) 0).exp_type_in_arr := by
    intro idx
    rcases types_update qa q fin eo NONE k ns idx with h2 | ⟨_, _, h2⟩
    · exact h2.2
    · rw [h2]; simp
  refine ⟨?_, ?_, fun h => absurd h (by decide), fun h => absurd h (by decide), ?_⟩
  · intro idx
    unfold Unmixed
    rw [harr]
    by_cases hi : idx = q - 1
    · rw [hi]; exact Or.inr (h1 rfl)
    · rw [(types_update_other qa q fin eo NONE k ns idx hi).1]
      exact ha idx
  · intro idx hq
    rw [harr, (types_update_other qa q fin eo NONE k ns idx (by omega)).1]
    exact hb idx hq
  · intro _
    rw [harr]
    exact h1 rfl

/-- A write of an array type to the current state in lexer state 0 or 2. -/
theorem typesInv_arr (q : Int) (qa : QueryAutomaton) (fin : Bool) (ea : Int)
    (k : Option (List Nat)) (ns : Int)
    (ha : ∀ idx : Int, Unmixed (tr (qa.ele idx) 0))
    (hb : ∀ idx : Int, q ≤ idx →
      (tr (qa.ele idx) 0).exp_type_in_obj = NONE ∧ (tr (qa.ele idx) 0).exp_type_in_arr = NONE)
    (hc : (tr (qa.ele (q - 1)) 0).exp_type_in_obj = NONE) :
    (∀ idx : Int, Unmixed (tr ((qa.updateStateTransInfo q fin NONE ea k ns).ele idx) 0)) ∧
    (∀ idx : Int, q ≤ idx →
      (tr ((qa.updateStateTransInfo q fin NONE ea k ns).ele idx) 0).exp_type_in_obj = NONE ∧
      (tr ((qa.updateStateTransInfo q fin NONE ea k ns).ele idx) 0).exp_type_in_arr = NONE) ∧
    (tr ((qa.updateStateTransInfo q fin NONE ea k ns).ele (q - 1)) 0).exp_type_in_obj = NONE := by
  have hobj : ∀ idx : Int,
      (tr ((qa.updateStateTransInfo q fin NONE ea k ns).ele idx) 0).exp_type_in_obj
        = (tr (qa.ele idx) 0).exp_type_in_obj := by
    intro idx
    rcases types_update qa q fin NONE ea k ns idx with h2 | ⟨_, h2, _⟩
    · exact h2.1
    · rw [h2]; simp
  refine ⟨?_, ?_, by rw [hobj]; exact hc⟩
  · intro idx
    unfold Unmixed
    rw [hobj]
    by_cases hi : idx = q - 1
    · rw [hi]; exact Or.inl hc
    · rw [(types_update_other qa q fin NONE ea k ns idx hi).2]
      exact ha idx
  · intro idx hq
    rw [hobj, (types_update_other qa q fin NONE ea k ns idx (by omega)).2]
    exact hb idx hq

theorem typesInv_compile (query : List Nat) :
    ∃ ls q : Int, TypesInv ls q (updateQueryAutomaton query QueryAutomaton.new) := by
  unfold updateQueryAutomaton
  apply parseLoop_steps query TypesInv
  · -- lexer state 0, `.`
    intro q qa h
    obtain ⟨ha, hb, h0, _, _⟩ := h
    exact ⟨ha, hb, fun h => absurd h (by decide), fun h => absurd h (by decide),
      fun _ => Or.inl (h0 rfl).2⟩
  · -- lexer state 0, `[`
    intro q qa h
    obtain ⟨ha, hb, h0, _, _⟩ := h
    obtain ⟨a1, a2, _⟩ := typesInv_arr q qa false ARRAY none (q + 1) ha hb (h0 rfl).1
    exact ⟨a1, fun idx hi => a2 idx (by omega), fun h => absurd h (by decide),
      fun _ => by rw [show q + 1 - 1 = q by ring]; exact (a2 q (le_refl _)).1,
      fun h => absurd h (by decide)⟩
  · -- lexer state 1, key followed by `[`
    intro q qa k h
    have h1 := typesInv_obj q qa false ARRAY (some k) (q + 1) h
    obtain ⟨ha, hb, _, _, _⟩ := h1
    have hn := types_update_none (qa.updateStateTransInfo q false ARRAY NONE (some k) (q + 1))
      (q + 1) false none (q + 2)
    refine ⟨?_, ?_, fun h => absurd h (by decide), ?_, fun h => absurd h (by decide)⟩
    · intro idx; unfold Unmixed; rw [(hn idx).1, (hn idx).2]; exact ha idx
    · intro idx hi; rw [(hn idx).1, (hn idx).2]; exact hb idx (by omega)
    · intro _; rw [(hn _).1]; exact (hb _ (by omega)).1
  · -- lexer state 1, key followed by `.`
    intro q qa k h
    have h1 := typesInv_obj q qa false OBJECT (some k) (q + 1) h
    obtain ⟨ha, hb, _, _, _⟩ := h1
    exact ⟨ha, fun idx hi => hb idx (by omega), fun h => absurd h (by decide),
      fun h => absurd h (by decide),
      fun _ => by rw [show q + 1 - 1 = q by ring]; exact Or.inl (hb q (le_refl _)).2⟩
  · -- lexer state 1, last key
    intro q qa k h
    have h1 := typesInv_obj q qa false PRIMITIVE (some k) (q + 1) h
    obtain ⟨ha, hb, _, _, hc⟩ := h1
    have hn := types_update_none
      (qa.updateStateTransInfo q false PRIMITIVE NONE (some k) (q + 1)) (q + 1) true none (q + 1)
    refine ⟨?_, ?_, fun h => absurd h (by decide), fun h => absurd h (by decide), ?_⟩
    · intro idx; unfold Unmixed; rw [(hn idx).1, (hn idx).2]; exact ha idx
    · intro idx hi; rw [(hn idx).1, (hn idx).2]; exact hb idx hi
    · intro _; rw [(hn _).2]; exact hc rfl
  · -- lexer state 2, index constraint
    intro q qa a b h
    obtain ⟨ha, hb, _, h2, _⟩ := h
    refine ⟨?_, ?_, fun h => absurd h (by decide), ?_, fun h => absurd h (by decide)⟩
    · intro idx; rw [tr_addIndexConstraints]; exact ha idx
    · intro idx hi; rw [tr_addIndexConstraints]; exact hb idx hi
    · intro _; rw [tr_addIndexConstraints]; exact h2 rfl
  · -- lexer state 2, `]` followed by `.`
    intro q qa h
    obtain ⟨ha, hb, _, h2, _⟩ := h
    obtain ⟨a1, a2, _⟩ := typesInv_arr q qa false OBJECT none (q + 1) ha hb (h2 rfl)
    refine ⟨a1, a2, fun h => absurd h (by decide), fun h => absurd h (by decide), ?_⟩
    intro _
    rcases tr_update_self qa q false NONE OBJECT none (q + 1) with h3 | ⟨h3, h4⟩
    · right; rw [h3]; rfl
    · left; rw [h3, h4]; rfl
  · -- lexer state 2, `]` followed by `[`
    intro q qa h
    obtain ⟨ha, hb, _, h2, _⟩ := h
    obtain ⟨a1, a2, _⟩ := typesInv_arr q qa false ARRAY none (q + 1) ha hb (h2 rfl)
    exact ⟨a1, fun idx hi => a2 idx (by omega), fun h => absurd h (by decide),
      fun _ => by rw [show q + 1 - 1 = q by ring]; exact (a2 q (le_refl _)).1,
      fun h => absurd h (by decide)⟩
  · -- lexer state 2, end of the query
    intro q qa h
    obtain ⟨ha, hb, _, h2, _⟩ := h
    obtain ⟨a1, a2, a3⟩ := typesInv_arr q qa true PRIMITIVE none q ha hb (h2 rfl)
    exact ⟨a1, a2, fun h => absurd h (by decide), fun _ => a3, fun h => absurd h (by decide)⟩
  · -- the fresh automaton
    refine ⟨?_, ?_, ?_, ?_, ?_⟩
    · intro idx; rw [ele_new, tr_init]; exact Or.inl rfl
    · intro idx _; rw [ele_new, tr_init]; exact ⟨rfl, rfl⟩
    · intro _; rw [ele_new, tr_init]; exact ⟨rfl, rfl⟩
    · intro _; rw [ele_new, tr_init]; rfl
    · intro _; rw [ele_new, tr_init]; exact Or.inl rfl


/-- C33 (counterexample).  In the automaton of `$.arr[1].k`, state 3 (the state of the
elements selected by `[1]`, entry 2 of the table) expects `PRIMITIVE` in an object and
`OBJECT` in an array: both expected types differ from `NONE`. -/
theorem compile_mixes_types :
    (tr ((updateQueryAutomaton (bytes "$.arr[1].k") QueryAutomaton.new).ele 2) 0).exp_type_in_obj
      = PRIMITIVE ∧
    (tr ((updateQueryAutomaton (bytes "$.arr[1].k") QueryAutomaton.new).ele 2) 0).exp_type_in_arr
      = OBJECT ∧
    PRIMITIVE ≠ NONE ∧ OBJECT ≠ NONE ∧
    (updateQueryAutomaton (bytes "$.arr[1].k") QueryAutomaton.new).getIndexInfo 3
      = { start_idx := 1, end_idx := 2 } := by
  decide!

/-- C33 (amended).  For every query and every state of the compiled automaton, at most one
of `exp_type_in_obj` and `exp_type_in_arr` differs from `NONE`, unless the type expected in
an array is `OBJECT`: a bracket segment that is followed by a key writes `OBJECT` as the
array type of its state, and the key then writes its object type to the same state. -/
theorem compile_types_mixed_only_object (query : List Nat) (idx : Int) :
    (tr ((updateQueryAutomaton query QueryAutomaton.new).ele idx) 0).exp_type_in_obj = NONE ∨
    (tr ((updateQueryAutomaton query QueryAutomaton.new).ele idx) 0).exp_type_in_arr = NONE ∨
    (tr ((updateQueryAutomaton query QueryAutomaton.new).ele idx) 0).exp_type_in_arr = OBJECT := by
  obtain ⟨ls, q, h, _⟩ := typesInv_compile query
  exact h idx

/-! ## The shape of the compiled automaton -/

theorem linear_update (qa : QueryAutomaton) (cur : Int) (fin : Bool) (eo ea : Int)
    (k : Option (List Nat)) (ns : Int) (hns : ns = cur ∨ ns = cur + 1)
    (h : ∀ idx : Int, LinearState qa idx) :
    ∀ idx : Int, LinearState (qa.updateStateTransInfo cur fin eo ea k ns) idx := by
  intro idx
  obtain ⟨h1, h2, h3⟩ := h idx
  refine ⟨by rw [(tr_update_cases qa cur fin eo ea k ns idx 0).1]; exact h1, ?_, ?_⟩
  · intro i hi
    rcases (tr_update_cases qa cur fin eo ea k ns idx i).2 with h4 | ⟨_, h4, _⟩
    · rw [h4]; exact h2 i hi
    · exact absurd h4 hi
  · rcases (tr_update_cases qa cur fin eo ea k ns idx 0).2 with h4 | ⟨h4, _, h5⟩
    · rw [h4]; exact h3
    · right
      rw [h5]
      show ns = idx + 1 ∨ ns = idx + 2
      omega

theorem linear_compile (query : List Nat) :
    ∀ idx : Int, LinearState (updateQueryAutomaton query QueryAutomaton.new) idx := by
  unfold updateQueryAutomaton
  obtain ⟨ls, q, h⟩ := parseLoop_steps query (fun _ _ qa => ∀ idx : Int, LinearState qa idx)
    (fun _ _ h => h)
    (fun q qa h => linear_update qa q false NONE ARRAY none (q + 1) (Or.inr rfl) h)
    (fun q qa k h => linear_update _ (q + 1) false NONE NONE none (q + 2)
      (Or.inr (by ring)) (linear_update qa q false ARRAY NONE (some k) (q + 1) (Or.inr rfl) h))
    (fun q qa k h => linear_update qa q false OBJECT NONE (some k) (q + 1) (Or.inr rfl) h)
    (fun q qa k h => linear_update _ (q + 1) true NONE NONE none (q + 1)
      (Or.inl rfl) (linear_update qa q false PRIMITIVE NONE (some k) (q + 1) (Or.inr rfl) h))
    (fun q qa a b h idx => by
      obtain ⟨h1, h2, h3⟩ := h idx
      refine ⟨by rw [num_addIndexConstraints]; exact h1, ?_, ?_⟩
      · intro i hi; rw [tr_addIndexConstraints]; exact h2 i hi
      · rw [tr_addIndexConstraints]; exact h3)
    (fun q qa h => linear_update qa q false NONE OBJECT none (q + 1) (Or.inr rfl) h)
    (fun q qa h => linear_update qa q false NONE ARRAY none (q + 1) (Or.inr rfl) h)
    (fun q qa h => linear_update qa q true NONE PRIMITIVE none q (Or.inl rfl) h)
    (query.length + 1) 0 0 START_STATE QueryAutomaton.new
    (fun idx => by
      refine ⟨by rw [ele_new]; rfl, ?_, ?_⟩
      · intro i _; rw [ele_new, tr_init]
      · left; rw [ele_new, tr_init])
  exact h

/-- C34.  The compiled automaton is linear: for every query and every state of the table
(state `idx + 1` is entry `idx`), the state has one transition (`num_trans_str = 1`; the
slots other than slot 0 are as the constructor left them), and slot 0 is either untouched
(the state has not been written) or its `next_state` is the state itself or the state plus
one. -/
theorem compile_linear (query : List Nat) (idx : Int) :
    ((updateQueryAutomaton query QueryAutomaton.new).ele idx).num_trans_str = 1 ∧
    (∀ i : Int, i ≠ 0 →
      tr ((updateQueryAutomaton query QueryAutomaton.new).ele idx) i = TransStrInfo.init) ∧
    (tr ((updateQueryAutomaton query QueryAutomaton.new).ele idx) 0 = TransStrInfo.init ∨
     (tr ((updateQueryAutomaton query QueryAutomaton.new).ele idx) 0).next_state = idx + 1 ∨
     (tr ((updateQueryAutomaton query QueryAutomaton.new).ele idx) 0).next_state = idx + 2) :=
  linear_compile query idx

end

/-! ## The match counter across calls of `runQuery` -/

theorem Run_addCount_c (m : Int) (r : Run) : (r.addCount m).c = r.c := rfl
theorem Run_addCount_qa (m : Int) (r : Run) : (r.addCount m).qa = r.qa := rfl
theorem Run_addCount_mNumMatches (m : Int) (r : Run) :
    (r.addCount m).mNumMatches = r.mNumMatches + m := rfl
theorem Run_mk_addCount (m : Int) (c : FF) (qa : QueryAutomaton) (n : Int) :
    ({ c := c, qa := qa, mNumMatches := n + m } : Run)
      = Run.addCount m { c := c, qa := qa, mNumMatches := n } := rfl
theorem Run_mk_addCount_succ (m : Int) (c : FF) (qa : QueryAutomaton) (n : Int) :
    ({ c := c, qa := qa, mNumMatches := n + m + 1 } : Run)
      = Run.addCount m { c := c, qa := qa, mNumMatches := n + 1 } := by
  unfold Run.addCount
  simp only [add_right_comm]

/-- The engine never reads the match counter: a traversal started with the counter advanced
by `m` has the outcome of the traversal started with the counter as it is, advanced by
`m`. -/
theorem engine_addCount (m : Int) : ∀ fuel : Nat,
    (∀ (r : Run) (ty : Int), objectLoop fuel (r.addCount m) ty
      = (objectLoop fuel r ty).map (Run.addCount m)) ∧
    (∀ r : Run, object fuel (r.addCount m) = (object fuel r).map (Run.addCount m)) ∧
    (∀ (r : Run) (et n : Int), arrayRangeLoop fuel (r.addCount m) et n
      = (arrayRangeLoop fuel r et n).map (fun p : Bool × Run => (p.1, p.2.addCount m))) ∧
    (∀ (r : Run) (et : Int), arrayAllLoop fuel (r.addCount m) et
      = (arrayAllLoop fuel r et).map (fun p : Bool × Run => (p.1, p.2.addCount m))) ∧
    (∀ r : Run, array fuel (r.addCount m) = (array fuel r).map (Run.addCount m)) := by
  intro fuel
  induction fuel with
  | zero => exact ⟨fun _ _ => rfl, fun _ => rfl, fun _ _ _ => rfl, fun _ _ => rfl, fun _ => rfl⟩
  | succ f ih =>
    refine ⟨?_, ?_, ?_, ?_, ?_⟩
    · intro r ty
      unfold objectLoop
      simp only [bind_ite, bind_bind, bind_error, map_ite, map_bind, bind_map, map_pure, map_ok,
        map_error, bind_pure_ok, Run_addCount_c, Run_addCount_qa, Run_addCount_mNumMatches,
        Run_mk_addCount_succ m, Run_mk_addCount m, ih.1, ih.2.1, ih.2.2.1, ih.2.2.2.1, ih.2.2.2.2]
    · intro r
      unfold object
      simp only [bind_ite, bind_bind, bind_error, map_ite, map_bind, bind_map, map_pure, map_ok,
        map_error, bind_pure_ok, Run_addCount_c, Run_addCount_qa, Run_addCount_mNumMatches,
        Run_mk_addCount_succ m, Run_mk_addCount m, ih.1, ih.2.1, ih.2.2.1, ih.2.2.2.1, ih.2.2.2.2]
    · intro r et n
      unfold arrayRangeLoop
      simp only [bind_ite, bind_bind, bind_error, map_ite, map_bind, bind_map, map_pure, map_ok,
        map_error, bind_pure_ok, Run_addCount_c, Run_addCount_qa, Run_addCount_mNumMatches,
        Run_mk_addCount_succ m, Run_mk_addCount m, ih.1, ih.2.1, ih.2.2.1, ih.2.2.2.1, ih.2.2.2.2]
    · intro r et
      unfold arrayAllLoop
      simp only [bind_ite, bind_bind, bind_error, map_ite, map_bind, bind_map, map_pure, map_ok,
        map_error, bind_pure_ok, Run_addCount_c, Run_addCount_qa, Run_addCount_mNumMatches,
        Run_mk_addCount_succ m, Run_mk_addCount m, ih.1, ih.2.1, ih.2.2.1, ih.2.2.2.1, ih.2.2.2.2]
    · intro r
      unfold array
      simp only [bind_ite, bind_bind, bind_error, map_ite, map_bind, bind_map, map_pure, map_ok,
        map_error, bind_pure_ok, Run_addCount_c, Run_addCount_qa, Run_addCount_mNumMatches,
        Run_mk_addCount_succ m, Run_mk_addCount m, ih.1, ih.2.1, ih.2.2.1, ih.2.2.2.1, ih.2.2.2.2]

theorem runQuery_addCount (fuel : Nat) (qp : QueryProcessor) (rec : Record) (m : Int) :
    runQuery fuel { qp with mNumMatches := qp.mNumMatches + m } rec
      = (runQuery fuel qp rec).map
          (fun p => ({ p.1 with mNumMatches := p.1.mNumMatches + m }, p.2 + m)) := by
  obtain ⟨_, hobj, _, _, harr⟩ := engine_addCount m fuel
  unfold runQuery
  simp only [bind_ite, bind_bind, bind_error, map_ite, map_bind, bind_map, map_pure, map_ok,
    map_error, bind_pure_ok, Run_mk_addCount m, hobj, harr, Run_addCount_c, Run_addCount_qa,
    Run_addCount_mNumMatches]

theorem runQuery_stored (fuel : Nat) (qp qp1 : QueryProcessor) (rec : Record) (n : Int)
    (h : runQuery fuel qp rec = .ok (qp1, n)) :
    qp1 = { qp1.resetCount with mNumMatches := qp1.resetCount.mNumMatches + n } := by
  have h2 := (runQuery_count_ge fuel qp qp1 rec n h).2
  subst h2
  unfold QueryProcessor.resetCount
  simp only [zero_add]

/-- C2 (amended).  The match counter is cumulative: `runQuery` never resets `mNumMatches`.
Calling `runQuery` twice on the same processor (constructed from the query) with the same
record has the outcome of the first call followed by the second traversal counted from
zero: when the first call returns `n1`, the second call returns `n1 + k`, where `k` is what
the second traversal counts by itself (the call on the processor the first call left, with
its counter set to zero); and such a count `k` is never negative.  So whenever the two
calls return `n1` and `n2`, the second count includes the first, `n2 = n1 + k` with
`n1 >= 0` and `k >= 0`, and the two are equal exactly when the second traversal finds no
match (`k = 0`). -/
theorem runTwice_cumulative (fuel : Nat) (query : List Nat) (rec : Record) :
    runTwice fuel query rec =
      (runQuery fuel (QueryProcessor.new query) rec).bind (fun p1 =>
        (runQuery fuel p1.1.resetCount rec).map (fun p2 => (p1.2, p1.2 + p2.2))) ∧
    (∀ (qp qp2 : QueryProcessor) (k : Int),
      runQuery fuel qp.resetCount rec = .ok (qp2, k) → 0 ≤ k) ∧
    (∀ n1 n2 : Int, runTwice fuel query rec = .ok (n1, n2) →
      ∃ (qp1 qp2 : QueryProcessor) (k : Int),
        runQuery fuel (QueryProcessor.new query) rec = .ok (qp1, n1) ∧
        runQuery fuel qp1.resetCount rec = .ok (qp2, k) ∧
        0 ≤ n1 ∧ 0 ≤ k ∧ n2 = n1 + k ∧ (n2 = n1 ↔ k = 0)) := by
  have key : runTwice fuel query rec =
      (runQuery fuel (QueryProcessor.new query) rec).bind (fun p1 =>
        (runQuery fuel p1.1.resetCount rec).map (fun p2 => (p1.2, p1.2 + p2.2))) := by
    unfold runTwice
    cases h1 : runQuery fuel (QueryProcessor.new query) rec with
    | error e => rfl
    | ok p1 =>
      obtain ⟨qp1, n1⟩ := p1
      simp only [bind, Except.bind]
      have hs := runQuery_stored fuel _ qp1 rec n1 h1
      have h2 := runQuery_addCount fuel qp1.resetCount rec n1
      rw [← hs] at h2
      rw [h2]
      cases runQuery fuel qp1.resetCount rec with
      | error e => rfl
      | ok p2 =>
        simp only [Except.map, pure, Except.pure]
        rw [add_comm]
  refine ⟨key, fun qp qp2 k h => (runQuery_count_ge fuel _ qp2 rec k h).1, ?_⟩
  intro n1 n2 h
  rw [key] at h
  cases h1 : runQuery fuel (QueryProcessor.new query) rec with
  | error e => rw [h1] at h; cases h
  | ok p1 =>
    obtain ⟨qp1, m1⟩ := p1
    rw [h1] at h
    simp only [Except.bind] at h
    cases h2 : runQuery fuel qp1.resetCount rec with
    | error e => rw [h2] at h; cases h
    | ok p2 =>
      obtain ⟨qp2, k⟩ := p2
      rw [h2] at h
      simp only [Except.map, Except.ok.injEq, Prod.mk.injEq] at h
      obtain ⟨ha, hb⟩ := h
      subst ha
      refine ⟨qp1, qp2, k, rfl, h2, (runQuery_count_ge fuel _ qp1 rec m1 h1).1,
        (runQuery_count_ge fuel _ qp2 rec k h2).1, hb.symm, ?_⟩
      rw [← hb]
      constructor
      · intro h; omega
      · intro h; omega

set_option maxRecDepth 100000 in
/-- The query `$.a` run twice on the record `\x7b"a":1\x7d`: the first call returns 1, the
second traversal counts 1 by itself, and the second call returns 2. -/
theorem runTwice_cumulative_witness :
    runTwice 100 (bytes "$.a") (loaded (bytes "\x7b\"a\":1\x7d") 100) = .ok (1, 2) ∧
    ((runQuery 100 (QueryProcessor.new (bytes "$.a")) (loaded (bytes "\x7b\"a\":1\x7d") 100)).bind
      (fun p1 => (runQuery 100 p1.1.resetCount (loaded (bytes "\x7b\"a\":1\x7d") 100)).map
        (fun p2 => (p1.2, p2.2)))) = .ok (1, 1) ∧
    ((runQuery 100 (QueryProcessor.new (bytes "$.a")) (loaded (bytes "\x7b\"a\":1\x7d") 100)).bind
      (fun p1 => (runQuery 100 p1.1.resetCount (loaded (bytes "\x7b\"a\":1\x7d") 100)).map
        (fun p2 => (p1.2, p1.2 + p2.2)))) = .ok (1, 2) :=
  ⟨by decide!, by decide!,
   (runTwice_cumulative 100 (bytes "$.a") (loaded (bytes "\x7b\"a\":1\x7d") 100)).1 ▸
     (by decide! :
       runTwice 100 (bytes "$.a") (loaded (bytes "\x7b\"a\":1\x7d") 100) = .ok (1, 2))⟩

/-! ## The dispatch of `runQuery` -/

/-- Byte `i` of a record, counted from the start of the record in its text buffer. -/
theorem rd_record (rec : Record) (i : Nat) (h0 : 0 ≤ rec.rec_start_pos)
    (h : rec.rec_start_pos + i < rec.text.length) :
    (Index.init rec).rd (i : Int) = .ok (rec.text.getD (rec.rec_start_pos.toNat + i) 0) := by
  unfold Index.rd Index.init
  simp only
  rw [if_pos ⟨by omega, h⟩]
  have : (rec.rec_start_pos + (i : Int)).toNat = rec.rec_start_pos.toNat + i := by omega
  rw [this]

/-- The loop `while (mRecord[pos] == ' ') ++pos;` over the spaces at the positions `j .. k - 1`
of a record whose byte `k` is not a space. -/
theorem skipSpace_spaces (rec : Record) (k : Nat) (h0 : 0 ≤ rec.rec_start_pos)
    (hk : rec.rec_start_pos + k < rec.text.length)
    (hsp : ∀ i : Nat, i < k → rec.text.getD (rec.rec_start_pos.toNat + i) 0 = chSpace)
    (hne : rec.text.getD (rec.rec_start_pos.toNat + k) 0 ≠ chSpace) :
    ∀ (d j fuel : Nat), j + d = k → d < fuel →
      skipSpace fuel (Index.init rec) (j : Int) = .ok (k : Int) := by
  intro d
  induction d with
  | zero =>
    intro j fuel hj hf
    obtain ⟨f, rfl⟩ : ∃ f, fuel = f + 1 := ⟨fuel - 1, by omega⟩
    have : j = k := by omega
    subst this
    exact skipSpace_stop f _ _ _ (rd_record rec j h0 hk) hne
  | succ d ih =>
    intro j fuel hj hf
    obtain ⟨f, rfl⟩ : ∃ f, fuel = f + 1 := ⟨fuel - 1, by omega⟩
    unfold skipSpace
    rw [rd_record rec j h0 (by omega)]
    simp only [bind, Except.bind]
    rw [if_pos (hsp j (by omega))]
    have := ih (j + 1) f (by omega) (by omega)
    push_cast at this
    exact this

theorem getNextNonEmptyCharacter_spaces (rec : Record) (k fuel : Nat)
    (h0 : 0 ≤ rec.rec_start_pos) (hk : rec.rec_start_pos + k < rec.text.length)
    (hsp : ∀ i : Nat, i < k → rec.text.getD (rec.rec_start_pos.toNat + i) 0 = chSpace)
    (hne : rec.text.getD (rec.rec_start_pos.toNat + k) 0 ≠ chSpace)
    (hf : k < fuel) :
    getNextNonEmptyCharacter fuel (Index.init rec) 0
      = .ok (rec.text.getD (rec.rec_start_pos.toNat + k) 0, (k : Int)) := by
  unfold getNextNonEmptyCharacter
  have h0r := rd_record rec 0 h0 (by omega)
  have hs := skipSpace_spaces rec k h0 hk hsp hne k 0 fuel (by omega) hf
  have hr := rd_record rec k h0 hk
  simp only [Nat.cast_zero] at h0r hs
  rw [h0r]
  simp only [bind, Except.bind]
  rw [hs]
  simp only [hr]
  rfl

/-- C9.  Let the record start with `k` spaces followed by a byte `ch` other than a space
(`ch` is byte `k` of the record, inside the text buffer), and let the scan have more than `k`
units of fuel.  Then `getNextNonEmptyCharacter(0)` returns `ch` with `pos = k`, and on a
freshly constructed processor `runQuery` dispatches on this byte: it is the call of `object`
at position `k` when `ch` is an opening brace and the start state expects an object
attribute (`typeExpectedInObj() != NONE`), it is the call of `array` at position `k` when
`ch` is an opening bracket and the start state expects an array element
(`typeExpectedInArr() != NONE`), and in every other case neither procedure is entered and
the count returned is 0. -/
theorem runQuery_dispatch (fuel : Nat) (query : List Nat) (rec : Record) (k : Nat)
    (h0 : 0 ≤ rec.rec_start_pos) (hk : rec.rec_start_pos + k < rec.text.length)
    (hsp : ∀ i : Nat, i < k → rec.text.getD (rec.rec_start_pos.toNat + i) 0 = chSpace)
    (hne : rec.text.getD (rec.rec_start_pos.toNat + k) 0 ≠ chSpace)
    (hf : k < fuel) :
    getNextNonEmptyCharacter fuel (Index.init rec) 0
      = .ok (rec.text.getD (rec.rec_start_pos.toNat + k) 0, (k : Int)) ∧
    ((rec.text.getD (rec.rec_start_pos.toNat + k) 0 = chLBrace ∧
        (QueryProcessor.new query).qa.typeExpectedInObj ≠ NONE) →
      runJsonSki fuel query rec =
        (object fuel { c := { s := Index.init rec, pos := (k : Int), bm := bitmap.init },
                       qa := (QueryProcessor.new query).qa, mNumMatches := 0 }).map
          (fun r => r.mNumMatches)) ∧
    ((rec.text.getD (rec.rec_start_pos.toNat + k) 0 = chLBracket ∧
        (QueryProcessor.new query).qa.typeExpectedInArr ≠ NONE) →
      runJsonSki fuel query rec =
        (array fuel { c := { s := Index.init rec, pos := (k : Int), bm := bitmap.init },
                      qa := (QueryProcessor.new query).qa, mNumMatches := 0 }).map
          (fun r => r.mNumMatches)) ∧
    ((rec.text.getD (rec.rec_start_pos.toNat + k) 0 = chLBrace ∧
        (QueryProcessor.new query).qa.typeExpectedInObj = NONE) ∨
      (rec.text.getD (rec.rec_start_pos.toNat + k) 0 = chLBracket ∧
        (QueryProcessor.new query).qa.typeExpectedInArr = NONE) ∨
      (rec.text.getD (rec.rec_start_pos.toNat + k) 0 ≠ chLBrace ∧
        rec.text.getD (rec.rec_start_pos.toNat + k) 0 ≠ chLBracket) →
      runJsonSki fuel query rec = .ok 0) := by
  have hch := getNextNonEmptyCharacter_spaces rec k fuel h0 hk hsp hne hf
  have hne2 : chLBrace ≠ chLBracket := by decide
  refine ⟨hch, ?_, ?_, ?_⟩
  · rintro ⟨h1, h2⟩
    simp only [runJsonSki, runQuery, hch, bind, Except.bind, pure, Except.pure, Except.map,
      QueryProcessor.new] at h2 ⊢
    rw [if_pos ⟨h1, h2⟩]
    cases object fuel _ <;> rfl
  · rintro ⟨h1, h2⟩
    simp only [runJsonSki, runQuery, hch, bind, Except.bind, pure, Except.pure, Except.map,
      QueryProcessor.new] at h2 ⊢
    rw [if_neg (fun h => hne2 (h.1.symm.trans h1)), if_pos ⟨h1, h2⟩]
    cases array fuel _ <;> rfl
  · intro h
    simp only [runJsonSki, runQuery, hch, bind, Except.bind, pure, Except.pure,
      QueryProcessor.new] at h ⊢
    rcases h with ⟨h1, h2⟩ | ⟨h1, h2⟩ | ⟨h1, h2⟩
    · rw [if_neg (fun h => h.2 h2), if_neg (fun h => hne2 (h1.symm.trans h.1))]
    · rw [if_neg (fun h => hne2 (h.1.symm.trans h1)), if_neg (fun h => h.2 h2)]
    · rw [if_neg (fun h => h1 h.1), if_neg (fun h => h2 h.1)]

set_option maxRecDepth 100000 in
/-- The record `\x7b"a":1\x7d` after two spaces, padded by the record loader: the first byte
other than a space is the opening brace at position 2.  With the query `$[0]` the start
state expects no object attribute and the count is 0; with the query `$.a` the start state
expects one, `object` is entered at position 2 and the count is 1. -/
theorem runQuery_dispatch_witness :
    getNextNonEmptyCharacter 100 (Index.init (loaded (bytes "  \x7b\"a\":1\x7d") 100)) 0
        = .ok (chLBrace, 2) ∧
    runJsonSki 100 (bytes "$[0]") (loaded (bytes "  \x7b\"a\":1\x7d") 100) = .ok 0 ∧
    runJsonSki 100 (bytes "$.a") (loaded (bytes "  \x7b\"a\":1\x7d") 100) =
        (object 100 { c := { s := Index.init (loaded (bytes "  \x7b\"a\":1\x7d") 100),
                             pos := ((2 : Nat) : Int), bm := bitmap.init },
                      qa := (QueryProcessor.new (bytes "$.a")).qa, mNumMatches := 0 }).map
          (fun r => r.mNumMatches) ∧
    runJsonSki 100 (bytes "$.a") (loaded (bytes "  \x7b\"a\":1\x7d") 100) = .ok 1 :=
  ⟨(runQuery_dispatch 100 (bytes "$[0]") (loaded (bytes "  \x7b\"a\":1\x7d") 100) 2
      (by decide) (by decide) (by decide) (by decide) (by decide)).1,
   (runQuery_dispatch 100 (bytes "$[0]") (loaded (bytes "  \x7b\"a\":1\x7d") 100) 2
      (by decide) (by decide) (by decide) (by decide) (by decide)).2.2.2
      (Or.inl ⟨by decide, by decide!⟩),
   (runQuery_dispatch 100 (bytes "$.a") (loaded (bytes "  \x7b\"a\":1\x7d") 100) 2
      (by decide) (by decide) (by decide) (by decide) (by decide)).2.1
      ⟨by decide, by decide!⟩,
   by decide!⟩

section
open QueryAutomaton JSONPathParser

/-! ## The key length of the state that enters an array -/

theorem getNextStateNoKey_one (R : QueryAutomaton) (s : Int) (hs : s ≠ UNMATCHED_STATE)
    (hnum : (R.ele (s - 1)).num_trans_str = 1) :
    (R.setCurState s).getNextStateNoKey
      = if (tr (R.ele (s - 1)) 0).key_len = 0 then (tr (R.ele (s - 1)) 0).next_state
        else UNMATCHED_STATE := by
  have he : (R.setCurState s).ele (s - 1) = R.ele (s - 1) := rfl
  have hc : (R.setCurState s).mCurState = s := rfl
  unfold getNextStateNoKey
  rw [hc, if_neg hs]
  simp only [he, hnum]
  show getNextStateNoKeyLoop _ 1 0 = _
  rw [getNextStateNoKeyLoop, hnum, if_pos (by decide)]
  by_cases hkl : (tr (R.ele (s - 1)) 0).key_len = 0
  · rw [if_pos hkl, if_pos hkl]
  · rw [if_neg hkl, if_neg hkl]
    rfl

/-- C13.  For a dot-key segment immediately followed by `[`, compiled at state `cur` (the
compiler loop is in lexer state 1 at the first character of the key; `cur` and `cur + 1` are
states of the table `qa` the compiler writes into), the compiler gives state `cur` the
transition (key, `expected_in_object = ARRAY`, next `cur + 1`) and state `cur + 1` the next
state `cur + 2`, but it does not write `key_len` of state `cur + 1`: `updateStateTransInfo`
is called with a `NULL` key and leaves the field as it found it.  When the compiler has
finished, `key_len` of state `cur + 1` is what the table held before, and
`getNextStateNoKey` in state `cur + 1` returns `cur + 2` only if that value is 0; otherwise
it returns `UNMATCHED_STATE`. -/
theorem compile_key_bracket_key_len (pre k rest : List Nat) (fuel : Nat) (cur : Int)
    (qa : QueryAutomaton) (hk : ∀ c ∈ k, c ≠ chDot ∧ c ≠ chLBracket ∧ c ≠ 0)
    (hrest : rest ≠ []) (hT : TableOk qa) (h1 : 1 ≤ cur) (h2 : cur + 1 ≤ MAX_STATES)
    (hnt : (qa.ele cur).num_trans_str = 1) (hfuel : 1 ≤ fuel) :
    (tr ((parseLoop (pre ++ k ++ chLBracket :: rest) fuel pre.length 1 cur qa).ele (cur - 1))
        0).key = k ∧
    (tr ((parseLoop (pre ++ k ++ chLBracket :: rest) fuel pre.length 1 cur qa).ele (cur - 1))
        0).key_len = k.length ∧
    (tr ((parseLoop (pre ++ k ++ chLBracket :: rest) fuel pre.length 1 cur qa).ele (cur - 1))
        0).exp_type_in_obj = ARRAY ∧
    (tr ((parseLoop (pre ++ k ++ chLBracket :: rest) fuel pre.length 1 cur qa).ele (cur - 1))
        0).next_state = cur + 1 ∧
    (tr ((parseLoop (pre ++ k ++ chLBracket :: rest) fuel pre.length 1 cur qa).ele cur)
        0).next_state = cur + 2 ∧
    (tr ((parseLoop (pre ++ k ++ chLBracket :: rest) fuel pre.length 1 cur qa).ele cur)
        0).key_len = (tr (qa.ele cur) 0).key_len ∧
    ((parseLoop (pre ++ k ++ chLBracket :: rest) fuel pre.length 1 cur qa).setCurState
      (cur + 1)).getNextStateNoKey
        = if (tr (qa.ele cur) 0).key_len = 0 then cur + 2 else UNMATCHED_STATE := by
  have hM : ((MAX_STATES : Nat) : Int) = 50 := rfl
  obtain ⟨f, rfl⟩ : ∃ f, fuel = f + 1 := ⟨fuel - 1, by omega⟩
  rw [parseLoop_key_bracket pre k rest f cur qa (fun y hy => ⟨(hk y hy).1, (hk y hy).2.1⟩) hrest]
  have hT1 := TableOk_update qa hT cur false ARRAY NONE (some k) (cur + 1)
  obtain ⟨a1, _⟩ := ele_update_self qa hT cur false ARRAY NONE (some k) (cur + 1) h1 (by omega)
  obtain ⟨b1, _, b3, _⟩ := ele_update_self _ hT1 (cur + 1) false NONE NONE none (cur + 2)
    (by omega) h2
  have ho1 := ele_update_other (qa.updateStateTransInfo cur false ARRAY NONE (some k) (cur + 1))
    (cur + 1) false NONE NONE none (cur + 2) (cur - 1) (by omega)
  have ho2 := ele_update_other qa cur false ARRAY NONE (some k) (cur + 1) cur (by omega)
  have e1 : cur + 1 - 1 = cur := by ring
  rw [e1] at b1 b3
  rw [ho2] at b1 b3
  have hf1 := parseLoop_frame (pre ++ k ++ chLBracket :: rest) f (pre.length + k.length + 1) 2
    (cur + 2) ((qa.updateStateTransInfo cur false ARRAY NONE (some k)
      (cur + 1)).updateStateTransInfo (cur + 1) false NONE NONE none (cur + 2)) (cur - 1)
    (by omega)
  have hf2 := parseLoop_frame (pre ++ k ++ chLBracket :: rest) f (pre.length + k.length + 1) 2
    (cur + 2) ((qa.updateStateTransInfo cur false ARRAY NONE (some k)
      (cur + 1)).updateStateTransInfo (cur + 1) false NONE NONE none (cur + 2)) cur
    (by omega)
  have hcs := cstr_eq k (fun c hcc => (hk c hcc).2.2)
  have hkl2 : (tr ((parseLoop (pre ++ k ++ chLBracket :: rest) f (pre.length + k.length + 1) 2
      (cur + 2) ((qa.updateStateTransInfo cur false ARRAY NONE (some k)
      (cur + 1)).updateStateTransInfo (cur + 1) false NONE NONE none (cur + 2))).ele cur)
        0).key_len = (tr (qa.ele cur) 0).key_len := by
    rw [hf2, b1]; rfl
  have hns2 : (tr ((parseLoop (pre ++ k ++ chLBracket :: rest) f (pre.length + k.length + 1) 2
      (cur + 2) ((qa.updateStateTransInfo cur false ARRAY NONE (some k)
      (cur + 1)).updateStateTransInfo (cur + 1) false NONE NONE none (cur + 2))).ele cur)
        0).next_state = cur + 2 := by
    rw [hf2, b1]; rfl
  refine ⟨?_, ?_, ?_, ?_, hns2, hkl2, ?_⟩
  · rw [hf1, ho1, a1]; exact hcs
  · rw [hf1, ho1, a1]; show (((cstr k).length : Nat) : Int) = _; rw [hcs]
  · rw [hf1, ho1, a1]; rfl
  · rw [hf1, ho1, a1]; rfl
  · have hnum : ((parseLoop (pre ++ k ++ chLBracket :: rest) f (pre.length + k.length + 1) 2
      (cur + 2) ((qa.updateStateTransInfo cur false ARRAY NONE (some k)
      (cur + 1)).updateStateTransInfo (cur + 1) false NONE NONE none (cur + 2))).ele cur).num_trans_str
        = 1 := by
      rw [hf2, b3]; exact hnt
    rw [getNextStateNoKey_one _ (cur + 1) (by unfold UNMATCHED_STATE; omega)
      (by rw [e1]; exact hnum), e1, hkl2, hns2]

set_option maxRecDepth 100000 in
/-- The path `$.a[0]` compiled by a processor whose automaton is constructed over storage
in which `key_len` holds 7: state 2 keeps `key_len = 7`, `getNextStateNoKey` in state 2
returns `UNMATCHED_STATE`, and `runQuery` on the record `\x7b"a":[1]\x7d` returns 0 where the
reference semantics selects one node.  Over zero-filled storage (the automaton
`QueryAutomaton.new`) the count is 1. -/
theorem compile_key_bracket_key_len_witness :
    ((parseLoop (bytes "$." ++ bytes "a" ++ chLBracket :: bytes "0]") 7 2 1 1
        (QueryAutomaton.construct staleStorage)).setCurState (1 + 1)).getNextStateNoKey
      = (if (tr ((QueryAutomaton.construct staleStorage).ele 1) 0).key_len = 0 then 1 + 2
         else UNMATCHED_STATE) ∧
    (tr ((QueryAutomaton.construct staleStorage).ele 1) 0).key_len = 7 ∧
    updateQueryAutomaton (bytes "$.a[0]") (QueryAutomaton.construct staleStorage)
      = parseLoop (bytes "$." ++ bytes "a" ++ chLBracket :: bytes "0]") 7 2 1 1
          (QueryAutomaton.construct staleStorage) ∧
    ((updateQueryAutomaton (bytes "$.a[0]")
        (QueryAutomaton.construct staleStorage)).setCurState 2).getNextStateNoKey
      = UNMATCHED_STATE ∧
    (runQuery 100 (QueryProcessor.onStorage staleStorage (bytes "$.a[0]"))
      (loaded (bytes "\x7b\"a\":[1]\x7d") 100)).map (fun p => p.2) = .ok 0 ∧
    refCount [.key [97], .index 0] (.obj (.cons [97] (.arr (.cons (.prim [49]) .nil)) .nil)) = 1 ∧
    QueryAutomaton.construct zeroStorage = QueryAutomaton.new ∧
    (runQuery 100 (QueryProcessor.onStorage zeroStorage (bytes "$.a[0]"))
      (loaded (bytes "\x7b\"a\":[1]\x7d") 100)).map (fun p => p.2) = .ok 1 :=
  ⟨(compile_key_bracket_key_len (bytes "$.") (bytes "a") (bytes "0]") 7 1
      (QueryAutomaton.construct staleStorage)
      (by decide) (by decide) (by decide!) (by decide) (by decide) (by decide!)
      (by decide)).2.2.2.2.2.2,
   by decide!, by decide!, by decide!, by decide!, by decide!, by decide!, by decide!⟩

end

section
open QueryAutomaton JSONPathParser

theorem pushMany_full (ss : List Int) : ∀ qa : QueryAutomaton,
    (MAX_STACK_DEPTH : Int) ≤ qa.getStackSize → pushMany qa ss = qa := by
  induction ss with
  | nil => intro qa _; rfl
  | cons s ss ih =>
    intro qa h
    have hp : qa.pushStack s = qa := by
      unfold pushStack
      unfold getStackSize at h
      rw [if_neg (by omega)]
    rw [pushMany, hp]
    exact ih qa h

/-- C16 (amended).  Stack overflow is not fatal.  A `pushStack` call made when the runtime
stack already holds `MAX_STACK_DEPTH` (50) entries returns to its caller like any other
call, and what it returns is the automaton it was given: nothing is pushed, the stack size
does not grow, the current state stays what it was (it becomes `next_state` only if it was
already) and the array counter is kept.  The evaluation goes on from there: every further
`pushStack` is ignored in the same way, and the next `popStack` pops the entry that was
pushed last before the stack was full. -/
theorem pushStack_overflow_ignored (qa : QueryAutomaton) (next_state : Int)
    (h : (MAX_STACK_DEPTH : Int) ≤ qa.getStackSize) :
    qa.pushStack next_state = qa ∧
    (qa.pushStack next_state).getStackSize = qa.getStackSize ∧
    (qa.pushStack next_state).mCurState = qa.mCurState ∧
    (qa.pushStack next_state).mArrCounter = qa.mArrCounter ∧
    ((qa.pushStack next_state).mCurState = next_state ↔ qa.mCurState = next_state) ∧
    (∀ ss : List Int, pushMany (qa.pushStack next_state) ss = qa) ∧
    (qa.pushStack next_state).popStack = qa.popStack := by
  have hp : qa.pushStack next_state = qa := by
    unfold pushStack
    unfold getStackSize at h
    rw [if_neg (by omega)]
  rw [hp]
  exact ⟨rfl, rfl, rfl, rfl, Iff.rfl, fun ss => pushMany_full ss qa h, rfl⟩

set_option maxRecDepth 100000 in
/-- The stack filled by 50 calls `pushStack(2)` on a fresh automaton: the call `pushStack(7)`
returns the same automaton, in state 2 and not 7, and the `popStack` that follows returns 2,
the state stored by the fiftieth push, and leaves 49 entries. -/
theorem pushStack_overflow_ignored_witness :
    (MAX_STACK_DEPTH : Int) ≤ fullStack.getStackSize ∧
    fullStack.pushStack 7 = fullStack ∧
    (fullStack.pushStack 7).mCurState = 2 ∧
    (fullStack.pushStack 7).popStack.2 = 2 ∧
    (fullStack.pushStack 7).popStack.1.getStackSize = 49 :=
  ⟨by decide!, (pushStack_overflow_ignored fullStack 7 (by decide!)).1,
   (pushStack_overflow_ignored fullStack 7 (by decide!)).2.2.1.trans (by decide!),
   (congrArg Prod.snd (pushStack_overflow_ignored fullStack 7 (by decide!)).2.2.2.2.2.2).trans
     (by decide!),
   (congrArg (fun p => p.1.getStackSize)
     (pushStack_overflow_ignored fullStack 7 (by decide!)).2.2.2.2.2.2).trans (by decide!)⟩

end

/-! ## A last element appended to the root array -/

set_option maxRecDepth 100000 in
/-- C8.  The well-formed record `R = [\x7b"k...k":1,"a":2\x7d]` (first key of 70 letters) and
the record `R'` obtained by appending the primitive `"\x7d"` (a string) as last element of
the root array, with the query `$[0].a`, both padded by the record loader: `runQuery` on a
fresh processor returns 1 on `R` and 0 on `R'`, where the reference semantics selects one
node in both.  In both records `object` reads the long key byte by byte and calls
`goOverPriAttr` at byte 75, which builds window 1 first, with the initial carry state
although byte 64 lies inside the key.  In `R` no comma and no closing brace is seen in the
window and `pos` stays 75, so the key `a` is read next and counted.  In `R'` the brace inside
the appended string (byte 85) is seen as the end of the object: `pos` becomes 84, the key `a`
is never read, and `array` returns with the count 0. -/
theorem runQuery_append_loses_match :
    (JVal.arr longKeyElems).render
      = bytes "[\x7b\"" ++ List.replicate 70 107 ++ bytes "\":1,\"a\":2\x7d]" ∧
    (JVal.arr (appendLast braceString longKeyElems)).render
      = bytes "[\x7b\"" ++ List.replicate 70 107 ++ bytes "\":1,\"a\":2\x7d,\"\x7d\"]" ∧
    renderPath [.index 0, .key [97]] = bytes "$[0].a" ∧
    refCount [.index 0, .key [97]] (.arr longKeyElems) = 1 ∧
    refCount [.index 0, .key [97]] (.arr (appendLast braceString longKeyElems)) = 1 ∧
    runJsonSki 100 (bytes "$[0].a") (loaded (JVal.arr longKeyElems).render 100) = .ok 1 ∧
    runJsonSki 100 (bytes "$[0].a")
      (loaded (JVal.arr (appendLast braceString longKeyElems)).render 100) = .ok 0 ∧
    (tokAt (JVal.arr longKeyElems).render 64).inString = true ∧
    (goOverPriAttr 20 (freshAt (JVal.arr longKeyElems).render 75)).map
      (fun c => (c.pos, c.s.top_word)) = .ok (75, 1) ∧
    (JVal.arr (appendLast braceString longKeyElems)).render.getD 85 0 = chRBrace ∧
    insideString (JVal.arr (appendLast braceString longKeyElems)).render 85 ∧
    (goOverPriAttr 20 (freshAt (JVal.arr (appendLast braceString longKeyElems)).render 75)).map
      (fun c => (c.pos, c.s.top_word)) = .ok (84, 1) := by
  decide!

end JsonSki
